import Mathlib

/-!
# The name catalogue, the synthetic address pool and the request engine of the
intercepting DNS resolver

Shallow embedding of `lib/ziti-tunnel-cbs/ziti_dns.c`: first the catalogue and
the pool, then the DNS messages (`format_resp`) and the request engine
(`on_dns_req` and the handlers around it).

Conventions of the embedding.

* A C string is the list of its bytes before the terminator, one `Char` per byte.
* `uint32_t` values are natural numbers; arithmetic that can wrap is reduced
  modulo `2^32` explicitly.
* `model_map` (the container of the overlay SDK) is an association list kept in
  insertion order; `model_map_get`, `model_map_set`, `model_map_remove` and
  `model_map_size` are used for the string-keyed, the integer-keyed (`getl`,
  `setl`, `removel`) and the pointer-keyed (`get_key`, `set_key`, `remove_key`)
  variants alike.
* Heap objects (`dns_entry_t`, `dns_domain_t`) live in two lists; a pointer is
  an index into the list and `calloc` appends a zeroed object.  The source never
  frees an entry or a domain, so objects are never removed from the heaps.
* `htonl` is the byte swap of a little-endian host.
* A handler of the request engine returns the new state together with the list
  of calls it makes into the tunneler, libuv and the overlay SDK; the results of
  the calls whose code is outside this file are arguments of the handler.
-/

namespace ZitiDns

/-! ## model_map -/

section ModelMap

variable {K V : Type} [DecidableEq K]

/-- Value stored under key `k`, `none` standing for the C `NULL`. -/
def model_map_get : List (K × V) → K → Option V
  | [], _ => none
  | (k', v) :: m, k => if k' = k then some v else model_map_get m k

/-- Store `v` under `k`: an existing binding is overwritten in place, a new one
is appended. -/
def model_map_set : List (K × V) → K → V → List (K × V)
  | [], k, v => [(k, v)]
  | (k', v') :: m, k, v =>
    if k' = k then (k', v) :: m else (k', v') :: model_map_set m k v

/-- Remove the binding of `k`. -/
def model_map_remove (m : List (K × V)) (k : K) : List (K × V) :=
  m.filter (fun kv => decide (kv.1 ≠ k))

/-- Number of bindings. -/
def model_map_size (m : List (K × V)) : Nat := m.length

end ModelMap

/-! ## Data model -/

/-- The constant `MAX_DNS_NAME`. -/
def MAX_DNS_NAME : Nat := 256

/-- The constant `INADDR_NONE`. -/
def INADDR_NONE : Nat := 0xFFFFFFFF

/-- The struct `dns_domain_t`: `name` and the set `intercepts` (keyed by the
intercept pointer, which is also the value). -/
structure dns_domain_t where
  name : List Char
  intercepts : List (Nat × Nat)
deriving DecidableEq, Repr

/-- The struct `dns_entry_t`.  `addr` is the IPv4 address in network byte order
(`ip_2_ip4(&entry->addr)->addr`); the text field `ip` is derived from it and is
left out.  `domain` is the pointer to the wildcard domain, `none` for `NULL`. -/
structure dns_entry_t where
  name : List Char
  addr : Nat
  domain : Option Nat
  intercepts : List (Nat × Nat)
deriving DecidableEq, Repr

/-- The anonymous struct `ziti_dns.ip_pool`. -/
structure ip_pool_t where
  base : Nat
  counter : Nat
  counter_mask : Nat
  capacity : Nat
deriving DecidableEq, Repr

/-- The catalogue part of `struct ziti_dns_s`, with the two heaps. -/
structure ziti_dns_s where
  ip_pool : ip_pool_t
  hostnames : List (List Char × Nat)
  ip_addresses : List (Nat × Nat)
  domains : List (List Char × Nat)
  entry_heap : List dns_entry_t
  domain_heap : List dns_domain_t
deriving DecidableEq, Repr

/-- A zeroed `dns_entry_t`, as returned by `calloc`. -/
def calloc_entry : dns_entry_t :=
  { name := [], addr := 0, domain := none, intercepts := [] }

/-- A zeroed `dns_domain_t`, as returned by `calloc`. -/
def calloc_domain : dns_domain_t :=
  { name := [], intercepts := [] }

/-- The statically zero-initialised `ziti_dns`. -/
def ziti_dns_zero : ziti_dns_s :=
  { ip_pool := { base := 0, counter := 0, counter_mask := 0, capacity := 0 },
    hostnames := [], ip_addresses := [], domains := [],
    entry_heap := [], domain_heap := [] }

/-- Dereference of an entry pointer. -/
def entry_at (s : ziti_dns_s) (p : Nat) : dns_entry_t :=
  s.entry_heap.getD p calloc_entry

/-- Dereference of a domain pointer. -/
def domain_at (s : ziti_dns_s) (d : Nat) : dns_domain_t :=
  s.domain_heap.getD d calloc_domain

/-- The argument type `ziti_address`: a CIDR block or a host name. -/
inductive ziti_address where
  | cidr (ip : Nat) (bits : Nat)
  | hostname (h : List Char)
deriving DecidableEq, Repr

/-! ## Address pool -/

/-- Byte swap of a 32-bit value (`htonl` and `ntohl` on a little-endian host). -/
def htonl (x : Nat) : Nat :=
  (x % 256) * 16777216 + (x / 256 % 256) * 65536 + (x / 65536 % 256) * 256
    + (x / 16777216 % 256)

/-- Complement of a 32-bit value (the C operator `~` on `uint32_t`). -/
def not32 (x : Nat) : Nat := 4294967295 - x % 4294967296

/-- The `do ... while` loop of `next_ipv4`.  Result: `candidate`, the pool
counter and the probe count `i` at loop exit.  `fuel` bounds the number of
further iterations; the loop condition `i < capacity` makes `capacity` enough
(see `next_ipv4_loop_fuel`).  `i` cannot wrap: it is at most `capacity`. -/
def next_ipv4_loop (pool : ip_pool_t) (ips : List (Nat × Nat)) :
    Nat → Nat → Nat → Nat × Nat × Nat
  | fuel, counter, i =>
    let candidate := htonl (pool.base ||| (counter &&& pool.counter_mask))
    let counter1 := (counter + 1) % 4294967296
    let i1 := i + 1
    let counter2 := if counter1 = pool.counter_mask then 1 else counter1
    if (model_map_get ips candidate).isSome ∧ i1 < pool.capacity then
      match fuel with
      | 0 => (candidate, counter2, i1)
      | fuel1 + 1 => next_ipv4_loop pool ips fuel1 counter2 i1
    else (candidate, counter2, i1)

/-- The function `next_ipv4`: the next free address of the pool in network byte
order, or `INADDR_NONE`. -/
def next_ipv4 (s : ziti_dns_s) : ziti_dns_s × Nat :=
  if model_map_size s.ip_addresses = s.ip_pool.capacity then (s, INADDR_NONE)
  else
    let r := next_ipv4_loop s.ip_pool s.ip_addresses s.ip_pool.capacity s.ip_pool.counter 0
    let s1 := { s with ip_pool := { s.ip_pool with counter := r.2.1 } }
    if r.2.2 = s.ip_pool.capacity then (s1, INADDR_NONE) else (s1, r.1)

/-- The function `seed_dns` on the fields read by `sscanf` (`none` when fewer
than five fields were converted).  Returns the new state and the return code. -/
def seed_dns (s : ziti_dns_s) (dns_cidr : Option (Nat × Nat × Nat × Nat × Nat)) :
    ziti_dns_s × Int :=
  match dns_cidr with
  | none => (s, -1)
  | some (ip0, ip1, ip2, ip3, bits) =>
    if ip0 > 255 ∨ ip1 > 255 ∨ ip2 > 255 ∨ ip3 > 255 ∨ bits > 32 then (s, -1)
    else
      let mask := ((((ip0 &&& 255) * 256 ||| (ip1 &&& 255)) * 256
        ||| (ip2 &&& 255)) * 256 ||| (ip3 &&& 255)) % 4294967296
      let counter_mask := not32 ((4294967295 <<< (32 - bits)) % 4294967296)
      let base := mask &&& not32 counter_mask
      let capacity := (4294967296 + (1 <<< (32 - bits)) - 2) % 4294967296
      ({ s with ip_pool := { base := base, counter := 1,
                             counter_mask := counter_mask, capacity := capacity } }, 0)

/-- The function `ziti_dns_setup`: seeds the pool (the return code of `seed_dns`
is ignored, as in the source) and reserves the tun and DNS addresses with empty
entries.  `tun_addr` and `dns_addr` are the `s_addr` values that the SDK function
`ziti_address_from_string` reads from `dns_cidr` and `dns_addr`. -/
def ziti_dns_setup (dns_addr tun_addr : Nat)
    (dns_cidr : Option (Nat × Nat × Nat × Nat × Nat)) : ziti_dns_s :=
  let s := (seed_dns ziti_dns_zero dns_cidr).1
  let reserve := fun (s : ziti_dns_s) (a : Nat) =>
    { s with entry_heap := s.entry_heap ++ [calloc_entry],
             ip_addresses := model_map_set s.ip_addresses a s.entry_heap.length }
  reserve (reserve s tun_addr) dns_addr

/-! ## Name catalogue -/

/-- The C function `tolower` in the "C" locale. -/
def tolower (c : Char) : Char := c.toLower

/-- The copy loop of `check_name`: `hp` is what remains to be read, `written`
the bytes already stored in `clean_name`.  Returns `success` and the string left
in `clean_name`. -/
def check_name_loop : List Char → List Char → Bool × List Char
  | [], written => (true, written)
  | c :: hp, written =>
    let written1 := written ++ [tolower c]
    if written1.length ≥ MAX_DNS_NAME then (false, [])
    else check_name_loop hp written1

/-- The function `check_name`: `(success, clean_name, is_domain)`. -/
def check_name (name : List Char) : Bool × List Char × Bool :=
  match name with
  | '*' :: '.' :: hp =>
    let r := check_name_loop hp ['*', '.']
    (r.1, r.2, true)
  | _ =>
    let r := check_name_loop name []
    (r.1, r.2, false)

/-- The function `new_ipv4_entry`.  The entry allocated before a failing
`next_ipv4` stays on the heap, unreferenced. -/
def new_ipv4_entry (s : ziti_dns_s) (host : List Char) : ziti_dns_s × Option Nat :=
  let entry := s.entry_heap.length
  let e := { calloc_entry with name := host.take MAX_DNS_NAME }
  let s1 := { s with entry_heap := s.entry_heap ++ [e] }
  let r := next_ipv4 s1
  let s2 := r.1
  let next := r.2
  if next = INADDR_NONE then (s2, none)
  else
    let e0 := entry_at s2 entry
    let e := { e0 with addr := next }
    ({ s2 with entry_heap := s2.entry_heap.set entry e,
               hostnames := model_map_set s2.hostnames host entry,
               ip_addresses := model_map_set s2.ip_addresses next entry },
     some entry)

/-- The function `ziti_dns_reverse_lookup_domain` on the parsed address. -/
def ziti_dns_reverse_lookup_domain (s : ziti_dns_s) (addr : Nat) : Option (List Char) :=
  match model_map_get s.ip_addresses addr with
  | some entry =>
    match (entry_at s entry).domain with
    | some d => some (domain_at s d).name
    | none => none
  | none => none

/-- The function `ziti_dns_reverse_lookup` on the address parsed by `ipaddr_aton`. -/
def ziti_dns_reverse_lookup (s : ziti_dns_s) (addr : Nat) : Option (List Char) :=
  match model_map_get s.ip_addresses addr with
  | some entry => some (entry_at s entry).name
  | none => none

/-- The `while` loop of `find_domain`: scans for the next dot and looks up the
text after it until a domain is found or the string ends. -/
def find_domain_loop (domains : List (List Char × Nat)) : List Char → Option Nat
  | [] => none
  | c :: rest =>
    if c = '.' then
      match model_map_get domains rest with
      | some d => some d
      | none => find_domain_loop domains rest
    else find_domain_loop domains rest

/-- The function `find_domain`. -/
def find_domain (s : ziti_dns_s) (hostname : List Char) : Option Nat :=
  match model_map_get s.domains hostname with
  | some d => some d
  | none => find_domain_loop s.domains hostname

/-- The test at the end of `ziti_dns_lookup`: the entry has a claimant of its
own or its domain has one. -/
def entry_active (s : ziti_dns_s) (entry : Nat) : Bool :=
  decide (model_map_size (entry_at s entry).intercepts > 0) ||
  (match (entry_at s entry).domain with
   | some d => decide (model_map_size (domain_at s d).intercepts > 0)
   | none => false)

/-- The function `ziti_dns_lookup`. -/
def ziti_dns_lookup (s : ziti_dns_s) (hostname : List Char) : ziti_dns_s × Option Nat :=
  let cn := check_name hostname
  if !cn.1 || cn.2.2 then (s, none)
  else
    let clean := cn.2.1
    match model_map_get s.hostnames clean with
    | some entry => if entry_active s entry then (s, some entry) else (s, none)
    | none =>
      match find_domain s clean with
      | some d =>
        if model_map_size (domain_at s d).intercepts > 0 then
          match new_ipv4_entry s clean with
          | (s1, some entry) =>
            let e := entry_at s1 entry
            let e1 := { e with domain := some d }
            let s2 := { s1 with entry_heap := s1.entry_heap.set entry e1 }
            if entry_active s2 entry then (s2, some entry) else (s2, none)
          | (s1, none) => (s1, none)
        else (s, none)
      | none => (s, none)

/-- The entry with the intercept dropped from its `intercepts`
(`model_map_remove_key(&e->intercepts, ...)`). -/
def entry_drop (intercept : Nat) (e : dns_entry_t) : dns_entry_t :=
  { e with intercepts := model_map_remove e.intercepts intercept }

/-- The domain with the intercept dropped from its `intercepts`. -/
def domain_drop (intercept : Nat) (dom : dns_domain_t) : dns_domain_t :=
  { dom with intercepts := model_map_remove dom.intercepts intercept }

/-- The test `e->domain == NULL || model_map_size(&e->domain->intercepts) == 0`. -/
def domain_unclaimed (domain_heap : List dns_domain_t) : Option Nat → Bool
  | none => true
  | some d => decide (model_map_size (domain_heap.getD d calloc_domain).intercepts = 0)

/-- The removal test of the second loop of `ziti_dns_deregister_intercept`,
on the entry from which the intercept was dropped. -/
def entry_dead (domain_heap : List dns_domain_t) (e : dns_entry_t) : Bool :=
  decide (model_map_size e.intercepts = 0) && domain_unclaimed domain_heap e.domain

/-- First loop of `ziti_dns_deregister_intercept`: drop the intercept from every
domain of the `domains` map. -/
def deregister_domains (intercept : Nat) :
    List (List Char × Nat) → List dns_domain_t → List dns_domain_t
  | [], heap => heap
  | (_, d) :: it, heap =>
    deregister_domains intercept it
      (heap.set d (domain_drop intercept (heap.getD d calloc_domain)))

/-- Second loop of `ziti_dns_deregister_intercept` over the iterator `it` of the
`hostnames` map.  Returns the bindings that stay in `hostnames`, the entry heap
and the `ip_addresses` map. -/
def deregister_hostnames (intercept : Nat) (domain_heap : List dns_domain_t) :
    List (List Char × Nat) → List dns_entry_t → List (Nat × Nat) →
    List (List Char × Nat) × List dns_entry_t × List (Nat × Nat)
  | [], heap, ips => ([], heap, ips)
  | (n, p) :: it, heap, ips =>
    let e := entry_drop intercept (heap.getD p calloc_entry)
    let heap1 := heap.set p e
    if entry_dead domain_heap e then
      deregister_hostnames intercept domain_heap it heap1 (model_map_remove ips e.addr)
    else
      let r := deregister_hostnames intercept domain_heap it heap1 ips
      ((n, p) :: r.1, r.2.1, r.2.2)

/-- Third loop of `ziti_dns_deregister_intercept`: drop the domains left without
intercepts. -/
def deregister_prune (domain_heap : List dns_domain_t) :
    List (List Char × Nat) → List (List Char × Nat)
  | [] => []
  | (k, d) :: it =>
    if model_map_size (domain_heap.getD d calloc_domain).intercepts = 0 then
      deregister_prune domain_heap it
    else (k, d) :: deregister_prune domain_heap it

/-- The function `ziti_dns_deregister_intercept`. -/
def ziti_dns_deregister_intercept (s : ziti_dns_s) (intercept : Nat) : ziti_dns_s :=
  let dh := deregister_domains intercept s.domains s.domain_heap
  let r := deregister_hostnames intercept dh s.hostnames s.entry_heap s.ip_addresses
  { s with domain_heap := dh,
           hostnames := r.1,
           entry_heap := r.2.1,
           ip_addresses := r.2.2,
           domains := deregister_prune dh s.domains }

/-- The function `ziti_dns_register_hostname`.  The result is the entry whose
`addr` field the returned pointer designates, `none` for `NULL`.  When
`check_name` fails the source only logs and goes on with the emptied
`clean`; for a `*.` name it then reads `clean + 2` beyond the terminator, which
the C standard leaves undefined and which `drop 2` renders as the empty string. -/
def ziti_dns_register_hostname (s : ziti_dns_s) (addr : ziti_address) (intercept : Nat) :
    ziti_dns_s × Option Nat :=
  match addr with
  | ziti_address.cidr _ _ => (s, none)
  | ziti_address.hostname hostname =>
    let cn := check_name hostname
    let clean := cn.2.1
    if cn.2.2 then
      let r : ziti_dns_s × Nat :=
        match model_map_get s.domains (clean.drop 2) with
        | some d => (s, d)
        | none =>
          let d := s.domain_heap.length
          let dom := { calloc_domain with name := clean.take MAX_DNS_NAME }
          ({ s with domain_heap := s.domain_heap ++ [dom],
                    domains := model_map_set s.domains (clean.drop 2) d }, d)
      let s1 := r.1
      let d := r.2
      let dom := domain_at s1 d
      let dom1 := { dom with intercepts := model_map_set dom.intercepts intercept intercept }
      ({ s1 with domain_heap := s1.domain_heap.set d dom1 }, none)
    else
      let r : ziti_dns_s × Option Nat :=
        match model_map_get s.hostnames clean with
        | some entry => (s, some entry)
        | none => new_ipv4_entry s clean
      match r with
      | (s1, some entry) =>
        let e := entry_at s1 entry
        let e1 := { e with intercepts := model_map_set e.intercepts intercept intercept }
        ({ s1 with entry_heap := s1.entry_heap.set entry e1 }, some entry)
      | (s1, none) => (s1, none)

/-- The IPv4 address read through the pointer returned by
`ziti_dns_register_hostname`. -/
def returned_ip (s : ziti_dns_s) (r : Option Nat) : Option Nat :=
  r.map (fun entry => (entry_at s entry).addr)

/-! ## Sequences of catalogue calls -/

/-- A call of the catalogue interface. -/
inductive dns_call where
  | register (addr : ziti_address) (intercept : Nat)
  | lookup (hostname : List Char)
  | deregister (intercept : Nat)
deriving DecidableEq, Repr

/-- State after one call. -/
def dns_step (s : ziti_dns_s) : dns_call → ziti_dns_s
  | dns_call.register addr intercept => (ziti_dns_register_hostname s addr intercept).1
  | dns_call.lookup hostname => (ziti_dns_lookup s hostname).1
  | dns_call.deregister intercept => ziti_dns_deregister_intercept s intercept

/-- State after a sequence of calls. -/
def dns_run (s : ziti_dns_s) : List dns_call → ziti_dns_s
  | [] => s
  | c :: cs => dns_run (dns_step s c) cs

/-! ## Well-formed states -/

/-- Shape of a pool seeded by `seed_dns` with a prefix length of `32 - k`. -/
def pool_shape (p : ip_pool_t) (k : Nat) : Prop :=
  2 ≤ k ∧ k ≤ 31 ∧ p.counter_mask = 2 ^ k - 1 ∧ p.capacity = 2 ^ k - 2 ∧
    p.base % 2 ^ k = 0 ∧ p.base < 4294967296

/-- A seeded pool whose counter lies in `[1, counter_mask)`. -/
def pool_ok (p : ip_pool_t) : Prop :=
  ∃ k, pool_shape p k ∧ 1 ≤ p.counter ∧ p.counter < p.counter_mask

/-- The entry has a claimant of its own or its domain has one. -/
def entry_live (s : ziti_dns_s) (p : Nat) : Prop :=
  (entry_at s p).intercepts ≠ [] ∨
    ∃ d, (entry_at s p).domain = some d ∧ (domain_at s d).intercepts ≠ []

/-- The text `t` is a suffix of `n` that starts at a label boundary: `n` itself
or what follows one of the dots of `n`. -/
def label_suffix (t n : List Char) : Prop :=
  t = n ∨ ∃ front, n = front ++ '.' :: t

/-- Consistency of the catalogue with `tun` and `dns` reserved: the invariant
kept by `ziti_dns_register_hostname`, `ziti_dns_lookup` and
`ziti_dns_deregister_intercept`.  The reserved entries are the first two heap
objects; a domain outside the `domains` map has no intercepts; an entry is
linked only to a domain whose suffix ends its name on a label boundary. -/
structure catalog_ok (tun dns : Nat) (s : ziti_dns_s) : Prop where
  pool : pool_ok s.ip_pool
  heap_two : 2 ≤ s.entry_heap.length
  host_nodup : (s.hostnames.map Prod.fst).Nodup
  ip_nodup : (s.ip_addresses.map Prod.fst).Nodup
  dom_nodup : (s.domains.map Prod.fst).Nodup
  host_ptr : ∀ n p, (n, p) ∈ s.hostnames →
    2 ≤ p ∧ p < s.entry_heap.length ∧ (entry_at s p).name = n ∧
      ((entry_at s p).addr, p) ∈ s.ip_addresses
  host_norm : ∀ n p, (n, p) ∈ s.hostnames → check_name n = (true, n, false)
  host_addr : ∀ n p, (n, p) ∈ s.hostnames →
    ∃ h, 1 ≤ h ∧ h < s.ip_pool.counter_mask ∧
      (entry_at s p).addr = htonl (s.ip_pool.base + h)
  host_live : ∀ n p, (n, p) ∈ s.hostnames → entry_live s p
  ip_ptr : ∀ a p, (a, p) ∈ s.ip_addresses →
    p < s.entry_heap.length ∧ (p < 2 → a = tun ∨ a = dns) ∧
      (2 ≤ p → ((entry_at s p).name, p) ∈ s.hostnames ∧ (entry_at s p).addr = a)
  tun_reserved : ∃ q, q < 2 ∧ (tun, q) ∈ s.ip_addresses
  dns_reserved : ∃ q, q < 2 ∧ (dns, q) ∈ s.ip_addresses
  dom_ptr : ∀ k d, (k, d) ∈ s.domains →
    d < s.domain_heap.length ∧ (domain_at s d).intercepts ≠ []
  ent_dom : ∀ p d, (entry_at s p).domain = some d → d < s.domain_heap.length
  dom_name : ∀ k d, (k, d) ∈ s.domains → (domain_at s d).name.drop 2 = k
  dom_stale : ∀ d, (domain_at s d).intercepts ≠ [] → ∃ k, (k, d) ∈ s.domains
  ent_link : ∀ n p d, (n, p) ∈ s.hostnames → (entry_at s p).domain = some d →
    label_suffix ((domain_at s d).name.drop 2) n

/-- What a registration or a lookup leaves in place: the shape of the pool, the
bindings of the three maps, and for every heap object its name, address and
domain and the intercepts it already had. -/
structure state_grows (s s' : ziti_dns_s) : Prop where
  base : s'.ip_pool.base = s.ip_pool.base
  mask : s'.ip_pool.counter_mask = s.ip_pool.counter_mask
  capacity : s'.ip_pool.capacity = s.ip_pool.capacity
  hosts : ∀ n p, model_map_get s.hostnames n = some p →
    model_map_get s'.hostnames n = some p
  ips : ∀ a p, model_map_get s.ip_addresses a = some p →
    model_map_get s'.ip_addresses a = some p
  doms : ∀ k d, model_map_get s.domains k = some d → model_map_get s'.domains k = some d
  ent : ∀ p, p < s.entry_heap.length →
    (entry_at s' p).name = (entry_at s p).name ∧
    (entry_at s' p).addr = (entry_at s p).addr ∧
    (entry_at s' p).domain = (entry_at s p).domain ∧
    ∀ j, (model_map_get (entry_at s p).intercepts j).isSome = true →
      (model_map_get (entry_at s' p).intercepts j).isSome = true
  dom : ∀ d, d < s.domain_heap.length →
    (domain_at s' d).name = (domain_at s d).name ∧
    ∀ j, (model_map_get (domain_at s d).intercepts j).isSome = true →
      (model_map_get (domain_at s' d).intercepts j).isSome = true

/-- A CIDR that `seed_dns` accepts, with a prefix length between 1 and 30. -/
def valid_cidr (cidr : Nat × Nat × Nat × Nat × Nat) : Prop :=
  cidr.1 ≤ 255 ∧ cidr.2.1 ≤ 255 ∧ cidr.2.2.1 ≤ 255 ∧ cidr.2.2.2.1 ≤ 255 ∧
    1 ≤ cidr.2.2.2.2 ∧ cidr.2.2.2.2 ≤ 30

instance (cidr : Nat × Nat × Nat × Nat × Nat) : Decidable (valid_cidr cidr) := by
  unfold valid_cidr
  infer_instance

/-- The states reached from `ziti_dns_setup` by catalogue calls. -/
def reachable (dns_addr tun_addr : Nat) (s : ziti_dns_s) : Prop :=
  ∃ cidr calls, valid_cidr cidr ∧
    s = dns_run (ziti_dns_setup dns_addr tun_addr (some cidr)) calls

/-- The intercept is in the claimant set of the entry stored under `h`. -/
def claims (s : ziti_dns_s) (h : List Char) (intercept : Nat) : Prop :=
  ∃ p, model_map_get s.hostnames h = some p ∧
    (model_map_get (entry_at s p).intercepts intercept).isSome = true

/-- The sequence of calls never deregisters the last claimant of `h`: whenever
an intercept is deregistered, the entry of `h` has another claimant. -/
def keeps_claimant (h : List Char) : ziti_dns_s → List dns_call → Prop
  | _, [] => True
  | s, c :: cs =>
    (∀ i, c = dns_call.deregister i → ∃ j, j ≠ i ∧ claims s h j) ∧
      keeps_claimant h (dns_step s c) cs

/-! ## Sample states -/

/-- The state after `ziti_dns_setup` for the pool `10.0.0.1/29` (capacity 6) with
the DNS server at `10.0.0.2`. -/
def sample_setup : ziti_dns_s :=
  ziti_dns_setup 33554442 16777226 (some (10, 0, 0, 1, 29))

/-- The sample pool filled by four registrations: `a`, `b`, `c` and `d` hold
`10.0.0.3` to `10.0.0.6`. -/
def sample_full : ziti_dns_s :=
  dns_run sample_setup
    [dns_call.register (ziti_address.hostname ['a']) 1,
     dns_call.register (ziti_address.hostname ['b']) 2,
     dns_call.register (ziti_address.hostname ['c']) 3,
     dns_call.register (ziti_address.hostname ['d']) 4]

/-- The full sample pool after the claimant of `d` is deregistered: `10.0.0.6`
is free again. -/
def sample_released : ziti_dns_s :=
  ziti_dns_deregister_intercept sample_full 4

/-- The state after `ziti_dns_setup` for the pool `10.0.0.0/30` (capacity 2) with
the DNS server at `10.0.0.1`: both bindings of the address map are reserved. -/
def sample_tiny : ziti_dns_s :=
  ziti_dns_setup 16777226 10 (some (10, 0, 0, 0, 30))

/-- The sample pool with the wildcard `*.x` registered by claimant 9, the names
`h1.x` and `h2.x` created by lookups, and `h2.x` then registered by claimant 3. -/
def sample_wild : ziti_dns_s :=
  dns_run sample_setup
    [dns_call.register (ziti_address.hostname ['*', '.', 'x']) 9,
     dns_call.lookup ['h', '1', '.', 'x'],
     dns_call.lookup ['h', '2', '.', 'x'],
     dns_call.register (ziti_address.hostname ['h', '2', '.', 'x']) 3]

/-- The sample pool with the host name `foo.example.com` registered by claimant 1
(entry 2, address `10.0.0.3`). -/
def sample_foo : ziti_dns_s :=
  (ziti_dns_register_hostname sample_setup
    (ziti_address.hostname "foo.example.com".toList) 1).1

/-! ## DNS messages

Conventions of this part.

* A packet or buffer is the list of its bytes, each a natural number below 256.
* `model_number` fields are natural numbers.
* The request buffer `req->req` is `calloc`ed: behind the `req_len` bytes of the
  packet it holds zeros.  The response buffer is represented by the bytes
  written from offset 0 up to the write pointer `rp`, so `resp_len` is the
  length of the list.
-/

/-- The constant `NS_T_A` of `enum ns_q_type`. -/
def NS_T_A : Nat := 1

/-- The constant `NS_T_AAAA` of `enum ns_q_type`. -/
def NS_T_AAAA : Nat := 28

/-- The constant `NS_T_MX` of `enum ns_q_type`. -/
def NS_T_MX : Nat := 15

/-- The constant `NS_T_TXT` of `enum ns_q_type`. -/
def NS_T_TXT : Nat := 16

/-- The constant `NS_T_SRV` of `enum ns_q_type`. -/
def NS_T_SRV : Nat := 33

/-- Modelled from the spec: the status `DNS_NO_ERROR` is declared in a header
that is not among the sources; the spec gives RCODE 0 for an answered query. -/
def DNS_NO_ERROR : Nat := 0

/-- Modelled from the spec: the status `DNS_FORMERR` (`FormErr`) is declared in a
header that is not among the sources; its wire value is RCODE 1. -/
def DNS_FORMERR : Nat := 1

/-- Modelled from the spec: the status `DNS_SERVFAIL` (`SERVFAIL`) is declared in
a header that is not among the sources; its wire value is RCODE 2. -/
def DNS_SERVFAIL : Nat := 2

/-- Modelled from the spec: the status `DNS_NOT_IMPL` (`NOTIMPL`) is declared in a
header that is not among the sources; its wire value is RCODE 4. -/
def DNS_NOT_IMPL : Nat := 4

/-- Modelled from the spec: the status `DNS_REFUSE` is declared in a header that
is not among the sources; the spec gives RCODE 5 (`REFUSED`). -/
def DNS_REFUSE : Nat := 5

/-- Modelled from the spec: the result `ZITI_OK` of the overlay SDK is declared in
a header that is not among the sources; success is the value 0. -/
def ZITI_OK : Int := 0

/-- The constant `DNS_HEADER_LEN`. -/
def DNS_HEADER_LEN : Nat := 12

/-- The table `DNS_OPT`. -/
def DNS_OPT : List Nat := [0x0, 0x0, 0x29, 0x10, 0x0, 0x0, 0x0, 0x0, 0x0, 0x0, 0x0]

/-- The size of the arrays `req` and `resp` of `struct dns_req`. -/
def DNS_BUF_LEN : Nat := 4096

/-- The type `dns_question` (`DNS_Q_MODEL`). -/
structure dns_question where
  name : List Char
  type : Nat
deriving DecidableEq, Repr

/-- The type `dns_answer` (`DNS_A_MODEL`). -/
structure dns_answer where
  name : List Char
  type : Nat
  ttl : Nat
  priority : Nat
  weight : Nat
  port : Nat
  data : List Char
deriving DecidableEq, Repr

/-- The type `dns_message` (`DNS_MSG_MODEL`).  `question0` is `question[0]`, the
only element of the array the engine reads; `answer` is `none` for the C `NULL`
and otherwise the elements before the terminating `NULL`. -/
structure dns_message where
  status : Nat
  id : Nat
  recursive : Nat
  question0 : dns_question
  answer : Option (List dns_answer)
deriving DecidableEq, Repr

/-- The type `struct dns_req`: `req` holds the `req_len` bytes of the packet,
`resp` the `resp_len` bytes of the response, `addr` is `addr.s_addr` and `clt`
the client pointer. -/
structure dns_req where
  id : Nat
  req : List Nat
  resp : List Nat
  msg : dns_message
  addr : Nat
  clt : Option Nat
deriving DecidableEq, Repr

/-- The macro `DNS_ID`. -/
def DNS_ID (p : List Nat) : Nat := (p.getD 0 0 <<< 8 ||| p.getD 1 0) % 65536

/-- The macro `DNS_RD`. -/
def DNS_RD (p : List Nat) : Nat := p.getD 2 0 &&& 0x1

/-- The two bytes stored by the macro `SET_U16`. -/
def SET_U16 (v : Nat) : List Nat := [(v >>> 8) &&& 0xff, v &&& 0xff]

/-- The four bytes stored by the macro `SET_U32`. -/
def SET_U32 (v : Nat) : List Nat :=
  [(v >>> 24) &&& 0xff, (v >>> 16) &&& 0xff, (v >>> 8) &&& 0xff, v &&& 0xff]

/-- The four bytes of `s_addr` as they lie in memory on the little-endian host:
the address in network order. -/
def s_addr_bytes (a : Nat) : List Nat :=
  [a % 256, a / 256 % 256, a / 65536 % 256, a / 16777216 % 256]

/-- The bytes of a C string. -/
def str_bytes (s : List Char) : List Nat := s.map (fun c => c.toNat)

/-- The loop of `format_name`, read byte by byte: `label` is the text of the
current label read so far (from `np` up to the scan position).  At a dot or at
the end of the string the length byte (`uint8_t`, so modulo 256) and that many
bytes of the label are stored; a zero length byte ends the name, and so does the
end of the string, with a closing zero byte. -/
def format_name_scan (label : List Char) : List Char → List Nat
  | [] =>
    let len := label.length % 256
    if len = 0 then [0] else len :: str_bytes (label.take len) ++ [0]
  | c :: rest =>
    if c = '.' then
      let len := label.length % 256
      if len = 0 then [0] else len :: str_bytes (label.take len) ++ format_name_scan [] rest
    else format_name_scan (label ++ [c]) rest

/-- The function `format_name`: the bytes it stores from `p` on. -/
def format_name (name : List Char) : List Nat := format_name_scan [] name

/-- The `switch (a->type)` of `format_resp` for one answer, entered with the
write pointer at offset `rp`: the bytes stored (the two bytes skipped at `hold`
count as zeros when the record is abandoned) and whether the assembly was
truncated. -/
def format_rdata (addr : Nat) (a : dns_answer) (rp : Nat) : List Nat × Bool :=
  if a.type = NS_T_A then
    if DNS_BUF_LEN - rp < 2 + 4 then ([], true)
    else (SET_U16 4 ++ s_addr_bytes addr, false)
  else if a.type = NS_T_TXT then
    let txtlen := a.data.length % 65536
    let datalen := (1 + txtlen) % 65536
    if DNS_BUF_LEN - rp < 3 + txtlen then ([], true)
    else (SET_U16 datalen ++ [txtlen &&& 0xff] ++ str_bytes (a.data.take txtlen), false)
  else if a.type = NS_T_MX then
    let datalen_est := (a.data.length + 1) % 65536
    if DNS_BUF_LEN - rp < 4 + datalen_est then ([0, 0], true)
    else
      let body := SET_U16 a.priority ++ format_name a.data
      let datalen := body.length % 65536
      (SET_U16 datalen ++ body, false)
  else if a.type = NS_T_SRV then
    let datalen_est := (a.data.length + 1) % 65536
    if DNS_BUF_LEN - rp < 8 + datalen_est then ([0, 0], true)
    else
      let body := SET_U16 a.priority ++ SET_U16 a.weight ++ SET_U16 a.port ++ format_name a.data
      let datalen := body.length % 65536
      (SET_U16 datalen ++ body, false)
  else ([], false)

/-- The answer loop of `format_resp`, entered with the write pointer at offset
`rp` and `ans_count` answers counted: the bytes stored, the flag `truncated` and
the final `ans_count`. -/
def format_answers (addr : Nat) : List dns_answer → Nat → Nat → List Nat × Bool × Nat
  | [], _, ans_count => ([], false, ans_count)
  | a :: rest, rp, ans_count =>
    if DNS_BUF_LEN - rp < 10 then ([], true, ans_count + 1)
    else
      let head := [0xc0, 0x0c] ++ SET_U16 a.type ++ SET_U16 1 ++ SET_U32 a.ttl
      let rdata := format_rdata addr a (rp + 10)
      if rdata.2 then (head ++ rdata.1, true, ans_count + 1)
      else
        let more := format_answers addr rest (rp + 10 + rdata.1.length) (ans_count + 1)
        (head ++ rdata.1 ++ more.1, more.2.1, more.2.2)

/-- The 4096 bytes of the array `req->req`. -/
def req_buffer (req : dns_req) : List Nat :=
  req.req ++ List.replicate (DNS_BUF_LEN - req.req.length) 0

/-- The answer block of `format_resp`, run when the status is `DNS_NO_ERROR` and
`answer` is not `NULL`: `none` when the block is skipped. -/
def format_resp_answers (req : dns_req) : Option (List Nat × Bool × Nat) :=
  if req.msg.status = DNS_NO_ERROR then
    match req.msg.answer with
    | some answers =>
      some (format_answers req.addr answers
        (DNS_HEADER_LEN + (req.msg.question0.name.length + 2 + 4)) 0)
    | none => none
  else none

/-- The flag `truncated` at the end of `format_resp`. -/
def format_resp_truncated (req : dns_req) : Bool :=
  match format_resp_answers req with
  | some r => r.2.1
  | none => false

/-- The function `format_resp`; `recursion_avail` is
`uv_is_active(&ziti_dns.upstream)`.  The header is the one of the request with
the bits set by `DNS_SET_ANS`, `DNS_SET_CODE`, `DNS_SET_RA` and `DNS_SET_TC` and
the counts stored by `DNS_SET_ARS` and `DNS_SET_AARS`.  The field `resp` of the
result holds the bytes stored from `req->resp` up to the final `rp`, so its
length is `resp_len`; a length above `DNS_BUF_LEN` means that bytes were stored
past the end of the array. -/
def format_resp (recursion_avail : Bool) (req : dns_req) : dns_req :=
  let buf := req_buffer req
  let b := fun (i : Nat) => buf.getD i 0
  let code := b 3 ||| (req.msg.status &&& 0xf)
  let flags3 := if recursion_avail then code ||| 0x80 else code
  let query_section_len := req.msg.question0.name.length + 2 + 4
  let question := (buf.drop DNS_HEADER_LEN).take query_section_len
  let ans := format_resp_answers req
  let records := match ans with
    | some r => r.1
    | none => []
  let flags2 := if format_resp_truncated req then (b 2 ||| 0x80) ||| 0x2 else b 2 ||| 0x80
  let ancount := match ans with
    | some r => [(r.2.2 >>> 8) % 256, r.2.2 &&& 0xff]
    | none => [b 6, b 7]
  let header := [b 0, b 1, flags2, flags3, b 4, b 5] ++ ancount ++ [b 8, b 9, 1 >>> 8, 1 &&& 0xff]
  let rp := DNS_HEADER_LEN + query_section_len + records.length
  let opt := if DNS_BUF_LEN - rp > 11 then DNS_OPT else []
  { req with resp := header ++ question ++ records ++ opt }

/-! ## The request engine -/

/-- The type `ziti_dns_client_t`. -/
structure ziti_dns_client_t where
  active_reqs : List (Nat × dns_req)
deriving DecidableEq, Repr

/-- The request side of the global `ziti_dns` next to the catalogue `dns`:
the in-flight table `requests`, whether the handle `upstream` is active,
`num_dns_up`, the client objects (a pointer is an index, `calloc` appends) and
the field `resolv_proxy` of the domain objects, kept as a map from the domain
pointer to the connection (no binding for `NULL`). -/
structure dns_engine where
  dns : ziti_dns_s
  requests : List (Nat × dns_req)
  upstream_active : Bool
  num_dns_up : Nat
  client_heap : List ziti_dns_client_t
  resolv_proxy : List (Nat × Nat)
deriving DecidableEq, Repr

/-- What a handler calls in the tunneler, libuv and the overlay SDK. -/
inductive dns_action where
  | tunneler_write (clt : Nat) (resp : List Nat)
  | tunneler_close (clt : Nat)
  | tunneler_ack
  | tunneler_set_idle_timeout (clt : Nat) (ms : Nat)
  | tunneler_dial_completed (clt : Nat)
  | udp_try_send (i : Nat) (buf : List Nat)
  | ziti_write (conn : Nat) (json : List Char)
  | ziti_close (conn : Nat)
deriving DecidableEq, Repr

/-- Results of the calls whose code is not among the sources, for one packet:
`parse` is the message filled by `parse_dns_req` (`none` for a nonzero return),
`try_send i` the result of `uv_udp_try_send` to upstream `i`, `connect` the
connection returned by `intercept_resolve_connect` (`none` for `NULL`), `json`
the text returned by `dns_message_to_json` and `write_rc` the result of
`ziti_write`. -/
structure dns_env where
  parse : Option dns_message
  try_send : Nat → Int
  connect : Option Nat
  json : Option (List Char)
  write_rc : Int

/-- The client object behind a pointer. -/
def client_at (e : dns_engine) (clt : Nat) : ziti_dns_client_t :=
  e.client_heap.getD clt { active_reqs := [] }

/-- The function `on_dns_client`: the new client pointer is the second
component. -/
def on_dns_client (e : dns_engine) : (dns_engine × List dns_action) × Nat :=
  let clt := e.client_heap.length
  (({ e with client_heap := e.client_heap ++ [{ active_reqs := [] }] },
    [dns_action.tunneler_set_idle_timeout clt 5000, dns_action.tunneler_dial_completed clt]),
   clt)

/-- The function `remove_dns_req` on the in-flight table. -/
def remove_dns_req (requests : List (Nat × dns_req)) (req : dns_req) : List (Nat × dns_req) :=
  model_map_remove requests req.id

/-- The function `on_dns_close`: `model_map_clear` calls `remove_dns_req` on every
request of the client and empties `active_reqs`. -/
def on_dns_close (e : dns_engine) (clt : Nat) : dns_engine × List dns_action :=
  let c := client_at e clt
  let requests := c.active_reqs.foldl (fun rs kv => remove_dns_req rs kv.2) e.requests
  ({ e with requests := requests,
            client_heap := e.client_heap.set clt { c with active_reqs := [] } },
   [dns_action.tunneler_close clt])

/-- The function `complete_dns_req`. -/
def complete_dns_req (e : dns_engine) (req : dns_req) : dns_engine × List dns_action :=
  let e1 := { e with requests := model_map_remove e.requests req.id }
  match req.clt with
  | some clt =>
    let c := client_at e1 clt
    let c1 := { c with active_reqs := model_map_remove c.active_reqs req.id }
    let e2 := { e1 with client_heap := e1.client_heap.set clt c1 }
    if model_map_size c1.active_reqs = 0 then
      let r := on_dns_close e2 clt
      (r.1, dns_action.tunneler_write clt req.resp :: r.2)
    else (e2, [dns_action.tunneler_write clt req.resp])
  | none => (e1, [])

/-- The function `query_upstream`: the status returned and the sends tried. -/
def query_upstream (e : dns_engine) (env : dns_env) (req : dns_req) : Nat × List dns_action :=
  if e.upstream_active && decide (req.msg.recursive ≠ 0) then
    let success := (List.range e.num_dns_up).any (fun i => decide (env.try_send i > 0))
    (if success then DNS_NO_ERROR else DNS_REFUSE,
     (List.range e.num_dns_up).map (fun i => dns_action.udp_try_send i req.req))
  else (DNS_REFUSE, [])

/-- Modelled from the spec: the text `entry->ip` is written by `ipaddr_ntoa_r` of
lwIP, which is not among the sources: the dotted decimal form of the address
(the spec's "Dotted-quad parse and format").  It is only logged. -/
def ipaddr_ntoa (a : Nat) : List Char :=
  (Nat.repr (a % 256)).toList ++ ['.'] ++ (Nat.repr (a / 256 % 256)).toList ++ ['.'] ++
    (Nat.repr (a / 65536 % 256)).toList ++ ['.'] ++ (Nat.repr (a / 16777216 % 256)).toList

/-- The function `process_host_req`. -/
def process_host_req (e : dns_engine) (env : dns_env) (req : dns_req) :
    dns_engine × List dns_action :=
  let r := ziti_dns_lookup e.dns req.msg.question0.name
  let e1 := { e with dns := r.1 }
  match r.2 with
  | some entry =>
    let msg1 := { req.msg with status := DNS_NO_ERROR }
    let req1 :=
      if req.msg.question0.type = NS_T_A then
        let a : dns_answer :=
          { name := [], type := NS_T_A, ttl := 60, priority := 0, weight := 0, port := 0,
            data := ipaddr_ntoa (entry_at e1.dns entry).addr }
        { req with addr := (entry_at e1.dns entry).addr,
                   msg := { msg1 with answer := some [a] } }
      else { req with msg := msg1 }
    complete_dns_req e1 (format_resp e1.upstream_active req1)
  | none =>
    let q := query_upstream e1 env req
    if q.1 ≠ DNS_NO_ERROR then
      let req1 := { req with msg := { req.msg with status := q.1 } }
      let c := complete_dns_req e1 (format_resp e1.upstream_active req1)
      (c.1, q.2 ++ c.2)
    else (e1, q.2)

/-- The first `if` of `proxy_domain_req`: the value of `domain->resolv_proxy`
after it, which is the connection already stored or else the result of
`intercept_resolve_connect`. -/
def open_resolv_proxy (e : dns_engine) (env : dns_env) (domain : Nat) : Option Nat :=
  match model_map_get e.resolv_proxy domain with
  | some conn => some conn
  | none => env.connect

/-- The resolver with `domain->resolv_proxy` assigned. -/
def set_resolv_proxy (e : dns_engine) (domain : Nat) (proxy : Option Nat) : dns_engine :=
  match proxy with
  | some conn => { e with resolv_proxy := model_map_set e.resolv_proxy domain conn }
  | none => e

/-- The last two statements of `proxy_domain_req` and of the other handlers
that answer at once: `format_resp(req); complete_dns_req(req);`, after the calls
`acts`. -/
def finish_dns_req (e : dns_engine) (req : dns_req) (acts : List dns_action) :
    dns_engine × List dns_action :=
  let c := complete_dns_req e (format_resp e.upstream_active req)
  (c.1, acts ++ c.2)

/-- The function `proxy_domain_req`.  When the synchronous write fails the
source logs, closes the connection and goes on to `format_resp` with the status
the request already has. -/
def proxy_domain_req (e : dns_engine) (env : dns_env) (req : dns_req) (domain : Nat) :
    dns_engine × List dns_action :=
  let proxy := open_resolv_proxy e env domain
  let e1 := set_resolv_proxy e domain proxy
  match proxy with
  | none => finish_dns_req e1 { req with msg := { req.msg with status := DNS_SERVFAIL } } []
  | some conn =>
    if req.msg.question0.type = NS_T_MX ∨ req.msg.question0.type = NS_T_SRV
        ∨ req.msg.question0.type = NS_T_TXT then
      match env.json with
      | some json =>
        if env.write_rc = ZITI_OK then (e1, [dns_action.ziti_write conn json])
        else finish_dns_req e1 req [dns_action.ziti_write conn json, dns_action.ziti_close conn]
      | none => finish_dns_req e1 { req with msg := { req.msg with status := DNS_FORMERR } } []
    else finish_dns_req e1 { req with msg := { req.msg with status := DNS_NOT_IMPL } } []

/-- The function `on_proxy_write`; `ctx` is the request `wr->req` of the write
context, `none` for a `NULL` context. -/
def on_proxy_write (e : dns_engine) (conn : Nat) (len : Int) (ctx : Option dns_req) :
    dns_engine × List dns_action :=
  match ctx with
  | some req =>
    if len < 0 then
      let req1 := { req with msg := { req.msg with status := DNS_SERVFAIL } }
      let c := complete_dns_req e (format_resp e.upstream_active req1)
      (c.1, c.2 ++ [dns_action.ziti_close conn])
    else (e, [])
  | none => (e, [])

/-- The function `on_proxy_data`; `parsed` is the message filled by
`parse_dns_message` (`none` for a negative return). -/
def on_proxy_data (e : dns_engine) (conn : Nat) (parsed : Option dns_message) (status : Int) :
    dns_engine × List dns_action :=
  if status ≥ 0 then
    match parsed with
    | none => (e, [])
    | some msg =>
      match model_map_get e.requests (msg.id % 65536) with
      | some req =>
        let req1 := { req with msg := { req.msg with answer := msg.answer } }
        complete_dns_req e (format_resp e.upstream_active req1)
      | none => (e, [])
  else (e, [dns_action.ziti_close conn])

/-- The function `proxy_domain_close_cb`; `domain` is `ziti_conn_data(c)`. -/
def proxy_domain_close_cb (e : dns_engine) (domain : Option Nat) : dns_engine :=
  match domain with
  | some d => { e with resolv_proxy := model_map_remove e.resolv_proxy d }
  | none => e

/-- The function `on_proxy_connect`; `domain` is `ziti_conn_data(conn)`. -/
def on_proxy_connect (e : dns_engine) (conn : Nat) (status : Int) (domain : Nat) :
    dns_engine × List dns_action :=
  if status = ZITI_OK then
    ({ e with resolv_proxy := model_map_set e.resolv_proxy domain conn }, [])
  else (e, [dns_action.ziti_close conn])

/-- The request object of `on_dns_req` once the packet is parsed: `calloc`ed,
with `clt`, the packet, the parsed message and `id` (a `uint16_t`) stored. -/
def new_dns_req (clt : Nat) (q_packet : List Nat) (msg : dns_message) : dns_req :=
  { id := msg.id % 65536, req := q_packet, resp := [], msg := msg, addr := 0, clt := some clt }

/-- The two `model_map_set_key` calls of `on_dns_req`: the request is stored in
`active_reqs` of its client and in the in-flight table. -/
def track_dns_req (e : dns_engine) (clt : Nat) (req : dns_req) : dns_engine :=
  let c := client_at e clt
  { e with
    client_heap := e.client_heap.set clt
      { c with active_reqs := model_map_set c.active_reqs req.id req },
    requests := model_map_set e.requests req.id req }

/-- The routing at the end of `on_dns_req`. -/
def route_dns_req (e : dns_engine) (env : dns_env) (req : dns_req) :
    dns_engine × List dns_action :=
  let q := req.msg.question0
  if q.type = NS_T_A ∨ q.type = NS_T_AAAA then process_host_req e env req
  else
    let reqname := (check_name q.name).2.1
    match find_domain e.dns reqname with
    | some domain => proxy_domain_req e env req domain
    | none =>
      let u := query_upstream e env req
      if u.1 ≠ DNS_NO_ERROR then
        finish_dns_req e { req with msg := { req.msg with status := u.1 } } u.2
      else (e, u.2)

/-- The function `on_dns_req` for the packet `q_packet` of client `clt`. -/
def on_dns_req (e : dns_engine) (env : dns_env) (clt : Nat) (q_packet : List Nat) :
    dns_engine × List dns_action :=
  let req_id := DNS_ID q_packet
  match model_map_get e.requests req_id with
  | some _ => (e, [dns_action.tunneler_ack])
  | none =>
    match env.parse with
    | none =>
      let r := on_dns_close e clt
      (r.1, r.2 ++ [dns_action.tunneler_ack])
    | some msg =>
      let req := new_dns_req clt q_packet msg
      let r := route_dns_req (track_dns_req e clt req) env req
      (r.1, r.2 ++ [dns_action.tunneler_ack])

/-- The function `on_upstream_packet`: `rc` bytes were received into `buf`. -/
def on_upstream_packet (e : dns_engine) (rc : Int) (buf : List Nat) :
    dns_engine × List dns_action :=
  if rc > 0 then
    match model_map_get e.requests (DNS_ID buf) with
    | some req =>
      let req1 := if rc ≤ DNS_BUF_LEN then { req with resp := buf.take rc.toNat } else req
      complete_dns_req e req1
    | none => (e, [])
  else (e, [])

/-- One call into the resolver: a new client, a packet of a client, a packet of
an upstream server, the callbacks of a resolve connection, the close of a client
and a call of the catalogue. -/
inductive dns_event where
  | client
  | req (env : dns_env) (clt : Nat) (q_packet : List Nat)
  | upstream_packet (rc : Int) (buf : List Nat)
  | proxy_data (conn : Nat) (parsed : Option dns_message) (status : Int)
  | proxy_write (conn : Nat) (len : Int) (ctx : Option dns_req)
  | proxy_connect (conn : Nat) (status : Int) (domain : Nat)
  | proxy_close (domain : Option Nat)
  | close (clt : Nat)
  | catalog (c : dns_call)

/-- The resolver after one call, with what the call did outside. -/
def engine_step (e : dns_engine) : dns_event → dns_engine × List dns_action
  | dns_event.client => (on_dns_client e).1
  | dns_event.req env clt q_packet => on_dns_req e env clt q_packet
  | dns_event.upstream_packet rc buf => on_upstream_packet e rc buf
  | dns_event.proxy_data conn parsed status => on_proxy_data e conn parsed status
  | dns_event.proxy_write conn len ctx => on_proxy_write e conn len ctx
  | dns_event.proxy_connect conn status domain => on_proxy_connect e conn status domain
  | dns_event.proxy_close domain => (proxy_domain_close_cb e domain, [])
  | dns_event.close clt => on_dns_close e clt
  | dns_event.catalog c => ({ e with dns := dns_step e.dns c }, [])

/-- The resolver after a sequence of calls. -/
def engine_run (e : dns_engine) : List dns_event → dns_engine
  | [] => e
  | ev :: evs => engine_run (engine_step e ev).1 evs

/-- The resolver over a catalogue with nothing in flight, no client and no
upstream server. -/
def engine_start (dns : ziti_dns_s) : dns_engine :=
  { dns := dns, requests := [], upstream_active := false, num_dns_up := 0,
    client_heap := [], resolv_proxy := [] }

/-! ## Reading a response -/

/-- The bit QR of a message. -/
def resp_qr (p : List Nat) : Nat := p.getD 2 0 / 128 % 2

/-- The bit TC of a message. -/
def resp_tc (p : List Nat) : Nat := p.getD 2 0 / 2 % 2

/-- The bit RA of a message. -/
def resp_ra (p : List Nat) : Nat := p.getD 3 0 / 128 % 2

/-- The field RCODE of a message. -/
def resp_rcode (p : List Nat) : Nat := p.getD 3 0 % 16

/-- The count ANCOUNT of a message. -/
def resp_ancount (p : List Nat) : Nat := p.getD 6 0 * 256 + p.getD 7 0

/-- The count ARCOUNT of a message. -/
def resp_arcount (p : List Nat) : Nat := p.getD 10 0 * 256 + p.getD 11 0

/-- The responses written to clients by a list of calls. -/
def client_writes : List dns_action → List (Nat × List Nat)
  | [] => []
  | dns_action.tunneler_write clt resp :: acts => (clt, resp) :: client_writes acts
  | _ :: acts => client_writes acts

/-- The sends to upstream servers tried by a list of calls. -/
def sent_upstream : List dns_action → List (Nat × List Nat)
  | [] => []
  | dns_action.udp_try_send i buf :: acts => (i, buf) :: sent_upstream acts
  | _ :: acts => sent_upstream acts

/-! ## Sample packets and resolvers -/

/-- A query packet with the given ID, RD=1, QDCOUNT=1 and one uncompressed
question. -/
def sample_query (id : Nat) (name : List Char) (qtype : Nat) : List Nat :=
  [id / 256, id % 256, 0x01, 0x00, 0, 1, 0, 0, 0, 0, 0, 0] ++
    format_name name ++ SET_U16 qtype ++ SET_U16 1

/-- The message read from `sample_query`. -/
def sample_msg (id : Nat) (name : List Char) (qtype : Nat) : dns_message :=
  { status := 0, id := id, recursive := 1, question0 := { name := name, type := qtype },
    answer := none }

/-- The surroundings of a sample query: the packet parses, every send fails, no
resolve connection can be opened, the message has a JSON text and writes are
accepted. -/
def sample_env (id : Nat) (name : List Char) (qtype : Nat) : dns_env :=
  { parse := some (sample_msg id name qtype), try_send := fun _ => -1, connect := none,
    json := some ['j', 's'], write_rc := 0 }

/-- The resolver over a catalogue with one client (pointer 0) and nothing in
flight. -/
def sample_engine (dns : ziti_dns_s) : dns_engine :=
  (on_dns_client (engine_start dns)).1.1

/-- A request for `unknown.test` whose header carries RD, TC (byte 2 is `0x03`), RA
and the RCODE bits 3 (byte 3 is `0x83`), with the status `DNS_REFUSE` and no
answer. -/
def sample_flagged : dns_req :=
  { id := 0x1234,
    req := [0x12, 0x34, 0x03, 0x83, 0, 1, 0, 0, 0, 0, 0, 0] ++
      format_name "unknown.test".toList ++ SET_U16 1 ++ SET_U16 1,
    resp := [],
    msg := { sample_msg 0x1234 "unknown.test".toList 1 with status := DNS_REFUSE },
    addr := 0, clt := some 0 }

/-- The surroundings of a sample query when the resolve connection 7 can be
opened and `ziti_write` returns `write_rc`. -/
def sample_env_proxy (id : Nat) (name : List Char) (qtype : Nat) (write_rc : Int) : dns_env :=
  { parse := some (sample_msg id name qtype), try_send := fun _ => -1, connect := some 7,
    json := some ['j', 's'], write_rc := write_rc }

/-- The in-flight table is a map: no ID is bound twice, and every request is
bound under its own `id`. -/
def in_flight_ok (requests : List (Nat × dns_req)) : Prop :=
  (requests.map Prod.fst).Nodup ∧ ∀ kr ∈ requests, kr.2.id = kr.1

/-- The resolver of `sample_engine` with one upstream server set and the
upstream socket active. -/
def sample_engine_up (dns : ziti_dns_s) : dns_engine :=
  { sample_engine dns with upstream_active := true, num_dns_up := 1 }

/-- The surroundings of a sample query when the send to the upstream server
succeeds. -/
def sample_env_up (id : Nat) (name : List Char) (qtype : Nat) : dns_env :=
  { parse := some (sample_msg id name qtype), try_send := fun _ => 30, connect := none,
    json := some ['j', 's'], write_rc := 0 }

/-- The state after `ziti_dns_setup` for the pool `10.0.0.0/31` (capacity 0) with
the DNS server at `10.0.0.1`: the tun address `10.0.0.0` and the DNS address are
reserved. -/
def sample_slash31 : ziti_dns_s :=
  ziti_dns_setup 16777226 10 (some (10, 0, 0, 0, 31))

/-! ## The tunnel command `UpdateTunIpv4`

Embedding of the case `TunnelCommand_UpdateTunIpv4` of `process_tunnel_commands`
in `programs/ziti-edge-tunnel/ziti-edge-tunnel.c`.
-/

/-- The constant `IPC_SUCCESS`. -/
def IPC_SUCCESS : Nat := 0

/-- The constant `IPC_ERROR`. -/
def IPC_ERROR : Nat := 500

/-- Modelled from the spec: the constant `MINTUNPREFIXLENGTH` is declared in a
header that is not among the sources; the spec and the error text of the command
give 10. -/
def MINTUNPREFIXLENGTH : Int := 10

/-- Modelled from the spec: the constant `MAXTUNPREFIXLENGTH` is declared in a
header that is not among the sources; the spec and the error text of the command
give 18. -/
def MAXTUNPREFIXLENGTH : Int := 18

/-- The type `tunnel_tun_ip_v4` (`TUNNEL_TUN_IP_V4`); `tunIP` is `none` for a
`NULL` string. -/
structure tunnel_tun_ip_v4 where
  tunIP : Option (List Char)
  prefixLength : Int
  addDns : Bool
deriving DecidableEq, Repr

/-- The fields of `tunnel_result` that the command sets; `error` is `none` for
`NULL`. -/
structure tunnel_result where
  success : Bool
  error : Option String
  code : Nat
deriving DecidableEq, Repr

/-- The tokens returned by `strtok(str, ".")` and the calls `strtok(NULL, ".")`
that follow: the maximal runs of bytes other than the dot, in order.  `token` is
the run read so far. -/
def strtok_dot (token : List Char) : List Char → List (List Char)
  | [] => if token = [] then [] else [token]
  | c :: rest =>
    if c = '.' then
      if token = [] then strtok_dot [] rest else token :: strtok_dot [] rest
    else strtok_dot (token ++ [c]) rest

/-- The C function `isdigit` in the "C" locale. -/
def isdigit (c : Char) : Bool := decide ('0' ≤ c ∧ c ≤ '9')

/-- The C function `atoi` on a string of digits: its decimal value.  For a
value above `INT_MAX` the C standard leaves the result open; the decimal value
is kept here. -/
def atoi (digits : List Char) : Int :=
  Int.ofNat (digits.foldl (fun n c => 10 * n + (c.toNat - '0'.toNat)) 0)

/-- The `while (ip_ptr)` loop of the command: `tokens` are the token at `ip_ptr`
and those that `strtok` still has to return.  Returns `dots` and
`validationStatus`. -/
def tun_ip_loop : List (List Char) → Nat → Nat × Bool
  | [], dots => (dots, true)
  | ip_ptr :: rest, dots =>
    if ip_ptr.all isdigit then
      if atoi ip_ptr ≥ 0 ∧ atoi ip_ptr ≤ 255 then
        tun_ip_loop rest (if rest = [] then dots else dots + 1)
      else (dots, false)
    else (dots, false)

/-- The case `TunnelCommand_UpdateTunIpv4` of `process_tunnel_commands`.  `cmd` is
the structure filled by `parse_tunnel_tun_ip_v4`, `none` when `tnl_cmd->data` is
`NULL` or the parse fails.  The result is `none` where the source calls
`strdup(NULL)`, which the C standard leaves undefined (the test
`tunIP == NULL` of the source comes after it and cannot fire); otherwise it is
the `tunnel_result` passed to the callback together with the arguments of the
call of `set_tun_ipv4_into_instance`, if it is made. -/
def process_tunnel_commands_UpdateTunIpv4 (cmd : Option tunnel_tun_ip_v4) :
    Option (tunnel_result × Option (List Char × Int × Bool)) :=
  let result : tunnel_result := { success := false, error := none, code := IPC_ERROR }
  match cmd with
  | none => some ({ result with error := some "invalid command", success := false }, none)
  | some c =>
    if c.prefixLength < MINTUNPREFIXLENGTH ∨ c.prefixLength > MAXTUNPREFIXLENGTH then
      some ({ result with error := some "prefix length should be between 10 and 18",
                          success := false }, none)
    else
      match c.tunIP with
      | none => none
      | some tunIP =>
        match strtok_dot [] tunIP with
        | [] => some ({ result with error := some "Invalid IP address", success := false }, none)
        | tokens =>
          let r := tun_ip_loop tokens 0
          if r.1 ≠ 3 ∨ !r.2 then
            some ({ result with error := some "Invalid IP address", success := false }, none)
          else
            some ({ result with success := true, code := IPC_SUCCESS },
                  some (tunIP, c.prefixLength, c.addDns))

/-! ## The paths of the command and event sockets

Embedding of `find_other_zets` and `configure_ipc` in
`programs/ziti-edge-tunnel/ziti-edge-tunnel.c`, for the POSIX build.
-/

/-- The table `SOCKET_PATH` of the POSIX build. -/
def SOCKET_PATH : List Char := "/tmp/.ziti/".toList

/-- The table `sockfilebase`. -/
def sockfilebase : List Char := "ziti-edge-tunnel.sock".toList

/-- The table `eventsockfilebase`. -/
def eventsockfilebase : List Char := "ziti-edge-tunnel-event.sock".toList

/-- The function `find_other_zets`.  `scan` is the listing obtained by
`uv_fs_scandir` of `SOCKET_PATH`, `none` for a negative return.  Returns the list
`ipcs` with the matching names appended and the count returned. -/
def find_other_zets (ipcs : List (List Char)) (scan : Option (List (List Char)))
    ( ipc_prefix : List Char) : List (List Char) × Nat :=
  match scan with
  | none => (ipcs, 0)
  | some files =>
    let len := List.length ipc_prefix
    let found := ipcs ++ files.filter (fun name => decide (name.take len = ipc_prefix))
    (found, found.length)

/-- The function `configure_ipc`.  `ipc_discriminator` is the global of that
name (`none` for `NULL`), `pid` the result of `getpid` and `scan` the listing of
the socket directory.  Returns `sockfile`, `eventsockfile` and the global
`ipc_discriminator` after the call.  With a discriminator the two buffers are
allocated one byte shorter than the text `sprintf` writes with its terminator;
the model gives the text. -/
def configure_ipc (automatic_ipc_discriminator : Bool) (ipc_discriminator : Option (List Char))
    (pid : Nat) (scan : Option (List (List Char))) :
    List Char × List Char × Option (List Char) :=
  let disc : Option (List Char) :=
    if ipc_discriminator = none ∧ automatic_ipc_discriminator = true then
      some ((Nat.repr pid).toList.take 9)
    else ipc_discriminator
  let count := (find_other_zets [] scan sockfilebase).2
  match disc with
  | some d =>
    if count > 0 then
      (SOCKET_PATH ++ sockfilebase ++ ['.'] ++ d, SOCKET_PATH ++ eventsockfilebase ++ ['.'] ++ d,
       some d)
    else (SOCKET_PATH ++ sockfilebase, SOCKET_PATH ++ eventsockfilebase, none)
  | none => (SOCKET_PATH ++ sockfilebase, SOCKET_PATH ++ eventsockfilebase, none)

/-! ## Sample answers of a resolver -/

/-- A request for `name` whose message carries the given answers, as left by
`on_proxy_data` before it calls `format_resp`. -/
def sample_answered (name : List Char) (qtype : Nat) (answers : List dns_answer) : dns_req :=
  { id := 7, req := sample_query 7 name qtype, resp := [],
    msg := { status := DNS_NO_ERROR, id := 7, recursive := 1,
             question0 := { name := name, type := qtype }, answer := some answers },
    addr := 0, clt := some 0 }

/-- A TXT answer whose text is `n` letters. -/
def sample_txt (n : Nat) : dns_answer :=
  { name := [], type := NS_T_TXT, ttl := 60, priority := 0, weight := 0, port := 0,
    data := List.replicate n 'a' }

/-- The bytes of the record `format_resp` stores for `sample_txt n`, `n < 256`. -/
def sample_txt_record (n : Nat) : List Nat :=
  [0xc0, 0x0c, 0, 16, 0, 1, 0, 0, 0, 60, 0, n + 1, n] ++ List.replicate n 97

/-- A host name of `labels + 1` labels of `n` letters each. -/
def sample_host (n : Nat) : Nat → List Char
  | 0 => List.replicate n 'a'
  | labels + 1 => List.replicate n 'a' ++ '.' :: sample_host n labels

/-- An MX answer with the exchange `sample_host n labels`. -/
def sample_mx (n labels : Nat) : dns_answer :=
  { name := [], type := NS_T_MX, ttl := 60, priority := 10, weight := 0, port := 0,
    data := sample_host n labels }

/-! ## Claimant sets -/

/-- What the calls keep of the claimant sets, whatever the pool: the entries of
the `hostnames` map are heap objects with a claimant of their own or of their
domain, and the domains of the `domains` map are heap objects with a
claimant. -/
structure claims_ok (s : ziti_dns_s) : Prop where
  host_bound : ∀ n p, (n, p) ∈ s.hostnames → p < s.entry_heap.length
  host_live : ∀ n p, (n, p) ∈ s.hostnames → entry_live s p
  dom_bound : ∀ k d, (k, d) ∈ s.domains → d < s.domain_heap.length
  dom_live : ∀ k d, (k, d) ∈ s.domains → (domain_at s d).intercepts ≠ []

/-- The state the lookup of a name with a claimed wildcard domain leaves when it
creates the entry `p`. -/
def lookup_linked (s1 : ziti_dns_s) (p d : Nat) : ziti_dns_s :=
  { s1 with
    entry_heap := s1.entry_heap.set p
      (dns_entry_t.mk (entry_at s1 p).name (entry_at s1 p).addr (some d)
        (entry_at s1 p).intercepts) }

/-! ## Sample states of pools with the prefix length 31 -/

/-- The pool `10.0.0.0/31` of `sample_slash31` after `a`, `b` and `c` were
registered by the claimants 1, 2 and 3. -/
def sample_slash31_names : ziti_dns_s :=
  dns_run sample_slash31
    [dns_call.register (ziti_address.hostname ['a']) 1,
     dns_call.register (ziti_address.hostname ['b']) 2,
     dns_call.register (ziti_address.hostname ['c']) 3]

/-- The pool `10.0.0.0/31` of `sample_slash31` with the wildcard `*.x` registered
by claimant 9, the names `h1.x`, `h2.x` and `h3.x` created by lookups, and `h3.x`
then registered by claimant 3. -/
def sample_slash31_wild : ziti_dns_s :=
  dns_run sample_slash31
    [dns_call.register (ziti_address.hostname ['*', '.', 'x']) 9,
     dns_call.lookup ['h', '1', '.', 'x'],
     dns_call.lookup ['h', '2', '.', 'x'],
     dns_call.lookup ['h', '3', '.', 'x'],
     dns_call.register (ziti_address.hostname ['h', '3', '.', 'x']) 3]

/-- The state after `ziti_dns_setup` for the pool `255.255.255.254/31` with the
DNS server at `10.0.0.2`: the tun address `255.255.255.254` and the DNS address
are reserved. -/
def sample_slash31_top : ziti_dns_s :=
  ziti_dns_setup 33554442 4278190079 (some (255, 255, 255, 254, 31))

/-! ## Sample run of the resolver with a reused ID -/

/-- The resolver of `sample_engine_up` over `sample_foo` after client 0 sent the
query `0x1111` for `unknown.test`, which went to the upstream server. -/
def sample_in_flight : dns_engine :=
  (on_dns_req (sample_engine_up sample_foo) (sample_env_up 0x1111 "unknown.test".toList 1) 0
    (sample_query 0x1111 "unknown.test".toList 1)).1

/-- The calls that follow the close of client 0 in the sample run: a second
client comes (pointer 1) and sends the query `0x1111` for `other.test`, which
goes to the upstream server. -/
def sample_reuse : List dns_event :=
  [dns_event.client,
   dns_event.req (sample_env_up 0x1111 "other.test".toList 1) 1
     (sample_query 0x1111 "other.test".toList 1)]

/-! ## Lemmas on model_map -/

section ModelMapLemmas

variable {K V : Type} [DecidableEq K]

theorem model_map_get_mem {m : List (K × V)} {k : K} {v : V}
    (h : model_map_get m k = some v) : (k, v) ∈ m := by
  induction m with
  | nil => simp [model_map_get] at h
  | cons x m ih =>
    obtain ⟨k', v'⟩ := x
    by_cases hk : k' = k
    · simp [model_map_get, hk] at h
      simp [hk, h]
    · simp [model_map_get, hk] at h
      exact List.mem_cons_of_mem _ (ih h)

theorem model_map_get_of_mem {m : List (K × V)} {k : K} {v : V}
    (hn : (m.map Prod.fst).Nodup) (h : (k, v) ∈ m) : model_map_get m k = some v := by
  induction m with
  | nil => simp at h
  | cons x m ih =>
    obtain ⟨k', v'⟩ := x
    simp only [List.map_cons, List.nodup_cons] at hn
    rcases List.mem_cons.mp h with h1 | h1
    · injection h1 with h2 h3
      subst h2; subst h3
      simp [model_map_get]
    · have hne : k' ≠ k := by
        intro hk
        apply hn.1
        rw [hk]
        exact List.mem_map_of_mem Prod.fst h1
      simp [model_map_get, hne, ih hn.2 h1]

theorem model_map_get_eq_none {m : List (K × V)} {k : K} :
    model_map_get m k = none ↔ k ∉ m.map Prod.fst := by
  induction m with
  | nil => simp [model_map_get]
  | cons x m ih =>
    obtain ⟨k', v'⟩ := x
    by_cases hk : k' = k
    · simp [model_map_get, hk]
    · simp only [model_map_get, hk, if_false, ih, List.map_cons, List.mem_cons, not_or]
      constructor
      · intro h
        exact ⟨fun h1 => hk h1.symm, h⟩
      · intro h
        exact h.2

theorem model_map_get_none_not_mem {m : List (K × V)} {k : K} {v : V}
    (h : model_map_get m k = none) : (k, v) ∉ m := by
  intro hm
  exact model_map_get_eq_none.mp h (List.mem_map_of_mem Prod.fst hm)

theorem model_map_set_absent {m : List (K × V)} {k : K} {v : V}
    (h : model_map_get m k = none) : model_map_set m k v = m ++ [(k, v)] := by
  induction m with
  | nil => simp [model_map_set]
  | cons x m ih =>
    obtain ⟨k', v'⟩ := x
    by_cases hk : k' = k
    · simp [model_map_get, hk] at h
    · simp [model_map_get, hk] at h
      simp [model_map_set, hk, ih h]

theorem model_map_get_set_same (m : List (K × V)) (k : K) (v : V) :
    model_map_get (model_map_set m k v) k = some v := by
  induction m with
  | nil => simp [model_map_set, model_map_get]
  | cons x m ih =>
    obtain ⟨k', v'⟩ := x
    by_cases hk : k' = k
    · simp [model_map_set, model_map_get, hk]
    · simp [model_map_set, model_map_get, hk, ih]

theorem model_map_get_set_ne (m : List (K × V)) {k k1 : K} (v : V) (hne : k1 ≠ k) :
    model_map_get (model_map_set m k v) k1 = model_map_get m k1 := by
  induction m with
  | nil =>
    have : ¬ k = k1 := fun h => hne h.symm
    simp [model_map_set, model_map_get, this]
  | cons x m ih =>
    obtain ⟨k', v'⟩ := x
    by_cases hk : k' = k
    · subst hk
      have : ¬ k' = k1 := fun h => hne h.symm
      simp [model_map_set, model_map_get, this]
    · by_cases hk1 : k' = k1
      · subst hk1
        simp [model_map_set, model_map_get, hk]
      · simp [model_map_set, model_map_get, hk, hk1, ih]

theorem model_map_set_same_value {m : List (K × V)} {k : K} {v : V}
    (h : model_map_get m k = some v) : model_map_set m k v = m := by
  induction m with
  | nil => simp [model_map_get] at h
  | cons x m ih =>
    obtain ⟨k', v'⟩ := x
    by_cases hk : k' = k
    · simp [model_map_get, hk] at h
      simp [model_map_set, hk, h]
    · simp [model_map_get, hk] at h
      simp [model_map_set, hk, ih h]

theorem model_map_set_ne_nil (m : List (K × V)) (k : K) (v : V) :
    model_map_set m k v ≠ [] := by
  cases m with
  | nil => simp [model_map_set]
  | cons x m =>
    obtain ⟨k', v'⟩ := x
    by_cases hk : k' = k <;> simp [model_map_set, hk]

theorem model_map_mem_remove {m : List (K × V)} {k : K} {x : K × V} :
    x ∈ model_map_remove m k ↔ x ∈ m ∧ x.1 ≠ k := by
  simp [model_map_remove, List.mem_filter]

theorem model_map_remove_sublist (m : List (K × V)) (k : K) :
    List.Sublist (model_map_remove m k) m := by
  unfold model_map_remove
  exact List.filter_sublist m

theorem model_map_remove_idem (m : List (K × V)) (k : K) :
    model_map_remove (model_map_remove m k) k = model_map_remove m k := by
  simp [model_map_remove, List.filter_filter]

theorem model_map_get_remove_same (m : List (K × V)) (k : K) :
    model_map_get (model_map_remove m k) k = none := by
  rw [model_map_get_eq_none]
  intro h
  obtain ⟨x, hx, hk⟩ := List.mem_map.mp h
  exact (model_map_mem_remove.mp hx).2 hk

theorem model_map_get_remove_ne (m : List (K × V)) {k k1 : K} (hne : k1 ≠ k) :
    model_map_get (model_map_remove m k) k1 = model_map_get m k1 := by
  induction m with
  | nil => simp [model_map_remove, model_map_get]
  | cons x m ih =>
    obtain ⟨k', v'⟩ := x
    by_cases hk : k' = k
    · subst hk
      have h1 : ¬ k' = k1 := fun h => hne h.symm
      have : model_map_remove ((k', v') :: m) k' = model_map_remove m k' := by
        simp [model_map_remove]
      rw [this, ih]
      simp [model_map_get, h1]
    · have : model_map_remove ((k', v') :: m) k = (k', v') :: model_map_remove m k := by
        simp [model_map_remove, hk]
      rw [this]
      by_cases hk1 : k' = k1
      · simp [model_map_get, hk1]
      · simp [model_map_get, hk1, ih]

end ModelMapLemmas

theorem model_map_size_eq_zero {K V : Type} {m : List (K × V)} :
    model_map_size m = 0 ↔ m = [] := by
  simp [model_map_size]

/-! ## Arithmetic of the pool -/

theorem htonl_lt (x : Nat) : htonl x < 4294967296 := by
  unfold htonl
  omega

theorem htonl_bytes (b0 b1 b2 b3 : Nat) (h0 : b0 < 256) (h1 : b1 < 256) (h2 : b2 < 256)
    (h3 : b3 < 256) :
    htonl (b0 + 256 * b1 + 65536 * b2 + 16777216 * b3)
      = b3 + 256 * b2 + 65536 * b1 + 16777216 * b0 := by
  unfold htonl
  omega

theorem htonl_htonl (x : Nat) (h : x < 4294967296) : htonl (htonl x) = x := by
  have hx : x = x % 256 + 256 * (x / 256 % 256) + 65536 * (x / 65536 % 256)
      + 16777216 * (x / 16777216) := by omega
  have h3 : x / 16777216 < 256 := by omega
  have e1 := htonl_bytes (x % 256) (x / 256 % 256) (x / 65536 % 256) (x / 16777216)
    (Nat.mod_lt _ (by norm_num)) (Nat.mod_lt _ (by norm_num)) (Nat.mod_lt _ (by norm_num)) h3
  have e2 := htonl_bytes (x / 16777216) (x / 65536 % 256) (x / 256 % 256) (x % 256)
    h3 (Nat.mod_lt _ (by norm_num)) (Nat.mod_lt _ (by norm_num)) (Nat.mod_lt _ (by norm_num))
  rw [← hx] at e1
  rw [e1, e2]
  omega

theorem htonl_ne_none (x : Nat) (h : x < 4294967295) : htonl x ≠ INADDR_NONE := by
  unfold htonl INADDR_NONE
  omega

theorem tolower_star : tolower '*' = '*' := by decide

theorem tolower_dot : tolower '.' = '.' := by decide

theorem tolower_idem (c : Char) : tolower (tolower c) = tolower c := by
  unfold tolower Char.toLower
  by_cases h : c.toNat ≥ 65 ∧ c.toNat ≤ 90
  · simp only [h, and_self, if_true]
    have h1 : c.toNat + 32 < 0xd800 := by omega
    have h2 : (Char.ofNat (c.toNat + 32)).toNat = c.toNat + 32 := by
      rw [Char.ofNat, dif_pos (Or.inl h1)]
      rfl
    simp only [h2]
    have : ¬ (c.toNat + 32 ≥ 65 ∧ c.toNat + 32 ≤ 90) := by omega
    simp only [this, if_false]
  · simp only [h, if_false]

/-! ## Lemmas on check_name -/

theorem tolower_eq_star {c : Char} (h : tolower c = '*') : c = '*' := by
  unfold tolower Char.toLower at h
  by_cases hc : c.toNat ≥ 65 ∧ c.toNat ≤ 90
  · simp only [hc, and_self, if_true] at h
    have h1 : c.toNat + 32 < 0xd800 := by omega
    have h2 : (Char.ofNat (c.toNat + 32)).toNat = c.toNat + 32 := by
      rw [Char.ofNat, dif_pos (Or.inl h1)]
      rfl
    rw [h] at h2
    have : ('*' : Char).toNat = 42 := by decide
    omega
  · simpa only [hc, if_false] using h

theorem tolower_eq_dot {c : Char} (h : tolower c = '.') : c = '.' := by
  unfold tolower Char.toLower at h
  by_cases hc : c.toNat ≥ 65 ∧ c.toNat ≤ 90
  · simp only [hc, and_self, if_true] at h
    have h1 : c.toNat + 32 < 0xd800 := by omega
    have h2 : (Char.ofNat (c.toNat + 32)).toNat = c.toNat + 32 := by
      rw [Char.ofNat, dif_pos (Or.inl h1)]
      rfl
    rw [h] at h2
    have : ('.' : Char).toNat = 46 := by decide
    omega
  · simpa only [hc, if_false] using h

theorem check_name_loop_ok (hp written : List Char)
    (h : written.length + hp.length < MAX_DNS_NAME) :
    check_name_loop hp written = (true, written ++ hp.map tolower) := by
  induction hp generalizing written with
  | nil => simp [check_name_loop]
  | cons c hp ih =>
    have h1 : ¬ (written ++ [tolower c]).length ≥ MAX_DNS_NAME := by
      simp only [List.length_append, List.length_cons, List.length_nil] at h ⊢
      omega
    have h2 : (written ++ [tolower c]).length + hp.length < MAX_DNS_NAME := by
      simp only [List.length_append, List.length_cons, List.length_nil] at h ⊢
      omega
    simp only [check_name_loop, h1, if_false, ih _ h2]
    simp

theorem check_name_loop_long (hp written : List Char) (hne : hp ≠ [])
    (hw : written.length < MAX_DNS_NAME)
    (h : MAX_DNS_NAME ≤ written.length + hp.length) :
    check_name_loop hp written = (false, []) := by
  induction hp generalizing written with
  | nil => exact absurd rfl hne
  | cons c hp ih =>
    by_cases h1 : (written ++ [tolower c]).length ≥ MAX_DNS_NAME
    · simp only [check_name_loop, h1, if_true]
    · simp only [check_name_loop, h1, if_false]
      have hl : (written ++ [tolower c]).length = written.length + 1 := by simp
      apply ih
      · intro h0
        subst h0
        simp only [List.length_cons, List.length_nil] at h
        omega
      · omega
      · simp only [List.length_cons] at h
        omega

theorem check_name_plain (name : List Char)
    (hw : ¬ ∃ rest, name = '*' :: '.' :: rest) :
    check_name name = (if name.length < MAX_DNS_NAME then (true, name.map tolower, false)
      else (false, [], false)) := by
  have key : check_name name = ((check_name_loop name []).1, (check_name_loop name []).2, false) := by
    unfold check_name
    split
    · exact absurd ⟨_, rfl⟩ hw
    · rfl
  rw [key]
  by_cases hl : name.length < MAX_DNS_NAME
  · rw [check_name_loop_ok name [] (by simpa using hl)]
    simp [hl]
  · have hne : name ≠ [] := by
      intro h0
      subst h0
      simp [MAX_DNS_NAME] at hl
    rw [check_name_loop_long name [] hne (by simp [MAX_DNS_NAME]) (by simpa using hl)]
    simp [hl]

theorem check_name_wild (rest : List Char) :
    check_name ('*' :: '.' :: rest) =
      (if rest = [] ∨ rest.length + 2 < MAX_DNS_NAME
       then (true, '*' :: '.' :: rest.map tolower, true) else (false, [], true)) := by
  have key : check_name ('*' :: '.' :: rest)
      = ((check_name_loop rest ['*', '.']).1, (check_name_loop rest ['*', '.']).2, true) := by
    rfl
  rw [key]
  by_cases hl : rest = [] ∨ rest.length + 2 < MAX_DNS_NAME
  · rw [if_pos hl]
    rcases hl with h0 | h1
    · subst h0
      simp [check_name_loop]
    · rw [check_name_loop_ok rest ['*', '.'] (by simp; omega)]
      simp
  · rw [if_neg hl]
    simp only [not_or] at hl
    rw [check_name_loop_long rest ['*', '.'] hl.1 (by simp [MAX_DNS_NAME]) (by simp; omega)]

theorem check_name_is_domain (name : List Char) :
    (check_name name).2.2 = true ↔ ∃ rest, name = '*' :: '.' :: rest := by
  by_cases hw : ∃ rest, name = '*' :: '.' :: rest
  · obtain ⟨rest, rfl⟩ := hw
    rw [check_name_wild]
    constructor
    · intro _
      exact ⟨rest, rfl⟩
    · intro _
      split <;> rfl
  · rw [check_name_plain name hw]
    constructor
    · intro h
      split at h <;> simp at h
    · intro h
      exact absurd h hw

theorem map_tolower_not_wild (name : List Char)
    (hw : ¬ ∃ rest, name = '*' :: '.' :: rest) :
    ¬ ∃ rest, name.map tolower = '*' :: '.' :: rest := by
  rintro ⟨rest, h⟩
  apply hw
  match name, h with
  | [], h => simp at h
  | [_], h => simp at h
  | c0 :: c1 :: tl, h =>
    simp only [List.map_cons, List.cons.injEq] at h
    rw [tolower_eq_star h.1, tolower_eq_dot h.2.1]
    exact ⟨tl, rfl⟩

theorem map_tolower_idem (name : List Char) :
    (name.map tolower).map tolower = name.map tolower := by
  induction name with
  | nil => rfl
  | cons c tl ih => simp [tolower_idem]

/-- The cleaned name of a name that is not a wildcard is a fixed point of `check_name`. -/
theorem check_name_clean_fixed (name : List Char) (hd : (check_name name).2.2 = false) :
    check_name (check_name name).2.1 = (true, (check_name name).2.1, false) := by
  have hw : ¬ ∃ rest, name = '*' :: '.' :: rest := by
    intro h
    rw [(check_name_is_domain name).mpr h] at hd
    exact absurd hd (by simp)
  rw [check_name_plain name hw]
  by_cases hl : name.length < MAX_DNS_NAME
  · simp only [hl, if_true]
    rw [check_name_plain _ (map_tolower_not_wild name hw), map_tolower_idem]
    simp [hl]
  · simp only [hl, if_false]
    decide

theorem check_name_clean_length (name : List Char) :
    (check_name name).2.1.length < MAX_DNS_NAME := by
  by_cases hw : ∃ rest, name = '*' :: '.' :: rest
  · obtain ⟨rest, rfl⟩ := hw
    rw [check_name_wild]
    split
    · rename_i h
      rcases h with h | h
      · subst h
        simp [MAX_DNS_NAME]
      · simp only [List.length_cons, List.length_map]
        omega
    · simp [MAX_DNS_NAME]
  · rw [check_name_plain name hw]
    split
    · simpa using ‹name.length < MAX_DNS_NAME›
    · simp [MAX_DNS_NAME]

theorem take_max_of_clean (name : List Char) :
    (check_name name).2.1.take MAX_DNS_NAME = (check_name name).2.1 :=
  List.take_of_length_le (Nat.le_of_lt (check_name_clean_length name))

/-! ## Lemmas on the pool and `next_ipv4` -/

theorem pool_candidate {p : ip_pool_t} {k : Nat} (hp : pool_shape p k) {c : Nat}
    (hc : c < p.counter_mask) : p.base ||| (c &&& p.counter_mask) = p.base + c := by
  obtain ⟨hk2, hk31, hm, hcap, hb, hb32⟩ := hp
  have hpos : 0 < 2 ^ k := Nat.pow_pos (by norm_num)
  have hc2 : c < 2 ^ k := by omega
  rw [hm, Nat.and_pow_two_sub_one_of_lt_two_pow hc2]
  have hbase : p.base = 2 ^ k * (p.base / 2 ^ k) := by
    have := Nat.div_add_mod p.base (2 ^ k)
    omega
  rw [hbase, ← Nat.mul_add_lt_is_or hc2]

theorem pool_mask_ge {p : ip_pool_t} {k : Nat} (hp : pool_shape p k) :
    3 ≤ p.counter_mask ∧ p.capacity + 1 = p.counter_mask ∧
      p.base + p.counter_mask < 4294967296 := by
  obtain ⟨hk2, hk31, hm, hcap, hb, hb32⟩ := hp
  have h4 : 2 ^ 2 ≤ 2 ^ k := Nat.pow_le_pow_right (by norm_num) hk2
  have h31 : 2 ^ k ∣ 2 ^ 32 := Nat.pow_dvd_pow 2 (by omega)
  have hd : 2 ^ k ∣ p.base := Nat.dvd_of_mod_eq_zero hb
  refine ⟨by omega, by omega, ?_⟩
  obtain ⟨q, hq⟩ := hd
  obtain ⟨r, hr⟩ := h31
  have hpos : 0 < 2 ^ k := Nat.pow_pos (by norm_num)
  have hqr : q < r := by
    by_contra hge
    have : 2 ^ k * r ≤ 2 ^ k * q := Nat.mul_le_mul_left _ (Nat.le_of_not_lt hge)
    have e32 : (2:Nat) ^ 32 = 4294967296 := by norm_num
    omega
  have : 2 ^ k * (q + 1) ≤ 2 ^ k * r := Nat.mul_le_mul_left _ hqr
  have e32 : (2:Nat) ^ 32 = 4294967296 := by norm_num
  rw [Nat.mul_add, Nat.mul_one] at this
  omega

theorem next_ipv4_loop_spec {pool : ip_pool_t} {k : Nat} (hp : pool_shape pool k)
    (ips : List (Nat × Nat)) (fuel counter i : Nat)
    (hc1 : 1 ≤ counter) (hc2 : counter < pool.counter_mask)
    (hi : i < pool.capacity) (hf : pool.capacity ≤ i + fuel) :
    (1 ≤ (next_ipv4_loop pool ips fuel counter i).2.1 ∧
      (next_ipv4_loop pool ips fuel counter i).2.1 < pool.counter_mask) ∧
    (∃ h, 1 ≤ h ∧ h < pool.counter_mask ∧
      (next_ipv4_loop pool ips fuel counter i).1 = htonl (pool.base + h)) ∧
    (next_ipv4_loop pool ips fuel counter i).2.2 ≤ pool.capacity ∧
    ((next_ipv4_loop pool ips fuel counter i).2.2 < pool.capacity →
      model_map_get ips (next_ipv4_loop pool ips fuel counter i).1 = none) := by
  have hm := pool_mask_ge hp
  induction fuel generalizing counter i with
  | zero =>
    unfold next_ipv4_loop
    have hcond : ¬ ((model_map_get ips (htonl (pool.base ||| (counter &&& pool.counter_mask)))).isSome
        ∧ i + 1 < pool.capacity) := by
      intro h
      omega
    simp only [hcond, if_false]
    have e1 : (counter + 1) % 4294967296 = counter + 1 := Nat.mod_eq_of_lt (by omega)
    rw [e1, pool_candidate hp hc2]
    refine ⟨?_, ⟨counter, hc1, hc2, rfl⟩, by omega, by intro h; omega⟩
    split <;> omega
  | succ fuel ih =>
    unfold next_ipv4_loop
    have e1 : (counter + 1) % 4294967296 = counter + 1 := Nat.mod_eq_of_lt (by omega)
    simp only [e1]
    by_cases hcond : (model_map_get ips (htonl (pool.base ||| (counter &&& pool.counter_mask)))).isSome
        ∧ i + 1 < pool.capacity
    · simp only [hcond, and_self, if_true]
      apply ih
      · split <;> omega
      · split <;> omega
      · exact hcond.2
      · omega
    · simp only [hcond, if_false]
      rw [pool_candidate hp hc2]
      refine ⟨?_, ⟨counter, hc1, hc2, rfl⟩, by omega, ?_⟩
      · split <;> omega
      · intro h
        rw [pool_candidate hp hc2] at hcond
        simp only [not_and_or] at hcond
        rcases hcond with h1 | h1
        · simpa using h1
        · exact absurd h h1

/-- Enough fuel: the loop of `next_ipv4` gives the same result for every fuel of
at least `capacity - i - 1`, so the fuel `capacity` that `next_ipv4` passes never
runs out. -/
theorem next_ipv4_loop_fuel (pool : ip_pool_t) (ips : List (Nat × Nat))
    (fuel fuel' counter i : Nat) (h1 : pool.capacity ≤ i + 1 + fuel)
    (h2 : pool.capacity ≤ i + 1 + fuel') :
    next_ipv4_loop pool ips fuel counter i = next_ipv4_loop pool ips fuel' counter i := by
  induction fuel generalizing fuel' counter i with
  | zero =>
    unfold next_ipv4_loop
    have hcond : ¬ ((model_map_get ips (htonl (pool.base ||| (counter &&& pool.counter_mask)))).isSome
        ∧ i + 1 < pool.capacity) := by
      intro h
      omega
    simp only [hcond, if_false]
  | succ fuel ih =>
    cases fuel' with
    | zero =>
      unfold next_ipv4_loop
      have hcond : ¬ ((model_map_get ips
          (htonl (pool.base ||| (counter &&& pool.counter_mask)))).isSome
          ∧ i + 1 < pool.capacity) := by
        intro h
        omega
      simp only [hcond, if_false]
    | succ fuel' =>
      rw [next_ipv4_loop, next_ipv4_loop]
      split
      · exact ih fuel' _ _ (by omega) (by omega)
      · rfl

/-! ## Lemmas on the heaps -/

theorem heap_getD_set {α : Type} (l : List α) (i j : Nat) (a d : α) :
    (l.set i a).getD j d = if i = j ∧ i < l.length then a else l.getD j d := by
  simp only [List.getD_eq_getElem?_getD, List.getElem?_set]
  by_cases hij : i = j
  · subst hij
    by_cases hl : i < l.length
    · simp [hl]
    · simp only [hl, if_false, and_false]
      rw [List.getElem?_eq_none (Nat.le_of_not_lt hl)]
      rfl
  · simp [hij]

theorem heap_getD_append_one {α : Type} (l : List α) (j : Nat) (a d : α) :
    (l ++ [a]).getD j d =
      if j < l.length then l.getD j d else if j = l.length then a else d := by
  by_cases h1 : j < l.length
  · rw [if_pos h1, List.getD_append _ _ _ _ h1]
  · rw [if_neg h1, List.getD_append_right _ _ _ _ (Nat.le_of_not_lt h1)]
    by_cases h2 : j = l.length
    · subst h2
      simp
    · rw [if_neg h2]
      have : 1 ≤ j - l.length := by omega
      simp only [List.getD_eq_getElem?_getD]
      rw [List.getElem?_eq_none (by simpa using this)]
      rfl

theorem heap_set_append_one {α : Type} (l : List α) (a b : α) :
    (l ++ [a]).set l.length b = l ++ [b] := by
  rw [List.set_append_right _ _ (Nat.le_refl _)]
  simp

theorem heap_getD_length {α : Type} (l : List α) (j : Nat) (d : α) (h : l.length ≤ j) :
    l.getD j d = d := by
  simp only [List.getD_eq_getElem?_getD]
  rw [List.getElem?_eq_none h]
  rfl

theorem entry_live_iff (s : ziti_dns_s) (p : Nat) :
    entry_active s p = true ↔ entry_live s p := by
  unfold entry_active entry_live model_map_size
  cases hd : (entry_at s p).domain with
  | none =>
    simp only [Bool.or_false, decide_eq_true_eq, gt_iff_lt, List.length_pos]
    constructor
    · intro h
      exact Or.inl h
    · rintro (h | ⟨d, h, _⟩)
      · exact h
      · exact absurd h (by simp)
  | some d =>
    simp only [Bool.or_eq_true, decide_eq_true_eq, gt_iff_lt, List.length_pos]
    constructor
    · rintro (h | h)
      · exact Or.inl h
      · exact Or.inr ⟨d, rfl, h⟩
    · rintro (h | ⟨d', h1, h2⟩)
      · exact Or.inl h
      · injection h1 with h1
        subst h1
        exact Or.inr h2

theorem next_ipv4_spec (s : ziti_dns_s) (hp : pool_ok s.ip_pool) :
    ∃ c, 1 ≤ c ∧ c < s.ip_pool.counter_mask ∧
      (next_ipv4 s).1 = { s with ip_pool := { s.ip_pool with counter := c } } ∧
      ((next_ipv4 s).2 ≠ INADDR_NONE →
        model_map_get s.ip_addresses (next_ipv4 s).2 = none ∧
        ∃ h, 1 ≤ h ∧ h < s.ip_pool.counter_mask ∧
          (next_ipv4 s).2 = htonl (s.ip_pool.base + h)) := by
  obtain ⟨k, hk, hc1, hc2⟩ := hp
  have hm := pool_mask_ge hk
  unfold next_ipv4
  by_cases hfull : model_map_size s.ip_addresses = s.ip_pool.capacity
  · simp only [hfull, if_true]
    exact ⟨s.ip_pool.counter, hc1, hc2, rfl, fun h => absurd rfl h⟩
  · simp only [hfull, if_false]
    have hs := next_ipv4_loop_spec hk s.ip_addresses s.ip_pool.capacity s.ip_pool.counter 0
      hc1 hc2 (by omega) (by omega)
    obtain ⟨⟨h1, h2⟩, h3, h4, h5⟩ := hs
    refine ⟨_, h1, h2, ?_, ?_⟩
    · split <;> rfl
    · split
      · intro h
        exact absurd rfl h
      · rename_i hne
        intro _
        exact ⟨h5 (by omega), h3⟩

theorem next_ipv4_heap_irrelevant (s : ziti_dns_s) (heap : List dns_entry_t) :
    (next_ipv4 { s with entry_heap := heap }).2 = (next_ipv4 s).2 := by
  unfold next_ipv4
  simp only
  split
  · rfl
  · split <;> rfl

theorem new_ipv4_entry_spec (s : ziti_dns_s) (host : List Char) (hp : pool_ok s.ip_pool)
    (hlen : host.take MAX_DNS_NAME = host)
    (hfresh : model_map_get s.hostnames host = none) :
    ∃ c, 1 ≤ c ∧ c < s.ip_pool.counter_mask ∧
      (new_ipv4_entry s host =
          ({ s with ip_pool := { s.ip_pool with counter := c },
                    entry_heap := s.entry_heap ++ [{ calloc_entry with name := host }] }, none) ∧
          (next_ipv4 s).2 = INADDR_NONE ∨
        ∃ a h, 1 ≤ h ∧ h < s.ip_pool.counter_mask ∧ a = htonl (s.ip_pool.base + h) ∧
          model_map_get s.ip_addresses a = none ∧
          new_ipv4_entry s host =
            ({ ip_pool := { s.ip_pool with counter := c },
               hostnames := s.hostnames ++ [(host, s.entry_heap.length)],
               ip_addresses := s.ip_addresses ++ [(a, s.entry_heap.length)],
               domains := s.domains,
               entry_heap := s.entry_heap ++
                 [{ name := host, addr := a, domain := none, intercepts := [] }],
               domain_heap := s.domain_heap }, some s.entry_heap.length) ∧
          a = (next_ipv4 s).2) := by
  have hs := next_ipv4_spec
    { s with entry_heap := s.entry_heap ++ [{ calloc_entry with name := host }] } hp
  obtain ⟨c, hc1, hc2, hst, hres⟩ := hs
  refine ⟨c, hc1, hc2, ?_⟩
  unfold new_ipv4_entry
  simp only [hlen]
  by_cases hn : (next_ipv4
      { s with entry_heap := s.entry_heap ++ [{ calloc_entry with name := host }] }).2
        = INADDR_NONE
  · left
    refine ⟨?_, ?_⟩
    · simp only [hn, if_true, hst]
    · rw [← next_ipv4_heap_irrelevant s
        (s.entry_heap ++ [{ calloc_entry with name := host }])]
      exact hn
  · right
    obtain ⟨hfree, h, hh1, hh2, hh3⟩ := hres hn
    refine ⟨_, h, hh1, hh2, hh3, hfree, ?_, next_ipv4_heap_irrelevant s _⟩
    simp only [hn, if_false, hst]
    simp only [entry_at, heap_set_append_one, model_map_set_absent hfresh,
      model_map_set_absent hfree, heap_getD_append_one, Nat.lt_irrefl, if_false, if_true]
    rfl

/-! ## Lemmas on `find_domain` -/

theorem find_domain_loop_none {doms : List (List Char × Nat)} {n : List Char}
    (h : find_domain_loop doms n = none) (front t : List Char)
    (hn : n = front ++ '.' :: t) : model_map_get doms t = none := by
  induction n generalizing front with
  | nil =>
    cases front <;> simp at hn
  | cons c rest ih =>
    unfold find_domain_loop at h
    cases front with
    | nil =>
      simp only [List.nil_append, List.cons.injEq] at hn
      obtain ⟨hc, hr⟩ := hn
      subst hc hr
      simp only [if_true] at h
      cases hg : model_map_get doms rest with
      | none => rfl
      | some d => simp [hg] at h
    | cons c' front' =>
      simp only [List.cons_append, List.cons.injEq] at hn
      obtain ⟨_, hr⟩ := hn
      by_cases hc : c = '.'
      · simp only [hc, if_true] at h
        cases hg : model_map_get doms rest with
        | none =>
          simp only [hg] at h
          exact ih h front' hr
        | some d => simp [hg] at h
      · simp only [hc, if_false] at h
        exact ih h front' hr

theorem find_domain_loop_some {doms : List (List Char × Nat)} {n : List Char} {d : Nat}
    (h : find_domain_loop doms n = some d) :
    ∃ front t, n = front ++ '.' :: t ∧ model_map_get doms t = some d ∧
      ∀ front' t', n = front' ++ '.' :: t' → t.length < t'.length →
        model_map_get doms t' = none := by
  induction n with
  | nil => simp [find_domain_loop] at h
  | cons c rest ih =>
    unfold find_domain_loop at h
    have hrec : find_domain_loop doms rest = some d →
        (c = '.' → model_map_get doms rest = none) →
        ∃ front t, c :: rest = front ++ '.' :: t ∧ model_map_get doms t = some d ∧
          ∀ front' t', c :: rest = front' ++ '.' :: t' → t.length < t'.length →
            model_map_get doms t' = none := by
      intro h1 hfirst
      obtain ⟨front, t, e1, e2, e3⟩ := ih h1
      refine ⟨c :: front, t, by rw [e1]; rfl, e2, ?_⟩
      intro front' t' hn hlen
      cases front' with
      | nil =>
        simp only [List.nil_append, List.cons.injEq] at hn
        obtain ⟨hc, hr⟩ := hn
        rw [← hr]
        exact hfirst hc
      | cons c' f' =>
        simp only [List.cons_append, List.cons.injEq] at hn
        exact e3 f' t' hn.2 hlen
    by_cases hc : c = '.'
    · simp only [hc, if_true] at h
      cases hg : model_map_get doms rest with
      | some d' =>
        simp only [hg, Option.some.injEq] at h
        subst h
        refine ⟨[], rest, by rw [hc]; rfl, hg, ?_⟩
        intro front' t' hn hlen
        have : (c :: rest).length = (front' ++ '.' :: t').length := by rw [hn]
        simp only [List.length_cons, List.length_append] at this
        omega
      | none =>
        simp only [hg] at h
        exact hrec h (fun _ => hg)
    · simp only [hc, if_false] at h
      exact hrec h (fun h0 => absurd h0 hc)

theorem label_suffix_length {t n : List Char} (h : label_suffix t n) : t.length ≤ n.length := by
  rcases h with h | ⟨front, h⟩
  · rw [h]
  · rw [h]
    simp only [List.length_append, List.length_cons]
    omega

/-- A miss of `find_domain`: no suffix of the name on a label boundary is a key
of the `domains` map. -/
theorem find_domain_none {s : ziti_dns_s} {n : List Char} (h : find_domain s n = none)
    (t : List Char) (ht : label_suffix t n) : model_map_get s.domains t = none := by
  unfold find_domain at h
  cases hg : model_map_get s.domains n with
  | some d => simp [hg] at h
  | none =>
    simp only [hg] at h
    rcases ht with ht | ⟨front, ht⟩
    · rw [ht]
      exact hg
    · exact find_domain_loop_none h front t ht

/-- A hit of `find_domain`: the domain is stored under a suffix of the name on
a label boundary, and no longer such suffix is a key of the `domains` map. -/
theorem find_domain_some {s : ziti_dns_s} {n : List Char} {d : Nat}
    (h : find_domain s n = some d) :
    ∃ t, label_suffix t n ∧ model_map_get s.domains t = some d ∧
      ∀ t', label_suffix t' n → t.length < t'.length → model_map_get s.domains t' = none := by
  unfold find_domain at h
  cases hg : model_map_get s.domains n with
  | some d' =>
    simp only [hg, Option.some.injEq] at h
    subst h
    refine ⟨n, Or.inl rfl, hg, ?_⟩
    intro t' ht' hlen
    have := label_suffix_length ht'
    omega
  | none =>
    simp only [hg] at h
    obtain ⟨front, t, e1, e2, e3⟩ := find_domain_loop_some h
    refine ⟨t, Or.inr ⟨front, e1⟩, e2, ?_⟩
    intro t' ht' hlen
    rcases ht' with ht' | ⟨front', ht'⟩
    · rw [ht']
      exact hg
    · exact e3 front' t' ht' hlen

/-! ## Preservation of `catalog_ok` by the elementary updates -/

theorem nodup_keys_append {K V : Type} [DecidableEq K] {m : List (K × V)} {k : K} {v : V}
    (hn : (m.map Prod.fst).Nodup) (hk : model_map_get m k = none) :
    ((m ++ [(k, v)]).map Prod.fst).Nodup := by
  rw [List.map_append, List.nodup_append]
  refine ⟨hn, by simp, ?_⟩
  intro x hx hx'
  simp only [List.map_cons, List.map_nil, List.mem_singleton] at hx'
  subst hx'
  exact model_map_get_eq_none.mp hk hx

theorem pool_ok_counter {p : ip_pool_t} (hp : pool_ok p) {c : Nat} (hc1 : 1 ≤ c)
    (hc2 : c < p.counter_mask) : pool_ok { p with counter := c } := by
  obtain ⟨k, hk, _, _⟩ := hp
  exact ⟨k, hk, hc1, hc2⟩

/-- A failed allocation: the counter moves and an unreferenced entry stays on
the heap. -/
theorem catalog_ok_leak {tun dns : Nat} {s : ziti_dns_s} (hs : catalog_ok tun dns s)
    {c : Nat} (hc1 : 1 ≤ c) (hc2 : c < s.ip_pool.counter_mask) (e : dns_entry_t)
    (he : e.domain = none) :
    catalog_ok tun dns { s with ip_pool := { s.ip_pool with counter := c },
                                entry_heap := s.entry_heap ++ [e] } := by
  have hat : ∀ p, p < s.entry_heap.length →
      entry_at { s with ip_pool := { s.ip_pool with counter := c },
                        entry_heap := s.entry_heap ++ [e] } p = entry_at s p := by
    intro p hp
    simp only [entry_at, heap_getD_append_one, hp, if_true]
  constructor
  · exact pool_ok_counter hs.pool hc1 hc2
  · simp only [List.length_append, List.length_cons, List.length_nil]
    have := hs.heap_two
    omega
  · exact hs.host_nodup
  · exact hs.ip_nodup
  · exact hs.dom_nodup
  · intro n p hm
    obtain ⟨h1, h2, h3, h4⟩ := hs.host_ptr n p hm
    rw [hat p h2]
    refine ⟨h1, ?_, h3, h4⟩
    simp only [List.length_append, List.length_cons, List.length_nil]
    omega
  · exact hs.host_norm
  · intro n p hm
    rw [hat p (hs.host_ptr n p hm).2.1]
    exact hs.host_addr n p hm
  · intro n p hm
    have := hs.host_live n p hm
    unfold entry_live at this ⊢
    rw [hat p (hs.host_ptr n p hm).2.1]
    exact this
  · intro a p hm
    obtain ⟨h1, h2, h3⟩ := hs.ip_ptr a p hm
    rw [hat p h1]
    refine ⟨?_, h2, h3⟩
    simp only [List.length_append, List.length_cons, List.length_nil]
    omega
  · exact hs.tun_reserved
  · exact hs.dns_reserved
  · exact hs.dom_ptr
  · intro p d hd
    by_cases hp : p < s.entry_heap.length
    · rw [hat p hp] at hd
      exact hs.ent_dom p d hd
    · simp only [entry_at, heap_getD_append_one, hp, if_false] at hd
      split at hd
      · rw [he] at hd
        exact absurd hd (by simp)
      · simp [calloc_entry] at hd
  · exact hs.dom_name
  · exact hs.dom_stale
  · intro n p d hm hd
    rw [hat p (hs.host_ptr n p hm).2.1] at hd
    exact hs.ent_link n p d hm hd

/-- A successful allocation: a new entry `e` for `host` at the fresh address `a`. -/
theorem catalog_ok_add_entry {tun dns : Nat} {s : ziti_dns_s} (hs : catalog_ok tun dns s)
    {host : List Char} (hn : check_name host = (true, host, false))
    (hfresh : model_map_get s.hostnames host = none)
    {a h c : Nat} (ha : model_map_get s.ip_addresses a = none)
    (hh1 : 1 ≤ h) (hh2 : h < s.ip_pool.counter_mask) (hah : a = htonl (s.ip_pool.base + h))
    (hc1 : 1 ≤ c) (hc2 : c < s.ip_pool.counter_mask)
    {e : dns_entry_t} (hen : e.name = host) (hea : e.addr = a)
    (hdom : ∀ d, e.domain = some d → d < s.domain_heap.length)
    (hact : e.intercepts ≠ [] ∨ ∃ d, e.domain = some d ∧ (domain_at s d).intercepts ≠ [])
    (hlink : ∀ d, e.domain = some d → label_suffix ((domain_at s d).name.drop 2) host) :
    catalog_ok tun dns
      { ip_pool := { s.ip_pool with counter := c },
        hostnames := s.hostnames ++ [(host, s.entry_heap.length)],
        ip_addresses := s.ip_addresses ++ [(a, s.entry_heap.length)],
        domains := s.domains,
        entry_heap := s.entry_heap ++ [e],
        domain_heap := s.domain_heap } := by
  have hat : ∀ p, p < s.entry_heap.length →
      entry_at
        { ip_pool := { s.ip_pool with counter := c },
          hostnames := s.hostnames ++ [(host, s.entry_heap.length)],
          ip_addresses := s.ip_addresses ++ [(a, s.entry_heap.length)],
          domains := s.domains,
          entry_heap := s.entry_heap ++ [e],
          domain_heap := s.domain_heap } p = entry_at s p := by
    intro p hp
    simp only [entry_at, heap_getD_append_one, hp, if_true]
  have hnew :
      entry_at
        { ip_pool := { s.ip_pool with counter := c },
          hostnames := s.hostnames ++ [(host, s.entry_heap.length)],
          ip_addresses := s.ip_addresses ++ [(a, s.entry_heap.length)],
          domains := s.domains,
          entry_heap := s.entry_heap ++ [e],
          domain_heap := s.domain_heap } s.entry_heap.length = e := by
    simp only [entry_at, heap_getD_append_one, Nat.lt_irrefl, if_false, if_true]
  have h2 := hs.heap_two
  constructor
  · exact pool_ok_counter hs.pool hc1 hc2
  · simp only [List.length_append, List.length_cons, List.length_nil]
    omega
  · exact nodup_keys_append hs.host_nodup hfresh
  · exact nodup_keys_append hs.ip_nodup ha
  · exact hs.dom_nodup
  · intro n p hm
    rcases List.mem_append.mp hm with hm | hm
    · obtain ⟨h1, h2, h3, h4⟩ := hs.host_ptr n p hm
      rw [hat p h2]
      refine ⟨h1, ?_, h3, List.mem_append_left _ h4⟩
      simp only [List.length_append, List.length_cons, List.length_nil]
      omega
    · simp only [List.mem_singleton, Prod.mk.injEq] at hm
      obtain ⟨rfl, rfl⟩ := hm
      rw [hnew]
      refine ⟨h2, by simp, hen, ?_⟩
      rw [hea]
      exact List.mem_append_right _ (List.mem_singleton.mpr rfl)
  · intro n p hm
    rcases List.mem_append.mp hm with hm | hm
    · exact hs.host_norm n p hm
    · simp only [List.mem_singleton, Prod.mk.injEq] at hm
      obtain ⟨rfl, rfl⟩ := hm
      exact hn
  · intro n p hm
    rcases List.mem_append.mp hm with hm | hm
    · rw [hat p (hs.host_ptr n p hm).2.1]
      exact hs.host_addr n p hm
    · simp only [List.mem_singleton, Prod.mk.injEq] at hm
      obtain ⟨rfl, rfl⟩ := hm
      rw [hnew]
      exact ⟨h, hh1, hh2, by rw [hea, hah]⟩
  · intro n p hm
    rcases List.mem_append.mp hm with hm | hm
    · have := hs.host_live n p hm
      unfold entry_live at this ⊢
      rw [hat p (hs.host_ptr n p hm).2.1]
      exact this
    · simp only [List.mem_singleton, Prod.mk.injEq] at hm
      obtain ⟨rfl, rfl⟩ := hm
      unfold entry_live
      rw [hnew]
      exact hact
  · intro a' p hm
    rcases List.mem_append.mp hm with hm | hm
    · obtain ⟨h1, h2, h3⟩ := hs.ip_ptr a' p hm
      rw [hat p h1]
      refine ⟨?_, h2, fun hp => ⟨List.mem_append_left _ (h3 hp).1, (h3 hp).2⟩⟩
      simp only [List.length_append, List.length_cons, List.length_nil]
      omega
    · simp only [List.mem_singleton, Prod.mk.injEq] at hm
      obtain ⟨rfl, rfl⟩ := hm
      rw [hnew]
      refine ⟨by simp, fun hp => by omega, fun _ => ⟨?_, hea⟩⟩
      rw [hen]
      exact List.mem_append_right _ (List.mem_singleton.mpr rfl)
  · obtain ⟨q, hq, hm⟩ := hs.tun_reserved
    exact ⟨q, hq, List.mem_append_left _ hm⟩
  · obtain ⟨q, hq, hm⟩ := hs.dns_reserved
    exact ⟨q, hq, List.mem_append_left _ hm⟩
  · exact hs.dom_ptr
  · intro p d hd
    by_cases hp : p < s.entry_heap.length
    · rw [hat p hp] at hd
      exact hs.ent_dom p d hd
    · by_cases hp2 : p = s.entry_heap.length
      · subst hp2
        rw [hnew] at hd
        exact hdom d hd
      · simp only [entry_at, heap_getD_append_one, hp, hp2, if_false] at hd
        simp [calloc_entry] at hd
  · exact hs.dom_name
  · exact hs.dom_stale
  · intro n p d hm hd
    rcases List.mem_append.mp hm with hm | hm
    · rw [hat p (hs.host_ptr n p hm).2.1] at hd
      exact hs.ent_link n p d hm hd
    · simp only [List.mem_singleton, Prod.mk.injEq] at hm
      obtain ⟨rfl, rfl⟩ := hm
      rw [hnew] at hd
      exact hlink d hd

/-- An entry of the heap is overwritten by one with the same name, address and
domain that has intercepts whenever the old one had. -/
theorem catalog_ok_touch_entry {tun dns : Nat} {s : ziti_dns_s} (hs : catalog_ok tun dns s)
    {p : Nat} {e : dns_entry_t} (hen : e.name = (entry_at s p).name)
    (hea : e.addr = (entry_at s p).addr) (hed : e.domain = (entry_at s p).domain)
    (hei : (entry_at s p).intercepts ≠ [] → e.intercepts ≠ [])
    (hp : p < s.entry_heap.length) :
    catalog_ok tun dns { s with entry_heap := s.entry_heap.set p e } := by
  have hat : ∀ q, entry_at { s with entry_heap := s.entry_heap.set p e } q
      = if p = q then e else entry_at s q := by
    intro q
    simp only [entry_at, heap_getD_set, hp, and_true]
  have hname : ∀ q, (entry_at { s with entry_heap := s.entry_heap.set p e } q).name
      = (entry_at s q).name := by
    intro q
    rw [hat]
    split
    · rename_i h
      rw [← h, hen]
    · rfl
  have haddr : ∀ q, (entry_at { s with entry_heap := s.entry_heap.set p e } q).addr
      = (entry_at s q).addr := by
    intro q
    rw [hat]
    split
    · rename_i h
      rw [← h, hea]
    · rfl
  have hdomn : ∀ q, (entry_at { s with entry_heap := s.entry_heap.set p e } q).domain
      = (entry_at s q).domain := by
    intro q
    rw [hat]
    split
    · rename_i h
      rw [← h, hed]
    · rfl
  have hint : ∀ q, (entry_at s q).intercepts ≠ [] →
      (entry_at { s with entry_heap := s.entry_heap.set p e } q).intercepts ≠ [] := by
    intro q hq
    rw [hat]
    split
    · rename_i h
      subst h
      exact hei hq
    · exact hq
  constructor
  · exact hs.pool
  · simpa using hs.heap_two
  · exact hs.host_nodup
  · exact hs.ip_nodup
  · exact hs.dom_nodup
  · intro n q hm
    obtain ⟨h1, h2, h3, h4⟩ := hs.host_ptr n q hm
    rw [hname, haddr]
    exact ⟨h1, by simpa using h2, h3, h4⟩
  · exact hs.host_norm
  · intro n q hm
    rw [haddr]
    exact hs.host_addr n q hm
  · intro n q hm
    have := hs.host_live n q hm
    unfold entry_live at this ⊢
    rw [hdomn]
    rcases this with h | h
    · exact Or.inl (hint q h)
    · exact Or.inr h
  · intro a q hm
    obtain ⟨h1, h2, h3⟩ := hs.ip_ptr a q hm
    rw [hname, haddr]
    exact ⟨by simpa using h1, h2, h3⟩
  · exact hs.tun_reserved
  · exact hs.dns_reserved
  · exact hs.dom_ptr
  · intro q d hd
    rw [hdomn] at hd
    exact hs.ent_dom q d hd
  · exact hs.dom_name
  · exact hs.dom_stale
  · intro n q d hm hd
    rw [hdomn] at hd
    exact hs.ent_link n q d hm hd

/-- A domain of the heap is overwritten by one that has intercepts whenever the
old one had. -/
theorem catalog_ok_touch_domain {tun dns : Nat} {s : ziti_dns_s} (hs : catalog_ok tun dns s)
    {d : Nat} {dom : dns_domain_t} {key : List Char} (hkey : (key, d) ∈ s.domains)
    (hdn : dom.name = (domain_at s d).name)
    (hdi : (domain_at s d).intercepts ≠ [] → dom.intercepts ≠ []) :
    catalog_ok tun dns { s with domain_heap := s.domain_heap.set d dom } := by
  have hnm : ∀ q, (domain_at { s with domain_heap := s.domain_heap.set d dom } q).name
      = (domain_at s q).name := by
    intro q
    simp only [domain_at, heap_getD_set]
    split
    · rename_i h
      obtain ⟨h1, _⟩ := h
      subst h1
      exact hdn
    · rfl
  have hint : ∀ q, (domain_at s q).intercepts ≠ [] →
      (domain_at { s with domain_heap := s.domain_heap.set d dom } q).intercepts ≠ [] := by
    intro q hq
    simp only [domain_at, heap_getD_set]
    split
    · rename_i h
      obtain ⟨h1, _⟩ := h
      subst h1
      exact hdi hq
    · exact hq
  constructor
  · exact hs.pool
  · exact hs.heap_two
  · exact hs.host_nodup
  · exact hs.ip_nodup
  · exact hs.dom_nodup
  · exact hs.host_ptr
  · exact hs.host_norm
  · exact hs.host_addr
  · intro n q hm
    rcases hs.host_live n q hm with h | ⟨d', h1, h2⟩
    · exact Or.inl h
    · exact Or.inr ⟨d', h1, hint d' h2⟩
  · exact hs.ip_ptr
  · exact hs.tun_reserved
  · exact hs.dns_reserved
  · intro k q hm
    obtain ⟨h1, h2⟩ := hs.dom_ptr k q hm
    exact ⟨by simpa using h1, hint q h2⟩
  · intro q d' hd
    simpa using hs.ent_dom q d' hd
  · intro k q hm
    rw [hnm]
    exact hs.dom_name k q hm
  · intro q hq
    by_cases hqd : q = d
    · subst hqd
      exact ⟨key, hkey⟩
    · apply hs.dom_stale q
      have : domain_at { s with domain_heap := s.domain_heap.set d dom } q = domain_at s q := by
        simp only [domain_at, heap_getD_set]
        have : ¬ d = q := fun h => hqd h.symm
        simp only [this, false_and, if_false]
      rw [this] at hq
      exact hq
  · intro n q d' hm hd
    rw [hnm]
    exact hs.ent_link n q d' hm hd

/-- A new domain with intercepts is registered under a fresh key. -/
theorem catalog_ok_new_domain {tun dns : Nat} {s : ziti_dns_s} (hs : catalog_ok tun dns s)
    {key : List Char} {dom : dns_domain_t} (hfresh : model_map_get s.domains key = none)
    (hdn : dom.name.drop 2 = key) (hdi : dom.intercepts ≠ []) :
    catalog_ok tun dns { s with domain_heap := s.domain_heap ++ [dom],
                                domains := s.domains ++ [(key, s.domain_heap.length)] } := by
  have hat : ∀ q, q < s.domain_heap.length →
      domain_at { s with domain_heap := s.domain_heap ++ [dom],
                         domains := s.domains ++ [(key, s.domain_heap.length)] } q
        = domain_at s q := by
    intro q hq
    simp only [domain_at, heap_getD_append_one, hq, if_true]
  constructor
  · exact hs.pool
  · exact hs.heap_two
  · exact hs.host_nodup
  · exact hs.ip_nodup
  · exact nodup_keys_append hs.dom_nodup hfresh
  · exact hs.host_ptr
  · exact hs.host_norm
  · exact hs.host_addr
  · intro n q hm
    rcases hs.host_live n q hm with h | ⟨d', h1, h2⟩
    · exact Or.inl h
    · refine Or.inr ⟨d', h1, ?_⟩
      rw [hat d' (hs.ent_dom q d' h1)]
      exact h2
  · exact hs.ip_ptr
  · exact hs.tun_reserved
  · exact hs.dns_reserved
  · intro k q hm
    rcases List.mem_append.mp hm with hm | hm
    · obtain ⟨h1, h2⟩ := hs.dom_ptr k q hm
      rw [hat q h1]
      refine ⟨?_, h2⟩
      simp only [List.length_append, List.length_cons, List.length_nil]
      omega
    · simp only [List.mem_singleton, Prod.mk.injEq] at hm
      obtain ⟨rfl, rfl⟩ := hm
      refine ⟨by simp, ?_⟩
      simp only [domain_at, heap_getD_append_one, Nat.lt_irrefl, if_false, if_true]
      exact hdi
  · intro q d' hd
    have := hs.ent_dom q d' hd
    simp only [List.length_append, List.length_cons, List.length_nil]
    omega
  · intro k q hm
    rcases List.mem_append.mp hm with hm | hm
    · rw [hat q (hs.dom_ptr k q hm).1]
      exact hs.dom_name k q hm
    · simp only [List.mem_singleton, Prod.mk.injEq] at hm
      obtain ⟨rfl, rfl⟩ := hm
      simp only [domain_at, heap_getD_append_one, Nat.lt_irrefl, if_false, if_true]
      exact hdn
  · intro q hq
    by_cases hql : q < s.domain_heap.length
    · rw [hat q hql] at hq
      obtain ⟨k, hk⟩ := hs.dom_stale q hq
      exact ⟨k, List.mem_append_left _ hk⟩
    · by_cases hql2 : q = s.domain_heap.length
      · subst hql2
        exact ⟨key, List.mem_append_right _ (List.mem_singleton.mpr rfl)⟩
      · simp only [domain_at, heap_getD_append_one, hql, hql2, if_false] at hq
        simp [calloc_domain] at hq
  · intro n q d' hm hd
    rw [hat d' (hs.ent_dom q d' hd)]
    exact hs.ent_link n q d' hm hd

/-! ## The branches of `ziti_dns_register_hostname` -/

theorem register_domain_existing (s : ziti_dns_s) (hostname : List Char) (intercept : Nat)
    {d : Nat} (hd : (check_name hostname).2.2 = true)
    (hg : model_map_get s.domains ((check_name hostname).2.1.drop 2) = some d) :
    ziti_dns_register_hostname s (ziti_address.hostname hostname) intercept =
      ({ s with
          domain_heap := s.domain_heap.set d
            (dns_domain_t.mk (domain_at s d).name
              (model_map_set (domain_at s d).intercepts intercept intercept)) },
       none) := by
  unfold ziti_dns_register_hostname
  simp only [hd, if_true, hg]

theorem register_domain_new (s : ziti_dns_s) (hostname : List Char) (intercept : Nat)
    (hd : (check_name hostname).2.2 = true)
    (hg : model_map_get s.domains ((check_name hostname).2.1.drop 2) = none) :
    ziti_dns_register_hostname s (ziti_address.hostname hostname) intercept =
      ({ s with domain_heap := s.domain_heap ++
                  [{ name := (check_name hostname).2.1, intercepts := [(intercept, intercept)] }],
                domains := s.domains ++
                  [((check_name hostname).2.1.drop 2, s.domain_heap.length)] },
       none) := by
  unfold ziti_dns_register_hostname
  simp only [hd, if_true, hg, domain_at, heap_set_append_one, heap_getD_append_one,
    Nat.lt_irrefl, if_false, model_map_set_absent hg, take_max_of_clean]
  rfl

theorem register_host_existing (s : ziti_dns_s) (hostname : List Char) (intercept : Nat)
    {p : Nat} (hd : (check_name hostname).2.2 = false)
    (hg : model_map_get s.hostnames (check_name hostname).2.1 = some p) :
    ziti_dns_register_hostname s (ziti_address.hostname hostname) intercept =
      ({ s with
          entry_heap := s.entry_heap.set p
            (dns_entry_t.mk (entry_at s p).name (entry_at s p).addr (entry_at s p).domain
              (model_map_set (entry_at s p).intercepts intercept intercept)) },
       some p) := by
  unfold ziti_dns_register_hostname
  simp only [hd, hg]
  rfl

theorem register_host_new (s : ziti_dns_s) (hostname : List Char) (intercept : Nat)
    (hd : (check_name hostname).2.2 = false)
    (hg : model_map_get s.hostnames (check_name hostname).2.1 = none) :
    ziti_dns_register_hostname s (ziti_address.hostname hostname) intercept =
      match new_ipv4_entry s (check_name hostname).2.1 with
      | (s1, some p) =>
        ({ s1 with
            entry_heap := s1.entry_heap.set p
              (dns_entry_t.mk (entry_at s1 p).name (entry_at s1 p).addr (entry_at s1 p).domain
                (model_map_set (entry_at s1 p).intercepts intercept intercept)) },
         some p)
      | (s1, none) => (s1, none) := by
  unfold ziti_dns_register_hostname
  simp only [hd, hg]
  rfl

/-! ## The three calls keep `catalog_ok` -/

theorem register_ok {tun dns : Nat} {s : ziti_dns_s} (hs : catalog_ok tun dns s)
    (addr : ziti_address) (intercept : Nat) :
    catalog_ok tun dns (ziti_dns_register_hostname s addr intercept).1 := by
  cases addr with
  | cidr ip bits => exact hs
  | hostname hostname =>
    by_cases hd : (check_name hostname).2.2 = true
    · cases hg : model_map_get s.domains (List.drop 2 (check_name hostname).2.1) with
      | some d =>
        rw [register_domain_existing s hostname intercept hd hg]
        refine catalog_ok_touch_domain hs (model_map_get_mem hg) ?_ ?_
        · rfl
        · intro _
          exact model_map_set_ne_nil _ _ _
      | none =>
        rw [register_domain_new s hostname intercept hd hg]
        exact catalog_ok_new_domain hs hg (by rfl) (by simp)
    · have hd' : (check_name hostname).2.2 = false := by simpa using hd
      cases hg : model_map_get s.hostnames (check_name hostname).2.1 with
      | some entry =>
        rw [register_host_existing s hostname intercept hd' hg]
        have hm := model_map_get_mem hg
        refine catalog_ok_touch_entry hs ?_ ?_ ?_ ?_ (hs.host_ptr _ _ hm).2.1
        · rfl
        · rfl
        · rfl
        · intro _
          exact model_map_set_ne_nil _ _ _
      | none =>
        rw [register_host_new s hostname intercept hd' hg]
        obtain ⟨c, hc1, hc2, hcase⟩ := new_ipv4_entry_spec s (check_name hostname).2.1 hs.pool
          (take_max_of_clean hostname) hg
        rcases hcase with ⟨h, _⟩ | ⟨a, h, hh1, hh2, hah, hfree, heq, _⟩
        · rw [h]
          exact catalog_ok_leak hs hc1 hc2 _ (by rfl)
        · rw [heq]
          simp only [entry_at, heap_set_append_one, heap_getD_append_one, Nat.lt_irrefl,
            if_false, if_true]
          apply catalog_ok_add_entry hs (check_name_clean_fixed hostname hd') hg hfree hh1 hh2
            hah hc1 hc2 (by rfl) (by rfl)
          · intro d0 h0
            simp at h0
          · left
            exact model_map_set_ne_nil _ _ _
          · intro d0 h0
            simp at h0

/-! ## The branches of `ziti_dns_lookup` -/

theorem find_domain_loop_get {doms : List (List Char × Nat)} {n : List Char} {d : Nat}
    (h : find_domain_loop doms n = some d) : ∃ k, model_map_get doms k = some d := by
  induction n with
  | nil => simp [find_domain_loop] at h
  | cons c rest ih =>
    unfold find_domain_loop at h
    by_cases hc : c = '.'
    · simp only [hc, if_true] at h
      cases hg : model_map_get doms rest with
      | some d' =>
        simp only [hg] at h
        exact ⟨rest, by rw [hg, h]⟩
      | none =>
        simp only [hg] at h
        exact ih h
    · simp only [hc, if_false] at h
      exact ih h

theorem find_domain_get {s : ziti_dns_s} {n : List Char} {d : Nat}
    (h : find_domain s n = some d) : ∃ k, model_map_get s.domains k = some d := by
  unfold find_domain at h
  cases hg : model_map_get s.domains n with
  | some d' =>
    simp only [hg] at h
    exact ⟨n, by rw [hg, h]⟩
  | none =>
    simp only [hg] at h
    exact find_domain_loop_get h

theorem lookup_invalid (s : ziti_dns_s) (name : List Char)
    (h : (check_name name).1 = false ∨ (check_name name).2.2 = true) :
    ziti_dns_lookup s name = (s, none) := by
  unfold ziti_dns_lookup
  have : (!(check_name name).1 || (check_name name).2.2) = true := by
    rcases h with h | h <;> simp [h]
  simp only [this, if_true]

theorem lookup_existing (s : ziti_dns_s) (name : List Char) {p : Nat}
    (hv : (check_name name).1 = true) (hw : (check_name name).2.2 = false)
    (hg : model_map_get s.hostnames (check_name name).2.1 = some p) :
    ziti_dns_lookup s name = (s, if entry_active s p then some p else none) := by
  unfold ziti_dns_lookup
  simp only [hv, hw, hg]
  cases entry_active s p <;> rfl

theorem lookup_no_domain (s : ziti_dns_s) (name : List Char)
    (hv : (check_name name).1 = true) (hw : (check_name name).2.2 = false)
    (hg : model_map_get s.hostnames (check_name name).2.1 = none)
    (hf : find_domain s (check_name name).2.1 = none) :
    ziti_dns_lookup s name = (s, none) := by
  unfold ziti_dns_lookup
  simp only [hv, hw, hg, hf]
  rfl

theorem lookup_empty_domain (s : ziti_dns_s) (name : List Char) {d : Nat}
    (hv : (check_name name).1 = true) (hw : (check_name name).2.2 = false)
    (hg : model_map_get s.hostnames (check_name name).2.1 = none)
    (hf : find_domain s (check_name name).2.1 = some d)
    (hd : (domain_at s d).intercepts = []) :
    ziti_dns_lookup s name = (s, none) := by
  unfold ziti_dns_lookup
  simp only [hv, hw, hg, hf, hd, model_map_size]
  rfl

theorem lookup_wildcard (s : ziti_dns_s) (name : List Char) {d : Nat}
    (hp : pool_ok s.ip_pool)
    (hv : (check_name name).1 = true) (hw : (check_name name).2.2 = false)
    (hg : model_map_get s.hostnames (check_name name).2.1 = none)
    (hf : find_domain s (check_name name).2.1 = some d)
    (hd : (domain_at s d).intercepts ≠ []) :
    ∃ c, 1 ≤ c ∧ c < s.ip_pool.counter_mask ∧
      ((new_ipv4_entry s (check_name name).2.1).2 = none ∧
        ziti_dns_lookup s name =
          ({ s with ip_pool := { s.ip_pool with counter := c },
                    entry_heap := s.entry_heap ++
                      [{ calloc_entry with name := (check_name name).2.1 }] }, none) ∧
        (next_ipv4 s).2 = INADDR_NONE ∨
        ∃ a h, 1 ≤ h ∧ h < s.ip_pool.counter_mask ∧ a = htonl (s.ip_pool.base + h) ∧
          model_map_get s.ip_addresses a = none ∧
          (new_ipv4_entry s (check_name name).2.1).2 = some s.entry_heap.length ∧
          ziti_dns_lookup s name =
            ({ ip_pool := { s.ip_pool with counter := c },
               hostnames := s.hostnames ++ [((check_name name).2.1, s.entry_heap.length)],
               ip_addresses := s.ip_addresses ++ [(a, s.entry_heap.length)],
               domains := s.domains,
               entry_heap := s.entry_heap ++
                 [{ name := (check_name name).2.1, addr := a, domain := some d,
                    intercepts := [] }],
               domain_heap := s.domain_heap }, some s.entry_heap.length) ∧
          a = (next_ipv4 s).2) := by
  obtain ⟨c, hc1, hc2, hcase⟩ := new_ipv4_entry_spec s (check_name name).2.1 hp
    (take_max_of_clean name) hg
  refine ⟨c, hc1, hc2, ?_⟩
  have hsz : model_map_size (domain_at s d).intercepts > 0 := by
    unfold model_map_size
    exact List.length_pos.mpr hd
  rcases hcase with ⟨h, hnone⟩ | ⟨a, h, hh1, hh2, hah, hfree, heq, hnext⟩
  · left
    refine ⟨by rw [h], ?_, hnone⟩
    unfold ziti_dns_lookup
    simp only [hv, hw, hg, hf, hsz, h]
    rfl
  · right
    refine ⟨a, h, hh1, hh2, hah, hfree, by rw [heq], ?_, hnext⟩
    unfold ziti_dns_lookup
    simp only [hv, hw, hg, hf, hsz, heq]
    have hact : entry_active
        { ip_pool := { s.ip_pool with counter := c },
          hostnames := s.hostnames ++ [((check_name name).2.1, s.entry_heap.length)],
          ip_addresses := s.ip_addresses ++ [(a, s.entry_heap.length)],
          domains := s.domains,
          entry_heap := s.entry_heap ++
            [{ name := (check_name name).2.1, addr := a, domain := some d,
               intercepts := [] }],
          domain_heap := s.domain_heap } s.entry_heap.length = true := by
      rw [entry_live_iff]
      right
      refine ⟨d, ?_, hd⟩
      simp only [entry_at, heap_getD_append_one, Nat.lt_irrefl, if_false, if_true]
    simp only [entry_at, heap_set_append_one, heap_getD_append_one, Nat.lt_irrefl,
      if_false, if_true, Bool.not_true, Bool.false_or, Bool.false_eq_true]
    simp only [hact, if_true]

theorem lookup_ok {tun dns : Nat} {s : ziti_dns_s} (hs : catalog_ok tun dns s)
    (name : List Char) : catalog_ok tun dns (ziti_dns_lookup s name).1 := by
  by_cases hv : (check_name name).1 = true
  swap
  · rw [lookup_invalid s name (Or.inl (by simpa using hv))]
    exact hs
  by_cases hw : (check_name name).2.2 = true
  · rw [lookup_invalid s name (Or.inr hw)]
    exact hs
  have hw' : (check_name name).2.2 = false := by simpa using hw
  cases hg : model_map_get s.hostnames (check_name name).2.1 with
  | some p =>
    rw [lookup_existing s name hv hw' hg]
    exact hs
  | none =>
    cases hf : find_domain s (check_name name).2.1 with
    | none =>
      rw [lookup_no_domain s name hv hw' hg hf]
      exact hs
    | some d =>
      by_cases hd : (domain_at s d).intercepts = []
      · rw [lookup_empty_domain s name hv hw' hg hf hd]
        exact hs
      · obtain ⟨c, hc1, hc2, hcase⟩ := lookup_wildcard s name hs.pool hv hw' hg hf hd
        rcases hcase with ⟨_, h, _⟩ | ⟨a, h, hh1, hh2, hah, hfree, _, heq, _⟩
        · rw [h]
          exact catalog_ok_leak hs hc1 hc2 _ (by rfl)
        · rw [heq]
          obtain ⟨k, hk⟩ := find_domain_get hf
          have hdl := (hs.dom_ptr k d (model_map_get_mem hk)).1
          refine catalog_ok_add_entry hs (check_name_clean_fixed name hw') hg hfree hh1 hh2
            hah hc1 hc2 (by rfl) (by rfl) ?_ ?_ ?_
          · intro d0 h0
            simp only [Option.some.injEq] at h0
            rw [← h0]
            exact hdl
          · right
            exact ⟨d, rfl, hd⟩
          · intro d0 h0
            simp only [Option.some.injEq] at h0
            subst h0
            obtain ⟨t, ht, hgt, _⟩ := find_domain_some hf
            rw [hs.dom_name t d (model_map_get_mem hgt)]
            exact ht

/-! ## The loops of `ziti_dns_deregister_intercept` -/

theorem heap_getD_modify {α : Type} (l : List α) (i j : Nat) (d : α) (f : α → α)
    (hf : f d = d) :
    (l.set i (f (l.getD i d))).getD j d = if i = j then f (l.getD j d) else l.getD j d := by
  rw [heap_getD_set]
  by_cases hij : i = j
  · subst hij
    by_cases hl : i < l.length
    · simp [hl]
    · simp only [hl, and_false, if_false, if_true]
      rw [heap_getD_length l i d (Nat.le_of_not_lt hl), hf]
  · simp [hij]

theorem entry_drop_idem (c : Nat) (e : dns_entry_t) :
    entry_drop c (entry_drop c e) = entry_drop c e := by
  simp [entry_drop, model_map_remove_idem]

theorem domain_drop_idem (c : Nat) (d : dns_domain_t) :
    domain_drop c (domain_drop c d) = domain_drop c d := by
  simp [domain_drop, model_map_remove_idem]

theorem entry_drop_calloc (c : Nat) : entry_drop c calloc_entry = calloc_entry := by
  simp [entry_drop, calloc_entry, model_map_remove]

theorem domain_drop_calloc (c : Nat) : domain_drop c calloc_domain = calloc_domain := by
  simp [domain_drop, calloc_domain, model_map_remove]

theorem deregister_domains_length (c : Nat) (it : List (List Char × Nat))
    (heap : List dns_domain_t) :
    (deregister_domains c it heap).length = heap.length := by
  induction it generalizing heap with
  | nil => rfl
  | cons x it ih =>
    obtain ⟨k, d⟩ := x
    simp only [deregister_domains, ih, List.length_set]

theorem deregister_domains_getD (c : Nat) (it : List (List Char × Nat))
    (heap : List dns_domain_t) (d : Nat) :
    (deregister_domains c it heap).getD d calloc_domain =
      if d ∈ it.map Prod.snd then domain_drop c (heap.getD d calloc_domain)
      else heap.getD d calloc_domain := by
  induction it generalizing heap with
  | nil => simp [deregister_domains]
  | cons x it ih =>
    obtain ⟨k, d0⟩ := x
    simp only [deregister_domains, ih, List.map_cons, List.mem_cons]
    rw [heap_getD_modify _ _ _ _ _ (domain_drop_calloc c)]
    by_cases h0 : d0 = d
    · subst h0
      simp only [if_true, true_or, domain_drop_idem]
      split <;> rfl
    · have h1 : ¬ d = d0 := fun h => h0 h.symm
      simp only [h0, h1, if_false, false_or]

theorem deregister_prune_mem (dh : List dns_domain_t) (it : List (List Char × Nat))
    (k : List Char) (d : Nat) :
    (k, d) ∈ deregister_prune dh it ↔
      (k, d) ∈ it ∧ (dh.getD d calloc_domain).intercepts ≠ [] := by
  induction it with
  | nil => simp [deregister_prune]
  | cons x it ih =>
    obtain ⟨k0, d0⟩ := x
    unfold deregister_prune
    by_cases h0 : model_map_size (dh.getD d0 calloc_domain).intercepts = 0
    · simp only [h0, if_true, ih, List.mem_cons, Prod.mk.injEq]
      constructor
      · rintro ⟨h1, h2⟩
        exact ⟨Or.inr h1, h2⟩
      · rintro ⟨h1 | h1, h2⟩
        · obtain ⟨rfl, rfl⟩ := h1
          exact absurd (model_map_size_eq_zero.mp h0) h2
        · exact ⟨h1, h2⟩
    · simp only [h0, if_false, List.mem_cons, ih, Prod.mk.injEq]
      constructor
      · rintro (h1 | ⟨h1, h2⟩)
        · obtain ⟨rfl, rfl⟩ := h1
          exact ⟨Or.inl ⟨rfl, rfl⟩, fun h => h0 (model_map_size_eq_zero.mpr h)⟩
        · exact ⟨Or.inr h1, h2⟩
      · rintro ⟨h1 | h1, h2⟩
        · exact Or.inl h1
        · exact Or.inr ⟨h1, h2⟩

theorem deregister_prune_sublist (dh : List dns_domain_t) (it : List (List Char × Nat)) :
    List.Sublist (deregister_prune dh it) it := by
  induction it with
  | nil => exact List.Sublist.slnil
  | cons x it ih =>
    obtain ⟨k0, d0⟩ := x
    unfold deregister_prune
    split
    · exact List.Sublist.cons _ ih
    · exact List.Sublist.cons₂ _ ih

theorem entry_dead_drop (c : Nat) (dh : List dns_domain_t) (e : dns_entry_t) :
    entry_dead dh (entry_drop c (entry_drop c e)) = entry_dead dh (entry_drop c e) := by
  rw [entry_drop_idem]

theorem deregister_hostnames_length (c : Nat) (dh : List dns_domain_t)
    (it : List (List Char × Nat)) (heap : List dns_entry_t) (ips : List (Nat × Nat)) :
    (deregister_hostnames c dh it heap ips).2.1.length = heap.length := by
  induction it generalizing heap ips with
  | nil => rfl
  | cons x it ih =>
    obtain ⟨n, p⟩ := x
    unfold deregister_hostnames
    simp only
    split
    · rw [ih, List.length_set]
    · simp only [ih, List.length_set]

theorem deregister_hostnames_getD (c : Nat) (dh : List dns_domain_t)
    (it : List (List Char × Nat)) (heap : List dns_entry_t) (ips : List (Nat × Nat))
    (q : Nat) :
    (deregister_hostnames c dh it heap ips).2.1.getD q calloc_entry =
      if q ∈ it.map Prod.snd then entry_drop c (heap.getD q calloc_entry)
      else heap.getD q calloc_entry := by
  induction it generalizing heap ips with
  | nil => simp [deregister_hostnames]
  | cons x it ih =>
    obtain ⟨n, p⟩ := x
    have key : (if q ∈ it.map Prod.snd then
          entry_drop c ((heap.set p (entry_drop c (heap.getD p calloc_entry))).getD q calloc_entry)
        else (heap.set p (entry_drop c (heap.getD p calloc_entry))).getD q calloc_entry) =
        (if q ∈ ((n, p) :: it).map Prod.snd then entry_drop c (heap.getD q calloc_entry)
         else heap.getD q calloc_entry) := by
      rw [heap_getD_modify _ _ _ _ _ (entry_drop_calloc c)]
      simp only [List.map_cons, List.mem_cons]
      by_cases h0 : p = q
      · subst h0
        simp only [if_true, true_or, entry_drop_idem]
        split <;> rfl
      · have h1 : ¬ q = p := fun h => h0 h.symm
        simp only [h0, h1, if_false, false_or]
    unfold deregister_hostnames
    simp only
    split
    · rw [ih]
      exact key
    · simp only [ih]
      exact key

theorem deregister_hostnames_kept (c : Nat) (dh : List dns_domain_t)
    (it : List (List Char × Nat)) (heap : List dns_entry_t) (ips : List (Nat × Nat))
    (n : List Char) (p : Nat) :
    (n, p) ∈ (deregister_hostnames c dh it heap ips).1 ↔
      (n, p) ∈ it ∧ entry_dead dh (entry_drop c (heap.getD p calloc_entry)) = false := by
  induction it generalizing heap ips with
  | nil => simp [deregister_hostnames]
  | cons x it ih =>
    obtain ⟨n0, p0⟩ := x
    have key : ∀ q, entry_dead dh (entry_drop c
        ((heap.set p0 (entry_drop c (heap.getD p0 calloc_entry))).getD q calloc_entry))
        = entry_dead dh (entry_drop c (heap.getD q calloc_entry)) := by
      intro q
      rw [heap_getD_modify _ _ _ _ _ (entry_drop_calloc c)]
      split
      · rename_i h
        subst h
        rw [entry_drop_idem]
      · rfl
    unfold deregister_hostnames
    simp only
    by_cases hdead : entry_dead dh (entry_drop c (heap.getD p0 calloc_entry)) = true
    · simp only [hdead, if_true, ih, key, List.mem_cons, Prod.mk.injEq]
      constructor
      · rintro ⟨h1, h2⟩
        exact ⟨Or.inr h1, h2⟩
      · rintro ⟨h1 | h1, h2⟩
        · obtain ⟨rfl, rfl⟩ := h1
          rw [hdead] at h2
          exact absurd h2 (by simp)
        · exact ⟨h1, h2⟩
    · have hdead' : entry_dead dh (entry_drop c (heap.getD p0 calloc_entry)) = false := by
        simpa using hdead
      simp only [hdead', Bool.false_eq_true, if_false, List.mem_cons, ih, key, Prod.mk.injEq]
      constructor
      · rintro (h1 | ⟨h1, h2⟩)
        · obtain ⟨rfl, rfl⟩ := h1
          exact ⟨Or.inl ⟨rfl, rfl⟩, hdead'⟩
        · exact ⟨Or.inr h1, h2⟩
      · rintro ⟨h1 | h1, h2⟩
        · exact Or.inl h1
        · exact Or.inr ⟨h1, h2⟩

theorem deregister_hostnames_sublist (c : Nat) (dh : List dns_domain_t)
    (it : List (List Char × Nat)) (heap : List dns_entry_t) (ips : List (Nat × Nat)) :
    List.Sublist (deregister_hostnames c dh it heap ips).1 it ∧
    List.Sublist (deregister_hostnames c dh it heap ips).2.2 ips := by
  induction it generalizing heap ips with
  | nil => exact ⟨List.Sublist.slnil, List.Sublist.refl _⟩
  | cons x it ih =>
    obtain ⟨n0, p0⟩ := x
    unfold deregister_hostnames
    simp only
    split
    · exact ⟨List.Sublist.cons _ (ih _ _).1,
        List.Sublist.trans (ih _ _).2 (model_map_remove_sublist _ _)⟩
    · exact ⟨List.Sublist.cons₂ _ (ih _ _).1, (ih _ _).2⟩

theorem deregister_hostnames_ips (c : Nat) (dh : List dns_domain_t)
    (it : List (List Char × Nat)) (heap : List dns_entry_t) (ips : List (Nat × Nat))
    (a q : Nat) :
    (a, q) ∈ (deregister_hostnames c dh it heap ips).2.2 ↔
      (a, q) ∈ ips ∧ ∀ n p, (n, p) ∈ it →
        entry_dead dh (entry_drop c (heap.getD p calloc_entry)) = true →
        (heap.getD p calloc_entry).addr ≠ a := by
  induction it generalizing heap ips with
  | nil => simp [deregister_hostnames]
  | cons x it ih =>
    obtain ⟨n0, p0⟩ := x
    have key : ∀ r, entry_dead dh (entry_drop c
        ((heap.set p0 (entry_drop c (heap.getD p0 calloc_entry))).getD r calloc_entry))
        = entry_dead dh (entry_drop c (heap.getD r calloc_entry)) := by
      intro r
      rw [heap_getD_modify _ _ _ _ _ (entry_drop_calloc c)]
      split
      · rename_i h
        subst h
        rw [entry_drop_idem]
      · rfl
    have keya : ∀ r, ((heap.set p0 (entry_drop c (heap.getD p0 calloc_entry))).getD r
        calloc_entry).addr = (heap.getD r calloc_entry).addr := by
      intro r
      rw [heap_getD_modify _ _ _ _ _ (entry_drop_calloc c)]
      split
      · rename_i h
        subst h
        rfl
      · rfl
    unfold deregister_hostnames
    simp only
    by_cases hdead : entry_dead dh (entry_drop c (heap.getD p0 calloc_entry)) = true
    · simp only [hdead, if_true, ih, key, keya, model_map_mem_remove]
      constructor
      · rintro ⟨⟨h1, h2⟩, h3⟩
        refine ⟨h1, ?_⟩
        intro n p hm hd
        rcases List.mem_cons.mp hm with hm | hm
        · injection hm with e1 e2
          subst e2
          intro h
          apply h2
          rw [← h]
          rfl
        · exact h3 n p hm hd
      · rintro ⟨h1, h2⟩
        refine ⟨⟨h1, ?_⟩, fun n p hm hd => h2 n p (List.mem_cons_of_mem _ hm) hd⟩
        intro h
        exact h2 n0 p0 (List.mem_cons_self _ _) hdead h.symm
    · have hdead' : entry_dead dh (entry_drop c (heap.getD p0 calloc_entry)) = false := by
        simpa using hdead
      simp only [hdead', Bool.false_eq_true, if_false, ih, key, keya]
      constructor
      · rintro ⟨h1, h2⟩
        refine ⟨h1, ?_⟩
        intro n p hm hd
        rcases List.mem_cons.mp hm with hm | hm
        · injection hm with e1 e2
          subst e2
          rw [hdead'] at hd
          exact absurd hd (by simp)
        · exact h2 n p hm hd
      · rintro ⟨h1, h2⟩
        exact ⟨h1, fun n p hm hd => h2 n p (List.mem_cons_of_mem _ hm) hd⟩

/-! ## Effect of `ziti_dns_deregister_intercept` on the state -/

theorem dereg_pool (s : ziti_dns_s) (c : Nat) :
    (ziti_dns_deregister_intercept s c).ip_pool = s.ip_pool := rfl

theorem dereg_domain_at (s : ziti_dns_s) (c d : Nat) :
    domain_at (ziti_dns_deregister_intercept s c) d =
      if d ∈ s.domains.map Prod.snd then domain_drop c (domain_at s d) else domain_at s d := by
  unfold domain_at ziti_dns_deregister_intercept
  simp only [deregister_domains_getD]

theorem dereg_domain_name (s : ziti_dns_s) (c d : Nat) :
    (domain_at (ziti_dns_deregister_intercept s c) d).name = (domain_at s d).name := by
  rw [dereg_domain_at]
  split <;> rfl

theorem dereg_entry_at (s : ziti_dns_s) (c q : Nat) :
    entry_at (ziti_dns_deregister_intercept s c) q =
      if q ∈ s.hostnames.map Prod.snd then entry_drop c (entry_at s q) else entry_at s q := by
  unfold entry_at ziti_dns_deregister_intercept
  simp only [deregister_hostnames_getD]

theorem dereg_entry_fields (s : ziti_dns_s) (c q : Nat) :
    (entry_at (ziti_dns_deregister_intercept s c) q).name = (entry_at s q).name ∧
    (entry_at (ziti_dns_deregister_intercept s c) q).addr = (entry_at s q).addr ∧
    (entry_at (ziti_dns_deregister_intercept s c) q).domain = (entry_at s q).domain := by
  rw [dereg_entry_at]
  split <;> exact ⟨rfl, rfl, rfl⟩

theorem dereg_entry_heap_length (s : ziti_dns_s) (c : Nat) :
    (ziti_dns_deregister_intercept s c).entry_heap.length = s.entry_heap.length := by
  unfold ziti_dns_deregister_intercept
  simp only [deregister_hostnames_length]

theorem dereg_domain_heap_length (s : ziti_dns_s) (c : Nat) :
    (ziti_dns_deregister_intercept s c).domain_heap.length = s.domain_heap.length := by
  unfold ziti_dns_deregister_intercept
  simp only [deregister_domains_length]

/-- The removal test on entry `p`, read in the state after the call. -/
theorem dereg_dead_iff (s : ziti_dns_s) (c p : Nat) :
    entry_dead (deregister_domains c s.domains s.domain_heap) (entry_drop c (entry_at s p))
      = false ↔
    ((entry_drop c (entry_at s p)).intercepts ≠ [] ∨
      ∃ d, (entry_at s p).domain = some d ∧
        (domain_at (ziti_dns_deregister_intercept s c) d).intercepts ≠ []) := by
  have hdom : ∀ d, domain_at (ziti_dns_deregister_intercept s c) d
      = (deregister_domains c s.domains s.domain_heap).getD d calloc_domain := fun d => rfl
  unfold entry_dead domain_unclaimed
  have hd0 : (entry_drop c (entry_at s p)).domain = (entry_at s p).domain := rfl
  rw [hd0]
  cases hd : (entry_at s p).domain with
  | none =>
    simp only [Bool.and_true, decide_eq_false_iff_not, model_map_size_eq_zero]
    constructor
    · intro h
      exact Or.inl h
    · rintro (h | ⟨d, h, _⟩)
      · exact h
      · exact absurd h (by simp)
  | some d =>
    simp only [Bool.and_eq_false_iff, decide_eq_false_iff_not, model_map_size_eq_zero, hdom]
    constructor
    · rintro (h | h)
      · exact Or.inl h
      · exact Or.inr ⟨d, rfl, h⟩
    · rintro (h | ⟨d', h1, h2⟩)
      · exact Or.inl h
      · injection h1 with h1
        subst h1
        exact Or.inr h2

theorem dereg_hostnames_mem (s : ziti_dns_s) (c : Nat) (n : List Char) (p : Nat) :
    (n, p) ∈ (ziti_dns_deregister_intercept s c).hostnames ↔
      (n, p) ∈ s.hostnames ∧
        entry_dead (deregister_domains c s.domains s.domain_heap)
          (entry_drop c (entry_at s p)) = false := by
  unfold ziti_dns_deregister_intercept entry_at
  simp only [deregister_hostnames_kept]

theorem dereg_ips_mem (s : ziti_dns_s) (c a q : Nat) :
    (a, q) ∈ (ziti_dns_deregister_intercept s c).ip_addresses ↔
      (a, q) ∈ s.ip_addresses ∧ ∀ n p, (n, p) ∈ s.hostnames →
        entry_dead (deregister_domains c s.domains s.domain_heap)
          (entry_drop c (entry_at s p)) = true → (entry_at s p).addr ≠ a := by
  unfold ziti_dns_deregister_intercept entry_at
  simp only [deregister_hostnames_ips]

theorem dereg_domains_mem (s : ziti_dns_s) (c : Nat) (k : List Char) (d : Nat) :
    (k, d) ∈ (ziti_dns_deregister_intercept s c).domains ↔
      (k, d) ∈ s.domains ∧ (domain_at (ziti_dns_deregister_intercept s c) d).intercepts ≠ [] := by
  unfold ziti_dns_deregister_intercept domain_at
  simp only [deregister_prune_mem]

theorem nodup_keys_sublist {K V : Type} {m m' : List (K × V)} (h : List.Sublist m' m)
    (hn : (m.map Prod.fst).Nodup) : (m'.map Prod.fst).Nodup :=
  List.Nodup.sublist (List.Sublist.map Prod.fst h) hn

theorem nodup_keys_unique {K V : Type} {m : List (K × V)} (hn : (m.map Prod.fst).Nodup)
    {k : K} {v v' : V} (h1 : (k, v) ∈ m) (h2 : (k, v') ∈ m) : v = v' := by
  induction m with
  | nil => simp at h1
  | cons x m ih =>
    simp only [List.map_cons, List.nodup_cons] at hn
    rcases List.mem_cons.mp h1 with e1 | e1
    · rcases List.mem_cons.mp h2 with e2 | e2
      · rw [← e1] at e2
        injection e2 with _ e3
        exact e3.symm
      · exfalso
        apply hn.1
        have hx : x.1 = k := by rw [← e1]
        rw [hx]
        exact List.mem_map_of_mem Prod.fst e2
    · rcases List.mem_cons.mp h2 with e2 | e2
      · exfalso
        apply hn.1
        have hx : x.1 = k := by rw [← e2]
        rw [hx]
        exact List.mem_map_of_mem Prod.fst e1
      · exact ih hn.2 e1 e2

theorem deregister_ok {tun dns : Nat} {s : ziti_dns_s} (hs : catalog_ok tun dns s)
    (c : Nat) : catalog_ok tun dns (ziti_dns_deregister_intercept s c) := by
  have hsub := deregister_hostnames_sublist c (deregister_domains c s.domains s.domain_heap)
    s.hostnames s.entry_heap s.ip_addresses
  constructor
  · exact hs.pool
  · rw [dereg_entry_heap_length]
    exact hs.heap_two
  · exact nodup_keys_sublist hsub.1 hs.host_nodup
  · exact nodup_keys_sublist hsub.2 hs.ip_nodup
  · exact nodup_keys_sublist (deregister_prune_sublist _ _) hs.dom_nodup
  · intro n p hm
    obtain ⟨hm0, hlive⟩ := (dereg_hostnames_mem s c n p).mp hm
    obtain ⟨h1, h2, h3, h4⟩ := hs.host_ptr n p hm0
    obtain ⟨e1, e2, e3⟩ := dereg_entry_fields s c p
    rw [e1, e2, dereg_entry_heap_length]
    refine ⟨h1, h2, h3, ?_⟩
    rw [dereg_ips_mem]
    refine ⟨h4, ?_⟩
    intro n' p' hm' hdead heq
    have h4' := (hs.host_ptr n' p' hm').2.2.2
    rw [heq] at h4'
    have : p' = p := nodup_keys_unique hs.ip_nodup h4' h4
    subst this
    rw [hdead] at hlive
    exact absurd hlive (by simp)
  · intro n p hm
    exact hs.host_norm n p ((dereg_hostnames_mem s c n p).mp hm).1
  · intro n p hm
    rw [(dereg_entry_fields s c p).2.1]
    exact hs.host_addr n p ((dereg_hostnames_mem s c n p).mp hm).1
  · intro n p hm
    obtain ⟨hm0, hlive⟩ := (dereg_hostnames_mem s c n p).mp hm
    have hp : p ∈ s.hostnames.map Prod.snd := List.mem_map_of_mem Prod.snd hm0
    unfold entry_live
    rw [(dereg_entry_fields s c p).2.2]
    rw [dereg_entry_at, if_pos hp]
    exact (dereg_dead_iff s c p).mp hlive
  · intro a q hm
    obtain ⟨hm0, hfree⟩ := (dereg_ips_mem s c a q).mp hm
    obtain ⟨h1, h2, h3⟩ := hs.ip_ptr a q hm0
    obtain ⟨e1, e2, e3⟩ := dereg_entry_fields s c q
    rw [e1, e2, dereg_entry_heap_length]
    refine ⟨h1, h2, ?_⟩
    intro hq
    obtain ⟨h5, h6⟩ := h3 hq
    refine ⟨?_, h6⟩
    rw [dereg_hostnames_mem]
    refine ⟨h5, ?_⟩
    cases hd : entry_dead (deregister_domains c s.domains s.domain_heap)
        (entry_drop c (entry_at s q)) with
    | false => rfl
    | true => exact absurd h6 (hfree _ q h5 hd)
  · obtain ⟨q, hq, hm⟩ := hs.tun_reserved
    refine ⟨q, hq, ?_⟩
    rw [dereg_ips_mem]
    refine ⟨hm, ?_⟩
    intro n p hm' _ heq
    obtain ⟨h1, _, _, h4⟩ := hs.host_ptr n p hm'
    rw [heq] at h4
    have : p = q := nodup_keys_unique hs.ip_nodup h4 hm
    omega
  · obtain ⟨q, hq, hm⟩ := hs.dns_reserved
    refine ⟨q, hq, ?_⟩
    rw [dereg_ips_mem]
    refine ⟨hm, ?_⟩
    intro n p hm' _ heq
    obtain ⟨h1, _, _, h4⟩ := hs.host_ptr n p hm'
    rw [heq] at h4
    have : p = q := nodup_keys_unique hs.ip_nodup h4 hm
    omega
  · intro k d hm
    obtain ⟨hm0, hne⟩ := (dereg_domains_mem s c k d).mp hm
    rw [dereg_domain_heap_length]
    exact ⟨(hs.dom_ptr k d hm0).1, hne⟩
  · intro p d hd
    rw [(dereg_entry_fields s c p).2.2] at hd
    rw [dereg_domain_heap_length]
    exact hs.ent_dom p d hd
  · intro k d hm
    rw [dereg_domain_name]
    exact hs.dom_name k d ((dereg_domains_mem s c k d).mp hm).1
  · intro d hd
    have hold : (domain_at s d).intercepts ≠ [] := by
      intro h0
      apply hd
      rw [dereg_domain_at]
      split
      · show model_map_remove (domain_at s d).intercepts c = []
        rw [h0]
        rfl
      · exact h0
    obtain ⟨k, hk⟩ := hs.dom_stale d hold
    exact ⟨k, (dereg_domains_mem s c k d).mpr ⟨hk, hd⟩⟩
  · intro n p d hm hd
    rw [(dereg_entry_fields s c p).2.2] at hd
    rw [dereg_domain_name]
    exact hs.ent_link n p d ((dereg_hostnames_mem s c n p).mp hm).1 hd

/-! ## The seeded pool -/

theorem not32_mask (k : Nat) (hk2 : 2 ≤ k) (hk : k ≤ 31) :
    not32 (2 ^ k - 1) = 2 ^ k * (2 ^ (32 - k) - 1) := by
  unfold not32
  interval_cases k <;> rfl

theorem and_not32_mask (k : Nat) (hk2 : 2 ≤ k) (hk : k ≤ 31) (q h : Nat) (hh : h < 2 ^ k)
    (hx : 2 ^ k * q + h < 4294967296) :
    (2 ^ k * q + h) &&& not32 (2 ^ k - 1) = 2 ^ k * q := by
  rw [not32_mask k hk2 hk]
  have hq : q < 2 ^ (32 - k) := by
    by_contra hge
    have h1 : 2 ^ k * 2 ^ (32 - k) ≤ 2 ^ k * q := Nat.mul_le_mul_left _ (Nat.le_of_not_lt hge)
    have h2 : 2 ^ k * 2 ^ (32 - k) = 4294967296 := by
      rw [← Nat.pow_add]
      have : k + (32 - k) = 32 := by omega
      rw [this]
    omega
  apply Nat.eq_of_testBit_eq
  intro j
  rw [Nat.testBit_and, Nat.testBit_mul_pow_two_add q hh j, Nat.testBit_mul_pow_two,
    Nat.testBit_mul_pow_two, Nat.testBit_two_pow_sub_one]
  by_cases hj : j < k
  · have : ¬ j ≥ k := by omega
    simp [hj, this]
  · have hj' : j ≥ k := by omega
    simp only [hj, if_false, hj', decide_True, Bool.true_and]
    by_cases hjj : j - k < 32 - k
    · simp [hjj]
    · have : q < 2 ^ (j - k) :=
        Nat.lt_of_lt_of_le hq (Nat.pow_le_pow_right (by norm_num) (by omega))
      simp [hjj, Nat.testBit_lt_two_pow this]

theorem seed_dns_pool (s : ziti_dns_s) (ip0 ip1 ip2 ip3 bits : Nat)
    (h0 : ip0 ≤ 255) (h1 : ip1 ≤ 255) (h2 : ip2 ≤ 255) (h3 : ip3 ≤ 255)
    (hb1 : 1 ≤ bits) (hb2 : bits ≤ 30) :
    pool_ok (seed_dns s (some (ip0, ip1, ip2, ip3, bits))).1.ip_pool ∧
    (seed_dns s (some (ip0, ip1, ip2, ip3, bits))).1.hostnames = s.hostnames ∧
    (seed_dns s (some (ip0, ip1, ip2, ip3, bits))).1.ip_addresses = s.ip_addresses ∧
    (seed_dns s (some (ip0, ip1, ip2, ip3, bits))).1.domains = s.domains ∧
    (seed_dns s (some (ip0, ip1, ip2, ip3, bits))).1.entry_heap = s.entry_heap ∧
    (seed_dns s (some (ip0, ip1, ip2, ip3, bits))).1.domain_heap = s.domain_heap := by
  have hc : ¬ (ip0 > 255 ∨ ip1 > 255 ∨ ip2 > 255 ∨ ip3 > 255 ∨ bits > 32) := by omega
  unfold seed_dns
  simp only [hc, if_false]
  refine ⟨?_, trivial, trivial, trivial, trivial, trivial⟩
  have hm : not32 ((4294967295 <<< (32 - bits)) % 4294967296) = 2 ^ (32 - bits) - 1 := by
    unfold not32
    interval_cases bits <;> rfl
  have hcap : (4294967296 + 1 <<< (32 - bits) - 2) % 4294967296 = 2 ^ (32 - bits) - 2 := by
    interval_cases bits <;> rfl
  have hk2 : 2 ≤ 32 - bits := by omega
  have hk31 : 32 - bits ≤ 31 := by omega
  have hpos : 0 < 2 ^ (32 - bits) := Nat.pow_pos (by norm_num)
  have h4 : 2 ^ 2 ≤ 2 ^ (32 - bits) := Nat.pow_le_pow_right (by norm_num) hk2
  refine ⟨32 - bits, ⟨hk2, hk31, ?_, ?_, ?_, ?_⟩, ?_, ?_⟩
  · simp only [hm]
  · simp only [hcap]
  · simp only [hm]
    generalize hM : ((((ip0 &&& 255) * 256 ||| ip1 &&& 255) * 256 ||| ip2 &&& 255) * 256
      ||| ip3 &&& 255) % 4294967296 = M
    have hM32 : M < 4294967296 := by
      rw [← hM]
      exact Nat.mod_lt _ (by norm_num)
    have hdm := Nat.div_add_mod M (2 ^ (32 - bits))
    have := and_not32_mask (32 - bits) hk2 hk31 (M / 2 ^ (32 - bits)) (M % 2 ^ (32 - bits))
      (Nat.mod_lt _ hpos) (by omega)
    rw [hdm] at this
    rw [this]
    exact Nat.mul_mod_right _ _
  · show _ &&& _ < 4294967296
    exact Nat.lt_of_le_of_lt Nat.and_le_left (Nat.mod_lt _ (by norm_num))
  · exact Nat.le_refl 1
  · simp only [hm]
    omega

theorem setup_ok (dns_addr tun_addr ip0 ip1 ip2 ip3 bits : Nat)
    (h0 : ip0 ≤ 255) (h1 : ip1 ≤ 255) (h2 : ip2 ≤ 255) (h3 : ip3 ≤ 255)
    (hb1 : 1 ≤ bits) (hb2 : bits ≤ 30) :
    catalog_ok tun_addr dns_addr
      (ziti_dns_setup dns_addr tun_addr (some (ip0, ip1, ip2, ip3, bits))) := by
  obtain ⟨hp, e1, e2, e3, e4, e5⟩ :=
    seed_dns_pool ziti_dns_zero ip0 ip1 ip2 ip3 bits h0 h1 h2 h3 hb1 hb2
  generalize hs0 : (seed_dns ziti_dns_zero (some (ip0, ip1, ip2, ip3, bits))).1 = s0 at *
  obtain ⟨pool, hn, ips, doms, eh, dh⟩ := s0
  simp only [ziti_dns_zero] at e1 e2 e3 e4 e5
  subst e1 e2 e3 e4 e5
  unfold ziti_dns_setup
  simp only [hs0, List.nil_append, List.length_nil, List.length_cons, model_map_set]
  by_cases htd : tun_addr = dns_addr
  · subst htd
    simp only [if_true]
    constructor
    · exact hp
    · simp
    · simp
    · simp
    · simp
    · intro n p hm
      simp at hm
    · intro n p hm
      simp at hm
    · intro n p hm
      simp at hm
    · intro n p hm
      simp at hm
    · intro a p hm
      simp only [List.mem_singleton, Prod.mk.injEq] at hm
      obtain ⟨rfl, rfl⟩ := hm
      exact ⟨by simp, fun _ => Or.inl rfl, fun h => absurd h (by omega)⟩
    · exact ⟨1, by omega, by simp⟩
    · exact ⟨1, by omega, by simp⟩
    · intro k d hm
      simp at hm
    · intro p d hd
      simp only [entry_at, List.getD_eq_getElem?_getD] at hd
      match p, hd with
      | 0, hd => simp [calloc_entry] at hd
      | 1, hd => simp [calloc_entry] at hd
      | (p + 2), hd => simp [calloc_entry] at hd
    · intro k d hm
      simp at hm
    · intro d hd
      simp [domain_at, calloc_domain] at hd
    · intro n p d hm
      simp at hm
  · simp only [htd, if_false]
    constructor
    · exact hp
    · simp
    · simp
    · simp [htd]
    · simp
    · intro n p hm
      simp at hm
    · intro n p hm
      simp at hm
    · intro n p hm
      simp at hm
    · intro n p hm
      simp at hm
    · intro a p hm
      simp only [List.mem_cons, Prod.mk.injEq, List.mem_singleton, List.not_mem_nil,
        or_false] at hm
      rcases hm with ⟨rfl, rfl⟩ | ⟨rfl, rfl⟩
      · exact ⟨by simp, fun _ => Or.inl rfl, fun h => absurd h (by omega)⟩
      · exact ⟨by simp, fun _ => Or.inr rfl, fun h => absurd h (by omega)⟩
    · exact ⟨0, by omega, by simp⟩
    · exact ⟨1, by omega, by simp⟩
    · intro k d hm
      simp at hm
    · intro p d hd
      simp only [entry_at, List.getD_eq_getElem?_getD] at hd
      match p, hd with
      | 0, hd => simp [calloc_entry] at hd
      | 1, hd => simp [calloc_entry] at hd
      | (p + 2), hd => simp [calloc_entry] at hd
    · intro k d hm
      simp at hm
    · intro d hd
      simp [domain_at, calloc_domain] at hd
    · intro n p d hm
      simp at hm

theorem step_ok {tun dns : Nat} {s : ziti_dns_s} (hs : catalog_ok tun dns s) (c : dns_call) :
    catalog_ok tun dns (dns_step s c) := by
  cases c with
  | register addr intercept => exact register_ok hs addr intercept
  | lookup hostname => exact lookup_ok hs hostname
  | deregister intercept => exact deregister_ok hs intercept

theorem run_ok {tun dns : Nat} {s : ziti_dns_s} (hs : catalog_ok tun dns s)
    (cs : List dns_call) : catalog_ok tun dns (dns_run s cs) := by
  induction cs generalizing s with
  | nil => exact hs
  | cons c cs ih => exact ih (step_ok hs c)

/-! ## What registrations and lookups leave in place -/

theorem model_map_get_append_some {K V : Type} [DecidableEq K] {m : List (K × V)}
    (l : List (K × V)) {k : K} {v : V} (h : model_map_get m k = some v) :
    model_map_get (m ++ l) k = some v := by
  induction m with
  | nil => simp [model_map_get] at h
  | cons x m ih =>
    obtain ⟨k', v'⟩ := x
    show model_map_get ((k', v') :: (m ++ l)) k = some v
    by_cases hk : k' = k
    · simp only [model_map_get, hk, if_true] at h
      simp only [model_map_get, hk, if_true, h]
    · simp only [model_map_get, hk, if_false] at h
      simp only [model_map_get, hk, if_false, ih h]

theorem model_map_get_append_none {K V : Type} [DecidableEq K] {m : List (K × V)}
    (l : List (K × V)) {k : K} (h : model_map_get m k = none) :
    model_map_get (m ++ l) k = model_map_get l k := by
  induction m with
  | nil => rfl
  | cons x m ih =>
    obtain ⟨k', v'⟩ := x
    show model_map_get ((k', v') :: (m ++ l)) k = model_map_get l k
    by_cases hk : k' = k
    · simp [model_map_get, hk] at h
    · simp only [model_map_get, hk, if_false] at h
      simp only [model_map_get, hk, if_false, ih h]

theorem model_map_isSome_set {K V : Type} [DecidableEq K] (m : List (K × V)) (k : K)
    (v : V) {j : K} (h : (model_map_get m j).isSome = true) :
    (model_map_get (model_map_set m k v) j).isSome = true := by
  by_cases hj : j = k
  · subst hj
    rw [model_map_get_set_same]
    rfl
  · rw [model_map_get_set_ne m v hj, h]

theorem state_grows_refl (s : ziti_dns_s) : state_grows s s :=
  ⟨rfl, rfl, rfl, fun _ _ h => h, fun _ _ h => h, fun _ _ h => h,
    fun _ _ => ⟨rfl, rfl, rfl, fun _ h => h⟩, fun _ _ => ⟨rfl, fun _ h => h⟩⟩

theorem state_grows_trans {s1 s2 s3 : ziti_dns_s} (h12 : state_grows s1 s2)
    (h23 : state_grows s2 s3) (hl : s1.entry_heap.length ≤ s2.entry_heap.length)
    (hd : s1.domain_heap.length ≤ s2.domain_heap.length) : state_grows s1 s3 := by
  refine ⟨by rw [h23.base, h12.base], by rw [h23.mask, h12.mask],
    by rw [h23.capacity, h12.capacity], fun n p h => h23.hosts n p (h12.hosts n p h),
    fun a p h => h23.ips a p (h12.ips a p h), fun k d h => h23.doms k d (h12.doms k d h),
    ?_, ?_⟩
  · intro p hp
    obtain ⟨a1, a2, a3, a4⟩ := h12.ent p hp
    obtain ⟨b1, b2, b3, b4⟩ := h23.ent p (Nat.lt_of_lt_of_le hp hl)
    exact ⟨by rw [b1, a1], by rw [b2, a2], by rw [b3, a3], fun j h => b4 j (a4 j h)⟩
  · intro d hd'
    obtain ⟨a1, a2⟩ := h12.dom d hd'
    obtain ⟨b1, b2⟩ := h23.dom d (Nat.lt_of_lt_of_le hd' hd)
    exact ⟨by rw [b1, a1], fun j h => b2 j (a2 j h)⟩

theorem state_grows_leak (s : ziti_dns_s) (c : Nat) (e : dns_entry_t) :
    state_grows s { s with ip_pool := { s.ip_pool with counter := c },
                           entry_heap := s.entry_heap ++ [e] } := by
  refine ⟨rfl, rfl, rfl, fun _ _ h => h, fun _ _ h => h, fun _ _ h => h, ?_,
    fun _ _ => ⟨rfl, fun _ h => h⟩⟩
  intro p hp
  have : entry_at { s with ip_pool := { s.ip_pool with counter := c },
                           entry_heap := s.entry_heap ++ [e] } p = entry_at s p := by
    simp only [entry_at, heap_getD_append_one, hp, if_true]
  rw [this]
  exact ⟨rfl, rfl, rfl, fun _ h => h⟩

theorem state_grows_add_entry (s : ziti_dns_s) (c a : Nat) (host : List Char)
    (e : dns_entry_t) :
    state_grows s
      { ip_pool := { s.ip_pool with counter := c },
        hostnames := s.hostnames ++ [(host, s.entry_heap.length)],
        ip_addresses := s.ip_addresses ++ [(a, s.entry_heap.length)],
        domains := s.domains,
        entry_heap := s.entry_heap ++ [e],
        domain_heap := s.domain_heap } := by
  refine ⟨rfl, rfl, rfl, fun _ _ h => model_map_get_append_some _ h,
    fun _ _ h => model_map_get_append_some _ h, fun _ _ h => h, ?_,
    fun _ _ => ⟨rfl, fun _ h => h⟩⟩
  intro p hp
  have : entry_at
      { ip_pool := { s.ip_pool with counter := c },
        hostnames := s.hostnames ++ [(host, s.entry_heap.length)],
        ip_addresses := s.ip_addresses ++ [(a, s.entry_heap.length)],
        domains := s.domains,
        entry_heap := s.entry_heap ++ [e],
        domain_heap := s.domain_heap } p = entry_at s p := by
    simp only [entry_at, heap_getD_append_one, hp, if_true]
  rw [this]
  exact ⟨rfl, rfl, rfl, fun _ h => h⟩

theorem state_grows_touch_entry (s : ziti_dns_s) (p i : Nat) :
    state_grows s
      { s with
          entry_heap := s.entry_heap.set p
            (dns_entry_t.mk (entry_at s p).name (entry_at s p).addr (entry_at s p).domain
              (model_map_set (entry_at s p).intercepts i i)) } := by
  refine ⟨rfl, rfl, rfl, fun _ _ h => h, fun _ _ h => h, fun _ _ h => h, ?_,
    fun _ _ => ⟨rfl, fun _ h => h⟩⟩
  intro q hq
  by_cases hpq : p = q
  · subst hpq
    have : entry_at
        { s with
            entry_heap := s.entry_heap.set p
              (dns_entry_t.mk (entry_at s p).name (entry_at s p).addr (entry_at s p).domain
                (model_map_set (entry_at s p).intercepts i i)) } p
        = dns_entry_t.mk (entry_at s p).name (entry_at s p).addr (entry_at s p).domain
                (model_map_set (entry_at s p).intercepts i i) := by
      simp only [entry_at, heap_getD_set, hq, and_self, if_true]
    rw [this]
    exact ⟨rfl, rfl, rfl, fun j h => model_map_isSome_set _ _ _ h⟩
  · have : entry_at
        { s with
            entry_heap := s.entry_heap.set p
              (dns_entry_t.mk (entry_at s p).name (entry_at s p).addr (entry_at s p).domain
                (model_map_set (entry_at s p).intercepts i i)) } q = entry_at s q := by
      simp only [entry_at, heap_getD_set, hpq, false_and, if_false]
    rw [this]
    exact ⟨rfl, rfl, rfl, fun _ h => h⟩

theorem state_grows_touch_domain (s : ziti_dns_s) (d i : Nat) :
    state_grows s
      { s with
          domain_heap := s.domain_heap.set d
            (dns_domain_t.mk (domain_at s d).name
              (model_map_set (domain_at s d).intercepts i i)) } := by
  refine ⟨rfl, rfl, rfl, fun _ _ h => h, fun _ _ h => h, fun _ _ h => h,
    fun _ _ => ⟨rfl, rfl, rfl, fun _ h => h⟩, ?_⟩
  intro q hq
  by_cases hpq : d = q
  · subst hpq
    have : domain_at
        { s with
            domain_heap := s.domain_heap.set d
              (dns_domain_t.mk (domain_at s d).name
                (model_map_set (domain_at s d).intercepts i i)) } d
        = dns_domain_t.mk (domain_at s d).name
                (model_map_set (domain_at s d).intercepts i i) := by
      simp only [domain_at, heap_getD_set, hq, and_self, if_true]
    rw [this]
    exact ⟨rfl, fun j h => model_map_isSome_set _ _ _ h⟩
  · have : domain_at
        { s with
            domain_heap := s.domain_heap.set d
              (dns_domain_t.mk (domain_at s d).name
                (model_map_set (domain_at s d).intercepts i i)) } q = domain_at s q := by
      simp only [domain_at, heap_getD_set, hpq, false_and, if_false]
    rw [this]
    exact ⟨rfl, fun _ h => h⟩

theorem state_grows_new_domain (s : ziti_dns_s) (key : List Char) (dom : dns_domain_t) :
    state_grows s { s with domain_heap := s.domain_heap ++ [dom],
                           domains := s.domains ++ [(key, s.domain_heap.length)] } := by
  refine ⟨rfl, rfl, rfl, fun _ _ h => h, fun _ _ h => h,
    fun _ _ h => model_map_get_append_some _ h,
    fun _ _ => ⟨rfl, rfl, rfl, fun _ h => h⟩, ?_⟩
  intro q hq
  have : domain_at { s with domain_heap := s.domain_heap ++ [dom],
                            domains := s.domains ++ [(key, s.domain_heap.length)] } q
      = domain_at s q := by
    simp only [domain_at, heap_getD_append_one, hq, if_true]
  rw [this]
  exact ⟨rfl, fun _ h => h⟩

theorem register_grows {tun dns : Nat} {s : ziti_dns_s} (hs : catalog_ok tun dns s)
    (addr : ziti_address) (intercept : Nat) :
    state_grows s (ziti_dns_register_hostname s addr intercept).1 := by
  cases addr with
  | cidr ip bits => exact state_grows_refl s
  | hostname hostname =>
    by_cases hd : (check_name hostname).2.2 = true
    · cases hg : model_map_get s.domains (List.drop 2 (check_name hostname).2.1) with
      | some d =>
        rw [register_domain_existing s hostname intercept hd hg]
        exact state_grows_touch_domain s d intercept
      | none =>
        rw [register_domain_new s hostname intercept hd hg]
        exact state_grows_new_domain s _ _
    · have hd' : (check_name hostname).2.2 = false := by simpa using hd
      cases hg : model_map_get s.hostnames (check_name hostname).2.1 with
      | some entry =>
        rw [register_host_existing s hostname intercept hd' hg]
        exact state_grows_touch_entry s entry intercept
      | none =>
        rw [register_host_new s hostname intercept hd' hg]
        obtain ⟨c, hc1, hc2, hcase⟩ := new_ipv4_entry_spec s (check_name hostname).2.1 hs.pool
          (take_max_of_clean hostname) hg
        rcases hcase with ⟨h, _⟩ | ⟨a, h, hh1, hh2, hah, hfree, heq, _⟩
        · rw [h]
          exact state_grows_leak s c _
        · rw [heq]
          simp only [entry_at, heap_set_append_one, heap_getD_append_one, Nat.lt_irrefl,
            if_false, if_true]
          exact state_grows_add_entry s c a _ _

theorem lookup_grows {tun dns : Nat} {s : ziti_dns_s} (hs : catalog_ok tun dns s)
    (name : List Char) : state_grows s (ziti_dns_lookup s name).1 := by
  by_cases hv : (check_name name).1 = true
  swap
  · rw [lookup_invalid s name (Or.inl (by simpa using hv))]
    exact state_grows_refl s
  by_cases hw : (check_name name).2.2 = true
  · rw [lookup_invalid s name (Or.inr hw)]
    exact state_grows_refl s
  have hw' : (check_name name).2.2 = false := by simpa using hw
  cases hg : model_map_get s.hostnames (check_name name).2.1 with
  | some p =>
    rw [lookup_existing s name hv hw' hg]
    exact state_grows_refl s
  | none =>
    cases hf : find_domain s (check_name name).2.1 with
    | none =>
      rw [lookup_no_domain s name hv hw' hg hf]
      exact state_grows_refl s
    | some d =>
      by_cases hd : (domain_at s d).intercepts = []
      · rw [lookup_empty_domain s name hv hw' hg hf hd]
        exact state_grows_refl s
      · obtain ⟨c, hc1, hc2, hcase⟩ := lookup_wildcard s name hs.pool hv hw' hg hf hd
        rcases hcase with ⟨_, h, _⟩ | ⟨a, h, hh1, hh2, hah, hfree, _, heq, _⟩
        · rw [h]
          exact state_grows_leak s c _
        · rw [heq]
          exact state_grows_add_entry s c a _ _

/-- The shape of the pool is the same after any call. -/
theorem step_pool {tun dns : Nat} {s : ziti_dns_s} (hs : catalog_ok tun dns s)
    (c : dns_call) :
    (dns_step s c).ip_pool.base = s.ip_pool.base ∧
    (dns_step s c).ip_pool.counter_mask = s.ip_pool.counter_mask ∧
    (dns_step s c).ip_pool.capacity = s.ip_pool.capacity := by
  cases c with
  | register addr intercept =>
    have h := register_grows hs addr intercept
    exact ⟨h.base, h.mask, h.capacity⟩
  | lookup hostname =>
    have h := lookup_grows hs hostname
    exact ⟨h.base, h.mask, h.capacity⟩
  | deregister intercept => exact ⟨rfl, rfl, rfl⟩

theorem run_pool {tun dns : Nat} {s : ziti_dns_s} (hs : catalog_ok tun dns s)
    (cs : List dns_call) :
    (dns_run s cs).ip_pool.base = s.ip_pool.base ∧
    (dns_run s cs).ip_pool.counter_mask = s.ip_pool.counter_mask ∧
    (dns_run s cs).ip_pool.capacity = s.ip_pool.capacity := by
  induction cs generalizing s with
  | nil => exact ⟨rfl, rfl, rfl⟩
  | cons c cs ih =>
    obtain ⟨a1, a2, a3⟩ := ih (step_ok hs c)
    obtain ⟨b1, b2, b3⟩ := step_pool hs c
    exact ⟨by rw [← b1]; exact a1, by rw [← b2]; exact a2, by rw [← b3]; exact a3⟩

theorem reachable_ok {dns_addr tun_addr : Nat} {s : ziti_dns_s}
    (h : reachable dns_addr tun_addr s) : catalog_ok tun_addr dns_addr s := by
  obtain ⟨⟨ip0, ip1, ip2, ip3, bits⟩, calls, ⟨h0, h1, h2, h3, hb1, hb2⟩, rfl⟩ := h
  exact run_ok (setup_ok dns_addr tun_addr ip0 ip1 ip2 ip3 bits h0 h1 h2 h3 hb1 hb2) calls

theorem reachable_step {dns_addr tun_addr : Nat} {s : ziti_dns_s}
    (h : reachable dns_addr tun_addr s) (c : dns_call) :
    reachable dns_addr tun_addr (dns_step s c) := by
  obtain ⟨cidr, calls, hv, rfl⟩ := h
  refine ⟨cidr, calls ++ [c], hv, ?_⟩
  generalize ziti_dns_setup dns_addr tun_addr (some cidr) = s0
  induction calls generalizing s0 with
  | nil => rfl
  | cons c0 cs ih => exact ih (dns_step s0 c0)

/-! ## Registration of a plain host name -/

theorem model_map_isSome_ne_nil {K V : Type} [DecidableEq K] {m : List (K × V)} {j : K}
    (h : (model_map_get m j).isSome = true) : m ≠ [] := by
  intro h0
  subst h0
  simp [model_map_get] at h

theorem check_name_normal {h : List Char} (hlow : h.map tolower = h) (hlen : h.length ≤ 255)
    (hplain : ¬ ∃ rest, h = '*' :: '.' :: rest) : check_name h = (true, h, false) := by
  rw [check_name_plain h hplain, hlow]
  have : h.length < MAX_DNS_NAME := by
    unfold MAX_DNS_NAME
    omega
  simp [this]

theorem check_name_lower (n : List Char) : check_name (n.map tolower) = check_name n := by
  by_cases hw : ∃ rest, n = '*' :: '.' :: rest
  · obtain ⟨rest, rfl⟩ := hw
    have : ('*' :: '.' :: rest).map tolower = '*' :: '.' :: rest.map tolower := by
      simp [tolower_star, tolower_dot]
    rw [this, check_name_wild, check_name_wild, map_tolower_idem]
    simp
  · rw [check_name_plain _ (map_tolower_not_wild n hw), check_name_plain n hw,
      map_tolower_idem]
    simp

/-- A registration that returns an entry: the entry is stored under the cleaned
name, holds the claimant, and is either the entry that was there or a new one. -/
theorem register_plain_result {tun dns : Nat} {s : ziti_dns_s} (hs : catalog_ok tun dns s)
    {h : List Char} {c p : Nat} (hd : (check_name h).2.2 = false)
    (hreg : (ziti_dns_register_hostname s (ziti_address.hostname h) c).2 = some p) :
    model_map_get (ziti_dns_register_hostname s (ziti_address.hostname h) c).1.hostnames
      (check_name h).2.1 = some p ∧
    (model_map_get (entry_at
      (ziti_dns_register_hostname s (ziti_address.hostname h) c).1 p).intercepts c).isSome
        = true ∧
    (model_map_get s.hostnames (check_name h).2.1 = some p ∨
      (model_map_get s.hostnames (check_name h).2.1 = none ∧ p = s.entry_heap.length)) := by
  cases hg : model_map_get s.hostnames (check_name h).2.1 with
  | some entry =>
    rw [register_host_existing s h c hd hg] at hreg ⊢
    simp only [Option.some.injEq] at hreg
    subst hreg
    have hp := (hs.host_ptr _ _ (model_map_get_mem hg)).2.1
    refine ⟨hg, ?_, Or.inl rfl⟩
    simp only [entry_at, heap_getD_set, hp, and_self, if_true, model_map_get_set_same]
    rfl
  | none =>
    rw [register_host_new s h c hd hg] at hreg ⊢
    obtain ⟨c0, hc1, hc2, hcase⟩ := new_ipv4_entry_spec s (check_name h).2.1 hs.pool
      (take_max_of_clean h) hg
    rcases hcase with ⟨e, _⟩ | ⟨a, h0, hh1, hh2, hah, hfree, heq, _⟩
    · rw [e] at hreg
      simp at hreg
    · rw [heq] at hreg ⊢
      simp only [Option.some.injEq] at hreg
      subst hreg
      refine ⟨?_, ?_, Or.inr ⟨rfl, rfl⟩⟩
      · show model_map_get (s.hostnames ++ [((check_name h).2.1, s.entry_heap.length)]) _ = _
        rw [model_map_get_append_none _ hg]
        simp [model_map_get]
      · simp only [entry_at, heap_set_append_one, heap_getD_append_one, Nat.lt_irrefl,
          if_false, if_true, model_map_get_set_same]
        rfl

/-! ## The entry of a name that keeps a claimant -/

theorem grows_keeps_entry {tun dns : Nat} {s s' : ziti_dns_s} (hs : catalog_ok tun dns s)
    (hg : state_grows s s') {h : List Char} {p j : Nat}
    (hh : model_map_get s.hostnames h = some p)
    (hj : (model_map_get (entry_at s p).intercepts j).isSome = true) :
    model_map_get s'.hostnames h = some p ∧ (entry_at s' p).addr = (entry_at s p).addr ∧
      (model_map_get (entry_at s' p).intercepts j).isSome = true := by
  have hp := (hs.host_ptr _ _ (model_map_get_mem hh)).2.1
  obtain ⟨_, e2, _, e4⟩ := hg.ent p hp
  exact ⟨hg.hosts h p hh, e2, e4 j hj⟩

theorem dereg_keeps_entry {tun dns : Nat} {s : ziti_dns_s} (hs : catalog_ok tun dns s)
    {h : List Char} {p i j : Nat} (hh : model_map_get s.hostnames h = some p) (hji : j ≠ i)
    (hj : (model_map_get (entry_at s p).intercepts j).isSome = true) :
    model_map_get (ziti_dns_deregister_intercept s i).hostnames h = some p ∧
    (entry_at (ziti_dns_deregister_intercept s i) p).name = (entry_at s p).name ∧
    (entry_at (ziti_dns_deregister_intercept s i) p).addr = (entry_at s p).addr ∧
    (entry_at (ziti_dns_deregister_intercept s i) p).domain = (entry_at s p).domain ∧
    (entry_at (ziti_dns_deregister_intercept s i) p).intercepts =
      model_map_remove (entry_at s p).intercepts i ∧
    (model_map_get (entry_at (ziti_dns_deregister_intercept s i) p).intercepts j).isSome
      = true := by
  have hm := model_map_get_mem hh
  have hpv : p ∈ s.hostnames.map Prod.snd := List.mem_map_of_mem Prod.snd hm
  have hat : entry_at (ziti_dns_deregister_intercept s i) p = entry_drop i (entry_at s p) := by
    rw [dereg_entry_at, if_pos hpv]
  have hj' : (model_map_get (entry_drop i (entry_at s p)).intercepts j).isSome = true := by
    show (model_map_get (model_map_remove (entry_at s p).intercepts i) j).isSome = true
    rw [model_map_get_remove_ne _ hji]
    exact hj
  have hs' := deregister_ok hs i
  refine ⟨?_, ?_, ?_, ?_, ?_, ?_⟩
  · apply model_map_get_of_mem hs'.host_nodup
    rw [dereg_hostnames_mem]
    refine ⟨hm, ?_⟩
    rw [dereg_dead_iff]
    exact Or.inl (model_map_isSome_ne_nil hj')
  · rw [hat]
    rfl
  · rw [hat]
    rfl
  · rw [hat]
    rfl
  · rw [hat]
    rfl
  · rw [hat]
    exact hj'

/-! ## Lemmas for the deregistration claims -/

theorem model_map_get_isSome_of_mem {K V : Type} [DecidableEq K] {m : List (K × V)} {k : K}
    {v : V} (h : (k, v) ∈ m) : (model_map_get m k).isSome = true := by
  cases hg : model_map_get m k with
  | some w => rfl
  | none => exact absurd h (model_map_get_none_not_mem hg)

theorem model_map_remove_sole {K V : Type} [DecidableEq K] {m : List (K × V)} {c : K}
    (h : ∀ j, (model_map_get m j).isSome = true → j = c) : model_map_remove m c = [] := by
  unfold model_map_remove
  rw [List.filter_eq_nil_iff]
  intro x hx
  obtain ⟨k, v⟩ := x
  have := h k (model_map_get_isSome_of_mem hx)
  simp [this]

theorem find_domain_eq_none {s : ziti_dns_s} {n : List Char}
    (h : ∀ t, label_suffix t n → model_map_get s.domains t = none) :
    find_domain s n = none := by
  cases hf : find_domain s n with
  | none => rfl
  | some d =>
    obtain ⟨t, ht, hg, _⟩ := find_domain_some hf
    rw [h t ht] at hg
    exact absurd hg (by simp)

theorem dereg_find_domain_none {s : ziti_dns_s} {n : List Char} (c : Nat)
    (h : find_domain s n = none) :
    find_domain (ziti_dns_deregister_intercept s c) n = none := by
  apply find_domain_eq_none
  intro t ht
  have h0 := find_domain_none h t ht
  rw [model_map_get_eq_none] at h0 ⊢
  intro hm
  apply h0
  obtain ⟨x, hx, hk⟩ := List.mem_map.mp hm
  obtain ⟨k, d⟩ := x
  have := ((dereg_domains_mem s c k d).mp hx).1
  rw [← hk]
  exact List.mem_map_of_mem Prod.fst this

/-- In a consistent state, an entry whose name no registered domain covers is
linked to no domain that has intercepts. -/
theorem uncovered_domain_empty {tun dns : Nat} {s : ziti_dns_s} (hs : catalog_ok tun dns s)
    {h : List Char} {p d : Nat} (hm : (h, p) ∈ s.hostnames)
    (hd : (entry_at s p).domain = some d) (hnf : find_domain s h = none) :
    (domain_at s d).intercepts = [] := by
  by_contra hne
  obtain ⟨k, hk⟩ := hs.dom_stale d hne
  have hl := hs.ent_link h p d hm hd
  rw [hs.dom_name k d hk] at hl
  have := find_domain_none hnf k hl
  rw [model_map_get_of_mem hs.dom_nodup hk] at this
  exact absurd this (by simp)

theorem dereg_domain_empty {s : ziti_dns_s} {d : Nat} (c : Nat)
    (h : (domain_at s d).intercepts = []) :
    (domain_at (ziti_dns_deregister_intercept s c) d).intercepts = [] := by
  rw [dereg_domain_at]
  split
  · show model_map_remove (domain_at s d).intercepts c = []
    rw [h]
    rfl
  · exact h

/-- An entry that loses its last claimant and whose domain, if any, has no
intercepts after the call is removed from both maps. -/
theorem dereg_removes_entry {tun dns : Nat} {s : ziti_dns_s} (hs : catalog_ok tun dns s)
    {h : List Char} {p c : Nat} (hh : model_map_get s.hostnames h = some p)
    (hsole : ∀ j, (model_map_get (entry_at s p).intercepts j).isSome = true → j = c)
    (hdom : ∀ d, (entry_at s p).domain = some d →
      (domain_at (ziti_dns_deregister_intercept s c) d).intercepts = []) :
    model_map_get (ziti_dns_deregister_intercept s c).hostnames h = none ∧
    model_map_get (ziti_dns_deregister_intercept s c).ip_addresses (entry_at s p).addr
      = none := by
  have hm := model_map_get_mem hh
  have hdead : entry_dead (deregister_domains c s.domains s.domain_heap)
      (entry_drop c (entry_at s p)) = true := by
    cases hd : entry_dead (deregister_domains c s.domains s.domain_heap)
        (entry_drop c (entry_at s p)) with
    | true => rfl
    | false =>
      exfalso
      rcases (dereg_dead_iff s c p).mp hd with h1 | ⟨d, h1, h2⟩
      · exact h1 (model_map_remove_sole hsole)
      · exact h2 (hdom d h1)
  constructor
  · rw [model_map_get_eq_none]
    intro hk
    obtain ⟨x, hx, hxk⟩ := List.mem_map.mp hk
    obtain ⟨n, q⟩ := x
    simp only at hxk
    subst hxk
    obtain ⟨hx0, hlive⟩ := (dereg_hostnames_mem s c n q).mp hx
    have : q = p := nodup_keys_unique hs.host_nodup hx0 hm
    subst this
    rw [hdead] at hlive
    exact absurd hlive (by simp)
  · rw [model_map_get_eq_none]
    intro hk
    obtain ⟨x, hx, hxk⟩ := List.mem_map.mp hk
    obtain ⟨a, q⟩ := x
    simp only at hxk
    subst hxk
    exact ((dereg_ips_mem s c _ q).mp hx).2 h p hm hdead rfl

/-- An entry that keeps a claimant stays in both maps with its name and IP. -/
theorem dereg_keeps_binding {tun dns : Nat} {s : ziti_dns_s} (hs : catalog_ok tun dns s)
    {n : List Char} {q c j : Nat} (hh : model_map_get s.hostnames n = some q) (hjc : j ≠ c)
    (hj : (model_map_get (entry_at s q).intercepts j).isSome = true) :
    model_map_get (ziti_dns_deregister_intercept s c).hostnames n = some q ∧
    (entry_at (ziti_dns_deregister_intercept s c) q).name = (entry_at s q).name ∧
    (entry_at (ziti_dns_deregister_intercept s c) q).addr = (entry_at s q).addr ∧
    (entry_at (ziti_dns_deregister_intercept s c) q).intercepts =
      model_map_remove (entry_at s q).intercepts c ∧
    model_map_get (ziti_dns_deregister_intercept s c).ip_addresses (entry_at s q).addr
      = some q := by
  obtain ⟨a1, a2, a3, _, a5, _⟩ := dereg_keeps_entry hs hh hjc hj
  have hs' := deregister_ok hs c
  have hmem := (hs'.host_ptr n q (model_map_get_mem a1)).2.2.2
  rw [a3] at hmem
  exact ⟨a1, a2, a3, a5, model_map_get_of_mem hs'.ip_nodup hmem⟩

theorem sole_of_singleton {m : List (Nat × Nat)} (c v : Nat) (hm : m = [(c, v)]) (j : Nat)
    (hj : (model_map_get m j).isSome = true) : j = c := by
  subst hm
  by_contra hne
  have hne' : ¬ c = j := fun h => hne h.symm
  simp [model_map_get, hne'] at hj

/-! ### Bytes and header bits -/

theorem replicate_zero_getD (n j : Nat) : (List.replicate n 0).getD j 0 = 0 := by
  by_cases h : j < n
  · rw [List.getD_eq_getElem _ _ (by simpa using h)]
    simp
  · rw [List.getD_eq_default _ _ (by simpa using h)]

theorem req_buffer_getD (req : dns_req) (i : Nat) :
    (req_buffer req).getD i 0 = req.req.getD i 0 := by
  unfold req_buffer
  by_cases h : i < req.req.length
  · rw [List.getD_append _ _ _ _ h]
  · have h' : req.req.length ≤ i := by omega
    rw [List.getD_append_right _ _ _ _ h', replicate_zero_getD, List.getD_eq_default _ _ h']

theorem getD_lt_of_forall {l : List Nat} (h : ∀ b ∈ l, b < 256) (i : Nat) :
    l.getD i 0 < 256 := by
  by_cases hi : i < l.length
  · rw [List.getD_eq_getElem _ _ hi]
    exact h _ (List.getElem_mem hi)
  · rw [List.getD_eq_default _ _ (by omega)]
    decide

set_option maxRecDepth 100000 in
theorem byte_set_ans : ∀ x, x < 256 →
    (x ||| 0x80) / 128 % 2 = 1 ∧ ((x ||| 0x80) ||| 0x2) / 128 % 2 = 1 ∧
    (x ||| 0x80) &&& 0x1 = x &&& 0x1 ∧ ((x ||| 0x80) ||| 0x2) &&& 0x1 = x &&& 0x1 ∧
    (x ||| 0x80) / 2 % 2 = x / 2 % 2 ∧ ((x ||| 0x80) ||| 0x2) / 2 % 2 = 1 := by
  decide

set_option maxRecDepth 100000 in
theorem byte_set_code : ∀ x, x < 256 → ∀ c, c < 16 →
    (x ||| c) % 16 = (x % 16 ||| c) ∧ ((x ||| c) ||| 0x80) % 16 = (x % 16 ||| c) ∧
    (x ||| c) / 128 % 2 = x / 128 % 2 ∧ ((x ||| c) ||| 0x80) / 128 % 2 = 1 := by
  decide

/-! ### The response written by `format_resp` -/

theorem format_resp_clt (ra : Bool) (req : dns_req) : (format_resp ra req).clt = req.clt := rfl

theorem format_resp_id (ra : Bool) (req : dns_req) : (format_resp ra req).id = req.id := rfl

theorem format_resp_flags (ra : Bool) (req : dns_req) :
    (format_resp ra req).resp.getD 2 0 =
      (if format_resp_truncated req then (req.req.getD 2 0 ||| 0x80) ||| 0x2
       else req.req.getD 2 0 ||| 0x80) ∧
    (format_resp ra req).resp.getD 3 0 =
      (if ra then (req.req.getD 3 0 ||| (req.msg.status &&& 0xf)) ||| 0x80
       else req.req.getD 3 0 ||| (req.msg.status &&& 0xf)) := by
  simp only [format_resp, req_buffer_getD]
  constructor <;> rfl

theorem format_resp_header (ra : Bool) (req : dns_req) :
    (format_resp ra req).resp.getD 0 0 = req.req.getD 0 0 ∧
    (format_resp ra req).resp.getD 1 0 = req.req.getD 1 0 := by
  simp only [format_resp, req_buffer_getD]
  constructor <;> rfl

/-- The bytes written by `format_resp` for a packet made of a header, a question
section of the length the function computes, and whatever follows. -/
theorem format_resp_bytes (ra : Bool) (req : dns_req)
    (h0 h1 h2 h3 h4 h5 h6 h7 h8 h9 h10 h11 : Nat) (qsec extra : List Nat)
    (hreq : req.req =
      h0 :: h1 :: h2 :: h3 :: h4 :: h5 :: h6 :: h7 :: h8 :: h9 :: h10 :: h11 :: (qsec ++ extra))
    (hq : qsec.length = req.msg.question0.name.length + 6) :
    (format_resp ra req).resp =
      [h0, h1,
       (if format_resp_truncated req then (h2 ||| 0x80) ||| 0x2 else h2 ||| 0x80),
       (if ra then (h3 ||| (req.msg.status &&& 0xf)) ||| 0x80
        else h3 ||| (req.msg.status &&& 0xf)),
       h4, h5] ++
      (match format_resp_answers req with
       | some r => [(r.2.2 >>> 8) % 256, r.2.2 &&& 0xff]
       | none => [h6, h7]) ++
      [h8, h9, 0, 1] ++ qsec ++
      (match format_resp_answers req with
       | some r => r.1
       | none => []) ++
      (if DNS_BUF_LEN - (DNS_HEADER_LEN + (req.msg.question0.name.length + 2 + 4) +
          (match format_resp_answers req with
           | some r => r.1
           | none => []).length) > 11 then DNS_OPT else []) := by
  have hb : ∀ i, (req_buffer req).getD i 0 = req.req.getD i 0 := req_buffer_getD req
  have hquestion : ((req_buffer req).drop DNS_HEADER_LEN).take
      (req.msg.question0.name.length + 2 + 4) = qsec := by
    unfold req_buffer DNS_HEADER_LEN
    rw [hreq]
    simp only [List.cons_append, List.drop_succ_cons, List.drop_zero, List.append_assoc]
    exact List.take_left' (by omega)
  simp only [format_resp, hb, hquestion]
  rw [hreq]
  rfl

/-- A request whose answer block is skipped: the header keeps the counts of the
request except ARCOUNT, and the OPT record follows the question. -/
theorem format_resp_plain (ra : Bool) (req : dns_req)
    (h0 h1 h2 h3 h4 h5 h6 h7 h8 h9 h10 h11 : Nat) (qsec extra : List Nat)
    (hreq : req.req =
      h0 :: h1 :: h2 :: h3 :: h4 :: h5 :: h6 :: h7 :: h8 :: h9 :: h10 :: h11 :: (qsec ++ extra))
    (hq : qsec.length = req.msg.question0.name.length + 6)
    (hlen : req.msg.question0.name.length ≤ 255)
    (hans : format_resp_answers req = none) :
    (format_resp ra req).resp =
      [h0, h1, h2 ||| 0x80,
       (if ra then (h3 ||| (req.msg.status &&& 0xf)) ||| 0x80
        else h3 ||| (req.msg.status &&& 0xf)),
       h4, h5, h6, h7, h8, h9, 0, 1] ++ qsec ++ DNS_OPT := by
  rw [format_resp_bytes ra req h0 h1 h2 h3 h4 h5 h6 h7 h8 h9 h10 h11 qsec extra hreq hq]
  have ht : format_resp_truncated req = false := by
    unfold format_resp_truncated
    rw [hans]
  have hopt : DNS_BUF_LEN - (DNS_HEADER_LEN + (req.msg.question0.name.length + 2 + 4) + 0) > 11 := by
    unfold DNS_BUF_LEN DNS_HEADER_LEN
    omega
  simp only [hans, ht, List.length_nil, hopt, if_true, List.append_nil]
  simp

theorem format_resp_answers_none_of_status (req : dns_req) (h : req.msg.status ≠ DNS_NO_ERROR) :
    format_resp_answers req = none := by
  unfold format_resp_answers
  rw [if_neg h]

theorem format_resp_answers_none_of_null (req : dns_req) (h : req.msg.answer = none) :
    format_resp_answers req = none := by
  unfold format_resp_answers
  rw [h]
  split <;> rfl

/-- The answer block for the single A record built by `process_host_req`. -/
theorem format_resp_answers_a (req : dns_req) (a : dns_answer)
    (hlen : req.msg.question0.name.length ≤ 255)
    (hst : req.msg.status = DNS_NO_ERROR) (hans : req.msg.answer = some [a])
    (hty : a.type = NS_T_A) (httl : a.ttl = 60) :
    format_resp_answers req =
      some ([0xc0, 0x0c, 0, 1, 0, 1, 0, 0, 0, 60, 0, 4] ++ s_addr_bytes req.addr, false, 1) := by
  unfold format_resp_answers
  rw [if_pos hst, hans]
  have h1 : ¬ DNS_BUF_LEN - (DNS_HEADER_LEN + (req.msg.question0.name.length + 2 + 4)) < 10 := by
    unfold DNS_BUF_LEN DNS_HEADER_LEN
    omega
  have h2 : ¬ DNS_BUF_LEN - (DNS_HEADER_LEN + (req.msg.question0.name.length + 2 + 4) + 10)
      < 2 + 4 := by
    unfold DNS_BUF_LEN DNS_HEADER_LEN
    omega
  have hr : format_rdata req.addr a
      (DNS_HEADER_LEN + (req.msg.question0.name.length + 2 + 4) + 10)
      = (SET_U16 4 ++ s_addr_bytes req.addr, false) := by
    unfold format_rdata
    rw [if_pos hty, if_neg h2]
  simp only [format_answers, if_neg h1, hr, hty, httl]
  rfl

/-- The response to an A query answered from the catalogue. -/
theorem format_resp_a_answer (ra : Bool) (req : dns_req)
    (h0 h1 h2 h3 h4 h5 h6 h7 h8 h9 h10 h11 : Nat) (qsec extra : List Nat) (a : dns_answer)
    (hreq : req.req =
      h0 :: h1 :: h2 :: h3 :: h4 :: h5 :: h6 :: h7 :: h8 :: h9 :: h10 :: h11 :: (qsec ++ extra))
    (hq : qsec.length = req.msg.question0.name.length + 6)
    (hlen : req.msg.question0.name.length ≤ 255)
    (hst : req.msg.status = DNS_NO_ERROR) (hans : req.msg.answer = some [a])
    (hty : a.type = NS_T_A) (httl : a.ttl = 60) :
    (format_resp ra req).resp =
      [h0, h1, h2 ||| 0x80, (if ra then h3 ||| 0x80 else h3), h4, h5, 0, 1, h8, h9, 0, 1] ++
        qsec ++ ([0xc0, 0x0c, 0, 1, 0, 1, 0, 0, 0, 60, 0, 4] ++ s_addr_bytes req.addr) ++
        DNS_OPT := by
  rw [format_resp_bytes ra req h0 h1 h2 h3 h4 h5 h6 h7 h8 h9 h10 h11 qsec extra hreq hq]
  have ha := format_resp_answers_a req a hlen hst hans hty httl
  have ht : format_resp_truncated req = false := by
    unfold format_resp_truncated
    rw [ha]
  have hopt : DNS_BUF_LEN - (DNS_HEADER_LEN + (req.msg.question0.name.length + 2 + 4) + 16) > 11 := by
    unfold DNS_BUF_LEN DNS_HEADER_LEN
    omega
  have hl : ([0xc0, 0x0c, 0, 1, 0, 1, 0, 0, 0, 60, 0, 4] ++ s_addr_bytes req.addr).length = 16 := rfl
  have hcode : req.msg.status &&& 0xf = 0 := by
    rw [hst]
    rfl
  simp only [ha, ht, hl, hopt, if_true, hcode, Nat.or_zero]
  cases ra <;> simp

/-! ### Completion of a request -/

/-- What `complete_dns_req` does outside for a request of client `c`: it writes
the response to `c`, and closes `c` when no other request of `c` is pending. -/
theorem complete_dns_req_actions (e : dns_engine) (req : dns_req) (c : Nat)
    (hc : req.clt = some c) :
    (complete_dns_req e req).2 = [dns_action.tunneler_write c req.resp] ∨
    (complete_dns_req e req).2 =
      [dns_action.tunneler_write c req.resp, dns_action.tunneler_close c] := by
  unfold complete_dns_req
  simp only [hc]
  split
  · right
    rfl
  · left
    rfl

theorem client_writes_append (a b : List dns_action) :
    client_writes (a ++ b) = client_writes a ++ client_writes b := by
  induction a with
  | nil => rfl
  | cons x a ih =>
    cases x <;> simp [client_writes, ih]

theorem sent_upstream_append (a b : List dns_action) :
    sent_upstream (a ++ b) = sent_upstream a ++ sent_upstream b := by
  induction a with
  | nil => rfl
  | cons x a ih =>
    cases x <;> simp [sent_upstream, ih]

theorem complete_dns_req_writes (e : dns_engine) (req : dns_req) (c : Nat)
    (hc : req.clt = some c) :
    client_writes (complete_dns_req e req).2 = [(c, req.resp)] ∧
    sent_upstream (complete_dns_req e req).2 = [] := by
  rcases complete_dns_req_actions e req c hc with h | h <;> rw [h] <;> exact ⟨rfl, rfl⟩

theorem query_upstream_refuse (e : dns_engine) (env : dns_env) (req : dns_req)
    (h : e.upstream_active = false ∨ req.msg.recursive = 0) :
    query_upstream e env req = (DNS_REFUSE, []) := by
  unfold query_upstream
  have : (e.upstream_active && decide (req.msg.recursive ≠ 0)) = false := by
    rcases h with h | h <;> simp [h]
  rw [this]
  rfl

theorem query_upstream_failed (e : dns_engine) (env : dns_env) (req : dns_req)
    (h : ∀ i, i < e.num_dns_up → env.try_send i ≤ 0) :
    (query_upstream e env req).1 = DNS_REFUSE := by
  unfold query_upstream
  split
  · have : (List.range e.num_dns_up).any (fun i => decide (env.try_send i > 0)) = false := by
      rw [List.any_eq_false]
      intro i hi
      have := h i (List.mem_range.mp hi)
      simp only [decide_eq_true_eq]
      omega
    rw [this]
    rfl
  · rfl

theorem query_upstream_status (e : dns_engine) (env : dns_env) (req : dns_req) :
    (query_upstream e env req).1 = DNS_NO_ERROR ∨ (query_upstream e env req).1 = DNS_REFUSE := by
  unfold query_upstream
  split
  · dsimp only
    split
    · left; rfl
    · right; rfl
  · right; rfl

/-! ### Routing of a new request -/

theorem on_dns_req_new (e : dns_engine) (env : dns_env) (clt : Nat) (pkt : List Nat)
    (msg : dns_message) (hdup : model_map_get e.requests (DNS_ID pkt) = none)
    (hparse : env.parse = some msg) :
    on_dns_req e env clt pkt =
      ((route_dns_req (track_dns_req e clt (new_dns_req clt pkt msg)) env
          (new_dns_req clt pkt msg)).1,
       (route_dns_req (track_dns_req e clt (new_dns_req clt pkt msg)) env
          (new_dns_req clt pkt msg)).2 ++ [dns_action.tunneler_ack]) := by
  unfold on_dns_req
  simp only [hdup, hparse]

theorem on_dns_req_duplicate (e : dns_engine) (env : dns_env) (clt : Nat) (pkt : List Nat)
    (req : dns_req) (hdup : model_map_get e.requests (DNS_ID pkt) = some req) :
    on_dns_req e env clt pkt = (e, [dns_action.tunneler_ack]) := by
  unfold on_dns_req
  simp only [hdup]

theorem track_dns_req_dns (e : dns_engine) (clt : Nat) (req : dns_req) :
    (track_dns_req e clt req).dns = e.dns := rfl

theorem track_dns_req_upstream (e : dns_engine) (clt : Nat) (req : dns_req) :
    (track_dns_req e clt req).upstream_active = e.upstream_active := rfl

/-- A host query that hits the catalogue with type A. -/
theorem process_host_req_hit_a (e : dns_engine) (env : dns_env) (req : dns_req)
    (dns1 : ziti_dns_s) (p : Nat)
    (hit : ziti_dns_lookup e.dns req.msg.question0.name = (dns1, some p))
    (hty : req.msg.question0.type = NS_T_A) :
    process_host_req e env req =
      complete_dns_req { e with dns := dns1 }
        (format_resp e.upstream_active
          { req with
            addr := (entry_at dns1 p).addr,
            msg := { req.msg with
                     status := DNS_NO_ERROR,
                     answer := some [{ name := [], type := NS_T_A, ttl := 60, priority := 0,
                                       weight := 0, port := 0,
                                       data := ipaddr_ntoa (entry_at dns1 p).addr }] } }) := by
  unfold process_host_req
  simp only [hit, hty, if_true]

/-- A host query that hits the catalogue with another type. -/
theorem process_host_req_hit_other (e : dns_engine) (env : dns_env) (req : dns_req)
    (dns1 : ziti_dns_s) (p : Nat)
    (hit : ziti_dns_lookup e.dns req.msg.question0.name = (dns1, some p))
    (hty : req.msg.question0.type ≠ NS_T_A) :
    process_host_req e env req =
      complete_dns_req { e with dns := dns1 }
        (format_resp e.upstream_active
          { req with msg := { req.msg with status := DNS_NO_ERROR } }) := by
  unfold process_host_req
  simp only [hit, hty, if_false]

/-- A host query that misses the catalogue. -/
theorem process_host_req_miss (e : dns_engine) (env : dns_env) (req : dns_req)
    (dns1 : ziti_dns_s)
    (hmiss : ziti_dns_lookup e.dns req.msg.question0.name = (dns1, none)) :
    process_host_req e env req =
      (if (query_upstream { e with dns := dns1 } env req).1 ≠ DNS_NO_ERROR then
        ((complete_dns_req { e with dns := dns1 }
            (format_resp e.upstream_active
              { req with msg := { req.msg with
                  status := (query_upstream { e with dns := dns1 } env req).1 } })).1,
         (query_upstream { e with dns := dns1 } env req).2 ++
          (complete_dns_req { e with dns := dns1 }
            (format_resp e.upstream_active
              { req with msg := { req.msg with
                  status := (query_upstream { e with dns := dns1 } env req).1 } })).2)
       else ({ e with dns := dns1 }, (query_upstream { e with dns := dns1 } env req).2)) := by
  unfold process_host_req
  simp only [hmiss]

theorem route_dns_req_host (e : dns_engine) (env : dns_env) (req : dns_req)
    (hty : req.msg.question0.type = NS_T_A ∨ req.msg.question0.type = NS_T_AAAA) :
    route_dns_req e env req = process_host_req e env req := by
  unfold route_dns_req
  simp only [hty, if_true]

/-! ### A host query that misses the catalogue -/

theorem query_upstream_congr (e e' : dns_engine) (env : dns_env) (req : dns_req)
    (h1 : e'.upstream_active = e.upstream_active) (h2 : e'.num_dns_up = e.num_dns_up) :
    query_upstream e' env req = query_upstream e env req := by
  unfold query_upstream
  rw [h1, h2]

theorem on_dns_close_dns (e : dns_engine) (clt : Nat) : (on_dns_close e clt).1.dns = e.dns := rfl

theorem complete_dns_req_dns (e : dns_engine) (req : dns_req) :
    (complete_dns_req e req).1.dns = e.dns := by
  unfold complete_dns_req
  split
  · dsimp only
    split <;> rfl
  · rfl

/-- No host name under the clean name and no wildcard domain over it: the lookup
returns null and leaves the catalogue as it is. -/
theorem lookup_miss (s : ziti_dns_s) (name : List Char)
    (hg : model_map_get s.hostnames (check_name name).2.1 = none)
    (hf : find_domain s (check_name name).2.1 = none) :
    ziti_dns_lookup s name = (s, none) := by
  by_cases hv : (check_name name).1 = true
  · by_cases hw : (check_name name).2.2 = true
    · exact lookup_invalid s name (Or.inr hw)
    · exact lookup_no_domain s name hv (by simpa using hw) hg hf
  · exact lookup_invalid s name (Or.inl (by simpa using hv))

/-- The response to a host query (A or AAAA) that misses the catalogue and is
not forwarded: the header of the request with QR set, the status of
`query_upstream` in the RCODE bits (and RA when the upstream socket is active)
and ARCOUNT 1, the question section and the OPT record. -/
theorem host_miss_response (e : dns_engine) (env : dns_env) (clt : Nat) (msg : dns_message)
    (dns1 : ziti_dns_s) (h0 h1 h2 h3 h4 h5 h6 h7 h8 h9 h10 h11 : Nat) (qsec pkt : List Nat)
    (hpkt : pkt = [h0, h1, h2, h3, h4, h5, h6, h7, h8, h9, h10, h11] ++ qsec)
    (hdup : model_map_get e.requests (DNS_ID pkt) = none)
    (hparse : env.parse = some msg)
    (hty : msg.question0.type = NS_T_A ∨ msg.question0.type = NS_T_AAAA)
    (hq : qsec.length = msg.question0.name.length + 6)
    (hlen : msg.question0.name.length ≤ 255)
    (hmiss : ziti_dns_lookup e.dns msg.question0.name = (dns1, none))
    (hrefuse : (query_upstream e env (new_dns_req clt pkt msg)).1 = DNS_REFUSE) :
    client_writes (on_dns_req e env clt pkt).2 =
      [(clt, [h0, h1, h2 ||| 0x80,
              (if e.upstream_active then (h3 ||| 5) ||| 0x80 else h3 ||| 5),
              h4, h5, h6, h7, h8, h9, 0, 1] ++ qsec ++ DNS_OPT)] ∧
    sent_upstream (on_dns_req e env clt pkt).2 =
      sent_upstream (query_upstream e env (new_dns_req clt pkt msg)).2 ∧
    (on_dns_req e env clt pkt).1.dns = dns1 := by
  have hroute := on_dns_req_new e env clt pkt msg hdup hparse
  have hhost := route_dns_req_host (track_dns_req e clt (new_dns_req clt pkt msg)) env
    (new_dns_req clt pkt msg) hty
  have hproc := process_host_req_miss (track_dns_req e clt (new_dns_req clt pkt msg)) env
    (new_dns_req clt pkt msg) dns1 hmiss
  have hqu : query_upstream { track_dns_req e clt (new_dns_req clt pkt msg) with dns := dns1 } env
      (new_dns_req clt pkt msg) = query_upstream e env (new_dns_req clt pkt msg) :=
    query_upstream_congr _ _ _ _ rfl rfl
  rw [hqu] at hproc
  have hne : (query_upstream e env (new_dns_req clt pkt msg)).1 ≠ DNS_NO_ERROR := by
    rw [hrefuse]
    decide
  rw [if_pos hne, hrefuse] at hproc
  rw [hhost, hproc] at hroute
  have hbytes := format_resp_plain e.upstream_active
    { new_dns_req clt pkt msg with msg := { msg with status := DNS_REFUSE } }
    h0 h1 h2 h3 h4 h5 h6 h7 h8 h9 h10 h11 qsec []
    (by show pkt = _; rw [List.append_nil]; exact hpkt) hq hlen
    (format_resp_answers_none_of_status _ (by show DNS_REFUSE ≠ DNS_NO_ERROR; decide))
  have hw := complete_dns_req_writes
    { track_dns_req e clt (new_dns_req clt pkt msg) with dns := dns1 }
    (format_resp e.upstream_active
      { new_dns_req clt pkt msg with msg := { msg with status := DNS_REFUSE } })
    clt rfl
  rw [hbytes] at hw
  have hcode : DNS_REFUSE &&& 0xf = 5 := by decide
  have hq0 : client_writes (query_upstream e env (new_dns_req clt pkt msg)).2 = [] := by
    unfold query_upstream
    split
    · dsimp only
      induction List.range e.num_dns_up with
      | nil => rfl
      | cons i l ih => exact ih
    · rfl
  have hw1 := hw.1
  have hw2 := hw.2
  dsimp only at hw1
  rw [hcode] at hw1
  refine ⟨?_, ?_, ?_⟩
  · rw [hroute]
    dsimp only
    rw [client_writes_append, client_writes_append, hq0]
    exact (congrArg (fun l => [] ++ l ++ client_writes [dns_action.tunneler_ack]) hw1).trans rfl
  · rw [hroute]
    dsimp only
    rw [sent_upstream_append, sent_upstream_append]
    refine (congrArg (fun l => sent_upstream (query_upstream e env (new_dns_req clt pkt msg)).2
      ++ l ++ sent_upstream [dns_action.tunneler_ack]) hw2).trans ?_
    simp [sent_upstream]
  · rw [hroute]
    dsimp only
    rw [complete_dns_req_dns]

/-! ### Requests answered at once -/

/-- The RCODE field written by `format_resp` for a request of bytes whose own
RCODE bits are zero. -/
theorem format_resp_rcode (ra : Bool) (req : dns_req) (hb : ∀ b ∈ req.req, b < 256)
    (hz : resp_rcode req.req = 0) :
    resp_rcode (format_resp ra req).resp = req.msg.status % 16 := by
  obtain ⟨_, f3⟩ := format_resp_flags ra req
  have b3 := getD_lt_of_forall hb 3
  have hc : req.msg.status &&& 0xf = req.msg.status % 16 :=
    Nat.and_pow_two_sub_one_eq_mod _ 4
  rw [hc] at f3
  have a3 := byte_set_code _ b3 _ (Nat.mod_lt req.msg.status (by decide))
  unfold resp_rcode at hz ⊢
  rw [f3]
  split
  · rw [a3.2.1, hz]
    simp
  · rw [a3.1, hz]
    simp

/-- What `finish_dns_req` does outside: after `acts`, the response of
`format_resp` is written to the client of the request. -/
theorem finish_dns_req_writes (e : dns_engine) (req : dns_req) (acts : List dns_action)
    (clt : Nat) (hc : req.clt = some clt) :
    client_writes (finish_dns_req e req acts).2 =
      client_writes acts ++ [(clt, (format_resp e.upstream_active req).resp)] ∧
    sent_upstream (finish_dns_req e req acts).2 = sent_upstream acts := by
  unfold finish_dns_req
  have hw := complete_dns_req_writes e (format_resp e.upstream_active req) clt hc
  dsimp only
  rw [client_writes_append, sent_upstream_append, hw.1, hw.2, List.append_nil]
  exact ⟨rfl, rfl⟩

theorem finish_dns_req_dns (e : dns_engine) (req : dns_req) (acts : List dns_action) :
    (finish_dns_req e req acts).1.dns = e.dns := by
  unfold finish_dns_req
  exact complete_dns_req_dns _ _

/-- The response of a request answered at once with status `st`: it goes to the
client of the request and carries `st` in its RCODE field. -/
theorem finish_dns_req_status (e : dns_engine) (req : dns_req) (acts : List dns_action)
    (clt st : Nat) (hc : req.clt = some clt) (hb : ∀ b ∈ req.req, b < 256)
    (hz : resp_rcode req.req = 0) (hst : st < 16) (hacts : client_writes acts = []) :
    ∃ resp,
      client_writes
        (finish_dns_req e { req with msg := { req.msg with status := st } } acts).2
        = [(clt, resp)] ∧
      resp_rcode resp = st := by
  obtain ⟨w, _⟩ := finish_dns_req_writes e { req with msg := { req.msg with status := st } }
    acts clt hc
  refine ⟨(format_resp e.upstream_active
    { req with msg := { req.msg with status := st } }).resp, ?_, ?_⟩
  · rw [w, hacts]
    rfl
  · exact (format_resp_rcode e.upstream_active
      { req with msg := { req.msg with status := st } } hb hz).trans (Nat.mod_eq_of_lt hst)

theorem client_writes_udp (n : Nat) (buf : List Nat) :
    client_writes ((List.range n).map (fun i => dns_action.udp_try_send i buf)) = [] := by
  induction List.range n with
  | nil => rfl
  | cons i l ih => exact ih

theorem query_upstream_writes (e : dns_engine) (env : dns_env) (req : dns_req) :
    client_writes (query_upstream e env req).2 = [] := by
  unfold query_upstream
  split
  · exact client_writes_udp _ _
  · rfl

/-- The three ways in which a query is not forwarded: the upstream socket is not
active, the query has RD=0, or every send fails. -/
theorem query_upstream_cannot (e : dns_engine) (env : dns_env) (req : dns_req)
    (h : e.upstream_active = false ∨ req.msg.recursive = 0 ∨
      ∀ i, i < e.num_dns_up → env.try_send i ≤ 0) :
    (query_upstream e env req).1 = DNS_REFUSE := by
  rcases h with h | h | h
  · rw [query_upstream_refuse e env req (Or.inl h)]
  · rw [query_upstream_refuse e env req (Or.inr h)]
  · exact query_upstream_failed e env req h

/-! ### Routing of the other query types -/

theorem route_dns_req_no_domain (e : dns_engine) (env : dns_env) (req : dns_req)
    (hty : ¬ (req.msg.question0.type = NS_T_A ∨ req.msg.question0.type = NS_T_AAAA))
    (hf : find_domain e.dns (check_name req.msg.question0.name).2.1 = none)
    (hr : (query_upstream e env req).1 = DNS_REFUSE) :
    route_dns_req e env req =
      finish_dns_req e { req with msg := { req.msg with status := DNS_REFUSE } }
        (query_upstream e env req).2 := by
  unfold route_dns_req
  have hne : (query_upstream e env req).1 ≠ DNS_NO_ERROR := by
    rw [hr]
    decide
  simp only [hty, if_false, hf]
  rw [if_pos hne, hr]

theorem route_dns_req_domain (e : dns_engine) (env : dns_env) (req : dns_req) (d : Nat)
    (hty : ¬ (req.msg.question0.type = NS_T_A ∨ req.msg.question0.type = NS_T_AAAA))
    (hf : find_domain e.dns (check_name req.msg.question0.name).2.1 = some d) :
    route_dns_req e env req = proxy_domain_req e env req d := by
  unfold route_dns_req
  simp only [hty, if_false, hf]

theorem proxy_domain_req_closed (e : dns_engine) (env : dns_env) (req : dns_req) (d : Nat)
    (hp : open_resolv_proxy e env d = none) :
    proxy_domain_req e env req d =
      finish_dns_req e { req with msg := { req.msg with status := DNS_SERVFAIL } } [] := by
  unfold proxy_domain_req
  simp only [hp]
  rfl

theorem proxy_domain_req_not_impl (e : dns_engine) (env : dns_env) (req : dns_req)
    (d conn : Nat) (hp : open_resolv_proxy e env d = some conn)
    (hty : ¬ (req.msg.question0.type = NS_T_MX ∨ req.msg.question0.type = NS_T_SRV
      ∨ req.msg.question0.type = NS_T_TXT)) :
    proxy_domain_req e env req d =
      finish_dns_req (set_resolv_proxy e d (some conn))
        { req with msg := { req.msg with status := DNS_NOT_IMPL } } [] := by
  unfold proxy_domain_req
  simp only [hp, hty, if_false]

theorem proxy_domain_req_write_rejected (e : dns_engine) (env : dns_env) (req : dns_req)
    (d conn : Nat) (json : List Char) (hp : open_resolv_proxy e env d = some conn)
    (hty : req.msg.question0.type = NS_T_MX ∨ req.msg.question0.type = NS_T_SRV
      ∨ req.msg.question0.type = NS_T_TXT)
    (hj : env.json = some json) (hw : env.write_rc ≠ ZITI_OK) :
    proxy_domain_req e env req d =
      finish_dns_req (set_resolv_proxy e d (some conn)) req
        [dns_action.ziti_write conn json, dns_action.ziti_close conn] := by
  unfold proxy_domain_req
  simp only [hp, hty, if_true, hj, hw, if_false]

theorem proxy_domain_req_written (e : dns_engine) (env : dns_env) (req : dns_req)
    (d conn : Nat) (json : List Char) (hp : open_resolv_proxy e env d = some conn)
    (hty : req.msg.question0.type = NS_T_MX ∨ req.msg.question0.type = NS_T_SRV
      ∨ req.msg.question0.type = NS_T_TXT)
    (hj : env.json = some json) (hw : env.write_rc = ZITI_OK) :
    proxy_domain_req e env req d =
      (set_resolv_proxy e d (some conn), [dns_action.ziti_write conn json]) := by
  unfold proxy_domain_req
  simp only [hp, hty, if_true, hj, hw]

theorem proxy_domain_req_no_json (e : dns_engine) (env : dns_env) (req : dns_req)
    (d conn : Nat) (hp : open_resolv_proxy e env d = some conn)
    (hty : req.msg.question0.type = NS_T_MX ∨ req.msg.question0.type = NS_T_SRV
      ∨ req.msg.question0.type = NS_T_TXT)
    (hj : env.json = none) :
    proxy_domain_req e env req d =
      finish_dns_req (set_resolv_proxy e d (some conn))
        { req with msg := { req.msg with status := DNS_FORMERR } } [] := by
  unfold proxy_domain_req
  simp only [hp, hty, if_true, hj]

/-- The writes and sends of `on_dns_req` for a new request are those of its
routing. -/
theorem on_dns_req_new_writes (e : dns_engine) (env : dns_env) (clt : Nat) (pkt : List Nat)
    (msg : dns_message) (hdup : model_map_get e.requests (DNS_ID pkt) = none)
    (hparse : env.parse = some msg) :
    client_writes (on_dns_req e env clt pkt).2 =
      client_writes (route_dns_req (track_dns_req e clt (new_dns_req clt pkt msg)) env
        (new_dns_req clt pkt msg)).2 ∧
    sent_upstream (on_dns_req e env clt pkt).2 =
      sent_upstream (route_dns_req (track_dns_req e clt (new_dns_req clt pkt msg)) env
        (new_dns_req clt pkt msg)).2 := by
  rw [on_dns_req_new e env clt pkt msg hdup hparse]
  dsimp only
  rw [client_writes_append, sent_upstream_append]
  exact ⟨List.append_nil _, List.append_nil _⟩

/-! ### Lookups in an exhausted pool -/

/-- With the address map holding `capacity` bindings, the lookup of a name that
has no entry returns null: a wildcard match cannot be given an address. -/
theorem lookup_exhausted (s : ziti_dns_s) (name : List Char)
    (hfull : model_map_size s.ip_addresses = s.ip_pool.capacity)
    (hg : model_map_get s.hostnames (check_name name).2.1 = none) :
    (ziti_dns_lookup s name).2 = none := by
  by_cases hv : (check_name name).1 = true
  · by_cases hw : (check_name name).2.2 = true
    · rw [lookup_invalid s name (Or.inr hw)]
    · have hw' : (check_name name).2.2 = false := by simpa using hw
      cases hf : find_domain s (check_name name).2.1 with
      | none => rw [lookup_no_domain s name hv hw' hg hf]
      | some d =>
        by_cases hd : (domain_at s d).intercepts = []
        · rw [lookup_empty_domain s name hv hw' hg hf hd]
        · have hnone : new_ipv4_entry s (check_name name).2.1 =
              ({ s with entry_heap := s.entry_heap ++
                  [{ calloc_entry with name := (check_name name).2.1.take MAX_DNS_NAME }] },
               none) := by
            unfold new_ipv4_entry next_ipv4
            simp only [hfull, if_true]
          unfold ziti_dns_lookup
          simp only [hv, hw', hg, hf, hnone]
          split
          · rename_i h
            exact absurd h (by decide)
          · split <;> rfl
  · rw [lookup_invalid s name (Or.inl (by simpa using hv))]

theorem process_host_req_miss_refused (e : dns_engine) (env : dns_env) (req : dns_req)
    (hmiss : (ziti_dns_lookup e.dns req.msg.question0.name).2 = none)
    (hr : (query_upstream e env req).1 = DNS_REFUSE) :
    process_host_req e env req =
      finish_dns_req { e with dns := (ziti_dns_lookup e.dns req.msg.question0.name).1 }
        { req with msg := { req.msg with status := DNS_REFUSE } }
        (query_upstream e env req).2 := by
  have hm : ziti_dns_lookup e.dns req.msg.question0.name
      = ((ziti_dns_lookup e.dns req.msg.question0.name).1, none) := by
    rw [← hmiss]
  rw [process_host_req_miss e env req _ hm]
  have hqu : query_upstream
      { e with dns := (ziti_dns_lookup e.dns req.msg.question0.name).1 } env req
      = query_upstream e env req := query_upstream_congr _ _ _ _ rfl rfl
  rw [hqu]
  have hne : (query_upstream e env req).1 ≠ DNS_NO_ERROR := by
    rw [hr]
    decide
  rw [if_pos hne, hr]
  rfl

theorem process_host_req_miss_forwarded (e : dns_engine) (env : dns_env) (req : dns_req)
    (hmiss : (ziti_dns_lookup e.dns req.msg.question0.name).2 = none)
    (hr : (query_upstream e env req).1 = DNS_NO_ERROR) :
    process_host_req e env req =
      ({ e with dns := (ziti_dns_lookup e.dns req.msg.question0.name).1 },
       (query_upstream e env req).2) := by
  have hm : ziti_dns_lookup e.dns req.msg.question0.name
      = ((ziti_dns_lookup e.dns req.msg.question0.name).1, none) := by
    rw [← hmiss]
  rw [process_host_req_miss e env req _ hm]
  have hqu : query_upstream
      { e with dns := (ziti_dns_lookup e.dns req.msg.question0.name).1 } env req
      = query_upstream e env req := query_upstream_congr _ _ _ _ rfl rfl
  rw [hqu]
  have hne : ¬ (query_upstream e env req).1 ≠ DNS_NO_ERROR := by
    rw [hr]
    decide
  rw [if_neg hne]

/-! ### The in-flight table along a run -/

theorem model_map_set_keys {K V : Type} [DecidableEq K] {m : List (K × V)} {k : K} {v0 : V}
    (v : V) (h : model_map_get m k = some v0) :
    (model_map_set m k v).map Prod.fst = m.map Prod.fst := by
  induction m with
  | nil => simp [model_map_get] at h
  | cons x m ih =>
    obtain ⟨k', v'⟩ := x
    by_cases hk : k' = k
    · simp [model_map_set, hk]
    · simp only [model_map_get, hk, if_false] at h
      simp [model_map_set, hk, ih h]

theorem model_map_mem_set {K V : Type} [DecidableEq K] {m : List (K × V)} {k : K} {v : V}
    {x : K × V} (h : x ∈ model_map_set m k v) : x ∈ m ∨ x = (k, v) := by
  induction m with
  | nil =>
    simp only [model_map_set, List.mem_singleton] at h
    exact Or.inr h
  | cons y m ih =>
    obtain ⟨k', v'⟩ := y
    by_cases hk : k' = k
    · simp only [model_map_set, hk, if_true, List.mem_cons] at h
      rcases h with h | h
      · exact Or.inr h
      · exact Or.inl (List.mem_cons_of_mem _ h)
    · simp only [model_map_set, hk, if_false, List.mem_cons] at h
      rcases h with h | h
      · exact Or.inl (by rw [h]; exact List.mem_cons_self _ _)
      · rcases ih h with h1 | h1
        · exact Or.inl (List.mem_cons_of_mem _ h1)
        · exact Or.inr h1

theorem model_map_get_none_sublist {K V : Type} [DecidableEq K] {m m' : List (K × V)} {k : K}
    (hs : List.Sublist m' m) (h : model_map_get m k = none) : model_map_get m' k = none := by
  rw [model_map_get_eq_none] at h ⊢
  intro hk
  exact h ((List.Sublist.map Prod.fst hs).subset hk)

theorem in_flight_ok_nil : in_flight_ok [] :=
  ⟨List.nodup_nil, fun _ h => absurd h (List.not_mem_nil _)⟩

theorem in_flight_ok_sublist {rs rs' : List (Nat × dns_req)} (hs : List.Sublist rs' rs)
    (h : in_flight_ok rs) : in_flight_ok rs' :=
  ⟨nodup_keys_sublist hs h.1, fun kr hkr => h.2 kr (hs.subset hkr)⟩

theorem in_flight_ok_set {rs : List (Nat × dns_req)} (h : in_flight_ok rs) (req : dns_req) :
    in_flight_ok (model_map_set rs req.id req) := by
  constructor
  · cases hg : model_map_get rs req.id with
    | none =>
      rw [model_map_set_absent hg]
      exact nodup_keys_append h.1 hg
    | some v0 =>
      rw [model_map_set_keys req hg]
      exact h.1
  · intro kr hkr
    rcases model_map_mem_set hkr with h1 | h1
    · exact h.2 kr h1
    · rw [h1]

/-- In a table that is a map no two requests have the same client and ID. -/
theorem in_flight_ok_pairs {rs : List (Nat × dns_req)} (h : in_flight_ok rs) :
    (rs.map (fun kr => (kr.2.clt, kr.2.id))).Nodup := by
  have hk : rs.map (fun kr => kr.2.id) = rs.map Prod.fst :=
    List.map_congr_left (fun kr hkr => h.2 kr hkr)
  have hn : (rs.map (fun kr => kr.2.id)).Nodup := by
    rw [hk]
    exact h.1
  have hc : rs.map (fun kr => kr.2.id)
      = (rs.map (fun kr => (kr.2.clt, kr.2.id))).map Prod.snd := by
    rw [List.map_map]
    rfl
  rw [hc] at hn
  exact List.Nodup.of_map _ hn

theorem foldl_remove_sublist (l : List (Nat × dns_req)) (rs : List (Nat × dns_req)) :
    List.Sublist (l.foldl (fun rs kv => remove_dns_req rs kv.2) rs) rs := by
  induction l generalizing rs with
  | nil => exact List.Sublist.refl _
  | cons x l ih =>
    exact (ih (remove_dns_req rs x.2)).trans (model_map_remove_sublist rs x.2.id)

theorem foldl_remove_get (l : List (Nat × dns_req)) (rs : List (Nat × dns_req))
    (kv : Nat × dns_req) (h : kv ∈ l) :
    model_map_get (l.foldl (fun rs kv => remove_dns_req rs kv.2) rs) kv.2.id = none := by
  induction l generalizing rs with
  | nil => exact absurd h (List.not_mem_nil _)
  | cons x l ih =>
    rcases List.mem_cons.mp h with h1 | h1
    · subst h1
      exact model_map_get_none_sublist (foldl_remove_sublist l (remove_dns_req rs kv.2))
        (model_map_get_remove_same rs kv.2.id)
    · exact ih (remove_dns_req rs x.2) h1

theorem on_dns_close_sublist (e : dns_engine) (clt : Nat) :
    List.Sublist (on_dns_close e clt).1.requests e.requests :=
  foldl_remove_sublist _ _

theorem complete_dns_req_sublist (e : dns_engine) (req : dns_req) :
    List.Sublist (complete_dns_req e req).1.requests e.requests := by
  unfold complete_dns_req
  split
  · dsimp only
    split
    · exact (on_dns_close_sublist _ _).trans (model_map_remove_sublist _ _)
    · exact model_map_remove_sublist _ _
  · exact model_map_remove_sublist _ _

theorem finish_dns_req_sublist (e : dns_engine) (req : dns_req) (acts : List dns_action) :
    List.Sublist (finish_dns_req e req acts).1.requests e.requests := by
  unfold finish_dns_req
  exact complete_dns_req_sublist _ _

theorem process_host_req_sublist (e : dns_engine) (env : dns_env) (req : dns_req) :
    List.Sublist (process_host_req e env req).1.requests e.requests := by
  unfold process_host_req
  dsimp only
  split
  · exact complete_dns_req_sublist _ _
  · split
    · exact complete_dns_req_sublist _ _
    · exact List.Sublist.refl _

theorem set_resolv_proxy_requests (e : dns_engine) (d : Nat) (proxy : Option Nat) :
    (set_resolv_proxy e d proxy).requests = e.requests := by
  unfold set_resolv_proxy
  split <;> rfl

theorem proxy_domain_req_sublist (e : dns_engine) (env : dns_env) (req : dns_req) (d : Nat) :
    List.Sublist (proxy_domain_req e env req d).1.requests e.requests := by
  have hfin : ∀ (r : dns_req) (acts : List dns_action),
      List.Sublist (finish_dns_req (set_resolv_proxy e d (open_resolv_proxy e env d)) r acts).1.requests
        e.requests := by
    intro r acts
    have := finish_dns_req_sublist (set_resolv_proxy e d (open_resolv_proxy e env d)) r acts
    rw [set_resolv_proxy_requests] at this
    exact this
  unfold proxy_domain_req
  dsimp only
  split
  · exact hfin _ _
  · split
    · split
      · split
        · rw [set_resolv_proxy_requests]
        · exact hfin _ _
      · exact hfin _ _
    · exact hfin _ _

theorem route_dns_req_sublist (e : dns_engine) (env : dns_env) (req : dns_req) :
    List.Sublist (route_dns_req e env req).1.requests e.requests := by
  unfold route_dns_req
  dsimp only
  split
  · exact process_host_req_sublist _ _ _
  · split
    · exact proxy_domain_req_sublist _ _ _ _
    · split
      · exact finish_dns_req_sublist _ _ _
      · exact List.Sublist.refl _

/-- What a packet of a client does to the in-flight table: nothing is added,
except the new request under its own ID. -/
theorem on_dns_req_requests (e : dns_engine) (env : dns_env) (clt : Nat) (pkt : List Nat) :
    List.Sublist (on_dns_req e env clt pkt).1.requests e.requests ∨
    ∃ msg, env.parse = some msg ∧
      List.Sublist (on_dns_req e env clt pkt).1.requests
        (model_map_set e.requests (new_dns_req clt pkt msg).id (new_dns_req clt pkt msg)) := by
  cases hdup : model_map_get e.requests (DNS_ID pkt) with
  | some r =>
    left
    rw [on_dns_req_duplicate e env clt pkt r hdup]
  | none =>
    cases hparse : env.parse with
    | none =>
      left
      unfold on_dns_req
      simp only [hdup, hparse]
      exact on_dns_close_sublist _ _
    | some msg =>
      right
      refine ⟨msg, rfl, ?_⟩
      rw [on_dns_req_new e env clt pkt msg hdup hparse]
      exact route_dns_req_sublist _ _ _

theorem on_upstream_packet_sublist (e : dns_engine) (rc : Int) (buf : List Nat) :
    List.Sublist (on_upstream_packet e rc buf).1.requests e.requests := by
  unfold on_upstream_packet
  split
  · split
    · exact complete_dns_req_sublist _ _
    · exact List.Sublist.refl _
  · exact List.Sublist.refl _

theorem on_proxy_data_sublist (e : dns_engine) (conn : Nat) (parsed : Option dns_message)
    (status : Int) : List.Sublist (on_proxy_data e conn parsed status).1.requests e.requests := by
  unfold on_proxy_data
  split
  · split
    · exact List.Sublist.refl _
    · split
      · exact complete_dns_req_sublist _ _
      · exact List.Sublist.refl _
  · exact List.Sublist.refl _

theorem on_proxy_write_sublist (e : dns_engine) (conn : Nat) (len : Int) (ctx : Option dns_req) :
    List.Sublist (on_proxy_write e conn len ctx).1.requests e.requests := by
  unfold on_proxy_write
  split
  · split
    · exact complete_dns_req_sublist _ _
    · exact List.Sublist.refl _
  · exact List.Sublist.refl _

theorem on_proxy_connect_requests (e : dns_engine) (conn : Nat) (status : Int) (d : Nat) :
    (on_proxy_connect e conn status d).1.requests = e.requests := by
  unfold on_proxy_connect
  split <;> rfl

theorem proxy_domain_close_cb_requests (e : dns_engine) (d : Option Nat) :
    (proxy_domain_close_cb e d).requests = e.requests := by
  unfold proxy_domain_close_cb
  split <;> rfl

/-- What one call does to the in-flight table. -/
theorem engine_step_requests (e : dns_engine) (ev : dns_event) :
    List.Sublist (engine_step e ev).1.requests e.requests ∨
    ∃ env clt pkt msg, ev = dns_event.req env clt pkt ∧ env.parse = some msg ∧
      List.Sublist (engine_step e ev).1.requests
        (model_map_set e.requests (new_dns_req clt pkt msg).id (new_dns_req clt pkt msg)) := by
  cases ev with
  | client => exact Or.inl (List.Sublist.refl _)
  | req env clt pkt =>
    rcases on_dns_req_requests e env clt pkt with h | ⟨msg, h1, h2⟩
    · exact Or.inl h
    · exact Or.inr ⟨env, clt, pkt, msg, rfl, h1, h2⟩
  | upstream_packet rc buf => exact Or.inl (on_upstream_packet_sublist e rc buf)
  | proxy_data conn parsed status => exact Or.inl (on_proxy_data_sublist e conn parsed status)
  | proxy_write conn len ctx => exact Or.inl (on_proxy_write_sublist e conn len ctx)
  | proxy_connect conn status d =>
    left
    show List.Sublist (on_proxy_connect e conn status d).1.requests e.requests
    rw [on_proxy_connect_requests]
  | proxy_close d =>
    left
    show List.Sublist (proxy_domain_close_cb e d).requests e.requests
    rw [proxy_domain_close_cb_requests]
  | close clt => exact Or.inl (on_dns_close_sublist e clt)
  | catalog c => exact Or.inl (List.Sublist.refl _)

theorem engine_step_in_flight_ok (e : dns_engine) (ev : dns_event)
    (h : in_flight_ok e.requests) : in_flight_ok (engine_step e ev).1.requests := by
  rcases engine_step_requests e ev with hs | ⟨env, clt, pkt, msg, _, _, hs⟩
  · exact in_flight_ok_sublist hs h
  · exact in_flight_ok_sublist hs (in_flight_ok_set h _)

theorem engine_run_in_flight_ok (e : dns_engine) (evs : List dns_event)
    (h : in_flight_ok e.requests) : in_flight_ok (engine_run e evs).requests := by
  induction evs generalizing e with
  | nil => exact h
  | cons ev evs ih => exact ih _ (engine_step_in_flight_ok e ev h)

/-- An ID that is not in flight stays so along calls none of which is a packet
parsed with that ID. -/
theorem engine_run_absent (e : dns_engine) (evs : List dns_event) (id : Nat)
    (h : model_map_get e.requests id = none)
    (hno : ∀ ev ∈ evs, ∀ env clt pkt msg, ev = dns_event.req env clt pkt →
      env.parse = some msg → msg.id % 65536 ≠ id) :
    model_map_get (engine_run e evs).requests id = none := by
  induction evs generalizing e with
  | nil => exact h
  | cons ev evs ih =>
    apply ih
    · rcases engine_step_requests e ev with hs | ⟨env, clt, pkt, msg, hev, hp, hs⟩
      · exact model_map_get_none_sublist hs h
      · apply model_map_get_none_sublist hs
        have hne : id ≠ (new_dns_req clt pkt msg).id := by
          intro hid
          exact hno ev (List.mem_cons_self _ _) env clt pkt msg hev hp hid.symm
        rw [model_map_get_set_ne _ _ hne]
        exact h
    · intro ev' hev'
      exact hno ev' (List.mem_cons_of_mem _ hev')

/-! ### Repeating a registration -/

/-- One step of the pool counter on its cycle of `cap` values. -/
theorem counter_step (mask cap c : Nat) (hm : cap + 1 = mask) (hcap : 2 ≤ cap)
    (h1 : 1 ≤ c) (h2 : c < mask) :
    1 ≤ (if c + 1 = mask then 1 else c + 1) ∧
    (if c + 1 = mask then 1 else c + 1) < mask ∧
    ((if c + 1 = mask then 1 else c + 1) - 1) % cap = (c - 1 + 1) % cap := by
  by_cases h : c + 1 = mask
  · rw [if_pos h]
    have : c - 1 + 1 = cap := by omega
    rw [this, Nat.mod_self]
    refine ⟨by omega, by omega, ?_⟩
    exact Nat.zero_mod _
  · rw [if_neg h]
    have : c + 1 - 1 = c - 1 + 1 := by omega
    rw [this]
    exact ⟨by omega, by omega, rfl⟩

/-- The pool counter moves in a cycle of `capacity` values: after `t` probes it
is `t` places further on the cycle. -/
theorem next_ipv4_loop_counter {pool : ip_pool_t} {k : Nat} (hp : pool_shape pool k)
    (ips : List (Nat × Nat)) (fuel counter i : Nat)
    (hc1 : 1 ≤ counter) (hc2 : counter < pool.counter_mask)
    (hi : i < pool.capacity) (hf : pool.capacity ≤ i + fuel) :
    ∃ t, (next_ipv4_loop pool ips fuel counter i).2.2 = i + t ∧
      ((next_ipv4_loop pool ips fuel counter i).2.1 - 1) % pool.capacity
        = (counter - 1 + t) % pool.capacity := by
  have hm := pool_mask_ge hp
  induction fuel generalizing counter i with
  | zero =>
    have e1 : (counter + 1) % 4294967296 = counter + 1 := Nat.mod_eq_of_lt (by omega)
    obtain ⟨_, _, hstep⟩ := counter_step pool.counter_mask pool.capacity counter hm.2.1
      (by omega) hc1 hc2
    unfold next_ipv4_loop
    have hcond : ¬ ((model_map_get ips (htonl (pool.base ||| (counter &&& pool.counter_mask)))).isSome
        ∧ i + 1 < pool.capacity) := by
      intro h
      omega
    simp only [hcond, if_false, e1]
    exact ⟨1, rfl, hstep⟩
  | succ fuel ih =>
    have e1 : (counter + 1) % 4294967296 = counter + 1 := Nat.mod_eq_of_lt (by omega)
    obtain ⟨hc1', hc2', hstep⟩ := counter_step pool.counter_mask pool.capacity counter hm.2.1
      (by omega) hc1 hc2
    unfold next_ipv4_loop
    simp only [e1]
    by_cases hcond : (model_map_get ips (htonl (pool.base ||| (counter &&& pool.counter_mask)))).isSome
        ∧ i + 1 < pool.capacity
    · simp only [hcond, and_self, if_true]
      obtain ⟨t, h1, h2⟩ := ih _ (i + 1) hc1' hc2' hcond.2 (by omega)
      refine ⟨t + 1, by omega, ?_⟩
      rw [h2, Nat.add_mod, hstep, ← Nat.add_mod]
      congr 1
      omega
    · simp only [hcond, if_false]
      exact ⟨1, rfl, hstep⟩

/-- A call of `next_ipv4` that returns `INADDR_NONE` leaves the state as it is:
the counter has gone round the whole cycle. -/
theorem next_ipv4_none_state (s : ziti_dns_s) (hp : pool_ok s.ip_pool)
    (h : (next_ipv4 s).2 = INADDR_NONE) : (next_ipv4 s).1 = s := by
  obtain ⟨k, hk, hc1, hc2⟩ := hp
  have hm := pool_mask_ge hk
  unfold next_ipv4 at h ⊢
  by_cases hfull : model_map_size s.ip_addresses = s.ip_pool.capacity
  · simp only [hfull, if_true]
  · simp only [hfull, if_false] at h ⊢
    have hs := next_ipv4_loop_spec hk s.ip_addresses s.ip_pool.capacity s.ip_pool.counter 0
      hc1 hc2 (by omega) (by omega)
    obtain ⟨⟨r1, r2⟩, ⟨hh, hh1, hh2, hcand⟩, _, _⟩ := hs
    obtain ⟨t, t1, t2⟩ := next_ipv4_loop_counter hk s.ip_addresses s.ip_pool.capacity
      s.ip_pool.counter 0 hc1 hc2 (by omega) (by omega)
    by_cases hcap : (next_ipv4_loop s.ip_pool s.ip_addresses s.ip_pool.capacity
        s.ip_pool.counter 0).2.2 = s.ip_pool.capacity
    · simp only [hcap, if_true]
      have ht : t = s.ip_pool.capacity := by omega
      rw [ht, Nat.add_mod_right] at t2
      have ha : ((next_ipv4_loop s.ip_pool s.ip_addresses s.ip_pool.capacity
          s.ip_pool.counter 0).2.1 - 1) % s.ip_pool.capacity
          = (next_ipv4_loop s.ip_pool s.ip_addresses s.ip_pool.capacity
          s.ip_pool.counter 0).2.1 - 1 := Nat.mod_eq_of_lt (by omega)
      have hb : (s.ip_pool.counter - 1) % s.ip_pool.capacity = s.ip_pool.counter - 1 :=
        Nat.mod_eq_of_lt (by omega)
      rw [ha, hb] at t2
      have hc : (next_ipv4_loop s.ip_pool s.ip_addresses s.ip_pool.capacity
          s.ip_pool.counter 0).2.1 = s.ip_pool.counter := by omega
      rw [hc]
    · simp only [hcap, if_false] at h
      rw [hcand] at h
      exact absurd h (htonl_ne_none _ (by omega))

theorem heap_set_getD_self {α : Type} (l : List α) (p : Nat) (d : α) :
    l.set p (l.getD p d) = l := by
  induction l generalizing p with
  | nil => rfl
  | cons x l ih =>
    cases p with
    | zero => rfl
    | succ p =>
      show x :: l.set p (l.getD p d) = x :: l
      rw [ih]

theorem model_map_set_idem {K V : Type} [DecidableEq K] (m : List (K × V)) (k : K) (v : V) :
    model_map_set (model_map_set m k v) k v = model_map_set m k v :=
  model_map_set_same_value (model_map_get_set_same m k v)

/-- The state fields that `next_ipv4` leaves alone. -/
theorem next_ipv4_fields (s : ziti_dns_s) :
    (next_ipv4 s).1.hostnames = s.hostnames ∧
    (next_ipv4 s).1.ip_addresses = s.ip_addresses ∧
    (next_ipv4 s).1.domains = s.domains ∧
    (next_ipv4 s).1.entry_heap = s.entry_heap ∧
    (next_ipv4 s).1.domain_heap = s.domain_heap := by
  unfold next_ipv4
  split
  · exact ⟨rfl, rfl, rfl, rfl, rfl⟩
  · dsimp only
    split <;> exact ⟨rfl, rfl, rfl, rfl, rfl⟩

/-- What `new_ipv4_entry` does when it returns an entry: the entry is the new
heap object, bound under `host`. -/
theorem new_ipv4_entry_some (s : ziti_dns_s) (host : List Char) {s1 : ziti_dns_s} {p : Nat}
    (h : new_ipv4_entry s host = (s1, some p)) :
    p = s.entry_heap.length ∧
    s1.hostnames = model_map_set s.hostnames host p ∧
    s1.ip_addresses = model_map_set s.ip_addresses (entry_at s1 p).addr p ∧
    s1.domains = s.domains ∧ s1.domain_heap = s.domain_heap ∧
    s1.entry_heap.length = s.entry_heap.length + 1 ∧
    (∀ q, q < s.entry_heap.length → entry_at s1 q = entry_at s q) ∧
    (entry_at s1 p).intercepts = [] ∧ (entry_at s1 p).domain = none := by
  unfold new_ipv4_entry at h
  dsimp only at h
  obtain ⟨f1, f2, f3, f4, f5⟩ := next_ipv4_fields
    { s with entry_heap := s.entry_heap ++
        [{ calloc_entry with name := host.take MAX_DNS_NAME }] }
  dsimp only at f1 f2 f3 f4 f5
  split at h
  · cases h
  · injection h with h1 h2
    injection h2 with h2
    subst h2
    subst h1
    have hat : ∀ q, entry_at (next_ipv4 { s with entry_heap := s.entry_heap ++
        [{ calloc_entry with name := host.take MAX_DNS_NAME }] }).1 q
        = (s.entry_heap ++ [{ calloc_entry with name := host.take MAX_DNS_NAME }]).getD q
          calloc_entry := by
      intro q
      unfold entry_at
      rw [f4]
    refine ⟨rfl, ?_, ?_, f3, f5, ?_, ?_, ?_, ?_⟩
    · show model_map_set _ _ _ = _
      rw [f1]
    · show model_map_set _ _ _ = _
      rw [f2]
      congr 1
      unfold entry_at
      dsimp only
      rw [heap_getD_set, f4]
      simp
    · show (List.set _ _ _).length = _
      rw [List.length_set, f4]
      simp
    · intro q hq
      show List.getD (List.set _ _ _) q calloc_entry = _
      rw [heap_getD_set, f4, heap_getD_append_one]
      have : ¬ (s.entry_heap.length = q ∧ s.entry_heap.length
          < (s.entry_heap ++ [{ calloc_entry with name := host.take MAX_DNS_NAME }]).length) := by
        intro hh
        omega
      rw [if_neg this, if_pos hq]
      rfl
    · show (List.getD (List.set _ _ _) _ calloc_entry).intercepts = _
      rw [heap_getD_set, f4]
      simp only [List.length_append, List.length_singleton, Nat.lt_add_one, and_self, if_true]
      rw [hat, heap_getD_append_one]
      simp
      rfl
    · show (List.getD (List.set _ _ _) _ calloc_entry).domain = _
      rw [heap_getD_set, f4]
      simp only [List.length_append, List.length_singleton, Nat.lt_add_one, and_self, if_true]
      rw [hat, heap_getD_append_one]
      simp
      rfl

/-- What `new_ipv4_entry` does when it returns null: one more heap object, and
the pool as `next_ipv4` leaves it. -/
theorem new_ipv4_entry_none (s : ziti_dns_s) (host : List Char) {s1 : ziti_dns_s}
    (h : new_ipv4_entry s host = (s1, none)) :
    (next_ipv4 s).2 = INADDR_NONE ∧
    s1.hostnames = s.hostnames ∧ s1.ip_addresses = s.ip_addresses ∧
    s1.domains = s.domains ∧ s1.domain_heap = s.domain_heap ∧
    s1.ip_pool = (next_ipv4 s).1.ip_pool ∧
    s1.entry_heap = s.entry_heap ++ [{ calloc_entry with name := host.take MAX_DNS_NAME }] := by
  unfold new_ipv4_entry at h
  dsimp only at h
  obtain ⟨f1, f2, f3, f4, f5⟩ := next_ipv4_fields
    { s with entry_heap := s.entry_heap ++
        [{ calloc_entry with name := host.take MAX_DNS_NAME }] }
  dsimp only at f1 f2 f3 f4 f5
  have hv := next_ipv4_heap_irrelevant s (s.entry_heap ++
        [{ calloc_entry with name := host.take MAX_DNS_NAME }])
  have hpool : (next_ipv4 { s with entry_heap := s.entry_heap ++
        [{ calloc_entry with name := host.take MAX_DNS_NAME }] }).1.ip_pool
        = (next_ipv4 s).1.ip_pool := by
    unfold next_ipv4
    dsimp only
    split
    · rfl
    · split <;> rfl
  split at h
  · rename_i hnone
    injection h with h1 _
    subst h1
    refine ⟨?_, f1, f2, f3, f5, hpool, f4⟩
    rw [← hv]
    exact hnone
  · cases h

/-- Registering a host name for a claimant its entry already has changes
nothing. -/
theorem register_host_again (s : ziti_dns_s) (hostname : List Char) (intercept p : Nat)
    (hd : (check_name hostname).2.2 = false)
    (hg : model_map_get s.hostnames (check_name hostname).2.1 = some p)
    (hin : p < s.entry_heap.length →
      model_map_get (entry_at s p).intercepts intercept = some intercept) :
    ziti_dns_register_hostname s (ziti_address.hostname hostname) intercept = (s, some p) := by
  rw [register_host_existing s hostname intercept hd hg]
  have hheap : s.entry_heap.set p
      (dns_entry_t.mk (entry_at s p).name (entry_at s p).addr (entry_at s p).domain
        (model_map_set (entry_at s p).intercepts intercept intercept)) = s.entry_heap := by
    by_cases hp : p < s.entry_heap.length
    · rw [model_map_set_same_value (hin hp)]
      exact heap_set_getD_self s.entry_heap p calloc_entry
    · exact List.set_eq_of_length_le (by omega)
  rw [hheap]

/-- Registering a wildcard for a claimant its domain already has changes
nothing. -/
theorem register_domain_again (s : ziti_dns_s) (hostname : List Char) (intercept d : Nat)
    (hd : (check_name hostname).2.2 = true)
    (hg : model_map_get s.domains ((check_name hostname).2.1.drop 2) = some d)
    (hin : d < s.domain_heap.length →
      model_map_get (domain_at s d).intercepts intercept = some intercept) :
    ziti_dns_register_hostname s (ziti_address.hostname hostname) intercept = (s, none) := by
  rw [register_domain_existing s hostname intercept hd hg]
  have hheap : s.domain_heap.set d
      (dns_domain_t.mk (domain_at s d).name
        (model_map_set (domain_at s d).intercepts intercept intercept)) = s.domain_heap := by
    by_cases hp : d < s.domain_heap.length
    · rw [model_map_set_same_value (hin hp)]
      exact heap_set_getD_self s.domain_heap d calloc_domain
    · exact List.set_eq_of_length_le (by omega)
  rw [hheap]

theorem new_ipv4_entry_some_next (s : ziti_dns_s) (host : List Char) {s1 : ziti_dns_s}
    {p : Nat} (h : new_ipv4_entry s host = (s1, some p)) : (next_ipv4 s).2 ≠ INADDR_NONE := by
  unfold new_ipv4_entry at h
  dsimp only at h
  have hv := next_ipv4_heap_irrelevant s (s.entry_heap ++
        [{ calloc_entry with name := host.take MAX_DNS_NAME }])
  split at h
  · cases h
  · rename_i hne
    rw [← hv]
    exact hne

/-- A registration that fails for want of an address fails again when it is
repeated, and the second attempt leaves the maps and the pool as the first left
them. -/
theorem new_ipv4_entry_none_again (s : ziti_dns_s) (host : List Char) (hp : pool_ok s.ip_pool)
    {s1 : ziti_dns_s} (h : new_ipv4_entry s host = (s1, none)) :
    s1.ip_pool = s.ip_pool ∧
    ∃ s2, new_ipv4_entry s1 host = (s2, none) ∧
      s2.hostnames = s1.hostnames ∧ s2.ip_addresses = s1.ip_addresses ∧
      s2.domains = s1.domains ∧ s2.domain_heap = s1.domain_heap ∧
      s2.ip_pool = s1.ip_pool ∧
      s2.entry_heap = s1.entry_heap ++ [{ calloc_entry with name := host.take MAX_DNS_NAME }] := by
  obtain ⟨n1, g1, g2, g3, g4, g5, g6⟩ := new_ipv4_entry_none s host h
  have hpool : s1.ip_pool = s.ip_pool := by
    rw [g5, next_ipv4_none_state s hp n1]
  have hs1 : s1 = { s with entry_heap := s.entry_heap ++
      [{ calloc_entry with name := host.take MAX_DNS_NAME }] } := by
    cases s1
    cases s
    simp only at g1 g2 g3 g4 g6 hpool
    simp only [ziti_dns_s.mk.injEq]
    exact ⟨hpool, g1, g2, g3, g6, g4⟩
  have hnext : (next_ipv4 s1).2 = INADDR_NONE := by
    rw [hs1, next_ipv4_heap_irrelevant]
    exact n1
  refine ⟨hpool, ?_⟩
  cases hn : new_ipv4_entry s1 host with
  | mk s2 r =>
    cases r with
    | some p2 => exact absurd hnext (new_ipv4_entry_some_next s1 host hn)
    | none =>
      obtain ⟨_, k1, k2, k3, k4, k5, k6⟩ := new_ipv4_entry_none s1 host hn
      refine ⟨s2, rfl, k1, k2, k3, k4, ?_, k6⟩
      rw [k5, next_ipv4_none_state s1 (by rw [hpool]; exact hp) hnext]

/-! ## Claimant sets, whatever the pool -/

theorem seed_dns_maps (s : ziti_dns_s) (cidr : Option (Nat × Nat × Nat × Nat × Nat)) :
    (seed_dns s cidr).1.hostnames = s.hostnames ∧ (seed_dns s cidr).1.domains = s.domains ∧
    (seed_dns s cidr).1.entry_heap = s.entry_heap ∧
    (seed_dns s cidr).1.domain_heap = s.domain_heap := by
  unfold seed_dns
  split
  · exact ⟨rfl, rfl, rfl, rfl⟩
  · split <;> exact ⟨rfl, rfl, rfl, rfl⟩

theorem setup_claims_ok (dns_addr tun_addr : Nat)
    (cidr : Option (Nat × Nat × Nat × Nat × Nat)) :
    claims_ok (ziti_dns_setup dns_addr tun_addr cidr) := by
  obtain ⟨h1, h2, _, _⟩ := seed_dns_maps ziti_dns_zero cidr
  have hh : (ziti_dns_setup dns_addr tun_addr cidr).hostnames = [] := by
    show (seed_dns ziti_dns_zero cidr).1.hostnames = []
    rw [h1]
    rfl
  have hd : (ziti_dns_setup dns_addr tun_addr cidr).domains = [] := by
    show (seed_dns ziti_dns_zero cidr).1.domains = []
    rw [h2]
    rfl
  constructor
  · intro n p hm
    rw [hh] at hm
    cases hm
  · intro n p hm
    rw [hh] at hm
    cases hm
  · intro k d hm
    rw [hd] at hm
    cases hm
  · intro k d hm
    rw [hd] at hm
    cases hm

/-- Liveness only depends on the entry and on the claimant sets of the domains,
and it grows with them. -/
theorem entry_live_mono (s s' : ziti_dns_s) {p : Nat}
    (he : (entry_at s p).intercepts ≠ [] → (entry_at s' p).intercepts ≠ [])
    (hd : (entry_at s' p).domain = (entry_at s p).domain)
    (hdom : ∀ d, (domain_at s d).intercepts ≠ [] → (domain_at s' d).intercepts ≠ [])
    (h : entry_live s p) : entry_live s' p := by
  rcases h with h | ⟨d, h1, h2⟩
  · exact Or.inl (he h)
  · exact Or.inr ⟨d, by rw [hd]; exact h1, hdom d h2⟩

theorem register_claims_ok {s : ziti_dns_s} (hs : claims_ok s) (addr : ziti_address)
    (intercept : Nat) : claims_ok (ziti_dns_register_hostname s addr intercept).1 := by
  cases addr with
  | cidr ip bits => exact hs
  | hostname hostname =>
    by_cases hd : (check_name hostname).2.2 = true
    · cases hg : model_map_get s.domains (List.drop 2 (check_name hostname).2.1) with
      | some d =>
        rw [register_domain_existing s hostname intercept hd hg]
        have hdb := hs.dom_bound _ _ (model_map_get_mem hg)
        have hdom : ∀ d', (domain_at s d').intercepts ≠ [] →
            (List.getD (s.domain_heap.set d
              (dns_domain_t.mk (domain_at s d).name
                (model_map_set (domain_at s d).intercepts intercept intercept))) d'
              calloc_domain).intercepts ≠ [] := by
          intro d' h
          rw [heap_getD_set]
          split
          · exact model_map_set_ne_nil _ _ _
          · exact h
        constructor
        · exact hs.host_bound
        · intro n p hm
          exact entry_live_mono s _ (fun h => h) rfl hdom (hs.host_live n p hm)
        · intro k d' hm
          show d' < (s.domain_heap.set d _).length
          rw [List.length_set]
          exact hs.dom_bound k d' hm
        · intro k d' hm
          exact hdom d' (hs.dom_live k d' hm)
      | none =>
        rw [register_domain_new s hostname intercept hd hg]
        have hdom : ∀ d', (domain_at s d').intercepts ≠ [] →
            (List.getD (s.domain_heap ++
              [{ name := (check_name hostname).2.1, intercepts := [(intercept, intercept)] }])
              d' calloc_domain).intercepts ≠ [] := by
          intro d' h
          rw [heap_getD_append_one]
          split
          · exact h
          · split
            · simp
            · rename_i h1 h2
              exact absurd (by
                show (s.domain_heap.getD d' calloc_domain).intercepts = []
                rw [heap_getD_length _ _ _ (Nat.le_of_not_lt h1)]
                rfl) h
        constructor
        · exact hs.host_bound
        · intro n p hm
          exact entry_live_mono s _ (fun h => h) rfl hdom (hs.host_live n p hm)
        · intro k d' hm
          show d' < (s.domain_heap ++ _).length
          rw [List.length_append]
          rcases List.mem_append.mp hm with hm | hm
          · have := hs.dom_bound k d' hm
            omega
          · simp only [List.mem_singleton, Prod.mk.injEq] at hm
            simp only [List.length_singleton]
            omega
        · intro k d' hm
          rcases List.mem_append.mp hm with hm | hm
          · exact hdom d' (hs.dom_live k d' hm)
          · simp only [List.mem_singleton, Prod.mk.injEq] at hm
            show (List.getD (s.domain_heap ++ _) d' calloc_domain).intercepts ≠ []
            rw [heap_getD_append_one, hm.2]
            simp
    · have hd' : (check_name hostname).2.2 = false := by simpa using hd
      cases hg : model_map_get s.hostnames (check_name hostname).2.1 with
      | some p =>
        rw [register_host_existing s hostname intercept hd' hg]
        have hpb := hs.host_bound _ _ (model_map_get_mem hg)
        have hent : ∀ q, entry_live s q → entry_live
            { s with
              entry_heap := s.entry_heap.set p
                (dns_entry_t.mk (entry_at s p).name (entry_at s p).addr (entry_at s p).domain
                  (model_map_set (entry_at s p).intercepts intercept intercept)) } q := by
          intro q h
          refine entry_live_mono s _ ?_ ?_ (fun d h => h) h
          · intro _
            show (List.getD (s.entry_heap.set p _) q calloc_entry).intercepts ≠ []
            rw [heap_getD_set]
            split
            · exact model_map_set_ne_nil _ _ _
            · assumption
          · show (List.getD (s.entry_heap.set p _) q calloc_entry).domain = _
            rw [heap_getD_set]
            split
            · rename_i h1
              rw [← h1.1]
            · rfl
        constructor
        · intro n q hm
          show q < (s.entry_heap.set p _).length
          rw [List.length_set]
          exact hs.host_bound n q hm
        · intro n q hm
          exact hent q (hs.host_live n q hm)
        · exact hs.dom_bound
        · exact hs.dom_live
      | none =>
        rw [register_host_new s hostname intercept hd' hg]
        cases hn : new_ipv4_entry s (check_name hostname).2.1 with
        | mk s1 r =>
          cases r with
          | none =>
            obtain ⟨_, g1, _, g3, g4, _, g6⟩ := new_ipv4_entry_none s _ hn
            have hat : ∀ q, q < s.entry_heap.length → entry_at s1 q = entry_at s q := by
              intro q hq
              unfold entry_at
              rw [g6, heap_getD_append_one, if_pos hq]
            constructor
            · intro n q hm
              show q < s1.entry_heap.length
              rw [g1] at hm
              rw [g6, List.length_append]
              have := hs.host_bound n q hm
              omega
            · intro n q hm
              show entry_live s1 q
              rw [g1] at hm
              have hq := hs.host_bound n q hm
              refine entry_live_mono s _ ?_ ?_ ?_ (hs.host_live n q hm)
              · rw [hat q hq]
                exact fun h => h
              · rw [hat q hq]
              · intro d h
                unfold domain_at
                rw [g4]
                exact h
            · intro k d hm
              show d < s1.domain_heap.length
              rw [g3] at hm
              rw [g4]
              exact hs.dom_bound k d hm
            · intro k d hm
              show (domain_at s1 d).intercepts ≠ []
              rw [g3] at hm
              unfold domain_at
              rw [g4]
              exact hs.dom_live k d hm
          | some p =>
            obtain ⟨e1, e2, _, e4, e5, e6, e7, _, _⟩ := new_ipv4_entry_some s _ hn
            constructor
            · intro n q hm
              show q < (s1.entry_heap.set p _).length
              rw [List.length_set, e6]
              have hm' : (n, q) ∈ s1.hostnames := hm
              rw [e2] at hm'
              rcases model_map_mem_set hm' with h | h
              · have := hs.host_bound n q h
                omega
              · injection h with _ h2
                omega
            · intro n q hm
              have hm' : (n, q) ∈ s1.hostnames := hm
              rw [e2] at hm'
              rcases model_map_mem_set hm' with h | h
              · have hq := hs.host_bound n q h
                have hne : ¬ (p = q ∧ p < s1.entry_heap.length) := by
                  intro hc
                  omega
                refine entry_live_mono s _ ?_ ?_ ?_ (hs.host_live n q h)
                · intro hl
                  show (List.getD (s1.entry_heap.set p _) q calloc_entry).intercepts ≠ []
                  rw [heap_getD_set, if_neg hne]
                  show (entry_at s1 q).intercepts ≠ []
                  rw [e7 q hq]
                  exact hl
                · show (List.getD (s1.entry_heap.set p _) q calloc_entry).domain = _
                  rw [heap_getD_set, if_neg hne]
                  show (entry_at s1 q).domain = _
                  rw [e7 q hq]
                · intro d hl
                  show (List.getD s1.domain_heap d calloc_domain).intercepts ≠ []
                  rw [e5]
                  exact hl
              · injection h with _ h2
                left
                show (List.getD (s1.entry_heap.set p _) q calloc_entry).intercepts ≠ []
                rw [heap_getD_set, if_pos ⟨h2.symm, by omega⟩]
                exact model_map_set_ne_nil _ _ _
            · intro k d hm
              show d < s1.domain_heap.length
              have hm' : (k, d) ∈ s1.domains := hm
              rw [e4] at hm'
              rw [e5]
              exact hs.dom_bound k d hm'
            · intro k d hm
              have hm' : (k, d) ∈ s1.domains := hm
              rw [e4] at hm'
              show (List.getD s1.domain_heap d calloc_domain).intercepts ≠ []
              rw [e5]
              exact hs.dom_live k d hm'

/-- The paths of `ziti_dns_lookup`. -/
theorem lookup_cases (s : ziti_dns_s) (name : List Char) :
    (((check_name name).1 = false ∨ (check_name name).2.2 = true) ∧
      ziti_dns_lookup s name = (s, none)) ∨
    (∃ p, model_map_get s.hostnames (check_name name).2.1 = some p ∧
      ziti_dns_lookup s name = (s, if entry_active s p then some p else none)) ∨
    (model_map_get s.hostnames (check_name name).2.1 = none ∧
      find_domain s (check_name name).2.1 = none ∧ ziti_dns_lookup s name = (s, none)) ∨
    (∃ d, model_map_get s.hostnames (check_name name).2.1 = none ∧
      find_domain s (check_name name).2.1 = some d ∧ (domain_at s d).intercepts = [] ∧
      ziti_dns_lookup s name = (s, none)) ∨
    (∃ d s1, model_map_get s.hostnames (check_name name).2.1 = none ∧
      find_domain s (check_name name).2.1 = some d ∧ (domain_at s d).intercepts ≠ [] ∧
      new_ipv4_entry s (check_name name).2.1 = (s1, none) ∧
      ziti_dns_lookup s name = (s1, none)) ∨
    (∃ d s1 p, model_map_get s.hostnames (check_name name).2.1 = none ∧
      find_domain s (check_name name).2.1 = some d ∧ (domain_at s d).intercepts ≠ [] ∧
      new_ipv4_entry s (check_name name).2.1 = (s1, some p) ∧
      ziti_dns_lookup s name =
        (lookup_linked s1 p d,
         if entry_active (lookup_linked s1 p d) p then some p else none)) := by
  by_cases hv : (check_name name).1 = true
  swap
  · exact Or.inl ⟨Or.inl (by simpa using hv), lookup_invalid s name (Or.inl (by simpa using hv))⟩
  by_cases hw : (check_name name).2.2 = true
  · exact Or.inl ⟨Or.inr hw, lookup_invalid s name (Or.inr hw)⟩
  have hw' : (check_name name).2.2 = false := by simpa using hw
  right
  cases hg : model_map_get s.hostnames (check_name name).2.1 with
  | some p => exact Or.inl ⟨p, rfl, lookup_existing s name hv hw' hg⟩
  | none =>
    right
    cases hf : find_domain s (check_name name).2.1 with
    | none => exact Or.inl ⟨rfl, rfl, lookup_no_domain s name hv hw' hg hf⟩
    | some d =>
      right
      by_cases hd : (domain_at s d).intercepts = []
      · exact Or.inl ⟨d, rfl, rfl, hd, lookup_empty_domain s name hv hw' hg hf hd⟩
      · right
        have hsz : model_map_size (domain_at s d).intercepts > 0 := by
          unfold model_map_size
          exact List.length_pos.mpr hd
        cases hn : new_ipv4_entry s (check_name name).2.1 with
        | mk s1 r =>
          cases r with
          | none =>
            refine Or.inl ⟨d, s1, rfl, rfl, hd, rfl, ?_⟩
            unfold ziti_dns_lookup
            simp only [hv, hw', hg, hf, hsz, hn]
            rfl
          | some p =>
            refine Or.inr ⟨d, s1, p, rfl, rfl, hd, rfl, ?_⟩
            unfold ziti_dns_lookup
            simp only [hv, hw', hg, hf, hsz, hn]
            unfold lookup_linked
            simp only [Bool.not_true, Bool.false_or, Bool.false_eq_true, if_false, if_true]
            split <;> rfl

/-- The entry a lookup creates is active: it is linked to the claimed domain. -/
theorem lookup_linked_active (s : ziti_dns_s) (host : List Char) {s1 : ziti_dns_s} {p d : Nat}
    (hn : new_ipv4_entry s host = (s1, some p)) (hd : (domain_at s d).intercepts ≠ []) :
    entry_live (lookup_linked s1 p d) p := by
  obtain ⟨e1, _, _, _, e5, e6, _, _, _⟩ := new_ipv4_entry_some s host hn
  right
  refine ⟨d, ?_, ?_⟩
  · show (List.getD (s1.entry_heap.set p _) p calloc_entry).domain = some d
    rw [heap_getD_set, if_pos ⟨rfl, by omega⟩]
  · show (List.getD s1.domain_heap d calloc_domain).intercepts ≠ []
    rw [e5]
    exact hd

theorem lookup_claims_ok {s : ziti_dns_s} (hs : claims_ok s) (name : List Char) :
    claims_ok (ziti_dns_lookup s name).1 := by
  rcases lookup_cases s name with ⟨_, h⟩ | ⟨p, _, h⟩ | ⟨_, _, h⟩ | ⟨d, _, _, _, h⟩ |
    ⟨d, s1, hg, _, _, hn, h⟩ | ⟨d, s1, p, hg, _, hd, hn, h⟩
  · rw [h]
    exact hs
  · rw [h]
    exact hs
  · rw [h]
    exact hs
  · rw [h]
    exact hs
  · rw [h]
    obtain ⟨_, g1, _, g3, g4, _, g6⟩ := new_ipv4_entry_none s _ hn
    have hat : ∀ q, q < s.entry_heap.length → entry_at s1 q = entry_at s q := by
      intro q hq
      unfold entry_at
      rw [g6, heap_getD_append_one, if_pos hq]
    constructor
    · intro n q hm
      show q < s1.entry_heap.length
      have hm' : (n, q) ∈ s1.hostnames := hm
      rw [g1] at hm'
      rw [g6, List.length_append]
      have := hs.host_bound n q hm'
      omega
    · intro n q hm
      show entry_live s1 q
      have hm' : (n, q) ∈ s1.hostnames := hm
      rw [g1] at hm'
      have hq := hs.host_bound n q hm'
      refine entry_live_mono s _ ?_ ?_ ?_ (hs.host_live n q hm')
      · rw [hat q hq]
        exact fun h => h
      · rw [hat q hq]
      · intro d h
        unfold domain_at
        rw [g4]
        exact h
    · intro k d hm
      show d < s1.domain_heap.length
      have hm' : (k, d) ∈ s1.domains := hm
      rw [g3] at hm'
      rw [g4]
      exact hs.dom_bound k d hm'
    · intro k d hm
      show (domain_at s1 d).intercepts ≠ []
      have hm' : (k, d) ∈ s1.domains := hm
      rw [g3] at hm'
      unfold domain_at
      rw [g4]
      exact hs.dom_live k d hm'
  · rw [h]
    obtain ⟨e1, e2, _, e4, e5, e6, e7, _, _⟩ := new_ipv4_entry_some s _ hn
    constructor
    · intro n q hm
      show q < (s1.entry_heap.set p _).length
      rw [List.length_set, e6]
      have hm' : (n, q) ∈ s1.hostnames := hm
      rw [e2] at hm'
      rcases model_map_mem_set hm' with h | h
      · have := hs.host_bound n q h
        omega
      · injection h with _ h2
        omega
    · intro n q hm
      have hm' : (n, q) ∈ s1.hostnames := hm
      rw [e2] at hm'
      rcases model_map_mem_set hm' with h | h
      · have hq := hs.host_bound n q h
        have hne : ¬ (p = q ∧ p < s1.entry_heap.length) := by
          intro hc
          omega
        refine entry_live_mono s _ ?_ ?_ ?_ (hs.host_live n q h)
        · intro hl
          show (List.getD (s1.entry_heap.set p _) q calloc_entry).intercepts ≠ []
          rw [heap_getD_set, if_neg hne]
          show (entry_at s1 q).intercepts ≠ []
          rw [e7 q hq]
          exact hl
        · show (List.getD (s1.entry_heap.set p _) q calloc_entry).domain = _
          rw [heap_getD_set, if_neg hne]
          show (entry_at s1 q).domain = _
          rw [e7 q hq]
        · intro d hl
          show (List.getD s1.domain_heap d calloc_domain).intercepts ≠ []
          rw [e5]
          exact hl
      · injection h with _ h2
        rw [h2]
        exact lookup_linked_active s _ hn hd
    · intro k d' hm
      show d' < s1.domain_heap.length
      have hm' : (k, d') ∈ s1.domains := hm
      rw [e4] at hm'
      rw [e5]
      exact hs.dom_bound k d' hm'
    · intro k d' hm
      have hm' : (k, d') ∈ s1.domains := hm
      rw [e4] at hm'
      show (List.getD s1.domain_heap d' calloc_domain).intercepts ≠ []
      rw [e5]
      exact hs.dom_live k d' hm'

theorem dereg_claims_ok {s : ziti_dns_s} (hs : claims_ok s) (c : Nat) :
    claims_ok (ziti_dns_deregister_intercept s c) := by
  constructor
  · intro n p hm
    rw [dereg_entry_heap_length]
    exact hs.host_bound n p ((dereg_hostnames_mem s c n p).mp hm).1
  · intro n p hm
    obtain ⟨hm1, hdead⟩ := (dereg_hostnames_mem s c n p).mp hm
    have hin : p ∈ s.hostnames.map Prod.snd := List.mem_map.mpr ⟨(n, p), hm1, rfl⟩
    have hat : entry_at (ziti_dns_deregister_intercept s c) p = entry_drop c (entry_at s p) := by
      rw [dereg_entry_at, if_pos hin]
    rcases (dereg_dead_iff s c p).mp hdead with h | ⟨d, h1, h2⟩
    · left
      rw [hat]
      exact h
    · right
      refine ⟨d, ?_, h2⟩
      rw [hat]
      exact h1
  · intro k d hm
    rw [dereg_domain_heap_length]
    exact hs.dom_bound k d ((dereg_domains_mem s c k d).mp hm).1
  · intro k d hm
    exact ((dereg_domains_mem s c k d).mp hm).2

theorem run_claims_ok {s : ziti_dns_s} (hs : claims_ok s) (calls : List dns_call) :
    claims_ok (dns_run s calls) := by
  induction calls generalizing s with
  | nil => exact hs
  | cons c calls ih =>
    apply ih
    cases c with
    | register addr intercept => exact register_claims_ok hs addr intercept
    | lookup hostname => exact lookup_claims_ok hs hostname
    | deregister intercept => exact dereg_claims_ok hs intercept

/-! ## Deregistering a claimant that is registered nowhere -/

theorem model_map_remove_absent {K V : Type} [DecidableEq K] (m : List (K × V)) (k : K)
    (h : model_map_get m k = none) : model_map_remove m k = m := by
  induction m with
  | nil => rfl
  | cons x m ih =>
    obtain ⟨k', v'⟩ := x
    by_cases hk : k' = k
    · simp [model_map_get, hk] at h
    · simp only [model_map_get, hk, if_false] at h
      have := ih h
      unfold model_map_remove at this ⊢
      simp only [List.filter_cons, ne_eq, hk, not_false_eq_true, decide_True, if_true]
      rw [this]

theorem deregister_domains_absent (c : Nat) (it : List (List Char × Nat))
    (heap : List dns_domain_t)
    (h : ∀ k d, (k, d) ∈ it →
      model_map_get (heap.getD d calloc_domain).intercepts c = none) :
    deregister_domains c it heap = heap := by
  induction it with
  | nil => rfl
  | cons x it ih =>
    obtain ⟨k, d⟩ := x
    have h0 := h k d (List.mem_cons_self _ _)
    have hdrop : domain_drop c (heap.getD d calloc_domain) = heap.getD d calloc_domain := by
      unfold domain_drop
      rw [model_map_remove_absent _ _ h0]
    show deregister_domains c it
      (heap.set d (domain_drop c (heap.getD d calloc_domain))) = heap
    rw [hdrop, heap_set_getD_self]
    exact ih (fun k' d' hm => h k' d' (List.mem_cons_of_mem _ hm))

theorem entry_dead_false (dh : List dns_domain_t) (e : dns_entry_t)
    (h : e.intercepts ≠ [] ∨
      ∃ d, e.domain = some d ∧ (dh.getD d calloc_domain).intercepts ≠ []) :
    entry_dead dh e = false := by
  unfold entry_dead domain_unclaimed model_map_size
  rcases h with h | ⟨d, h1, h2⟩
  · have : ¬ e.intercepts.length = 0 := fun h0 => h (List.length_eq_zero.mp h0)
    simp [this]
  · have : ¬ (dh.getD d calloc_domain).intercepts.length = 0 :=
      fun h0 => h2 (List.length_eq_zero.mp h0)
    rw [h1]
    simp only [this, decide_False, Bool.and_false]

theorem deregister_hostnames_absent (c : Nat) (dh : List dns_domain_t)
    (it : List (List Char × Nat)) (heap : List dns_entry_t) (ips : List (Nat × Nat))
    (h : ∀ n p, (n, p) ∈ it →
      model_map_get (heap.getD p calloc_entry).intercepts c = none ∧
      entry_dead dh (heap.getD p calloc_entry) = false) :
    deregister_hostnames c dh it heap ips = (it, heap, ips) := by
  induction it with
  | nil => rfl
  | cons x it ih =>
    obtain ⟨n, p⟩ := x
    obtain ⟨h0, h1⟩ := h n p (List.mem_cons_self _ _)
    have hdrop : entry_drop c (heap.getD p calloc_entry) = heap.getD p calloc_entry := by
      unfold entry_drop
      rw [model_map_remove_absent _ _ h0]
    unfold deregister_hostnames
    simp only [hdrop, heap_set_getD_self, h1, Bool.false_eq_true, if_false]
    rw [ih (fun n' p' hm => h n' p' (List.mem_cons_of_mem _ hm))]

theorem deregister_prune_all (dh : List dns_domain_t) (it : List (List Char × Nat))
    (h : ∀ k d, (k, d) ∈ it → (dh.getD d calloc_domain).intercepts ≠ []) :
    deregister_prune dh it = it := by
  induction it with
  | nil => rfl
  | cons x it ih =>
    obtain ⟨k, d⟩ := x
    have h0 := h k d (List.mem_cons_self _ _)
    have : ¬ model_map_size (dh.getD d calloc_domain).intercepts = 0 :=
      fun hz => h0 (List.length_eq_zero.mp hz)
    unfold deregister_prune
    simp only [this, if_false]
    rw [ih (fun k' d' hm => h k' d' (List.mem_cons_of_mem _ hm))]

/-- Deregistering a claimant that no entry of `hostnames` and no domain of
`domains` holds leaves the state as it is. -/
theorem dereg_absent {s : ziti_dns_s} (hs : claims_ok s) (c : Nat)
    (hh : ∀ n p, (n, p) ∈ s.hostnames → model_map_get (entry_at s p).intercepts c = none)
    (hd : ∀ k d, (k, d) ∈ s.domains → model_map_get (domain_at s d).intercepts c = none) :
    ziti_dns_deregister_intercept s c = s := by
  have h1 : deregister_domains c s.domains s.domain_heap = s.domain_heap :=
    deregister_domains_absent c s.domains s.domain_heap hd
  have h2 : deregister_hostnames c s.domain_heap s.hostnames s.entry_heap s.ip_addresses
      = (s.hostnames, s.entry_heap, s.ip_addresses) := by
    apply deregister_hostnames_absent
    intro n p hm
    refine ⟨hh n p hm, entry_dead_false _ _ ?_⟩
    exact hs.host_live n p hm
  have h3 : deregister_prune s.domain_heap s.domains = s.domains :=
    deregister_prune_all _ _ hs.dom_live
  unfold ziti_dns_deregister_intercept
  simp only [h1, h2, h3]

/-! ## The claims -/

/-- C1 (pool uniqueness).  In every state reached from `ziti_dns_setup` with a
prefix length between 1 and 30 by `ziti_dns_register_hostname`,
`ziti_dns_lookup` and `ziti_dns_deregister_intercept`, the addresses of the
name entries are pairwise distinct, and every one of them, read in host byte
order, has the network prefix of the seeded pool (`ip & ~mask == base`), a host
part between `1` and `mask - 1`, and differs from the reserved tun and DNS
addresses. -/
theorem C1_pool_uniqueness (dns_addr tun_addr : Nat) (cidr : Nat × Nat × Nat × Nat × Nat)
    (hc : valid_cidr cidr) (calls : List dns_call) :
    (∀ n1 p1 n2 p2,
      (n1, p1) ∈ (dns_run (ziti_dns_setup dns_addr tun_addr (some cidr)) calls).hostnames →
      (n2, p2) ∈ (dns_run (ziti_dns_setup dns_addr tun_addr (some cidr)) calls).hostnames →
      n1 ≠ n2 →
      (entry_at (dns_run (ziti_dns_setup dns_addr tun_addr (some cidr)) calls) p1).addr ≠
        (entry_at (dns_run (ziti_dns_setup dns_addr tun_addr (some cidr)) calls) p2).addr) ∧
    (∀ n p,
      (n, p) ∈ (dns_run (ziti_dns_setup dns_addr tun_addr (some cidr)) calls).hostnames →
      htonl (entry_at (dns_run (ziti_dns_setup dns_addr tun_addr (some cidr)) calls) p).addr
          &&& not32 (ziti_dns_setup dns_addr tun_addr (some cidr)).ip_pool.counter_mask
        = (ziti_dns_setup dns_addr tun_addr (some cidr)).ip_pool.base ∧
      1 ≤ htonl (entry_at (dns_run (ziti_dns_setup dns_addr tun_addr (some cidr)) calls) p).addr
          &&& (ziti_dns_setup dns_addr tun_addr (some cidr)).ip_pool.counter_mask ∧
      htonl (entry_at (dns_run (ziti_dns_setup dns_addr tun_addr (some cidr)) calls) p).addr
          &&& (ziti_dns_setup dns_addr tun_addr (some cidr)).ip_pool.counter_mask
        ≤ (ziti_dns_setup dns_addr tun_addr (some cidr)).ip_pool.counter_mask - 1 ∧
      (entry_at (dns_run (ziti_dns_setup dns_addr tun_addr (some cidr)) calls) p).addr
        ≠ tun_addr ∧
      (entry_at (dns_run (ziti_dns_setup dns_addr tun_addr (some cidr)) calls) p).addr
        ≠ dns_addr) := by
  obtain ⟨ip0, ip1, ip2, ip3, bits⟩ := cidr
  obtain ⟨h0, h1, h2, h3, hb1, hb2⟩ := hc
  have hs0 := setup_ok dns_addr tun_addr ip0 ip1 ip2 ip3 bits h0 h1 h2 h3 hb1 hb2
  have hs := run_ok hs0 calls
  obtain ⟨eb, em, _⟩ := run_pool hs0 calls
  generalize ziti_dns_setup dns_addr tun_addr (some (ip0, ip1, ip2, ip3, bits)) = s0 at *
  generalize dns_run s0 calls = s at *
  rw [← eb, ← em]
  constructor
  · intro n1 p1 n2 p2 hm1 hm2 hne heq
    have a1 := (hs.host_ptr n1 p1 hm1).2.2
    have a2 := (hs.host_ptr n2 p2 hm2).2.2
    rw [heq] at a1
    have hp : p1 = p2 := nodup_keys_unique hs.ip_nodup a1.2 a2.2
    subst hp
    exact hne (a1.1.symm.trans a2.1)
  · intro n p hm
    obtain ⟨h, hh1, hh2, hah⟩ := hs.host_addr n p hm
    obtain ⟨k, hk, _, _⟩ := hs.pool
    have hmg := pool_mask_ge hk
    obtain ⟨hk2, hk31, hmask, hcap, hbase, hb32⟩ := hk
    have hpos : 0 < 2 ^ k := Nat.pow_pos (by norm_num)
    have hh : h < 2 ^ k := by omega
    have hbq : s.ip_pool.base = 2 ^ k * (s.ip_pool.base / 2 ^ k) := by
      have := Nat.div_add_mod s.ip_pool.base (2 ^ k)
      omega
    have hx : htonl (entry_at s p).addr = s.ip_pool.base + h := by
      rw [hah]
      exact htonl_htonl _ (by omega)
    rw [hx]
    have hhost : (s.ip_pool.base + h) &&& s.ip_pool.counter_mask = h := by
      rw [hmask, Nat.and_pow_two_sub_one_eq_mod, hbq, Nat.mul_add_mod]
      exact Nat.mod_eq_of_lt hh
    refine ⟨?_, ?_, ?_, ?_, ?_⟩
    · rw [hmask]
      have := and_not32_mask k hk2 hk31 (s.ip_pool.base / 2 ^ k) h hh (by omega)
      rw [← hbq] at this
      exact this
    · rw [hhost]
      exact hh1
    · rw [hhost]
      omega
    · intro heq
      obtain ⟨q, hq, hmq⟩ := hs.tun_reserved
      obtain ⟨hp2, _, _, hmp⟩ := hs.host_ptr n p hm
      rw [heq] at hmp
      have : p = q := nodup_keys_unique hs.ip_nodup hmp hmq
      omega
    · intro heq
      obtain ⟨q, hq, hmq⟩ := hs.dns_reserved
      obtain ⟨hp2, _, _, hmp⟩ := hs.host_ptr n p hm
      rw [heq] at hmp
      have : p = q := nodup_keys_unique hs.ip_nodup hmp hmq
      omega

/-- Witness of C1: the pool `100.64.0.1/10` with the DNS address `100.64.0.2`
after two registrations and a deregistration. -/
theorem C1_pool_uniqueness_witness :
    valid_cidr (100, 64, 0, 1, 10) ∧
    (∀ n p,
      (n, p) ∈ (dns_run (ziti_dns_setup 33570916 16793700 (some (100, 64, 0, 1, 10)))
        [dns_call.register (ziti_address.hostname ['a']) 1,
         dns_call.register (ziti_address.hostname ['b']) 2,
         dns_call.deregister 1]).hostnames →
      (entry_at (dns_run (ziti_dns_setup 33570916 16793700 (some (100, 64, 0, 1, 10)))
        [dns_call.register (ziti_address.hostname ['a']) 1,
         dns_call.register (ziti_address.hostname ['b']) 2,
         dns_call.deregister 1]) p).addr ≠ 33570916) :=
  ⟨by decide, fun n p hm =>
    ((C1_pool_uniqueness 33570916 16793700 (100, 64, 0, 1, 10) (by decide)
      [dns_call.register (ziti_address.hostname ['a']) 1,
       dns_call.register (ziti_address.hostname ['b']) 2,
       dns_call.deregister 1]).2 n p hm).2.2.2.2⟩

/-- The catalogue round trip in a pool seeded with a prefix length from 1 to 30.
Let `h` be a lower-case host name of at most
255 bytes that does not start with `*.`, registered in a reachable state with
the entry `p` returned.  After every later sequence of calls that never
deregisters the last claimant of `h`, the reverse lookup of the address returned
by the registration gives `h`, and `ziti_dns_lookup h` returns the entry `p`,
whose address is still that address, without changing the state. -/
theorem round_trip_seeded (dns_addr tun_addr : Nat) (s0 : ziti_dns_s)
    (hr : reachable dns_addr tun_addr s0) (h : List Char) (c p : Nat)
    (hlow : h.map tolower = h) (hlen : h.length ≤ 255)
    (hplain : ¬ ∃ rest, h = '*' :: '.' :: rest)
    (hreg : (ziti_dns_register_hostname s0 (ziti_address.hostname h) c).2 = some p)
    (calls : List dns_call)
    (hkeep : keeps_claimant h
      (ziti_dns_register_hostname s0 (ziti_address.hostname h) c).1 calls) :
    ziti_dns_reverse_lookup
        (dns_run (ziti_dns_register_hostname s0 (ziti_address.hostname h) c).1 calls)
        (entry_at (ziti_dns_register_hostname s0 (ziti_address.hostname h) c).1 p).addr
      = some h ∧
    ziti_dns_lookup
        (dns_run (ziti_dns_register_hostname s0 (ziti_address.hostname h) c).1 calls) h
      = (dns_run (ziti_dns_register_hostname s0 (ziti_address.hostname h) c).1 calls,
         some p) ∧
    (entry_at (dns_run (ziti_dns_register_hostname s0 (ziti_address.hostname h) c).1 calls)
        p).addr
      = (entry_at (ziti_dns_register_hostname s0 (ziti_address.hostname h) c).1 p).addr := by
  have hcn := check_name_normal hlow hlen hplain
  have hs0 := reachable_ok hr
  have hd : (check_name h).2.2 = false := by rw [hcn]
  obtain ⟨r1, r2, _⟩ := register_plain_result hs0 hd hreg
  have hs1 := register_ok hs0 (ziti_address.hostname h) c
  have hcl : (check_name h).2.1 = h := by rw [hcn]
  rw [hcl] at r1
  generalize (ziti_dns_register_hostname s0 (ziti_address.hostname h) c).1 = s1 at *
  generalize hi : (entry_at s1 p).addr = i
  have key : ∀ (calls : List dns_call) (s : ziti_dns_s), catalog_ok tun_addr dns_addr s →
      model_map_get s.hostnames h = some p → (entry_at s p).addr = i →
      (∃ j, (model_map_get (entry_at s p).intercepts j).isSome = true) →
      keeps_claimant h s calls →
      catalog_ok tun_addr dns_addr (dns_run s calls) ∧
      model_map_get (dns_run s calls).hostnames h = some p ∧
      (entry_at (dns_run s calls) p).addr = i ∧
      ∃ j, (model_map_get (entry_at (dns_run s calls) p).intercepts j).isSome = true := by
    intro calls
    induction calls with
    | nil =>
      intro s hs hh ha hj _
      exact ⟨hs, hh, ha, hj⟩
    | cons c0 cs ih =>
      intro s hs hh ha hj hk
      obtain ⟨hk1, hk2⟩ := hk
      obtain ⟨j, hj⟩ := hj
      have hstep : model_map_get (dns_step s c0).hostnames h = some p ∧
          (entry_at (dns_step s c0) p).addr = i ∧
          ∃ j, (model_map_get (entry_at (dns_step s c0) p).intercepts j).isSome = true := by
        cases c0 with
        | register addr intercept =>
          obtain ⟨a1, a2, a3⟩ := grows_keeps_entry hs (register_grows hs addr intercept) hh hj
          exact ⟨a1, a2.trans ha, j, a3⟩
        | lookup hostname =>
          obtain ⟨a1, a2, a3⟩ := grows_keeps_entry hs (lookup_grows hs hostname) hh hj
          exact ⟨a1, a2.trans ha, j, a3⟩
        | deregister intercept =>
          obtain ⟨j', hne, p', hp', hj'⟩ := hk1 intercept rfl
          rw [hh] at hp'
          injection hp' with hp'
          subst hp'
          obtain ⟨a1, _, a3, _, _, a6⟩ := dereg_keeps_entry hs hh hne hj'
          exact ⟨a1, a3.trans ha, j', a6⟩
      exact ih (dns_step s c0) (step_ok hs c0) hstep.1 hstep.2.1 hstep.2.2 hk2
  obtain ⟨hs, hh, ha, j, hj⟩ := key calls s1 hs1 r1 hi ⟨c, r2⟩ hkeep
  have hm := model_map_get_mem hh
  obtain ⟨_, _, hname, hmem⟩ := hs.host_ptr h p hm
  refine ⟨?_, ?_, ha⟩
  · unfold ziti_dns_reverse_lookup
    rw [ha] at hmem
    rw [model_map_get_of_mem hs.ip_nodup hmem]
    simp only [hname]
  · have hv : (check_name h).1 = true := by rw [hcn]
    rw [← hcl] at hh
    rw [lookup_existing _ h hv hd hh]
    have : entry_active (dns_run s1 calls) p = true := by
      rw [entry_live_iff]
      exact Or.inl (model_map_isSome_ne_nil hj)
    rw [this]
    rfl

/-- An instance of the round trip: `a` is registered by claimant 1 in the sample pool, then by
claimant 7, and claimant 1 is deregistered. -/
theorem round_trip_seeded_example :
    reachable 33554442 16777226 sample_setup ∧
    ziti_dns_reverse_lookup
        (dns_run (ziti_dns_register_hostname sample_setup (ziti_address.hostname ['a']) 1).1
          [dns_call.register (ziti_address.hostname ['a']) 7, dns_call.deregister 1])
        (entry_at (ziti_dns_register_hostname sample_setup
          (ziti_address.hostname ['a']) 1).1 2).addr
      = some ['a'] ∧
    ziti_dns_lookup
        (dns_run (ziti_dns_register_hostname sample_setup (ziti_address.hostname ['a']) 1).1
          [dns_call.register (ziti_address.hostname ['a']) 7, dns_call.deregister 1]) ['a']
      = (dns_run (ziti_dns_register_hostname sample_setup (ziti_address.hostname ['a']) 1).1
          [dns_call.register (ziti_address.hostname ['a']) 7, dns_call.deregister 1],
         some 2) ∧
    (entry_at (dns_run (ziti_dns_register_hostname sample_setup
        (ziti_address.hostname ['a']) 1).1
          [dns_call.register (ziti_address.hostname ['a']) 7, dns_call.deregister 1])
        2).addr
      = (entry_at (ziti_dns_register_hostname sample_setup
          (ziti_address.hostname ['a']) 1).1 2).addr :=
  ⟨⟨(10, 0, 0, 1, 29), [], by decide, rfl⟩,
   round_trip_seeded 33554442 16777226 sample_setup
    ⟨(10, 0, 0, 1, 29), [], by decide, rfl⟩ ['a'] 1 2 (by decide) (by decide)
    (by rintro ⟨rest, h⟩; cases h) (by decide)
    [dns_call.register (ziti_address.hostname ['a']) 7, dns_call.deregister 1]
    ⟨fun i hi => (by cases hi),
     fun i hi =>
      dns_call.deregister.inj hi ▸ ⟨7, (by decide), 2, (by decide), (by decide)⟩,
     trivial⟩⟩

/-- C2 fails in a pool of prefix length 31.  In the pool `10.0.0.0/31` with the
DNS server at `10.0.0.1`, `a` is registered by claimant 1 and gets the entry 2
with the address `10.0.0.1`; then `b` and `c` are registered by the claimants 2
and 3 and nothing is deregistered.  The entry of `c` holds `10.0.0.1` as well,
so the reverse lookup of the address returned for `a` gives `c`, while the
lookup of `a` still returns the entry 2 with that address. -/
theorem C2_address_shared_in_slash31 :
    (ziti_dns_register_hostname sample_slash31 (ziti_address.hostname ['a']) 1).2 = some 2 ∧
    (entry_at (ziti_dns_register_hostname sample_slash31
      (ziti_address.hostname ['a']) 1).1 2).addr = 16777226 ∧
    sample_slash31_names =
      dns_run (ziti_dns_register_hostname sample_slash31 (ziti_address.hostname ['a']) 1).1
        [dns_call.register (ziti_address.hostname ['b']) 2,
         dns_call.register (ziti_address.hostname ['c']) 3] ∧
    (entry_at sample_slash31_names 2).intercepts = [(1, 1)] ∧
    ziti_dns_reverse_lookup sample_slash31_names 16777226 = some ['c'] ∧
    (entry_at sample_slash31_names 4).addr = 16777226 ∧
    ziti_dns_lookup sample_slash31_names ['a'] = (sample_slash31_names, some 2) ∧
    (entry_at sample_slash31_names 2).addr = 16777226 := by
  and_intros <;> decide

/-- C3 (evaluation at the failing input).  In the sample pool after the release
of `10.0.0.6` the address map holds 5 of 6 bindings and `e` has no entry, yet
`ziti_dns_register_hostname` returns `NULL` for the plain host name `e`. -/
theorem C3_register_null_with_free_address :
    model_map_size sample_released.ip_addresses < sample_released.ip_pool.capacity ∧
    model_map_get sample_released.hostnames ['e'] = none ∧
    (ziti_dns_register_hostname sample_released (ziti_address.hostname ['e']) 5).2 = none := by
  decide

/-- C4 (evaluation at the failing input).  The sample pool is full with
`10.0.0.6` held by the entry of `d`; after the release the address map holds 5
of 6 bindings and `10.0.0.6` is free, yet `next_ipv4` returns `INADDR_NONE`: the
free address is the sixth candidate probed and `i == capacity` rejects it. -/
theorem C4_released_address_not_found :
    model_map_size sample_full.ip_addresses = sample_full.ip_pool.capacity ∧
    model_map_get sample_full.ip_addresses 100663306 = some 5 ∧
    model_map_size sample_released.ip_addresses < sample_released.ip_pool.capacity ∧
    model_map_get sample_released.ip_addresses 100663306 = none ∧
    next_ipv4_loop sample_released.ip_pool sample_released.ip_addresses
      sample_released.ip_pool.capacity sample_released.ip_pool.counter 0
        = (100663306, 1, 6) ∧
    (next_ipv4 sample_released).2 = INADDR_NONE := by
  decide

/-- C5 (exhaustion is reported and atomic).  When the address map holds exactly
`capacity` bindings, `ziti_dns_register_hostname` for an address whose cleaned
name has no entry returns `NULL` and leaves the hostnames map, the address map
and the pool (its counter included) as they were. -/
theorem C5_exhaustion_atomic (s : ziti_dns_s) (addr : ziti_address) (intercept : Nat)
    (hfull : model_map_size s.ip_addresses = s.ip_pool.capacity)
    (hnew : ∀ h, addr = ziti_address.hostname h →
      model_map_get s.hostnames (check_name h).2.1 = none) :
    (ziti_dns_register_hostname s addr intercept).2 = none ∧
    (ziti_dns_register_hostname s addr intercept).1.hostnames = s.hostnames ∧
    (ziti_dns_register_hostname s addr intercept).1.ip_addresses = s.ip_addresses ∧
    (ziti_dns_register_hostname s addr intercept).1.ip_pool = s.ip_pool := by
  cases addr with
  | cidr ip bits => exact ⟨rfl, rfl, rfl, rfl⟩
  | hostname h =>
    have hg := hnew h rfl
    by_cases hd : (check_name h).2.2 = true
    · cases hgd : model_map_get s.domains (List.drop 2 (check_name h).2.1) with
      | some d =>
        rw [register_domain_existing s h intercept hd hgd]
        exact ⟨rfl, rfl, rfl, rfl⟩
      | none =>
        rw [register_domain_new s h intercept hd hgd]
        exact ⟨rfl, rfl, rfl, rfl⟩
    · have hd' : (check_name h).2.2 = false := by simpa using hd
      rw [register_host_new s h intercept hd' hg]
      have hnone : new_ipv4_entry s (check_name h).2.1 =
          ({ s with entry_heap := s.entry_heap ++
              [{ calloc_entry with name := (check_name h).2.1.take MAX_DNS_NAME }] },
           none) := by
        unfold new_ipv4_entry next_ipv4
        simp only [hfull, if_true]
      rw [hnone]
      exact ⟨rfl, rfl, rfl, rfl⟩

/-- Witness of C5: the pool `10.0.0.0/30` right after setup. -/
theorem C5_exhaustion_atomic_witness :
    model_map_size sample_tiny.ip_addresses = sample_tiny.ip_pool.capacity ∧
    (ziti_dns_register_hostname sample_tiny
      (ziti_address.hostname "only.example".toList) 1).2 = none ∧
    (ziti_dns_register_hostname sample_tiny
      (ziti_address.hostname "only.example".toList) 1).1.hostnames = sample_tiny.hostnames ∧
    (ziti_dns_register_hostname sample_tiny
      (ziti_address.hostname "only.example".toList) 1).1.ip_addresses
        = sample_tiny.ip_addresses ∧
    (ziti_dns_register_hostname sample_tiny
      (ziti_address.hostname "only.example".toList) 1).1.ip_pool = sample_tiny.ip_pool :=
  ⟨by decide,
   C5_exhaustion_atomic sample_tiny (ziti_address.hostname "only.example".toList) 1
    (by decide) (by intro h hh; injection hh with hh; subst hh; decide)⟩

/-- The deregistration of the sole claimant in a pool seeded with a prefix length
from 1 to 30.  In a reachable state let the
entry stored under `h` have no claimant but `c`, and let no registered wildcard
domain cover `h` (`find_domain` misses).  After
`ziti_dns_deregister_intercept c` the name `h` is no longer in the hostnames map
and its address is no longer in the address map, so that `ziti_dns_lookup h` and
the reverse lookup of the address return `NULL`; every entry that has another claimant keeps its
binding, its name, its IP and its remaining claimants. -/
theorem deregister_sole_claimant_seeded (dns_addr tun_addr : Nat) (s : ziti_dns_s)
    (hr : reachable dns_addr tun_addr s) (h : List Char) (p c : Nat)
    (hh : model_map_get s.hostnames h = some p)
    (hsole : ∀ j, (model_map_get (entry_at s p).intercepts j).isSome = true → j = c)
    (hnf : find_domain s h = none) :
    model_map_get (ziti_dns_deregister_intercept s c).hostnames h = none ∧
    model_map_get (ziti_dns_deregister_intercept s c).ip_addresses (entry_at s p).addr
      = none ∧
    ziti_dns_lookup (ziti_dns_deregister_intercept s c) h
      = (ziti_dns_deregister_intercept s c, none) ∧
    ziti_dns_reverse_lookup (ziti_dns_deregister_intercept s c) (entry_at s p).addr
      = none ∧
    (∀ n q j, model_map_get s.hostnames n = some q → j ≠ c →
      (model_map_get (entry_at s q).intercepts j).isSome = true →
      model_map_get (ziti_dns_deregister_intercept s c).hostnames n = some q ∧
      (entry_at (ziti_dns_deregister_intercept s c) q).name = (entry_at s q).name ∧
      (entry_at (ziti_dns_deregister_intercept s c) q).addr = (entry_at s q).addr ∧
      (entry_at (ziti_dns_deregister_intercept s c) q).intercepts =
        model_map_remove (entry_at s q).intercepts c ∧
      model_map_get (ziti_dns_deregister_intercept s c).ip_addresses (entry_at s q).addr
        = some q) := by
  have hs := reachable_ok hr
  have hm := model_map_get_mem hh
  obtain ⟨r1, r2⟩ := dereg_removes_entry hs hh hsole
    (fun d hd => dereg_domain_empty c (uncovered_domain_empty hs hm hd hnf))
  refine ⟨r1, r2, ?_, ?_, ?_⟩
  · have hcn := hs.host_norm h p hm
    have hv : (check_name h).1 = true := by rw [hcn]
    have hw : (check_name h).2.2 = false := by rw [hcn]
    have hcl : (check_name h).2.1 = h := by rw [hcn]
    apply lookup_no_domain _ h hv hw
    · rw [hcl]
      exact r1
    · rw [hcl]
      exact dereg_find_domain_none c hnf
  · unfold ziti_dns_reverse_lookup
    rw [r2]
  · intro n q j hn hjc hj
    exact dereg_keeps_binding hs hn hjc hj

/-- An instance: in the full sample pool, claimant 4 is the only claimant of
`d`. -/
theorem deregister_sole_claimant_seeded_example :
    reachable 33554442 16777226 sample_full ∧
    model_map_get sample_full.hostnames ['d'] = some 5 ∧
    model_map_get (ziti_dns_deregister_intercept sample_full 4).hostnames ['d'] = none ∧
    model_map_get (ziti_dns_deregister_intercept sample_full 4).ip_addresses
      (entry_at sample_full 5).addr = none ∧
    model_map_get (ziti_dns_deregister_intercept sample_full 4).hostnames ['a'] = some 2 :=
  ⟨⟨(10, 0, 0, 1, 29), _, (by decide), rfl⟩, (by decide),
   (deregister_sole_claimant_seeded 33554442 16777226 sample_full
      ⟨(10, 0, 0, 1, 29), _, (by decide), rfl⟩ ['d'] 5 4 (by decide)
      (sole_of_singleton 4 4 (by decide))
      (by decide)).1,
   (deregister_sole_claimant_seeded 33554442 16777226 sample_full
      ⟨(10, 0, 0, 1, 29), _, (by decide), rfl⟩ ['d'] 5 4 (by decide)
      (sole_of_singleton 4 4 (by decide))
      (by decide)).2.1,
   ((deregister_sole_claimant_seeded 33554442 16777226 sample_full
      ⟨(10, 0, 0, 1, 29), _, (by decide), rfl⟩ ['d'] 5 4 (by decide)
      (sole_of_singleton 4 4 (by decide))
      (by decide)).2.2.2.2 ['a'] 2 1 (by decide) (by decide) (by decide)).1⟩

/-- C6 fails in two ways.  In the pool `10.0.0.0/31` with `a`, `b` and `c`
registered by the claimants 1, 2 and 3, claimant 1 is the only claimant of `a`
and no wildcard domain is registered; `ziti_dns_deregister_intercept 1` leaves
`c`, which has its own claimant 3, in the hostnames map but removes the binding
of its address `10.0.0.1` from the address map.  In the full sample pool
`10.0.0.1/29` claimant 4 is the only claimant of `d`, which holds `10.0.0.6`;
after `ziti_dns_deregister_intercept 4` the name `d` and the address are unbound
and the address map holds 5 bindings for a capacity of 6, yet `next_ipv4`
returns `INADDR_NONE` and the registrations of `e` and of `d` itself return
null. -/
theorem C6_released_address_not_allocated :
    (model_map_get sample_slash31_names.hostnames ['a'] = some 2 ∧
     (entry_at sample_slash31_names 2).intercepts = [(1, 1)] ∧
     find_domain sample_slash31_names ['a'] = none ∧
     model_map_get sample_slash31_names.hostnames ['c'] = some 4 ∧
     (entry_at sample_slash31_names 4).intercepts = [(3, 3)] ∧
     model_map_get sample_slash31_names.ip_addresses
       (entry_at sample_slash31_names 4).addr = some 4 ∧
     model_map_get (ziti_dns_deregister_intercept sample_slash31_names 1).hostnames ['c']
       = some 4 ∧
     (entry_at (ziti_dns_deregister_intercept sample_slash31_names 1) 4).addr = 16777226 ∧
     model_map_get (ziti_dns_deregister_intercept sample_slash31_names 1).ip_addresses
       16777226 = none) ∧
    (model_map_get sample_full.hostnames ['d'] = some 5 ∧
     (entry_at sample_full 5).intercepts = [(4, 4)] ∧
     (entry_at sample_full 5).addr = 100663306 ∧
     find_domain sample_full ['d'] = none ∧
     sample_released = ziti_dns_deregister_intercept sample_full 4 ∧
     model_map_get sample_released.hostnames ['d'] = none ∧
     model_map_get sample_released.ip_addresses 100663306 = none ∧
     model_map_size sample_released.ip_addresses = 5 ∧
     sample_released.ip_pool.capacity = 6 ∧
     (next_ipv4 sample_released).2 = INADDR_NONE ∧
     (ziti_dns_register_hostname sample_released (ziti_address.hostname ['e']) 5).2 = none ∧
     (ziti_dns_register_hostname sample_released (ziti_address.hostname ['d']) 4).2
       = none) := by
  and_intros <;> decide

/-- The deregistration of the last claimant of a wildcard domain in a pool
seeded with a prefix length from 1 to 30.  In a reachable state let the domain `d` registered under the suffix `S` have no
claimant but `c`.  After `ziti_dns_deregister_intercept c` the suffix is no
longer in the domains map; every name entry linked to `d` that has no claimant
left (none but `c`) is gone from the hostnames map and the address map; every
name entry linked to `d` that has a claimant other than `c` keeps its binding
and its IP in both maps. -/
theorem domain_last_claimant_seeded (dns_addr tun_addr : Nat) (s : ziti_dns_s)
    (hr : reachable dns_addr tun_addr s) (S : List Char) (d c : Nat)
    (hd : model_map_get s.domains S = some d)
    (hlast : ∀ j, (model_map_get (domain_at s d).intercepts j).isSome = true → j = c) :
    model_map_get (ziti_dns_deregister_intercept s c).domains S = none ∧
    (∀ n p, model_map_get s.hostnames n = some p → (entry_at s p).domain = some d →
      ((∀ j, (model_map_get (entry_at s p).intercepts j).isSome = true → j = c) →
        model_map_get (ziti_dns_deregister_intercept s c).hostnames n = none ∧
        model_map_get (ziti_dns_deregister_intercept s c).ip_addresses (entry_at s p).addr
          = none) ∧
      (∀ j, j ≠ c → (model_map_get (entry_at s p).intercepts j).isSome = true →
        model_map_get (ziti_dns_deregister_intercept s c).hostnames n = some p ∧
        (entry_at (ziti_dns_deregister_intercept s c) p).addr = (entry_at s p).addr ∧
        model_map_get (ziti_dns_deregister_intercept s c).ip_addresses (entry_at s p).addr
          = some p)) := by
  have hs := reachable_ok hr
  have hmd := model_map_get_mem hd
  have hempty : (domain_at (ziti_dns_deregister_intercept s c) d).intercepts = [] := by
    rw [dereg_domain_at, if_pos (List.mem_map_of_mem Prod.snd hmd)]
    exact model_map_remove_sole hlast
  constructor
  · rw [model_map_get_eq_none]
    intro hk
    obtain ⟨x, hx, hxk⟩ := List.mem_map.mp hk
    obtain ⟨k, d'⟩ := x
    simp only at hxk
    subst hxk
    obtain ⟨hx0, hne⟩ := (dereg_domains_mem s c k d').mp hx
    have : d' = d := nodup_keys_unique hs.dom_nodup hx0 hmd
    subst this
    exact hne hempty
  · intro n p hn hlink
    constructor
    · intro hsole
      apply dereg_removes_entry hs hn hsole
      intro d' hd'
      rw [hlink] at hd'
      injection hd' with hd'
      subst hd'
      exact hempty
    · intro j hjc hj
      obtain ⟨a1, _, a3, _, a5⟩ := dereg_keeps_binding hs hn hjc hj
      exact ⟨a1, a3, a5⟩

/-- An instance: in the sample state with the wildcard `*.x`, claimant 9 is
the last claimant of the domain; `h1.x` has no claimant of its own and `h2.x`
has claimant 3. -/
theorem domain_last_claimant_seeded_example :
    reachable 33554442 16777226 sample_wild ∧
    model_map_get sample_wild.domains ['x'] = some 0 ∧
    model_map_get sample_wild.hostnames ['h', '1', '.', 'x'] = some 2 ∧
    model_map_get sample_wild.hostnames ['h', '2', '.', 'x'] = some 3 ∧
    model_map_get (ziti_dns_deregister_intercept sample_wild 9).domains ['x'] = none ∧
    model_map_get (ziti_dns_deregister_intercept sample_wild 9).hostnames
      ['h', '1', '.', 'x'] = none ∧
    model_map_get (ziti_dns_deregister_intercept sample_wild 9).hostnames
      ['h', '2', '.', 'x'] = some 3 := by
  have hw := domain_last_claimant_seeded 33554442 16777226 sample_wild
    ⟨(10, 0, 0, 1, 29), _, (by decide), rfl⟩ ['x'] 0 9 (by decide)
    (sole_of_singleton 9 9 (by decide))
  refine ⟨⟨(10, 0, 0, 1, 29), _, (by decide), rfl⟩, (by decide), (by decide), (by decide),
    hw.1, ?_, ?_⟩
  · exact ((hw.2 ['h', '1', '.', 'x'] 2 (by decide) (by decide)).1
      (fun j hj => by
        have h1 : (entry_at sample_wild 2).intercepts = [] := by decide
        rw [h1] at hj
        simp [model_map_get] at hj)).1
  · exact ((hw.2 ['h', '2', '.', 'x'] 3 (by decide) (by decide)).2 3 (by decide)
      (by decide)).1

/-- C7 fails in a pool of prefix length 31.  In the pool `10.0.0.0/31` with the
wildcard `*.x` registered by claimant 9 alone, the names `h1.x`, `h2.x` and
`h3.x` are created by lookups and `h3.x` is registered by claimant 3; `h1.x` and
`h3.x` both hold `10.0.0.1`.  After `ziti_dns_deregister_intercept 9` the domain
and the entries of `h1.x` and `h2.x` are gone and `h3.x` is kept in the
hostnames map, but the address map is empty: the address of `h3.x` is bound to
nothing and its reverse lookup returns null. -/
theorem C7_kept_entry_loses_address :
    model_map_get sample_slash31_wild.domains ['x'] = some 0 ∧
    (domain_at sample_slash31_wild 0).intercepts = [(9, 9)] ∧
    model_map_get sample_slash31_wild.hostnames ['h', '3', '.', 'x'] = some 4 ∧
    (entry_at sample_slash31_wild 4).domain = some 0 ∧
    (entry_at sample_slash31_wild 4).intercepts = [(3, 3)] ∧
    (entry_at sample_slash31_wild 4).addr = 16777226 ∧
    (entry_at sample_slash31_wild 2).addr = 16777226 ∧
    model_map_get sample_slash31_wild.ip_addresses 16777226 = some 4 ∧
    (ziti_dns_deregister_intercept sample_slash31_wild 9).domains = [] ∧
    (ziti_dns_deregister_intercept sample_slash31_wild 9).hostnames
      = [(['h', '3', '.', 'x'], 4)] ∧
    (entry_at (ziti_dns_deregister_intercept sample_slash31_wild 9) 4).addr = 16777226 ∧
    (ziti_dns_deregister_intercept sample_slash31_wild 9).ip_addresses = [] ∧
    ziti_dns_reverse_lookup (ziti_dns_deregister_intercept sample_slash31_wild 9) 16777226
      = none := by
  and_intros <;> decide

/-- C8 (longest suffix on label boundaries).  For every state and name: when
`find_domain` returns a domain, that domain is stored under a suffix of the name
that starts at a label boundary (the name itself or the text after one of its
dots) and no longer such suffix is a key of the domains map; `find_domain`
returns `NULL` exactly when no such suffix is a key.  So `*.x` does not match
`yx`, and `foo.example.com` matches the domain `example.com` but not
`ample.com`. -/
theorem C8_longest_label_suffix :
    (∀ (s : ziti_dns_s) (n : List Char) (d : Nat), find_domain s n = some d →
      ∃ t, label_suffix t n ∧ model_map_get s.domains t = some d ∧
        ∀ t', label_suffix t' n → t.length < t'.length →
          model_map_get s.domains t' = none) ∧
    (∀ (s : ziti_dns_s) (n : List Char), find_domain s n = none ↔
      ∀ t, label_suffix t n → model_map_get s.domains t = none) ∧
    find_domain { ziti_dns_zero with domains := [(['x'], 0)] } ['y', 'x'] = none ∧
    find_domain { ziti_dns_zero with domains := [("example.com".toList, 0)] }
      "foo.example.com".toList = some 0 ∧
    find_domain { ziti_dns_zero with domains := [("ample.com".toList, 0)] }
      "foo.example.com".toList = none ∧
    find_domain { ziti_dns_zero with domains := [("com".toList, 0), ("example.com".toList, 1)] }
      "foo.example.com".toList = some 1 := by
  refine ⟨fun s n d h => find_domain_some h,
    fun s n => ⟨fun h t ht => find_domain_none h t ht, find_domain_eq_none⟩,
    by decide, by decide, by decide, by decide⟩

/-- C10 (lookup is case-insensitive).  For every state and name,
`ziti_dns_lookup` of the name and of its lower-case form return the same entry
and the same state.  A host name of at most 255 bytes that does not start with
`*.`, registered in a reachable state with an entry returned, is found by the
lookup of every name that differs from it in case only: the lookup returns that
entry and leaves the state as it is. -/
theorem C10_lookup_case_insensitive :
    (∀ (s : ziti_dns_s) (n : List Char),
      ziti_dns_lookup s (n.map tolower) = ziti_dns_lookup s n) ∧
    (∀ (dns_addr tun_addr : Nat) (s : ziti_dns_s), reachable dns_addr tun_addr s →
      ∀ (h h' : List Char) (c p : Nat), h.length ≤ 255 →
        (¬ ∃ rest, h = '*' :: '.' :: rest) → h'.map tolower = h.map tolower →
        (ziti_dns_register_hostname s (ziti_address.hostname h) c).2 = some p →
        ziti_dns_lookup (ziti_dns_register_hostname s (ziti_address.hostname h) c).1 h'
          = ((ziti_dns_register_hostname s (ziti_address.hostname h) c).1, some p)) := by
  constructor
  · intro s n
    unfold ziti_dns_lookup
    rw [check_name_lower]
  · intro dns_addr tun_addr s hr h h' c p hlen hplain hcase hreg
    have hs := reachable_ok hr
    have hl : h.length < MAX_DNS_NAME := by
      unfold MAX_DNS_NAME
      omega
    have hcn : check_name h = (true, h.map tolower, false) := by
      rw [check_name_plain h hplain]
      simp [hl]
    have hcn' : check_name h' = (true, h.map tolower, false) := by
      rw [← check_name_lower h', hcase, check_name_lower h, hcn]
    have hd : (check_name h).2.2 = false := by rw [hcn]
    obtain ⟨r1, r2, _⟩ := register_plain_result hs hd hreg
    have hs1 := register_ok hs (ziti_address.hostname h) c
    have hv' : (check_name h').1 = true := by rw [hcn']
    have hw' : (check_name h').2.2 = false := by rw [hcn']
    have hg : model_map_get
        (ziti_dns_register_hostname s (ziti_address.hostname h) c).1.hostnames
        (check_name h').2.1 = some p := by
      rw [hcn']
      rw [hcn] at r1
      exact r1
    rw [lookup_existing _ h' hv' hw' hg]
    have : entry_active (ziti_dns_register_hostname s (ziti_address.hostname h) c).1 p
        = true := by
      rw [entry_live_iff]
      exact Or.inl (model_map_isSome_ne_nil r2)
    rw [this]
    rfl

/-- Witness of C10: `Foo.Example.COM` registered in the sample pool is found by
the lookup of `fOO.example.com`. -/
theorem C10_lookup_case_insensitive_witness :
    reachable 33554442 16777226 sample_setup ∧
    (ziti_dns_register_hostname sample_setup
      (ziti_address.hostname "Foo.Example.COM".toList) 1).2 = some 2 ∧
    ziti_dns_lookup (ziti_dns_register_hostname sample_setup
        (ziti_address.hostname "Foo.Example.COM".toList) 1).1 "fOO.example.com".toList
      = ((ziti_dns_register_hostname sample_setup
          (ziti_address.hostname "Foo.Example.COM".toList) 1).1, some 2) :=
  ⟨⟨(10, 0, 0, 1, 29), [], (by decide), rfl⟩, (by decide),
   C10_lookup_case_insensitive.2 33554442 16777226 sample_setup
    ⟨(10, 0, 0, 1, 29), [], (by decide), rfl⟩ "Foo.Example.COM".toList
    "fOO.example.com".toList 1 2 (by decide) (by rintro ⟨rest, h⟩; cases h) (by decide)
    (by decide)⟩

/-! ### C11: a trailing dot -/

/-- The clean name of a name followed by a dot is the clean name followed by
the dot: `check_name` copies the dot like any other byte. -/
theorem check_name_append_dot (h : List Char) (hlen : h.length + 1 < MAX_DNS_NAME) :
    (check_name (h ++ ['.'])).1 = true ∧
    (check_name (h ++ ['.'])).2.1 = (check_name h).2.1 ++ ['.'] := by
  by_cases hw : ∃ rest, h = '*' :: '.' :: rest
  · obtain ⟨rest, rfl⟩ := hw
    have e : ('*' :: '.' :: rest) ++ ['.'] = '*' :: '.' :: (rest ++ ['.']) := rfl
    have h1 : rest.length + 2 < MAX_DNS_NAME := by
      simp only [List.length_cons] at hlen
      omega
    have h2 : (rest ++ ['.']).length + 2 < MAX_DNS_NAME := by
      simp only [List.length_cons, List.length_append, List.length_nil] at hlen ⊢
      omega
    rw [e, check_name_wild, check_name_wild, if_pos (Or.inr h1), if_pos (Or.inr h2)]
    simp [tolower_dot]
  · have hl : h.length < MAX_DNS_NAME := by omega
    rw [check_name_plain h hw, if_pos hl]
    by_cases hs : h = ['*']
    · subst hs
      decide
    · have hw' : ¬ ∃ rest, h ++ ['.'] = '*' :: '.' :: rest := by
        rintro ⟨rest, hr⟩
        match h, hr with
        | [], hr => cases hr
        | [c], hr =>
          simp only [List.cons_append, List.nil_append, List.cons.injEq] at hr
          exact hs (by rw [hr.1])
        | c :: d :: t, hr =>
          simp only [List.cons_append, List.cons.injEq] at hr
          exact hw ⟨t, by rw [hr.1, hr.2.1]⟩
      have hl' : (h ++ ['.']).length < MAX_DNS_NAME := by
        simp only [List.length_append, List.length_cons, List.length_nil]
        omega
      rw [check_name_plain _ hw', if_pos hl']
      simp [tolower_dot]

/-- C11 as stated fails: with `foo.example.com` registered, the lookup of
`FOO.Example.COM` returns its entry and the lookup of `foo.example.com.`
returns null. -/
theorem C11_trailing_dot_counterexample :
    (ziti_dns_lookup sample_foo "FOO.Example.COM".toList).2 = some 2 ∧
    (ziti_dns_lookup sample_foo "foo.example.com".toList).2 = some 2 ∧
    (ziti_dns_lookup sample_foo "foo.example.com.".toList).2 = none := by
  decide

/-- C11, amended.  `ziti_dns_lookup` keeps a trailing dot: for a name `h` of at
most 254 bytes the clean name of `h.` is the clean name of `h` followed by the
dot, and the catalogue is probed under that key.  When `h` is a host name whose
lookup returns an entry, no host name is stored under the key with the dot and
no wildcard domain covers it, the lookup of `h.` returns null and leaves the
state as it is, so it differs from the lookup of `h`. -/
theorem C11_trailing_dot_kept (s : ziti_dns_s) (h : List Char) (p : Nat)
    (hlen : h.length + 1 < MAX_DNS_NAME)
    (hreg : ziti_dns_lookup s h = (s, some p))
    (hg : model_map_get s.hostnames ((check_name h).2.1 ++ ['.']) = none)
    (hf : find_domain s ((check_name h).2.1 ++ ['.']) = none) :
    (check_name (h ++ ['.'])).2.1 = (check_name h).2.1 ++ ['.'] ∧
    ziti_dns_lookup s (h ++ ['.']) = (s, none) ∧
    ziti_dns_lookup s (h ++ ['.']) ≠ ziti_dns_lookup s h := by
  obtain ⟨hv, hc⟩ := check_name_append_dot h hlen
  have key : ziti_dns_lookup s (h ++ ['.']) = (s, none) := by
    by_cases hw : (check_name (h ++ ['.'])).2.2 = true
    · exact lookup_invalid s _ (Or.inr hw)
    · have hw' : (check_name (h ++ ['.'])).2.2 = false := by
        simpa using hw
      exact lookup_no_domain s _ hv hw' (by rw [hc]; exact hg) (by rw [hc]; exact hf)
  refine ⟨hc, key, ?_⟩
  rw [key, hreg]
  intro he
  cases he

/-- Witness of C11: `foo.example.com` registered in the sample pool. -/
theorem C11_trailing_dot_kept_witness :
    ziti_dns_lookup sample_foo "foo.example.com".toList = (sample_foo, some 2) ∧
    ziti_dns_lookup sample_foo "foo.example.com.".toList = (sample_foo, none) :=
  ⟨by decide,
   (C11_trailing_dot_kept sample_foo "foo.example.com".toList 2 (by decide) (by decide)
    (by decide) (by decide)).2.1⟩

/-! ### C12: names with a star -/

/-- C12 as stated fails: with the wildcard `*.x` registered, the lookup of
`a*.x` returns a new entry (pointer 4) and binds one more address; and a host
name `a*b` can be registered and is then found. -/
theorem C12_star_inside_counterexample :
    '*' ∈ "a*.x".toList ∧
    (ziti_dns_lookup sample_wild "a*.x".toList).2 = some 4 ∧
    (ziti_dns_lookup sample_wild "a*.x".toList).1.entry_heap.length
      = sample_wild.entry_heap.length + 1 ∧
    (ziti_dns_lookup sample_wild "a*.x".toList).1.ip_addresses.length
      = sample_wild.ip_addresses.length + 1 ∧
    (ziti_dns_lookup (ziti_dns_register_hostname sample_setup
        (ziti_address.hostname "a*b".toList) 1).1 "a*b".toList).2 = some 2 := by
  decide

/-- C12, amended.  `ziti_dns_lookup` rejects wildcard patterns: for every state
and every name that begins with `*.` it returns null and leaves the state as it
is, so it creates no entry and allocates no address.  A star elsewhere in the
name is not examined. -/
theorem C12_lookup_rejects_wildcard_pattern (s : ziti_dns_s) (rest : List Char) :
    ziti_dns_lookup s ('*' :: '.' :: rest) = (s, none) := by
  apply lookup_invalid
  right
  rw [check_name_is_domain]
  exact ⟨rest, rfl⟩

/-! ### C13: the local A answer -/

/-- C13 (local A answer).  A packet made of a 12-byte header with zero RCODE bits
and zero ANCOUNT, NSCOUNT and ARCOUNT and of one uncompressed question (whose
section is 6 bytes longer than the name), with an ID that is not in flight,
parsed as a type-A query whose name the catalogue lookup answers with entry `p`:
`on_dns_req` writes one response, to the client of the packet, and sends nothing
upstream.  The response is the header of the request with QR set (and RA when
the upstream socket is active), ANCOUNT 1 and ARCOUNT 1, the question section
of the request, the record `C0 0C`, type 1, class 1, TTL 60, RDLENGTH 4 and the
four bytes of the entry's address in network order, and the 11 bytes of
`DNS_OPT`; its RCODE is 0 and its ID and RD are those of the request. -/
theorem C13_local_a_answer (e : dns_engine) (env : dns_env) (clt : Nat) (msg : dns_message)
    (dns1 : ziti_dns_s) (p : Nat) (h0 h1 h2 h3 h4 h5 : Nat) (qsec pkt resp : List Nat)
    (hpkt : pkt = [h0, h1, h2, h3, h4, h5, 0, 0, 0, 0, 0, 0] ++ qsec)
    (hb : h2 < 256 ∧ h3 < 256) (hrcode : h3 % 16 = 0)
    (hdup : model_map_get e.requests (DNS_ID pkt) = none)
    (hparse : env.parse = some msg)
    (hty : msg.question0.type = NS_T_A)
    (hq : qsec.length = msg.question0.name.length + 6)
    (hlen : msg.question0.name.length ≤ 255)
    (hit : ziti_dns_lookup e.dns msg.question0.name = (dns1, some p))
    (hresp : resp =
      [h0, h1, h2 ||| 0x80, (if e.upstream_active then h3 ||| 0x80 else h3), h4, h5,
        0, 1, 0, 0, 0, 1] ++ qsec ++
      ([0xc0, 0x0c, 0, 1, 0, 1, 0, 0, 0, 60, 0, 4] ++ s_addr_bytes (entry_at dns1 p).addr) ++
      DNS_OPT) :
    client_writes (on_dns_req e env clt pkt).2 = [(clt, resp)] ∧
    sent_upstream (on_dns_req e env clt pkt).2 = [] ∧
    resp_qr resp = 1 ∧ resp_rcode resp = 0 ∧ resp_ancount resp = 1 ∧ resp_arcount resp = 1 ∧
    DNS_ID resp = DNS_ID pkt ∧ DNS_RD resp = DNS_RD pkt := by
  have hroute := on_dns_req_new e env clt pkt msg hdup hparse
  have hhost := route_dns_req_host (track_dns_req e clt (new_dns_req clt pkt msg)) env
    (new_dns_req clt pkt msg) (Or.inl hty)
  have hproc := process_host_req_hit_a (track_dns_req e clt (new_dns_req clt pkt msg)) env
    (new_dns_req clt pkt msg) dns1 p hit hty
  rw [hhost, hproc] at hroute
  have hbytes := format_resp_a_answer e.upstream_active
    { new_dns_req clt pkt msg with
      addr := (entry_at dns1 p).addr,
      msg := { msg with
               status := DNS_NO_ERROR,
               answer := some [{ name := [], type := NS_T_A, ttl := 60, priority := 0,
                                 weight := 0, port := 0,
                                 data := ipaddr_ntoa (entry_at dns1 p).addr }] } }
    h0 h1 h2 h3 h4 h5 0 0 0 0 0 0 qsec [] _
    (by show pkt = _; rw [List.append_nil]; exact hpkt) hq hlen rfl rfl rfl rfl
  have hw := complete_dns_req_writes { track_dns_req e clt (new_dns_req clt pkt msg) with dns := dns1 }
    (format_resp e.upstream_active
      { new_dns_req clt pkt msg with
        addr := (entry_at dns1 p).addr,
        msg := { msg with
                 status := DNS_NO_ERROR,
                 answer := some [{ name := [], type := NS_T_A, ttl := 60, priority := 0,
                                   weight := 0, port := 0,
                                   data := ipaddr_ntoa (entry_at dns1 p).addr }] } })
    clt rfl
  rw [hbytes] at hw
  obtain ⟨b2, b3⟩ := hb
  refine ⟨?_, ?_, ?_, ?_, ?_, ?_, ?_, ?_⟩
  · rw [hroute, client_writes_append, hresp]
    exact (congrArg (· ++ client_writes [dns_action.tunneler_ack]) hw.1).trans rfl
  · rw [hroute, sent_upstream_append]
    exact (congrArg (· ++ sent_upstream [dns_action.tunneler_ack]) hw.2).trans rfl
  · rw [hresp]
    exact (byte_set_ans h2 b2).1
  · rw [hresp]
    have := byte_set_code h3 b3 0 (by decide)
    show (if e.upstream_active = true then h3 ||| 0x80 else h3) % 16 = 0
    split
    · have h := this.2.1
      simp only [Nat.or_zero] at h
      omega
    · exact hrcode
  · rw [hresp]
    simp [resp_ancount]
  · rw [hresp]
    simp [resp_arcount]
  · rw [hresp, hpkt]
    rfl
  · rw [hresp, hpkt]
    exact (byte_set_ans h2 b2).2.2.1

/-- Witness of C13: `foo.example.com` holds `10.0.0.3`; the A query with ID
`0x1234` and RD=1 is answered with that address. -/
theorem C13_local_a_answer_witness :
    client_writes (on_dns_req (sample_engine sample_foo)
        (sample_env 0x1234 "foo.example.com".toList 1) 0
        (sample_query 0x1234 "foo.example.com".toList 1)).2 =
      [(0, [0x12, 0x34, 0x81, 0x00, 0, 1, 0, 1, 0, 0, 0, 1,
            3, 102, 111, 111, 7, 101, 120, 97, 109, 112, 108, 101, 3, 99, 111, 109, 0, 0, 1, 0, 1,
            0xc0, 0x0c, 0, 1, 0, 1, 0, 0, 0, 60, 0, 4, 10, 0, 0, 3,
            0, 0, 0x29, 0x10, 0, 0, 0, 0, 0, 0, 0])] :=
  (C13_local_a_answer (sample_engine sample_foo) (sample_env 0x1234 "foo.example.com".toList 1) 0
    (sample_msg 0x1234 "foo.example.com".toList 1) sample_foo 2 0x12 0x34 0x01 0x00 0 1
    (format_name "foo.example.com".toList ++ SET_U16 1 ++ SET_U16 1)
    (sample_query 0x1234 "foo.example.com".toList 1) _
    (by decide) (by decide) (by decide) (by decide) rfl (by decide) (by decide) (by decide)
    (by decide) rfl).1

/-! ### C14: a miss is answered REFUSED -/

/-- C14 (a miss is answered REFUSED).  A packet made of a 12-byte header with
zero RCODE bits and zero ANCOUNT, NSCOUNT and ARCOUNT and of one uncompressed
question, with an ID that is not in flight, parsed as an A or AAAA query whose
clean name has no host name in the catalogue and no wildcard domain over it,
while the upstream socket is not active or the query has RD=0: `on_dns_req`
writes one response, to the client of the packet, tries no send upstream and
leaves the catalogue as it is.  The response is the header of the request with
QR set and RCODE 5 (and RA when the upstream socket is active), ANCOUNT 0 and
ARCOUNT 1, the question section of the request and the 11 bytes of `DNS_OPT`;
its ID is the one of the request. -/
theorem C14_miss_refused (e : dns_engine) (env : dns_env) (clt : Nat) (msg : dns_message)
    (h0 h1 h2 h3 h4 h5 : Nat) (qsec pkt resp : List Nat)
    (hpkt : pkt = [h0, h1, h2, h3, h4, h5, 0, 0, 0, 0, 0, 0] ++ qsec)
    (hb : h2 < 256 ∧ h3 < 256) (hrcode : h3 % 16 = 0)
    (hdup : model_map_get e.requests (DNS_ID pkt) = none)
    (hparse : env.parse = some msg)
    (hty : msg.question0.type = NS_T_A ∨ msg.question0.type = NS_T_AAAA)
    (hq : qsec.length = msg.question0.name.length + 6)
    (hlen : msg.question0.name.length ≤ 255)
    (hg : model_map_get e.dns.hostnames (check_name msg.question0.name).2.1 = none)
    (hf : find_domain e.dns (check_name msg.question0.name).2.1 = none)
    (hup : e.upstream_active = false ∨ msg.recursive = 0)
    (hresp : resp =
      [h0, h1, h2 ||| 0x80, (if e.upstream_active then (h3 ||| 5) ||| 0x80 else h3 ||| 5),
        h4, h5, 0, 0, 0, 0, 0, 1] ++ qsec ++ DNS_OPT) :
    client_writes (on_dns_req e env clt pkt).2 = [(clt, resp)] ∧
    sent_upstream (on_dns_req e env clt pkt).2 = [] ∧
    (on_dns_req e env clt pkt).1.dns = e.dns ∧
    resp_qr resp = 1 ∧ resp_rcode resp = 5 ∧ DNS_REFUSE = 5 ∧
    resp_ancount resp = 0 ∧ resp_arcount resp = 1 ∧ DNS_ID resp = DNS_ID pkt := by
  have hmiss := lookup_miss e.dns msg.question0.name hg hf
  have hq0 := query_upstream_refuse e env (new_dns_req clt pkt msg) hup
  have hr : (query_upstream e env (new_dns_req clt pkt msg)).1 = DNS_REFUSE := by rw [hq0]
  obtain ⟨w1, w2, w3⟩ := host_miss_response e env clt msg e.dns h0 h1 h2 h3 h4 h5 0 0 0 0 0 0
    qsec pkt hpkt hdup hparse hty hq hlen hmiss hr
  obtain ⟨b2, b3⟩ := hb
  refine ⟨?_, ?_, w3, ?_, ?_, rfl, ?_, ?_, ?_⟩
  · rw [w1, hresp]
  · rw [w2, hq0]
    rfl
  · rw [hresp]
    exact (byte_set_ans h2 b2).1
  · rw [hresp]
    have hc := byte_set_code h3 b3 5 (by decide)
    show (if e.upstream_active = true then (h3 ||| 5) ||| 0x80 else h3 ||| 5) % 16 = 5
    split
    · rw [hc.2.1, hrcode]
      rfl
    · rw [hc.1, hrcode]
      rfl
  · rw [hresp]
    simp [resp_ancount]
  · rw [hresp]
    simp [resp_arcount]
  · rw [hresp, hpkt]
    rfl

/-- Witness of C14: nothing but `foo.example.com` is registered and no upstream
server is set; the A query for `unknown.test` with ID `0xABCD` is refused. -/
theorem C14_miss_refused_witness :
    client_writes (on_dns_req (sample_engine sample_foo)
        (sample_env 0xabcd "unknown.test".toList 1) 0
        (sample_query 0xabcd "unknown.test".toList 1)).2 =
      [(0, [0xab, 0xcd, 0x81, 0x05, 0, 1, 0, 0, 0, 0, 0, 1,
            7, 117, 110, 107, 110, 111, 119, 110, 4, 116, 101, 115, 116, 0, 0, 1, 0, 1,
            0, 0, 0x29, 0x10, 0, 0, 0, 0, 0, 0, 0])] :=
  (C14_miss_refused (sample_engine sample_foo) (sample_env 0xabcd "unknown.test".toList 1) 0
    (sample_msg 0xabcd "unknown.test".toList 1) 0xab 0xcd 0x01 0x00 0 1
    (format_name "unknown.test".toList ++ SET_U16 1 ++ SET_U16 1)
    (sample_query 0xabcd "unknown.test".toList 1) _
    (by decide) (by decide) (by decide) (by decide) rfl (by decide) (by decide) (by decide)
    (by decide) (by decide) (by decide) rfl).1

/-! ### C15: the header bits of a response -/

/-- C15 as stated fails: for a request header that carries RA, TC and the RCODE
bits 3, with the upstream socket inactive, the status `DNS_REFUSE` (5) and no
answer, so that nothing is truncated, `format_resp` answers with RA=1, TC=1 and
the RCODE field 7. -/
theorem C15_request_bits_counterexample :
    format_resp_truncated sample_flagged = false ∧
    sample_flagged.msg.status = 5 ∧
    resp_ra (format_resp false sample_flagged).resp = 1 ∧
    resp_tc (format_resp false sample_flagged).resp = 1 ∧
    resp_rcode (format_resp false sample_flagged).resp = 7 := by
  decide

/-- C15, amended.  `format_resp` copies the header of the request and only sets
bits in it.  For every request made of bytes, every status and every answer
list the response has QR=1 and the RD of the request; RA=1 exactly when the
upstream socket is active or the request carried RA; the RCODE field is the
bitwise OR of the RCODE bits of the request and the low 4 bits of the status;
TC=1 exactly when the assembly was truncated or the request carried TC.  So for
a request whose RA, TC and RCODE bits are zero, RA=1 exactly when the upstream
socket is active, RCODE is the status modulo 16 and TC=1 exactly when the
assembly was truncated. -/
theorem C15_response_header_bits (ra : Bool) (req : dns_req)
    (hb : ∀ b ∈ req.req, b < 256) :
    resp_qr (format_resp ra req).resp = 1 ∧
    DNS_RD (format_resp ra req).resp = DNS_RD req.req ∧
    (resp_ra (format_resp ra req).resp = 1 ↔ (ra = true ∨ resp_ra req.req = 1)) ∧
    resp_rcode (format_resp ra req).resp = (resp_rcode req.req ||| req.msg.status % 16) ∧
    (resp_tc (format_resp ra req).resp = 1 ↔
      (format_resp_truncated req = true ∨ resp_tc req.req = 1)) ∧
    (resp_ra req.req = 0 → resp_rcode req.req = 0 → resp_tc req.req = 0 →
      (resp_ra (format_resp ra req).resp = 1 ↔ ra = true) ∧
      resp_rcode (format_resp ra req).resp = req.msg.status % 16 ∧
      (resp_tc (format_resp ra req).resp = 1 ↔ format_resp_truncated req = true)) := by
  obtain ⟨f2, f3⟩ := format_resp_flags ra req
  have b2 := getD_lt_of_forall hb 2
  have b3 := getD_lt_of_forall hb 3
  have hc : req.msg.status &&& 0xf = req.msg.status % 16 :=
    Nat.and_pow_two_sub_one_eq_mod _ 4
  have hc16 : req.msg.status % 16 < 16 := Nat.mod_lt _ (by decide)
  rw [hc] at f3
  have a2 := byte_set_ans _ b2
  have a3 := byte_set_code _ b3 _ hc16
  have hqr : resp_qr (format_resp ra req).resp = 1 := by
    unfold resp_qr
    rw [f2]
    split
    · exact a2.2.1
    · exact a2.1
  have hrd : DNS_RD (format_resp ra req).resp = DNS_RD req.req := by
    unfold DNS_RD
    rw [f2]
    split
    · exact a2.2.2.2.1
    · exact a2.2.2.1
  have hra : resp_ra (format_resp ra req).resp = 1 ↔ (ra = true ∨ resp_ra req.req = 1) := by
    unfold resp_ra
    rw [f3]
    cases ra
    · simp only [Bool.false_eq_true, if_false, false_or]
      rw [a3.2.2.1]
    · simp only [if_true, true_or, iff_true]
      exact a3.2.2.2
  have hrc : resp_rcode (format_resp ra req).resp
      = (resp_rcode req.req ||| req.msg.status % 16) := by
    unfold resp_rcode
    rw [f3]
    split
    · exact a3.2.1
    · exact a3.1
  have htc : resp_tc (format_resp ra req).resp = 1 ↔
      (format_resp_truncated req = true ∨ resp_tc req.req = 1) := by
    unfold resp_tc
    rw [f2]
    cases format_resp_truncated req
    · simp only [Bool.false_eq_true, if_false, false_or]
      rw [a2.2.2.2.2.1]
    · simp only [if_true, true_or, iff_true]
      exact a2.2.2.2.2.2
  refine ⟨hqr, hrd, hra, hrc, htc, ?_⟩
  intro z1 z2 z3
  refine ⟨?_, ?_, ?_⟩
  · rw [hra, z1]
    simp
  · rw [hrc, z2]
    simp
  · rw [htc, z3]
    simp

/-- Witness of C15: the request with the flagged header. -/
theorem C15_response_header_bits_witness :
    (∀ b ∈ sample_flagged.req, b < 256) ∧
    resp_rcode (format_resp false sample_flagged).resp
      = (resp_rcode sample_flagged.req ||| sample_flagged.msg.status % 16) :=
  ⟨by decide, (C15_response_header_bits false sample_flagged (by decide)).2.2.2.1⟩

/-! ### C16: query types other than A, AAAA, MX, SRV and TXT -/

/-- C16 as stated fails: with no upstream server, a query of type 2 (NS) for
`unknown.test`, which no wildcard domain matches, is answered with RCODE 5
(`DNS_REFUSE`), and a query of type 2 for `mail.x`, matched by the wildcard
domain `*.x` whose resolve connection cannot be opened, is answered with RCODE 2
(`DNS_SERVFAIL`); `DNS_NOT_IMPL` is 4. -/
theorem C16_other_types_counterexample :
    (client_writes (on_dns_req (sample_engine sample_foo)
        (sample_env 0x1234 "unknown.test".toList 2) 0
        (sample_query 0x1234 "unknown.test".toList 2)).2).map (fun w => resp_rcode w.2) = [5] ∧
    (client_writes (on_dns_req (sample_engine sample_wild)
        (sample_env 0x1234 "mail.x".toList 2) 0
        (sample_query 0x1234 "mail.x".toList 2)).2).map (fun w => resp_rcode w.2) = [2] ∧
    DNS_NOT_IMPL = 4 := by
  decide

/-- C16, amended.  A packet of bytes with zero RCODE bits and an ID that is not
in flight, parsed as a query of a type other than A, AAAA, MX, SRV and TXT, is
answered at once by `on_dns_req` in each of these cases.  When no wildcard
domain matches the clean name and the query cannot be forwarded (the upstream
socket is not active, RD=0, or every send fails), the RCODE is `DNS_REFUSE`.
When a wildcard domain matches and its resolve connection is stored or can be
opened, the RCODE is `DNS_NOT_IMPL` and no send upstream is tried.  When a
wildcard domain matches and its resolve connection cannot be opened, the RCODE
is `DNS_SERVFAIL` and no send upstream is tried. -/
theorem C16_other_types (e : dns_engine) (env : dns_env) (clt : Nat) (msg : dns_message)
    (pkt : List Nat) (hb : ∀ b ∈ pkt, b < 256) (hz : resp_rcode pkt = 0)
    (hdup : model_map_get e.requests (DNS_ID pkt) = none)
    (hparse : env.parse = some msg)
    (hty : msg.question0.type ≠ NS_T_A ∧ msg.question0.type ≠ NS_T_AAAA ∧
      msg.question0.type ≠ NS_T_MX ∧ msg.question0.type ≠ NS_T_SRV ∧
      msg.question0.type ≠ NS_T_TXT) :
    (find_domain e.dns (check_name msg.question0.name).2.1 = none →
      (e.upstream_active = false ∨ msg.recursive = 0 ∨
        ∀ i, i < e.num_dns_up → env.try_send i ≤ 0) →
      ∃ resp, client_writes (on_dns_req e env clt pkt).2 = [(clt, resp)] ∧
        resp_rcode resp = DNS_REFUSE) ∧
    (∀ d conn, find_domain e.dns (check_name msg.question0.name).2.1 = some d →
      open_resolv_proxy e env d = some conn →
      ∃ resp, client_writes (on_dns_req e env clt pkt).2 = [(clt, resp)] ∧
        resp_rcode resp = DNS_NOT_IMPL ∧ sent_upstream (on_dns_req e env clt pkt).2 = []) ∧
    (∀ d, find_domain e.dns (check_name msg.question0.name).2.1 = some d →
      open_resolv_proxy e env d = none →
      ∃ resp, client_writes (on_dns_req e env clt pkt).2 = [(clt, resp)] ∧
        resp_rcode resp = DNS_SERVFAIL ∧ sent_upstream (on_dns_req e env clt pkt).2 = []) := by
  obtain ⟨w, u⟩ := on_dns_req_new_writes e env clt pkt msg hdup hparse
  have hhost : ¬ ((new_dns_req clt pkt msg).msg.question0.type = NS_T_A ∨
      (new_dns_req clt pkt msg).msg.question0.type = NS_T_AAAA) := by
    rintro (h | h)
    · exact hty.1 h
    · exact hty.2.1 h
  have hother : ¬ ((new_dns_req clt pkt msg).msg.question0.type = NS_T_MX ∨
      (new_dns_req clt pkt msg).msg.question0.type = NS_T_SRV ∨
      (new_dns_req clt pkt msg).msg.question0.type = NS_T_TXT) := by
    rintro (h | h | h)
    · exact hty.2.2.1 h
    · exact hty.2.2.2.1 h
    · exact hty.2.2.2.2 h
  refine ⟨?_, ?_, ?_⟩
  · intro hf hup
    have hr := query_upstream_cannot (track_dns_req e clt (new_dns_req clt pkt msg)) env
      (new_dns_req clt pkt msg) hup
    rw [route_dns_req_no_domain (track_dns_req e clt (new_dns_req clt pkt msg)) env
      (new_dns_req clt pkt msg) hhost hf hr] at w
    obtain ⟨resp, r1, r2⟩ := finish_dns_req_status
      (track_dns_req e clt (new_dns_req clt pkt msg)) (new_dns_req clt pkt msg)
      (query_upstream (track_dns_req e clt (new_dns_req clt pkt msg)) env
        (new_dns_req clt pkt msg)).2
      clt DNS_REFUSE rfl hb hz (by decide) (query_upstream_writes _ _ _)
    exact ⟨resp, w.trans r1, r2⟩
  · intro d conn hf hp
    have hroute := (route_dns_req_domain (track_dns_req e clt (new_dns_req clt pkt msg)) env
      (new_dns_req clt pkt msg) d hhost hf).trans
      (proxy_domain_req_not_impl (track_dns_req e clt (new_dns_req clt pkt msg)) env
        (new_dns_req clt pkt msg) d conn hp hother)
    rw [hroute] at w u
    obtain ⟨resp, r1, r2⟩ := finish_dns_req_status
      (set_resolv_proxy (track_dns_req e clt (new_dns_req clt pkt msg)) d (some conn))
      (new_dns_req clt pkt msg) [] clt DNS_NOT_IMPL rfl hb hz (by decide) rfl
    exact ⟨resp, w.trans r1, r2, u.trans (finish_dns_req_writes _ _ _ clt rfl).2⟩
  · intro d hf hp
    have hroute := (route_dns_req_domain (track_dns_req e clt (new_dns_req clt pkt msg)) env
      (new_dns_req clt pkt msg) d hhost hf).trans
      (proxy_domain_req_closed (track_dns_req e clt (new_dns_req clt pkt msg)) env
        (new_dns_req clt pkt msg) d hp)
    rw [hroute] at w u
    obtain ⟨resp, r1, r2⟩ := finish_dns_req_status
      (track_dns_req e clt (new_dns_req clt pkt msg))
      (new_dns_req clt pkt msg) [] clt DNS_SERVFAIL rfl hb hz (by decide) rfl
    exact ⟨resp, w.trans r1, r2, u.trans (finish_dns_req_writes _ _ _ clt rfl).2⟩

/-- Witness of C16: the wildcard `*.x` is registered and its resolve connection
can be opened; a query of type 2 for `mail.x` is answered `DNS_NOT_IMPL`. -/
theorem C16_other_types_witness :
    ∃ resp, client_writes (on_dns_req (sample_engine sample_wild)
        (sample_env_proxy 0x55 "mail.x".toList 2 0) 0
        (sample_query 0x55 "mail.x".toList 2)).2 = [(0, resp)] ∧
      resp_rcode resp = DNS_NOT_IMPL ∧
      sent_upstream (on_dns_req (sample_engine sample_wild)
        (sample_env_proxy 0x55 "mail.x".toList 2 0) 0
        (sample_query 0x55 "mail.x".toList 2)).2 = [] :=
  (C16_other_types (sample_engine sample_wild) (sample_env_proxy 0x55 "mail.x".toList 2 0) 0
    (sample_msg 0x55 "mail.x".toList 2) (sample_query 0x55 "mail.x".toList 2)
    (by decide) (by decide) (by decide) rfl (by decide)).2.1 0 7 (by decide) (by decide)

/-! ### C17: failures of the resolve connection -/

/-- C17 fails on the synchronous write failure.  The wildcard `*.x` is
registered and the MX query for `mail.x` with ID `0x55` parses with status 0.
When the resolve connection cannot be opened the response carries RCODE 2
(`DNS_SERVFAIL`); when the connection 7 is opened and `ziti_write` returns -1,
`proxy_domain_req` closes the connection and answers with the status the request
already has, RCODE 0; when the write is accepted and `on_proxy_write` later
reports -1, the response carries RCODE 2. -/
theorem C17_write_rejected_not_servfail :
    DNS_SERVFAIL = 2 ∧
    (client_writes (on_dns_req (sample_engine sample_wild)
        (sample_env 0x55 "mail.x".toList 15) 0
        (sample_query 0x55 "mail.x".toList 15)).2).map (fun w => resp_rcode w.2) = [2] ∧
    (on_dns_req (sample_engine sample_wild)
        (sample_env_proxy 0x55 "mail.x".toList 15 (-1)) 0
        (sample_query 0x55 "mail.x".toList 15)).2.take 2 =
      [dns_action.ziti_write 7 ['j', 's'], dns_action.ziti_close 7] ∧
    (client_writes (on_dns_req (sample_engine sample_wild)
        (sample_env_proxy 0x55 "mail.x".toList 15 (-1)) 0
        (sample_query 0x55 "mail.x".toList 15)).2).map (fun w => resp_rcode w.2) = [0] ∧
    (client_writes (on_proxy_write
        (on_dns_req (sample_engine sample_wild)
          (sample_env_proxy 0x55 "mail.x".toList 15 0) 0
          (sample_query 0x55 "mail.x".toList 15)).1 7 (-1)
        (some (new_dns_req 0 (sample_query 0x55 "mail.x".toList 15)
          (sample_msg 0x55 "mail.x".toList 15)))).2).map (fun w => resp_rcode w.2) = [2] := by
  decide

/-! ### C18: a query for a name that could not be given an address -/

/-- C18 as stated fails: in the pool `10.0.0.0/30`, whose two addresses are
reserved, the registration of `only.example` returns null, and the A query for
`only.example` that follows is answered with RCODE 5 (`DNS_REFUSE`);
`DNS_SERVFAIL` is 2. -/
theorem C18_exhaustion_refused_counterexample :
    (ziti_dns_register_hostname sample_tiny
      (ziti_address.hostname "only.example".toList) 1).2 = none ∧
    (client_writes (on_dns_req
        (sample_engine (ziti_dns_register_hostname sample_tiny
          (ziti_address.hostname "only.example".toList) 1).1)
        (sample_env 0x55 "only.example".toList 1) 0
        (sample_query 0x55 "only.example".toList 1)).2).map (fun w => resp_rcode w.2) = [5] ∧
    DNS_SERVFAIL = 2 := by
  decide

/-- C18, amended.  When the address map holds `capacity` bindings and the clean
name has no host name in the catalogue (so that its registration returned null
and a wildcard match cannot be given an address), an A or AAAA query for the
name, in a packet of bytes with zero RCODE bits and an ID that is not in flight,
is handled as a miss.  When it cannot be forwarded (the upstream socket is not
active, RD=0, or every send fails) `on_dns_req` answers at once with RCODE
`DNS_REFUSE`; when `query_upstream` succeeds nothing is written to a client. -/
theorem C18_exhaustion_is_a_miss (e : dns_engine) (env : dns_env) (clt : Nat)
    (msg : dns_message) (pkt : List Nat)
    (hb : ∀ b ∈ pkt, b < 256) (hz : resp_rcode pkt = 0)
    (hdup : model_map_get e.requests (DNS_ID pkt) = none)
    (hparse : env.parse = some msg)
    (hty : msg.question0.type = NS_T_A ∨ msg.question0.type = NS_T_AAAA)
    (hfull : model_map_size e.dns.ip_addresses = e.dns.ip_pool.capacity)
    (hg : model_map_get e.dns.hostnames (check_name msg.question0.name).2.1 = none) :
    ((e.upstream_active = false ∨ msg.recursive = 0 ∨
        ∀ i, i < e.num_dns_up → env.try_send i ≤ 0) →
      ∃ resp, client_writes (on_dns_req e env clt pkt).2 = [(clt, resp)] ∧
        resp_rcode resp = DNS_REFUSE) ∧
    ((query_upstream e env (new_dns_req clt pkt msg)).1 = DNS_NO_ERROR →
      client_writes (on_dns_req e env clt pkt).2 = []) := by
  obtain ⟨w, _⟩ := on_dns_req_new_writes e env clt pkt msg hdup hparse
  have hmiss : (ziti_dns_lookup (track_dns_req e clt (new_dns_req clt pkt msg)).dns
      (new_dns_req clt pkt msg).msg.question0.name).2 = none :=
    lookup_exhausted e.dns msg.question0.name hfull hg
  have hhost := route_dns_req_host (track_dns_req e clt (new_dns_req clt pkt msg)) env
    (new_dns_req clt pkt msg) hty
  rw [hhost] at w
  constructor
  · intro hup
    have hr := query_upstream_cannot (track_dns_req e clt (new_dns_req clt pkt msg)) env
      (new_dns_req clt pkt msg) hup
    rw [process_host_req_miss_refused _ env _ hmiss hr] at w
    obtain ⟨resp, r1, r2⟩ := finish_dns_req_status
      { track_dns_req e clt (new_dns_req clt pkt msg) with
        dns := (ziti_dns_lookup e.dns msg.question0.name).1 }
      (new_dns_req clt pkt msg)
      (query_upstream (track_dns_req e clt (new_dns_req clt pkt msg)) env
        (new_dns_req clt pkt msg)).2
      clt DNS_REFUSE rfl hb hz (by decide) (query_upstream_writes _ _ _)
    exact ⟨resp, w.trans r1, r2⟩
  · intro hok
    have hok' : (query_upstream (track_dns_req e clt (new_dns_req clt pkt msg)) env
        (new_dns_req clt pkt msg)).1 = DNS_NO_ERROR := by
      exact (query_upstream_congr e (track_dns_req e clt (new_dns_req clt pkt msg)) env
        (new_dns_req clt pkt msg) rfl rfl ▸ hok)
    rw [process_host_req_miss_forwarded _ env _ hmiss hok'] at w
    rw [w]
    exact query_upstream_writes _ _ _

/-- Witness of C18: the exhausted pool `10.0.0.0/30` and the A query for
`only.example`. -/
theorem C18_exhaustion_is_a_miss_witness :
    ∃ resp, client_writes (on_dns_req (sample_engine sample_tiny)
        (sample_env 0x55 "only.example".toList 1) 0
        (sample_query 0x55 "only.example".toList 1)).2 = [(0, resp)] ∧
      resp_rcode resp = DNS_REFUSE :=
  (C18_exhaustion_is_a_miss (sample_engine sample_tiny)
    (sample_env 0x55 "only.example".toList 1) 0 (sample_msg 0x55 "only.example".toList 1)
    (sample_query 0x55 "only.example".toList 1)
    (by decide) (by decide) (by decide) rfl (by decide) (by decide) (by decide)).1
    (Or.inl (by decide))

/-! ### C19: the in-flight table -/

/-- C19 (in-flight uniqueness).  Start from a resolver with nothing in flight and
let any sequence of calls run: new clients, packets of clients, packets of
upstream servers, callbacks of resolve connections, closes of clients and calls
of the catalogue.  Then the in-flight table binds no ID twice and binds every
request under its own ID, so no two requests in it have the same client and ID;
and a packet whose ID is bound in the table is acknowledged and dropped:
`on_dns_req` returns the resolver as it is, in-flight table and clients
included, and calls nothing but `ziti_tunneler_ack`. -/
theorem C19_in_flight_unique (e0 : dns_engine) (h0 : e0.requests = [])
    (evs : List dns_event) :
    in_flight_ok (engine_run e0 evs).requests ∧
    ((engine_run e0 evs).requests.map (fun kr => (kr.2.clt, kr.2.id))).Nodup ∧
    (∀ (env : dns_env) (clt : Nat) (pkt : List Nat) (req : dns_req),
      model_map_get (engine_run e0 evs).requests (DNS_ID pkt) = some req →
      on_dns_req (engine_run e0 evs) env clt pkt
        = (engine_run e0 evs, [dns_action.tunneler_ack])) := by
  have hok : in_flight_ok (engine_run e0 evs).requests :=
    engine_run_in_flight_ok e0 evs (by rw [h0]; exact in_flight_ok_nil)
  refine ⟨hok, in_flight_ok_pairs hok, ?_⟩
  intro env clt pkt req hdup
  exact on_dns_req_duplicate _ env clt pkt req hdup

/-- Witness of C19: with an upstream server that accepts the sends, the queries
`0x1111` of client 0 and `0x2222` of client 1 are both in flight, and a second
packet with the ID `0x1111`, from client 1, is acknowledged and dropped. -/
theorem C19_in_flight_unique_witness :
    (engine_run (sample_engine_up sample_foo)
      [dns_event.client,
       dns_event.req (sample_env_up 0x1111 "unknown.test".toList 1) 0
         (sample_query 0x1111 "unknown.test".toList 1),
       dns_event.req (sample_env_up 0x2222 "other.test".toList 1) 1
         (sample_query 0x2222 "other.test".toList 1)]).requests.map Prod.fst
      = [0x1111, 0x2222] ∧
    on_dns_req (engine_run (sample_engine_up sample_foo)
      [dns_event.client,
       dns_event.req (sample_env_up 0x1111 "unknown.test".toList 1) 0
         (sample_query 0x1111 "unknown.test".toList 1),
       dns_event.req (sample_env_up 0x2222 "other.test".toList 1) 1
         (sample_query 0x2222 "other.test".toList 1)])
      (sample_env_up 0x1111 "unknown.test".toList 1) 1
      (sample_query 0x1111 "unknown.test".toList 1)
    = (engine_run (sample_engine_up sample_foo)
      [dns_event.client,
       dns_event.req (sample_env_up 0x1111 "unknown.test".toList 1) 0
         (sample_query 0x1111 "unknown.test".toList 1),
       dns_event.req (sample_env_up 0x2222 "other.test".toList 1) 1
         (sample_query 0x2222 "other.test".toList 1)], [dns_action.tunneler_ack]) :=
  ⟨by decide,
   (C19_in_flight_unique (sample_engine_up sample_foo) rfl
      [dns_event.client,
       dns_event.req (sample_env_up 0x1111 "unknown.test".toList 1) 0
         (sample_query 0x1111 "unknown.test".toList 1),
       dns_event.req (sample_env_up 0x2222 "other.test".toList 1) 1
         (sample_query 0x2222 "other.test".toList 1)]).2.2
      (sample_env_up 0x1111 "unknown.test".toList 1) 1
      (sample_query 0x1111 "unknown.test".toList 1)
      (new_dns_req 0 (sample_query 0x1111 "unknown.test".toList 1)
        (sample_msg 0x1111 "unknown.test".toList 1))
      (by decide)⟩

/-! ### C20: the close of a client -/

/-- C20 as stated fails when the ID is used again.  Client 0 has the query
`0x1111` in flight at the upstream server and is closed, which empties the
in-flight table; then client 1 sends a query with the ID `0x1111`.  The packet
of the upstream server with the ID `0x1111` that arrives after that is written
to client 1 and takes the request of client 1 out of the in-flight table. -/
theorem C20_id_reused_counterexample :
    (client_at sample_in_flight 0).active_reqs.map Prod.fst = [0x1111] ∧
    (on_dns_close sample_in_flight 0).1.requests = [] ∧
    (model_map_get (engine_run (on_dns_close sample_in_flight 0).1 sample_reuse).requests
      0x1111).map (fun req => req.clt) = some (some 1) ∧
    DNS_ID (sample_query 0x1111 "unknown.test".toList 1) = 0x1111 ∧
    client_writes (on_upstream_packet
        (engine_run (on_dns_close sample_in_flight 0).1 sample_reuse) 30
        (sample_query 0x1111 "unknown.test".toList 1)).2
      = [(1, sample_query 0x1111 "unknown.test".toList 1)] ∧
    (on_upstream_packet (engine_run (on_dns_close sample_in_flight 0).1 sample_reuse) 30
        (sample_query 0x1111 "unknown.test".toList 1)).1.requests = [] := by
  and_intros <;> decide

/-- C20, amended (a client close cancels its requests).  Let `kr` be a request
in `active_reqs` of the client when `on_dns_close` is called.  After the call
the ID of the request is not bound in the in-flight table, and when the table
was a map the request is nowhere in it.  After any further calls none of which
is a packet of a client parsed with that ID, a packet of an upstream server that
carries the ID changes nothing in the resolver, in-flight table included, and
calls nothing: no response is written to any client. -/
theorem C20_close_cancels (e : dns_engine) (clt : Nat) (kr : Nat × dns_req)
    (hmem : kr ∈ (client_at e clt).active_reqs) (evs : List dns_event)
    (hno : ∀ ev ∈ evs, ∀ env c pkt msg, ev = dns_event.req env c pkt →
      env.parse = some msg → msg.id % 65536 ≠ kr.2.id)
    (rc : Int) (buf : List Nat) (hid : DNS_ID buf = kr.2.id) :
    model_map_get (on_dns_close e clt).1.requests kr.2.id = none ∧
    (in_flight_ok e.requests → ∀ k, (k, kr.2) ∉ (on_dns_close e clt).1.requests) ∧
    on_upstream_packet (engine_run (on_dns_close e clt).1 evs) rc buf
      = (engine_run (on_dns_close e clt).1 evs, []) := by
  have hgone : model_map_get (on_dns_close e clt).1.requests kr.2.id = none :=
    foldl_remove_get _ _ kr hmem
  refine ⟨hgone, ?_, ?_⟩
  · intro hok k hk
    have hok' := in_flight_ok_sublist (on_dns_close_sublist e clt) hok
    have hkey : kr.2.id = k := hok'.2 (k, kr.2) hk
    rw [← hkey] at hk
    exact model_map_get_none_not_mem hgone hk
  · have habs := engine_run_absent (on_dns_close e clt).1 evs kr.2.id hgone hno
    unfold on_upstream_packet
    rw [hid, habs]
    split <;> rfl

/-- Witness of C20: the query `0x1111` of client 0 is in flight at an upstream
server when the client is closed; the answer of the server that arrives later,
after a new client has come, is dropped. -/
theorem C20_close_cancels_witness :
    (0x1111, new_dns_req 0 (sample_query 0x1111 "unknown.test".toList 1)
        (sample_msg 0x1111 "unknown.test".toList 1)) ∈
      (client_at (on_dns_req (sample_engine_up sample_foo)
        (sample_env_up 0x1111 "unknown.test".toList 1) 0
        (sample_query 0x1111 "unknown.test".toList 1)).1 0).active_reqs ∧
    on_upstream_packet (engine_run (on_dns_close (on_dns_req (sample_engine_up sample_foo)
        (sample_env_up 0x1111 "unknown.test".toList 1) 0
        (sample_query 0x1111 "unknown.test".toList 1)).1 0).1 [dns_event.client]) 30
        (sample_query 0x1111 "unknown.test".toList 1)
      = (engine_run (on_dns_close (on_dns_req (sample_engine_up sample_foo)
        (sample_env_up 0x1111 "unknown.test".toList 1) 0
        (sample_query 0x1111 "unknown.test".toList 1)).1 0).1 [dns_event.client], []) :=
  ⟨by decide,
   (C20_close_cancels (on_dns_req (sample_engine_up sample_foo)
        (sample_env_up 0x1111 "unknown.test".toList 1) 0
        (sample_query 0x1111 "unknown.test".toList 1)).1 0
      (0x1111, new_dns_req 0 (sample_query 0x1111 "unknown.test".toList 1)
        (sample_msg 0x1111 "unknown.test".toList 1))
      (by decide) [dns_event.client]
      (by
        intro ev hev env c pkt msg he
        rw [List.mem_singleton] at hev
        rw [hev] at he
        cases he)
      30 (sample_query 0x1111 "unknown.test".toList 1) (by decide)).2.2⟩

/-! ### C21: registering twice -/

/-- Registering twice in a seeded pool.  In a state whose pool was seeded with a
prefix length from 1 to 30, registering an address for a claimant a second time
returns what the first registration returned and leaves the hostnames map, the
address map, the pool with its counter, the domains map and the claimant set of
every entry and of every domain as the first registration left them.  This holds
for a CIDR block, a host name and a `*.` wildcard, also when the registration
fails for want of an address. -/
theorem idempotent_registration_seeded (s : ziti_dns_s) (addr : ziti_address) (intercept : Nat)
    (hp : pool_ok s.ip_pool) :
    (ziti_dns_register_hostname (ziti_dns_register_hostname s addr intercept).1 addr intercept).2
      = (ziti_dns_register_hostname s addr intercept).2 ∧
    (ziti_dns_register_hostname (ziti_dns_register_hostname s addr intercept).1 addr
        intercept).1.hostnames
      = (ziti_dns_register_hostname s addr intercept).1.hostnames ∧
    (ziti_dns_register_hostname (ziti_dns_register_hostname s addr intercept).1 addr
        intercept).1.ip_addresses
      = (ziti_dns_register_hostname s addr intercept).1.ip_addresses ∧
    (ziti_dns_register_hostname (ziti_dns_register_hostname s addr intercept).1 addr
        intercept).1.ip_pool
      = (ziti_dns_register_hostname s addr intercept).1.ip_pool ∧
    (ziti_dns_register_hostname (ziti_dns_register_hostname s addr intercept).1 addr
        intercept).1.domains
      = (ziti_dns_register_hostname s addr intercept).1.domains ∧
    (∀ p, (entry_at (ziti_dns_register_hostname
          (ziti_dns_register_hostname s addr intercept).1 addr intercept).1 p).intercepts
      = (entry_at (ziti_dns_register_hostname s addr intercept).1 p).intercepts) ∧
    (∀ d, (domain_at (ziti_dns_register_hostname
          (ziti_dns_register_hostname s addr intercept).1 addr intercept).1 d).intercepts
      = (domain_at (ziti_dns_register_hostname s addr intercept).1 d).intercepts) := by
  have same : ziti_dns_register_hostname (ziti_dns_register_hostname s addr intercept).1 addr
        intercept
      = ((ziti_dns_register_hostname s addr intercept).1,
         (ziti_dns_register_hostname s addr intercept).2) →
      (ziti_dns_register_hostname (ziti_dns_register_hostname s addr intercept).1 addr
        intercept).2 = (ziti_dns_register_hostname s addr intercept).2 ∧
      (ziti_dns_register_hostname (ziti_dns_register_hostname s addr intercept).1 addr
          intercept).1.hostnames
        = (ziti_dns_register_hostname s addr intercept).1.hostnames ∧
      (ziti_dns_register_hostname (ziti_dns_register_hostname s addr intercept).1 addr
          intercept).1.ip_addresses
        = (ziti_dns_register_hostname s addr intercept).1.ip_addresses ∧
      (ziti_dns_register_hostname (ziti_dns_register_hostname s addr intercept).1 addr
          intercept).1.ip_pool
        = (ziti_dns_register_hostname s addr intercept).1.ip_pool ∧
      (ziti_dns_register_hostname (ziti_dns_register_hostname s addr intercept).1 addr
          intercept).1.domains
        = (ziti_dns_register_hostname s addr intercept).1.domains ∧
      (∀ p, (entry_at (ziti_dns_register_hostname
            (ziti_dns_register_hostname s addr intercept).1 addr intercept).1 p).intercepts
        = (entry_at (ziti_dns_register_hostname s addr intercept).1 p).intercepts) ∧
      (∀ d, (domain_at (ziti_dns_register_hostname
            (ziti_dns_register_hostname s addr intercept).1 addr intercept).1 d).intercepts
        = (domain_at (ziti_dns_register_hostname s addr intercept).1 d).intercepts) := by
    intro h2
    rw [h2]
    exact ⟨rfl, rfl, rfl, rfl, rfl, fun _ => rfl, fun _ => rfl⟩
  cases addr with
  | cidr ip bits => exact same rfl
  | hostname h =>
    by_cases hd : (check_name h).2.2 = true
    · have hres : (ziti_dns_register_hostname s (ziti_address.hostname h) intercept).2 = none := by
        cases hgd : model_map_get s.domains ((check_name h).2.1.drop 2) with
        | some d => rw [register_domain_existing s h intercept hd hgd]
        | none => rw [register_domain_new s h intercept hd hgd]
      apply same
      rw [hres]
      cases hgd : model_map_get s.domains ((check_name h).2.1.drop 2) with
      | some d =>
        have h1 := register_domain_existing s h intercept hd hgd
        apply register_domain_again
          (ziti_dns_register_hostname s (ziti_address.hostname h) intercept).1 h intercept d hd
        · rw [h1]
          exact hgd
        · rw [h1]
          intro hlt
          show model_map_get (List.getD (List.set _ _ _) d calloc_domain).intercepts _ = _
          rw [heap_getD_set]
          have hlt' : d < s.domain_heap.length := by
            have : d < (List.set s.domain_heap d _).length := hlt
            rw [List.length_set] at this
            exact this
          simp only [hlt', and_self, if_true]
          exact model_map_get_set_same _ _ _
      | none =>
        have h1 := register_domain_new s h intercept hd hgd
        apply register_domain_again
          (ziti_dns_register_hostname s (ziti_address.hostname h) intercept).1 h intercept
          s.domain_heap.length hd
        · rw [h1]
          show model_map_get (s.domains ++ _) _ = _
          rw [model_map_get_append_none _ hgd]
          simp [model_map_get]
        · rw [h1]
          intro _
          show model_map_get (List.getD (s.domain_heap ++ _) _ calloc_domain).intercepts _ = _
          rw [heap_getD_append_one]
          simp [model_map_get]
    · have hd' : (check_name h).2.2 = false := by simpa using hd
      cases hg : model_map_get s.hostnames (check_name h).2.1 with
      | some p =>
        have h1 := register_host_existing s h intercept hd' hg
        have hres : (ziti_dns_register_hostname s (ziti_address.hostname h) intercept).2
            = some p := by rw [h1]
        apply same
        rw [hres]
        apply register_host_again
          (ziti_dns_register_hostname s (ziti_address.hostname h) intercept).1 h intercept p hd'
        · rw [h1]
          exact hg
        · rw [h1]
          intro hlt
          show model_map_get (List.getD (List.set _ _ _) p calloc_entry).intercepts _ = _
          rw [heap_getD_set]
          have hlt' : p < s.entry_heap.length := by
            have : p < (List.set s.entry_heap p _).length := hlt
            rw [List.length_set] at this
            exact this
          simp only [hlt', and_self, if_true]
          exact model_map_get_set_same _ _ _
      | none =>
        have h1 := register_host_new s h intercept hd' hg
        cases hn : new_ipv4_entry s (check_name h).2.1 with
        | mk s1 r =>
          cases r with
          | some p =>
            rw [hn] at h1
            dsimp only at h1
            obtain ⟨e1, e2, _, _, _, e6, _, _, _⟩ := new_ipv4_entry_some s _ hn
            have hres : (ziti_dns_register_hostname s (ziti_address.hostname h) intercept).2
                = some p := by rw [h1]
            apply same
            rw [hres]
            apply register_host_again
              (ziti_dns_register_hostname s (ziti_address.hostname h) intercept).1 h intercept p
              hd'
            · rw [h1]
              show model_map_get s1.hostnames _ = _
              rw [e2]
              exact model_map_get_set_same _ _ _
            · rw [h1]
              intro _
              show model_map_get (List.getD (List.set _ _ _) p calloc_entry).intercepts _ = _
              rw [heap_getD_set]
              have hlt' : p < s1.entry_heap.length := by omega
              simp only [hlt', and_self, if_true]
              exact model_map_get_set_same _ _ _
          | none =>
            rw [hn] at h1
            dsimp only at h1
            obtain ⟨q1, s2, q2, k1, k2, k3, k4, k5, k6⟩ :=
              new_ipv4_entry_none_again s _ hp hn
            obtain ⟨_, g1, _, _, _, _, g6⟩ := new_ipv4_entry_none s _ hn
            have hg' : model_map_get s1.hostnames (check_name h).2.1 = none := by
              rw [g1]
              exact hg
            have h2 := register_host_new s1 h intercept hd' hg'
            rw [q2] at h2
            dsimp only at h2
            rw [h1]
            dsimp only
            rw [h2]
            refine ⟨rfl, k1, k2, k5, k3, ?_, ?_⟩
            · intro p
              show (List.getD s2.entry_heap p calloc_entry).intercepts
                = (List.getD s1.entry_heap p calloc_entry).intercepts
              rw [k6, heap_getD_append_one]
              split
              · rfl
              · rename_i hlt
                rw [heap_getD_length _ _ _ (by omega)]
                split <;> rfl
            · intro d
              show (List.getD s2.domain_heap d calloc_domain).intercepts = _
              rw [k4]
              rfl

/-- An instance: in the sample pool, `foo.example.com` registered twice for
claimant 1. -/
theorem idempotent_registration_seeded_example :
    pool_ok sample_setup.ip_pool ∧
    (ziti_dns_register_hostname sample_setup
      (ziti_address.hostname "foo.example.com".toList) 1).2 = some 2 ∧
    (ziti_dns_register_hostname (ziti_dns_register_hostname sample_setup
        (ziti_address.hostname "foo.example.com".toList) 1).1
      (ziti_address.hostname "foo.example.com".toList) 1).2
      = (ziti_dns_register_hostname sample_setup
        (ziti_address.hostname "foo.example.com".toList) 1).2 :=
  ⟨(reachable_ok (⟨(10, 0, 0, 1, 29), [], (by decide), rfl⟩ :
      reachable 33554442 16777226 sample_setup)).pool,
   by decide,
   (idempotent_registration_seeded sample_setup
      (ziti_address.hostname "foo.example.com".toList) 1
      (reachable_ok (⟨(10, 0, 0, 1, 29), [], (by decide), rfl⟩ :
        reachable 33554442 16777226 sample_setup)).pool).1⟩

/-- C21 fails in a pool of prefix length 31.  In the pool `255.255.255.254/31`
the first registration of `a` for claimant 1 returns null, because the one
candidate probed is `255.255.255.255`, and moves the counter from 1 to 2; the
second registration of `a` for claimant 1 returns the entry 3, binds `a` in the
hostnames map, rebinds the reserved tun address `255.255.255.254` to that entry
and moves the counter to 3. -/
theorem C21_second_registration_differs :
    sample_slash31_top.ip_pool.counter = 1 ∧
    model_map_get sample_slash31_top.ip_addresses 4278190079 = some 0 ∧
    (ziti_dns_register_hostname sample_slash31_top (ziti_address.hostname ['a']) 1).2 = none ∧
    (ziti_dns_register_hostname sample_slash31_top
      (ziti_address.hostname ['a']) 1).1.hostnames = [] ∧
    (ziti_dns_register_hostname sample_slash31_top
      (ziti_address.hostname ['a']) 1).1.ip_pool.counter = 2 ∧
    (ziti_dns_register_hostname
      (ziti_dns_register_hostname sample_slash31_top (ziti_address.hostname ['a']) 1).1
      (ziti_address.hostname ['a']) 1).2 = some 3 ∧
    (ziti_dns_register_hostname
      (ziti_dns_register_hostname sample_slash31_top (ziti_address.hostname ['a']) 1).1
      (ziti_address.hostname ['a']) 1).1.hostnames = [(['a'], 3)] ∧
    model_map_get (ziti_dns_register_hostname
      (ziti_dns_register_hostname sample_slash31_top (ziti_address.hostname ['a']) 1).1
      (ziti_address.hostname ['a']) 1).1.ip_addresses 4278190079 = some 3 ∧
    (ziti_dns_register_hostname
      (ziti_dns_register_hostname sample_slash31_top (ziti_address.hostname ['a']) 1).1
      (ziti_address.hostname ['a']) 1).1.ip_pool.counter = 3 := by
  and_intros <;> decide

/-! ### C22: the number of probes -/

/-- C22 fails for the prefix length 31.  `seed_dns` accepts `10.0.0.0/31` and
sets the capacity to 0.  With the tun and DNS addresses reserved, the loop of
`next_ipv4` examines one candidate, `10.0.0.1`, which is more than the capacity,
and `next_ipv4` returns that address although it is bound in the address map
(to the entry reserved for the DNS server); a registration then rebinds it. -/
theorem C22_probe_beyond_capacity :
    (seed_dns ziti_dns_zero (some (10, 0, 0, 0, 31))).2 = 0 ∧
    sample_slash31.ip_pool.capacity = 0 ∧
    next_ipv4_loop sample_slash31.ip_pool sample_slash31.ip_addresses
      sample_slash31.ip_pool.capacity sample_slash31.ip_pool.counter 0 = (16777226, 2, 1) ∧
    model_map_get sample_slash31.ip_addresses 16777226 = some 1 ∧
    (next_ipv4 sample_slash31).2 = 16777226 ∧
    model_map_get (ziti_dns_register_hostname sample_slash31
      (ziti_address.hostname ['a']) 1).1.ip_addresses 16777226 = some 2 := by
  decide

/-! ### C23: the validation of `UpdateTunIpv4` -/

/-- C23 fails for addresses with empty fields.  With the prefix length 16 the
command accepts `10..0.0.1` and `.10.0.0.1.`: it answers with `success`,
the code `IPC_SUCCESS` and stores the text as it came, because `strtok` skips
every run of dots.  A prefix length of 9, three fields, five fields, a field of
256 and a field that is not a number are rejected and nothing is stored. -/
theorem C23_empty_field_accepted :
    process_tunnel_commands_UpdateTunIpv4
      (some { tunIP := some "10..0.0.1".toList, prefixLength := 16, addDns := false })
      = some ({ success := true, error := none, code := 0 },
              some ("10..0.0.1".toList, 16, false)) ∧
    process_tunnel_commands_UpdateTunIpv4
      (some { tunIP := some ".10.0.0.1.".toList, prefixLength := 16, addDns := false })
      = some ({ success := true, error := none, code := 0 },
              some (".10.0.0.1.".toList, 16, false)) ∧
    process_tunnel_commands_UpdateTunIpv4
      (some { tunIP := some "10.0.0.1".toList, prefixLength := 9, addDns := false })
      = some ({ success := false, error := some "prefix length should be between 10 and 18",
                code := 500 }, none) ∧
    (∀ ip ∈ ["10.0.0".toList, "10.0.0.1.2".toList, "10.0.0.256".toList, "10.0.0.x".toList],
      process_tunnel_commands_UpdateTunIpv4
        (some { tunIP := some ip, prefixLength := 16, addDns := false })
        = some ({ success := false, error := some "Invalid IP address", code := 500 }, none)) :=
  ⟨by decide, by decide, by decide, by decide⟩

/-! ### C24: the socket paths -/

/-- C24 as stated fails: with the discriminator `7` supplied and no socket file
found in the directory, `configure_ipc` sets the default paths and resets the
discriminator to null. -/
theorem C24_no_peer_counterexample :
    configure_ipc false (some ['7']) 4242 (some [])
      = ("/tmp/.ziti/ziti-edge-tunnel.sock".toList,
         "/tmp/.ziti/ziti-edge-tunnel-event.sock".toList, none) ∧
    configure_ipc true (some ['7']) 4242 (some ["other.sock".toList])
      = ("/tmp/.ziti/ziti-edge-tunnel.sock".toList,
         "/tmp/.ziti/ziti-edge-tunnel-event.sock".toList, none) := by
  decide

/-- C24, amended.  With a discriminator `d` supplied, `configure_ipc` looks at the
number of files of the socket directory whose name begins with
`ziti-edge-tunnel.sock`.  When there is at least one, the command and event
socket paths are `SOCKET_PATH` followed by `ziti-edge-tunnel.sock.d` and by
`ziti-edge-tunnel-event.sock.d`, and the discriminator is kept.  When there is
none, or the directory cannot be scanned, the paths are the default ones and
the discriminator is reset to null. -/
theorem C24_socket_paths (automatic : Bool) (d : List Char) (pid : Nat)
    (scan : Option (List (List Char))) :
    ((find_other_zets [] scan sockfilebase).2 > 0 →
      configure_ipc automatic (some d) pid scan
        = (SOCKET_PATH ++ sockfilebase ++ ['.'] ++ d,
           SOCKET_PATH ++ eventsockfilebase ++ ['.'] ++ d, some d)) ∧
    ((find_other_zets [] scan sockfilebase).2 = 0 →
      configure_ipc automatic (some d) pid scan
        = (SOCKET_PATH ++ sockfilebase, SOCKET_PATH ++ eventsockfilebase, none)) ∧
    (scan = none → (find_other_zets [] scan sockfilebase).2 = 0) := by
  refine ⟨?_, ?_, ?_⟩
  · intro h
    unfold configure_ipc
    simp only [reduceCtorEq, false_and, if_false, h, if_true]
  · intro h
    unfold configure_ipc
    simp only [reduceCtorEq, false_and, if_false, h, Nat.lt_irrefl]
  · intro h
    rw [h]
    rfl

/-- Witness of C24: the discriminator `7` with the socket of another daemon in the
directory. -/
theorem C24_socket_paths_witness :
    (find_other_zets [] (some ["ziti-edge-tunnel.sock".toList]) sockfilebase).2 > 0 ∧
    configure_ipc false (some ['7']) 4242 (some ["ziti-edge-tunnel.sock".toList])
      = ("/tmp/.ziti/ziti-edge-tunnel.sock.7".toList,
         "/tmp/.ziti/ziti-edge-tunnel-event.sock.7".toList, some ['7']) :=
  ⟨by decide,
   (C24_socket_paths false ['7'] 4242 (some ["ziti-edge-tunnel.sock".toList])).1 (by decide)⟩

/-! ### C25: the truncation policy -/

/-- C25 fails: the record that does not fit is counted and its first ten bytes
stay in the response.  For the question `x` and sixteen TXT answers of 250 bytes
each, fifteen records are complete; the sixteenth does not fit, yet the
response has TC=1, ANCOUNT=16, and the ten bytes of name reference, type, class
and TTL of the sixteenth record stand between the fifteenth record and the OPT
record.  For a single TXT answer of 5000 bytes the response has ANCOUNT=1 and
holds no complete record. -/
theorem C25_truncated_record_counted :
    (format_resp false (sample_answered ['x'] NS_T_TXT (List.replicate 16 (sample_txt 250)))).resp
      = [0, 7, 0x83, 0, 0, 1, 0, 16, 0, 0, 0, 1] ++ [1, 120, 0, 0, 16, 0, 1] ++
          (List.replicate 15 (sample_txt_record 250)).flatten ++
          [0xc0, 0x0c, 0, 16, 0, 1, 0, 0, 0, 60] ++ DNS_OPT ∧
    resp_tc (format_resp false
      (sample_answered ['x'] NS_T_TXT (List.replicate 16 (sample_txt 250)))).resp = 1 ∧
    resp_ancount (format_resp false
      (sample_answered ['x'] NS_T_TXT (List.replicate 16 (sample_txt 250)))).resp = 16 ∧
    (format_resp false (sample_answered ['x'] NS_T_TXT [sample_txt 5000])).resp
      = [0, 7, 0x83, 0, 0, 1, 0, 1, 0, 0, 0, 1] ++ [1, 120, 0, 0, 16, 0, 1] ++
          [0xc0, 0x0c, 0, 16, 0, 1, 0, 0, 0, 60] ++ DNS_OPT :=
  ⟨by decide!, by decide!, by decide!, by decide!⟩

/-! ### C26: the OPT record -/

/-- C26 fails when exactly 11 bytes remain.  For the question `abc` and sixteen
TXT answers of 241 bytes the answer section ends at offset 4085: the 11 bytes
of the OPT record would fit, the response is not truncated and ARCOUNT is 1, but
no OPT record is appended (the test is `resp_end - rp > 11`).  For the question
`ab` 12 bytes remain and the record is appended, as it is, after a truncated
answer section, for the question `x` with sixteen answers of 250 bytes. -/
theorem C26_opt_needs_twelve_bytes :
    (format_resp false (sample_answered ['a', 'b', 'c'] NS_T_TXT
        (List.replicate 16 (sample_txt 241)))).resp
      = [0, 7, 0x81, 0, 0, 1, 0, 16, 0, 0, 0, 1] ++ [3, 97, 98, 99, 0, 0, 16, 0, 1] ++
          (List.replicate 16 (sample_txt_record 241)).flatten ∧
    DNS_BUF_LEN - (format_resp false (sample_answered ['a', 'b', 'c'] NS_T_TXT
        (List.replicate 16 (sample_txt 241)))).resp.length = 11 ∧
    resp_arcount (format_resp false (sample_answered ['a', 'b', 'c'] NS_T_TXT
        (List.replicate 16 (sample_txt 241)))).resp = 1 ∧
    (format_resp false (sample_answered ['a', 'b'] NS_T_TXT
        (List.replicate 16 (sample_txt 241)))).resp
      = [0, 7, 0x81, 0, 0, 1, 0, 16, 0, 0, 0, 1] ++ [2, 97, 98, 0, 0, 16, 0, 1] ++
          (List.replicate 16 (sample_txt_record 241)).flatten ++ DNS_OPT ∧
    ((format_resp false (sample_answered ['x'] NS_T_TXT
        (List.replicate 16 (sample_txt 250)))).resp.drop 3974 = DNS_OPT) :=
  ⟨by decide!, by decide!, by decide!, by decide!, by decide!⟩

/-! ### C27: the bounds of the response buffer -/

/-- C27 fails for an MX answer.  For the question `x` and one MX answer whose
exchange is 17 labels of 238 letters (4062 bytes), the test of `format_resp`
lets the record pass, `format_name` stores 4064 bytes, and the response is 4097
bytes long: its last byte, the closing zero of the name, lies one byte past the
4096-byte array. -/
theorem C27_mx_name_past_buffer :
    (sample_mx 238 16).data.length = 4062 ∧
    (format_resp false (sample_answered ['x'] NS_T_MX [sample_mx 238 16])).resp
      = [0, 7, 0x81, 0, 0, 1, 0, 1, 0, 0, 0, 1] ++ [1, 120, 0, 0, 15, 0, 1] ++
          [0xc0, 0x0c, 0, 15, 0, 1, 0, 0, 0, 60] ++ [15, 226, 0, 10] ++
          (List.replicate 17 (238 :: List.replicate 238 97)).flatten ++ [0] ∧
    (format_resp false (sample_answered ['x'] NS_T_MX [sample_mx 238 16])).resp.length
      = DNS_BUF_LEN + 1 :=
  ⟨by decide!, by decide!, by decide!⟩

/-! ### C28: the two maps agree -/

/-- C28: in every state reached from `ziti_dns_setup` (prefix length 1 to 30) by
registrations, lookups and deregistrations, every entry of the `hostnames` map
is a heap object other than the two reserved ones, carries the name it is stored
under and is the value of the address map under its own address; every value of
the address map other than the two reserved objects carries the address it is
stored under and is the value of `hostnames` under its own name; and the
reserved objects are bound only to the tun and DNS addresses. -/
theorem C28_catalog_consistency (dns_addr tun_addr : Nat) (s : ziti_dns_s)
    (h : reachable dns_addr tun_addr s) :
    (∀ n p, model_map_get s.hostnames n = some p →
      2 ≤ p ∧ (entry_at s p).name = n ∧
        model_map_get s.ip_addresses (entry_at s p).addr = some p) ∧
    (∀ a p, model_map_get s.ip_addresses a = some p → 2 ≤ p →
      (entry_at s p).addr = a ∧
        model_map_get s.hostnames (entry_at s p).name = some p) ∧
    (∀ a p, model_map_get s.ip_addresses a = some p → p < 2 →
      a = tun_addr ∨ a = dns_addr) := by
  have hs := reachable_ok h
  refine ⟨?_, ?_, ?_⟩
  · intro n p hg
    obtain ⟨h2, _, hn, hip⟩ := hs.host_ptr n p (model_map_get_mem hg)
    exact ⟨h2, hn, model_map_get_of_mem hs.ip_nodup hip⟩
  · intro a p hg h2
    obtain ⟨_, _, hh⟩ := hs.ip_ptr a p (model_map_get_mem hg)
    obtain ⟨hm, ha⟩ := hh h2
    exact ⟨ha, model_map_get_of_mem hs.host_nodup hm⟩
  · intro a p hg h2
    exact (hs.ip_ptr a p (model_map_get_mem hg)).2.1 h2

/-- Witness of C28: the sample pool with `foo.example.com` registered; the entry
2 is bound to the name and to `10.0.0.3`. -/
theorem C28_catalog_consistency_witness :
    reachable 33554442 16777226 sample_foo ∧
    model_map_get sample_foo.hostnames "foo.example.com".toList = some 2 ∧
    (entry_at sample_foo 2).name = "foo.example.com".toList ∧
    model_map_get sample_foo.ip_addresses (entry_at sample_foo 2).addr = some 2 :=
  ⟨⟨(10, 0, 0, 1, 29), [dns_call.register (ziti_address.hostname "foo.example.com".toList) 1],
      (by decide), rfl⟩,
   (by decide),
   ((C28_catalog_consistency 33554442 16777226 sample_foo
      ⟨(10, 0, 0, 1, 29), [dns_call.register (ziti_address.hostname "foo.example.com".toList) 1],
        (by decide), rfl⟩).1 "foo.example.com".toList 2 (by decide)).2⟩

/-! ### C29: no inactive entry is stored -/

/-- C29: in every state reached from `ziti_dns_setup`, whatever the pool, by
registrations, lookups and deregistrations, every entry of the `hostnames` map
has a claimant of its own or is linked to a domain that has one.  So the lookup
of a valid name with an entry returns that entry, and a lookup returns null only
for a name that `check_name` rejects, a wildcard pattern, or a name without
entry for which no claimed domain is found or no address can be allocated.
Deregistering a claimant held by no entry of `hostnames` and no domain of
`domains` leaves the state as it is. -/
theorem C29_no_inactive_entry (dns_addr tun_addr : Nat)
    (dns_cidr : Option (Nat × Nat × Nat × Nat × Nat)) (calls : List dns_call)
    (s : ziti_dns_s) (hs : s = dns_run (ziti_dns_setup dns_addr tun_addr dns_cidr) calls) :
    (∀ n p, (n, p) ∈ s.hostnames → entry_live s p) ∧
    (∀ name p, (check_name name).1 = true → (check_name name).2.2 = false →
      model_map_get s.hostnames (check_name name).2.1 = some p →
      ziti_dns_lookup s name = (s, some p)) ∧
    (∀ name, (ziti_dns_lookup s name).2 = none →
      (check_name name).1 = false ∨ (check_name name).2.2 = true ∨
      (model_map_get s.hostnames (check_name name).2.1 = none ∧
        (find_domain s (check_name name).2.1 = none ∨
         (∃ d, find_domain s (check_name name).2.1 = some d ∧
            (domain_at s d).intercepts = []) ∨
         (new_ipv4_entry s (check_name name).2.1).2 = none))) ∧
    (∀ c, (∀ n p, (n, p) ∈ s.hostnames →
            model_map_get (entry_at s p).intercepts c = none) →
          (∀ k d, (k, d) ∈ s.domains →
            model_map_get (domain_at s d).intercepts c = none) →
          ziti_dns_deregister_intercept s c = s) := by
  have hok : claims_ok s := by
    rw [hs]
    exact run_claims_ok (setup_claims_ok dns_addr tun_addr dns_cidr) calls
  refine ⟨hok.host_live, ?_, ?_, ?_⟩
  · intro name p hv hw hg
    rw [lookup_existing s name hv hw hg,
      (entry_live_iff s p).mpr (hok.host_live _ _ (model_map_get_mem hg))]
    rfl
  · intro name hnone
    rcases lookup_cases s name with ⟨h, _⟩ | ⟨p, hg, h⟩ | ⟨hg, hf, _⟩ | ⟨d, hg, hf, hd, _⟩ |
      ⟨d, s1, hg, _, _, hn, _⟩ | ⟨d, s1, p, hg, _, hd, hn, h⟩
    · rcases h with h | h
      · exact Or.inl h
      · exact Or.inr (Or.inl h)
    · rw [h, (entry_live_iff s p).mpr (hok.host_live _ _ (model_map_get_mem hg))] at hnone
      cases hnone
    · exact Or.inr (Or.inr ⟨hg, Or.inl hf⟩)
    · exact Or.inr (Or.inr ⟨hg, Or.inr (Or.inl ⟨d, hf, hd⟩)⟩)
    · refine Or.inr (Or.inr ⟨hg, Or.inr (Or.inr ?_)⟩)
      rw [hn]
    · rw [h, (entry_live_iff _ p).mpr (lookup_linked_active s _ hn hd)] at hnone
      cases hnone
  · intro c hh hd
    exact dereg_absent hok c hh hd

/-- Witness of C29: in the sample pool with `*.x` claimed and `h1.x` created by a
lookup, `h1.x` has no claimant of its own; its lookup returns the entry, and
deregistering the claimant 5, which holds nothing, changes nothing. -/
theorem C29_no_inactive_entry_witness :
    sample_wild = dns_run (ziti_dns_setup 33554442 16777226 (some (10, 0, 0, 1, 29)))
      [dns_call.register (ziti_address.hostname ['*', '.', 'x']) 9,
       dns_call.lookup ['h', '1', '.', 'x'],
       dns_call.lookup ['h', '2', '.', 'x'],
       dns_call.register (ziti_address.hostname ['h', '2', '.', 'x']) 3] ∧
    (entry_at sample_wild 2).intercepts = [] ∧
    ziti_dns_lookup sample_wild ['h', '1', '.', 'x'] = (sample_wild, some 2) ∧
    ziti_dns_deregister_intercept sample_wild 5 = sample_wild :=
  ⟨rfl, (by decide),
   (C29_no_inactive_entry 33554442 16777226 (some (10, 0, 0, 1, 29)) _ sample_wild rfl).2.1
     ['h', '1', '.', 'x'] 2 (by decide) (by decide) (by decide),
   (C29_no_inactive_entry 33554442 16777226 (some (10, 0, 0, 1, 29)) _ sample_wild rfl).2.2.2 5
     (fun n p hm => (by decide : ∀ x ∈ sample_wild.hostnames,
        model_map_get (entry_at sample_wild x.2).intercepts 5 = none) (n, p) hm)
     (fun k d hm => (by decide : ∀ x ∈ sample_wild.domains,
        model_map_get (domain_at sample_wild x.2).intercepts 5 = none) (k, d) hm)⟩

/-! ### C30: names that `check_name` rejects -/

/-- C30 fails: for the name of 256 letters `a`, which `check_name` rejects,
`ziti_dns_register_hostname` in the sample pool returns an entry.  The entry is
stored under the empty name, holds the address `10.0.0.3` taken from the pool
and the claimant, and the counter of the pool has moved from 1 to 4.  The lookup of the
same name returns null and leaves the state as it is. -/
theorem C30_rejected_name_registered :
    (check_name (List.replicate 256 'a')).1 = false ∧
    (ziti_dns_register_hostname sample_setup
      (ziti_address.hostname (List.replicate 256 'a')) 1).2 = some 2 ∧
    (ziti_dns_register_hostname sample_setup
      (ziti_address.hostname (List.replicate 256 'a')) 1).1.hostnames = [([], 2)] ∧
    (ziti_dns_register_hostname sample_setup
      (ziti_address.hostname (List.replicate 256 'a')) 1).1.ip_addresses
      = sample_setup.ip_addresses ++ [(50331658, 2)] ∧
    entry_at (ziti_dns_register_hostname sample_setup
      (ziti_address.hostname (List.replicate 256 'a')) 1).1 2
      = { name := [], addr := 50331658, domain := none, intercepts := [(1, 1)] } ∧
    sample_setup.ip_pool.counter = 1 ∧
    (ziti_dns_register_hostname sample_setup
      (ziti_address.hostname (List.replicate 256 'a')) 1).1.ip_pool.counter = 4 ∧
    sample_setup.hostnames = [] ∧
    ziti_dns_lookup sample_setup (List.replicate 256 'a') = (sample_setup, none) :=
  ⟨by decide!, by decide!, by decide!, by decide!, by decide!, by decide!, by decide!,
   by decide!, by decide!⟩

end ZitiDns
